import Mathlib

/-!
# Slice allocation and reservation engine

A shallow embedding of the Slice controller
(`pkg/controller/core/v1alpha1/slice/controller.go`) and of the SliceClaim
controller (`pkg/controller/core/v1alpha1/sliceclaim/controller.go`).

The cluster behind the two clientsets is an explicit `World` value that is
threaded through every operation.  Each API request is appended to
`World.log` together with its outcome, and consumes one tick of
`World.tick`; whether the request at a given tick fails for reasons outside
the program (transport, conflict, admission) is decided by `Env.fails`.
Values returned by `rand.Intn` come from `Env.rnd`.  A Go panic is the
`none` of an `Option` result.

`resource.Quantity` values are exact decimal numbers; they are embedded as
integers counting the smallest unit, with `Cmp`, `Add` and `Sub` the integer
comparison, sum and difference.  Go maps are association lists read with
`mapGet` and written with `mapSet`.

`reflect.DeepEqual` compares Go representations, not the numbers or sets they
stand for.  On a struct of strings it is equality of all fields, so
`ObjectReference` carries the seven fields of `corev1.ObjectReference`.  On
`spec.nodeSelector` it also reads what the integers and association lists
above do not determine (whether a slice or map is nil or empty, the scale,
format and cached text of a quantity) and it does not read the order in which
a map is listed: the first is the field `NodeSelector.representation`, the
second is `deepEqualMap`.
-/

namespace EdgeNet

/-! ## Go maps -/

/-- Lookup of a key in a Go map, `none` when the key is absent. -/
def mapGet {β : Type} : List (String × β) → String → Option β
  | [], _ => none
  | (k, v) :: rest, key => if k = key then some v else mapGet rest key

/-- Assignment `m[key] = val` of a Go map. -/
def mapSet {β : Type} : List (String × β) → String → β → List (String × β)
  | [], key, val => [(key, val)]
  | (k, v) :: rest, key, val =>
    if k = key then (key, val) :: rest else (k, v) :: mapSet rest key val

/-- Index expression `labels[key]` on a string map: the empty string when absent. -/
def labelOf (labels : List (String × String)) (key : String) : String :=
  (mapGet labels key).getD ""

/-- Index expression `capacity[key]` on a resource list: the zero quantity when absent. -/
def quantityOf (m : List (String × Int)) (key : String) : Int :=
  (mapGet m key).getD 0

/-! ## Data model -/

/-- Object of `corev1.ObjectReference` with its seven fields, all of them strings:
equality of two values is `reflect.DeepEqual` of two non-nil pointers to them. -/
structure ObjectReference where
  apiVersion : String
  kind : String
  ns : String
  name : String
  uid : String
  resourceVersion : String
  fieldPath : String
deriving DecidableEq, Repr

/-- Object of `metav1.OwnerReference`; `controller` is false for a nil or false pointer. -/
structure OwnerReference where
  apiVersion : String
  kind : String
  name : String
  uid : String
  controller : Bool
  blockOwnerDeletion : Bool
deriving DecidableEq, Repr

/-- Node selector requirement: `corev1.NodeSelectorRequirement`. -/
structure NodeSelectorRequirement where
  key : String
  operator : String
  values : List String
deriving DecidableEq, Repr

/-- Node selector term: `corev1.NodeSelectorTerm`. -/
structure NodeSelectorTerm where
  matchExpressions : List NodeSelectorRequirement
  matchFields : List NodeSelectorRequirement
deriving DecidableEq, Repr

/-- Resource requirements: `corev1.ResourceRequirements`. -/
structure ResourceRequirements where
  limits : List (String × Int)
  requests : List (String × Int)
deriving DecidableEq, Repr

/-- Field `spec.nodeSelector` shared by Slice and SliceClaim:
`Selector.NodeSelectorTerms`, `Resources` and `Count` (a Go `int`).

The field `representation` is read by `reflect.DeepEqual` only.  It stands for
everything in the Go value that the other fields do not determine: which of its slices
and maps are nil and which are empty, and for every quantity its scale, format and cached
text.  The quantities `1` and `1000m` are the same integer in `resources` and differ in
`representation`, and so do a nil and an empty `requests` map. -/
structure NodeSelector where
  selectorTerms : List NodeSelectorTerm
  resources : ResourceRequirements
  count : Int
  representation : String
deriving DecidableEq, Repr

/-- Status block of a Slice; `expiry` is a time in nanoseconds. -/
structure SliceStatus where
  state : String
  message : String
  expiry : Option Int
deriving DecidableEq, Repr

/-- Cluster-scoped Slice object. -/
structure Slice where
  name : String
  uid : String
  sliceClassName : String
  claimRef : Option ObjectReference
  nodeSelector : NodeSelector
  status : SliceStatus
deriving DecidableEq, Repr

/-- Status block of a SliceClaim. -/
structure SliceClaimStatus where
  state : String
  message : String
deriving DecidableEq, Repr

/-- Namespaced SliceClaim object. -/
structure SliceClaim where
  ns : String
  name : String
  uid : String
  ownerReferences : List OwnerReference
  sliceName : String
  sliceClassName : String
  nodeSelector : NodeSelector
  sliceExpiry : Option Int
  status : SliceClaimStatus
deriving DecidableEq, Repr

/-- Namespaced SubNamespace object: `sliceClaim` is the value of `GetSliceClaim()`,
`resourceAllocation` the map written by `SetResourceAllocation`. -/
structure SubNamespace where
  ns : String
  name : String
  ownerReferences : List OwnerReference
  sliceClaim : Option String
  state : String
  resourceAllocation : List (String × Int)
deriving DecidableEq, Repr

/-- Node of the inventory: name, labels and `status.capacity`. -/
structure Node where
  name : String
  labels : List (String × String)
  capacity : List (String × Int)
deriving DecidableEq, Repr

/-- Pod, with the node it is scheduled on. -/
structure Pod where
  ns : String
  name : String
  nodeName : String
deriving DecidableEq, Repr

/-- Namespace object with its labels. -/
structure Namespace where
  name : String
  labels : List (String × String)
deriving DecidableEq, Repr

/-- ResourceQuota object with `spec.hard`. -/
structure ResourceQuota where
  ns : String
  name : String
  hard : List (String × Int)
deriving DecidableEq, Repr

/-- One element of the JSON patch array built by `patchNode`. -/
structure PatchStringValue where
  op : String
  path : String
  value : String
deriving DecidableEq, Repr

/-! ## Constants of the two controllers -/

def messageBound : String := "Slice is bound successfully"
def messageReserved : String := "Desired resources are reserved"
def messageExpired : String := "Slice deleted successfully"
def messageSliceFailed : String := "There are no adequate resources to slice"
def messagePatchFailed : String := "Node patch operation has failed"
def messageApplied : String := "Slice claim has applied successfully"
def messageQuotaCheck : String := "The parent has sufficient quota"
def messageQuotaShortage : String := "Insufficient quota at the parent"
def messageClaimed : String := "Slice claimed successfully"
def messageBoundAlready : String := "Slice is bound to another claim already"
def messageBindingFailed : String := "Slice binding failed"
def messageCreationFailed : String := "Slice creation failed"
def messagePending : String := "Waiting for the slice"
def failure : String := "Failure"
def reserved : String := "Reserved"
def bound : String := "Bound"
def provisioned : String := "Provisioned"
def applied : String := "Applied"
def pending : String := "Pending"
def requested : String := "Requested"
def established : String := "Established"
def dynamic : String := "Dynamic"

/-! ## The cluster -/

/-- Requests sent to the API server and events handed to the recorder. -/
inductive Action where
  | listNodes (labelSelector fieldSelector : String)
  | patchNode (node : String) (patch : List PatchStringValue)
  | listPods (fieldSelector : String)
  | deletePod (ns name : String) (gracePeriodSeconds : Int)
  | getSlice (name : String)
  | createSlice (obj : Slice)
  | updateSlice (obj : Slice)
  | updateSliceStatus (obj : Slice)
  | deleteSlice (name : String)
  | getSliceClaim (ns name : String)
  | updateSliceClaim (obj : SliceClaim)
  | updateSliceClaimStatus (obj : SliceClaim)
  | listSubNamespaces (ns : String)
  | updateSubNamespace (obj : SubNamespace)
  | getNamespace (name : String)
  | getResourceQuota (ns name : String)
  | event (eventType reason message : String)
deriving DecidableEq, Repr

/-- Log entry: a request and whether it returned without error. -/
structure Entry where
  action : Action
  ok : Bool
deriving DecidableEq, Repr

/-- State of the cluster as seen through the clientsets. -/
structure World where
  nodes : List Node
  pods : List Pod
  slices : List Slice
  claims : List SliceClaim
  subnamespaces : List SubNamespace
  namespaces : List Namespace
  quotas : List ResourceQuota
  tick : Nat
  draws : Nat
  log : List Entry
deriving DecidableEq, Repr

/-- Everything outside the program that a pass depends on: external failures of
API requests, the random source, the clock, the evaluation of selector strings by
the API server, and the `provisioning` setting of the SliceClaim controller. -/
structure Env where
  fails : Nat → Bool
  rnd : Nat → Nat
  now : Int
  selectsNode : String → String → Node → Bool
  selectsPod : String → Pod → Bool
  provisioning : String

/-- Result of a `Get` request. -/
inductive GetResult (α : Type) where
  | found (obj : α)
  | notFound
  | otherError
deriving Repr

/-- Append a request to the log and advance the tick. -/
def World.request (w : World) (a : Action) (ok : Bool) : World :=
  { w with tick := w.tick + 1, log := w.log ++ [Entry.mk a ok] }

/-- Call `recorder.Event`. -/
def World.event (w : World) (eventType reason message : String) : World :=
  { w with log := w.log ++ [Entry.mk (Action.event eventType reason message) true] }

/-! ## API server requests

A request fails when `Env.fails` says so at the current tick, or when the object
it addresses does not exist (or, for `Create`, exists already).  A failed request
leaves the stored objects unchanged.  `Update` stores metadata and spec and keeps
the stored status; `UpdateStatus` stores the status only. -/

/-- Unescape one reference token of a JSON pointer: `~1` is `/` and `~0` is `~`. -/
def unescapeToken : List Char → Option (List Char)
  | [] => some []
  | '~' :: '0' :: rest => (unescapeToken rest).map (fun r => '~' :: r)
  | '~' :: '1' :: rest => (unescapeToken rest).map (fun r => '/' :: r)
  | '~' :: _ => none
  | '/' :: _ => none
  | c :: rest => (unescapeToken rest).map (fun r => c :: r)

/-- Label key addressed by the JSON pointer `/metadata/labels/<token>`. -/
def labelOfPath (path : String) : Option String :=
  match path.data with
  | '/' :: 'm' :: 'e' :: 't' :: 'a' :: 'd' :: 'a' :: 't' :: 'a' :: '/' ::
      'l' :: 'a' :: 'b' :: 'e' :: 'l' :: 's' :: '/' :: token =>
    (unescapeToken token).map String.mk
  | _ => none

/-- Apply a JSON patch to the label map of a node, operation by operation;
`add` on a member of `/metadata/labels` sets that label.  Anything else is
rejected. -/
def applyPatch : List PatchStringValue → List (String × String) → Option (List (String × String))
  | [], labels => some labels
  | p :: ps, labels =>
    if p.op = "add" then
      match labelOfPath p.path with
      | some key => applyPatch ps (mapSet labels key p.value)
      | none => none
    else none

/-- Request `Nodes().List` with a label and a field selector. -/
def listNodes (env : Env) (labelSelector fieldSelector : String) (w : World) :
    Option (List Node) × World :=
  if env.fails w.tick then
    (none, w.request (Action.listNodes labelSelector fieldSelector) false)
  else
    (some (w.nodes.filter (env.selectsNode labelSelector fieldSelector)),
      w.request (Action.listNodes labelSelector fieldSelector) true)

/-- Replace the labels of the node called `node`. -/
def setNodeLabels (nodes : List Node) (node : String) (labels : List (String × String)) :
    List Node :=
  nodes.map (fun n => if n.name = node then { n with labels := labels } else n)

/-- Request `Nodes().Patch` with a JSON patch; the result is `true` when `err == nil`. -/
def nodesPatch (env : Env) (node : String) (patch : List PatchStringValue) (w : World) :
    Bool × World :=
  if env.fails w.tick then (false, w.request (Action.patchNode node patch) false)
  else
    match w.nodes.find? (fun n => n.name = node) with
    | none => (false, w.request (Action.patchNode node patch) false)
    | some n =>
      match applyPatch patch n.labels with
      | none => (false, w.request (Action.patchNode node patch) false)
      | some labels =>
        (true, ({ w with nodes := setNodeLabels w.nodes node labels }).request
          (Action.patchNode node patch) true)

/-- Request `Pods("").List` with a field selector. -/
def listPods (env : Env) (fieldSelector : String) (w : World) : Option (List Pod) × World :=
  if env.fails w.tick then (none, w.request (Action.listPods fieldSelector) false)
  else (some (w.pods.filter (env.selectsPod fieldSelector)),
    w.request (Action.listPods fieldSelector) true)

/-- Request `Pods(ns).Delete`. -/
def deletePod (env : Env) (ns name : String) (grace : Int) (w : World) : World :=
  if env.fails w.tick then w.request (Action.deletePod ns name grace) false
  else if w.pods.any (fun p => p.ns = ns ∧ p.name = name) then
    ({ w with pods := w.pods.filter (fun p => ¬ (p.ns = ns ∧ p.name = name)) }).request
      (Action.deletePod ns name grace) true
  else w.request (Action.deletePod ns name grace) false

/-- Request `Slices().Get`. -/
def getSlice (env : Env) (name : String) (w : World) : GetResult Slice × World :=
  if env.fails w.tick then (GetResult.otherError, w.request (Action.getSlice name) false)
  else
    match w.slices.find? (fun s => s.name = name) with
    | some s => (GetResult.found s, w.request (Action.getSlice name) true)
    | none => (GetResult.notFound, w.request (Action.getSlice name) false)

/-- Request `Slices().Create`. -/
def createSlice (env : Env) (obj : Slice) (w : World) : Bool × World :=
  if env.fails w.tick then (false, w.request (Action.createSlice obj) false)
  else if w.slices.any (fun s => s.name = obj.name) then
    (false, w.request (Action.createSlice obj) false)
  else (true, ({ w with slices := w.slices ++ [obj] }).request (Action.createSlice obj) true)

/-- Request `Slices().Update`. -/
def updateSlice (env : Env) (obj : Slice) (w : World) : Bool × World :=
  if env.fails w.tick then (false, w.request (Action.updateSlice obj) false)
  else if w.slices.any (fun s => s.name = obj.name) then
    (true, ({ w with slices := w.slices.map (fun (s : Slice) =>
        if s.name = obj.name then { obj with status := s.status } else s) }).request
      (Action.updateSlice obj) true)
  else (false, w.request (Action.updateSlice obj) false)

/-- Request `Slices().UpdateStatus`. -/
def updateSliceStatus (env : Env) (obj : Slice) (w : World) : Bool × World :=
  if env.fails w.tick then (false, w.request (Action.updateSliceStatus obj) false)
  else if w.slices.any (fun s => s.name = obj.name) then
    (true, ({ w with slices := w.slices.map (fun (s : Slice) =>
        if s.name = obj.name then { s with status := obj.status } else s) }).request
      (Action.updateSliceStatus obj) true)
  else (false, w.request (Action.updateSliceStatus obj) false)

/-- Request `Slices().Delete`. -/
def deleteSlice (env : Env) (name : String) (w : World) : World :=
  if env.fails w.tick then w.request (Action.deleteSlice name) false
  else if w.slices.any (fun s => s.name = name) then
    ({ w with slices := w.slices.filter (fun s => s.name ≠ name) }).request
      (Action.deleteSlice name) true
  else w.request (Action.deleteSlice name) false

/-- Request `SliceClaims(ns).Get`. -/
def getSliceClaim (env : Env) (ns name : String) (w : World) : GetResult SliceClaim × World :=
  if env.fails w.tick then
    (GetResult.otherError, w.request (Action.getSliceClaim ns name) false)
  else
    match w.claims.find? (fun c => c.ns = ns ∧ c.name = name) with
    | some c => (GetResult.found c, w.request (Action.getSliceClaim ns name) true)
    | none => (GetResult.notFound, w.request (Action.getSliceClaim ns name) false)

/-- Request `SliceClaims(ns).Update`, the namespace being that of the object. -/
def updateSliceClaim (env : Env) (obj : SliceClaim) (w : World) : Bool × World :=
  if env.fails w.tick then (false, w.request (Action.updateSliceClaim obj) false)
  else if w.claims.any (fun c => c.ns = obj.ns ∧ c.name = obj.name) then
    (true, ({ w with claims := w.claims.map (fun (c : SliceClaim) =>
        if c.ns = obj.ns ∧ c.name = obj.name then { obj with status := c.status } else c)
      }).request (Action.updateSliceClaim obj) true)
  else (false, w.request (Action.updateSliceClaim obj) false)

/-- Request `SliceClaims(ns).UpdateStatus`, the namespace being that of the object. -/
def updateSliceClaimStatus (env : Env) (obj : SliceClaim) (w : World) : Bool × World :=
  if env.fails w.tick then (false, w.request (Action.updateSliceClaimStatus obj) false)
  else if w.claims.any (fun c => c.ns = obj.ns ∧ c.name = obj.name) then
    (true, ({ w with claims := w.claims.map (fun (c : SliceClaim) =>
        if c.ns = obj.ns ∧ c.name = obj.name then { c with status := obj.status } else c)
      }).request (Action.updateSliceClaimStatus obj) true)
  else (false, w.request (Action.updateSliceClaimStatus obj) false)

/-- Request `SubNamespaces(ns).List`. -/
def listSubNamespaces (env : Env) (ns : String) (w : World) :
    Option (List SubNamespace) × World :=
  if env.fails w.tick then (none, w.request (Action.listSubNamespaces ns) false)
  else (some (w.subnamespaces.filter (fun s => s.ns = ns)),
    w.request (Action.listSubNamespaces ns) true)

/-- Request `SubNamespaces(ns).Update`, the namespace being that of the object. -/
def updateSubNamespace (env : Env) (obj : SubNamespace) (w : World) : Bool × World :=
  if env.fails w.tick then (false, w.request (Action.updateSubNamespace obj) false)
  else if w.subnamespaces.any (fun s => s.ns = obj.ns ∧ s.name = obj.name) then
    (true, ({ w with subnamespaces := w.subnamespaces.map (fun (s : SubNamespace) =>
        if s.ns = obj.ns ∧ s.name = obj.name then { obj with state := s.state } else s)
      }).request (Action.updateSubNamespace obj) true)
  else (false, w.request (Action.updateSubNamespace obj) false)

/-- Request `Namespaces().Get`. -/
def getNamespace (env : Env) (name : String) (w : World) : Option Namespace × World :=
  if env.fails w.tick then (none, w.request (Action.getNamespace name) false)
  else
    match w.namespaces.find? (fun n => n.name = name) with
    | some n => (some n, w.request (Action.getNamespace name) true)
    | none => (none, w.request (Action.getNamespace name) false)

/-- Request `ResourceQuotas(ns).Get`. -/
def getResourceQuota (env : Env) (ns name : String) (w : World) :
    Option ResourceQuota × World :=
  if env.fails w.tick then (none, w.request (Action.getResourceQuota ns name) false)
  else
    match w.quotas.find? (fun q => q.ns = ns ∧ q.name = name) with
    | some q => (some q, w.request (Action.getResourceQuota ns name) true)
    | none => (none, w.request (Action.getResourceQuota ns name) false)

/-- Function `metav1.GetControllerOf`: the first owner reference marked as controller. -/
def getControllerOf (refs : List OwnerReference) : Option OwnerReference :=
  refs.find? (fun r => r.controller)

/-- Modelled from the spec: `Slice.MakeOwnerReference` is declared in `pkg/apis`, outside the
sources at hand; the spec has the Slice set "as the claim's controller owner", compared
later by kind `Slice` and UID. -/
def Slice.makeOwnerReference (s : Slice) : OwnerReference :=
  { apiVersion := "core.edgenet.io/v1alpha1", kind := "Slice", name := s.name, uid := s.uid,
    controller := true, blockOwnerDeletion := true }

/-- Modelled from the spec: `SliceClaim.MakeOwnerReference` is declared in `pkg/apis`, outside
the sources at hand; the spec has the claim set "as its controller owner", compared later
by kind `SliceClaim` and name. -/
def SliceClaim.makeOwnerReference (c : SliceClaim) : OwnerReference :=
  { apiVersion := "core.edgenet.io/v1alpha1", kind := "SliceClaim", name := c.name,
    uid := c.uid, controller := true, blockOwnerDeletion := true }

/-- Modelled from the spec: `SliceClaim.MakeObjectReference` is declared in `pkg/apis`,
outside the sources at hand; the spec calls it the reference to "this exact claim".  It
names the claim by API version, kind, namespace, name and UID and leaves the resource
version and the field path unset. -/
def SliceClaim.makeObjectReference (c : SliceClaim) : ObjectReference :=
  { apiVersion := "core.edgenet.io/v1alpha1", kind := "SliceClaim", ns := c.ns,
    name := c.name, uid := c.uid, resourceVersion := "", fieldPath := "" }

/-- Object behind the pointer that a typed `Get` returns together with an error. -/
def SliceClaim.zero : SliceClaim :=
  { ns := "", name := "", uid := "", ownerReferences := [], sliceName := "",
    sliceClassName := "",
    nodeSelector :=
      { selectorTerms := [], resources := { limits := [], requests := [] }, count := 0,
        representation := "" },
    sliceExpiry := none, status := { state := "", message := "" } }

/-! ## Slice controller -/

/-- Label map built by `patchNode` for a kind of patch; keys are JSON pointer tokens. -/
def patchNode_labels (kind slice : String) : List (String × String) :=
  if kind = "return" then
    mapSet (mapSet (mapSet [] "edge-net.io~1access" "public") "edge-net.io~1slice" "none")
      "edge-net.io~1pre-reservation" "none"
  else if kind = "reservation" then
    mapSet (mapSet (mapSet [] "edge-net.io~1access" "public") "edge-net.io~1slice" "none")
      "edge-net.io~1pre-reservation" slice
  else
    mapSet (mapSet (mapSet [] "edge-net.io~1access" "private") "edge-net.io~1slice" slice)
      "edge-net.io~1pre-reservation" slice

/-- Patch array built by `patchNode`: one `add` per entry of the label map.  Go ranges over
the map in an unspecified order; the entries are taken here in order of insertion. -/
def patchNode_patchArr (kind slice : String) : List PatchStringValue :=
  (patchNode_labels kind slice).map
    (fun e => { op := "add", path := "/metadata/labels/" ++ e.1, value := e.2 })

/-- Method `patchNode`: the result is `true` when the returned error is nil. -/
def patchNode (env : Env) (kind slice node : String) (w : World) : Bool × World :=
  nodesPatch env node (patchNode_patchArr kind slice) w

/-- Function `strings.ToLower` on the operator names it is applied to (ASCII letters). -/
def stringsToLower (s : String) : String :=
  String.mk (s.data.map Char.toLower)

/-- One round of the loop of `reserveNodes` over `MatchExpressions` (or `MatchFields`):
the separator is appended first, then the translation of the requirement, and the
operators `Gt` and `Lt` fall through to `continue`. -/
def reserveNodes_selectorStep (selector : String) (r : NodeSelectorRequirement) : String :=
  let sel := if selector ≠ "" then selector ++ "," else selector
  if r.operator = "In" ∨ r.operator = "NotIn" then
    sel ++ r.key ++ " " ++ stringsToLower r.operator ++ " (" ++ ",".intercalate r.values ++ ")"
  else if r.operator = "Exists" then sel ++ r.key
  else if r.operator = "DoesNotExist" then sel ++ "!" ++ r.key
  else sel

/-- Selector string built by `reserveNodes` from a list of requirements. -/
def reserveNodes_selector (reqs : List NodeSelectorRequirement) : String :=
  reqs.foldl reserveNodes_selectorStep ""

/-- Label test of `reserveNodes`: the node is skipped when it is private, or its slice or
pre-reservation label is not `none`. -/
def reserveNodes_skipped (labels : List (String × String)) : Bool :=
  labelOf labels "edge-net.io/access" = "private" ∨
    labelOf labels "edge-net.io/slice" ≠ "none" ∨
    labelOf labels "edge-net.io/pre-reservation" ≠ "none"

/-- Loop of `reserveNodes` over `Resources.Limits`, carrying the variable `match`:
`value.Cmp(capacity[key]) == -1` clears it and breaks. -/
def reserveNodes_limits : List (String × Int) → List (String × Int) → Bool → Bool
  | [], _, m => m
  | (key, value) :: rest, capacity, _ =>
    if value < quantityOf capacity key then false
    else reserveNodes_limits rest capacity true

/-- Loop of `reserveNodes` over `Resources.Requests`, carrying the variable `match`:
`value.Cmp(capacity[key]) == 1` clears it and breaks. -/
def reserveNodes_requests : List (String × Int) → List (String × Int) → Bool → Bool
  | [], _, m => m
  | (key, value) :: rest, capacity, _ =>
    if value > quantityOf capacity key then false
    else reserveNodes_requests rest capacity true

/-- Whether `reserveNodes` appends a listed node to `nodeList`. -/
def reserveNodes_accepts (sliceCopy : Slice) (nodeRow : Node) : Bool :=
  if reserveNodes_skipped nodeRow.labels then false
  else
    let m := reserveNodes_limits sliceCopy.nodeSelector.resources.limits nodeRow.capacity false
    if m then reserveNodes_requests sliceCopy.nodeSelector.resources.requests nodeRow.capacity m
    else false

/-- Candidate list `nodeList` of `reserveNodes`: names of the accepted nodes, in the order
of the listing. -/
def reserveNodes_nodeList (sliceCopy : Slice) (items : List Node) : List String :=
  (items.filter (reserveNodes_accepts sliceCopy)).map Node.name

/-- Random pick loop of `reserveNodes`, `n` rounds: draw an index, append the candidate to
the picked list, move the last candidate into its place and shorten the list.
`rand.Intn` panics on a non-positive argument, and so does an index out of range. -/
def reserveNodes_pick (env : Env) :
    Nat → List String → List String → World → Option (List String × World)
  | 0, _, pickedNodeList, w => some (pickedNodeList, w)
  | n + 1, nodeList, pickedNodeList, w =>
    if nodeList.length = 0 then none
    else
      let randomSelect := env.rnd w.draws % nodeList.length
      match nodeList[randomSelect]?, nodeList.getLast? with
      | some picked, some last =>
        reserveNodes_pick env n ((nodeList.set randomSelect last).dropLast)
          (pickedNodeList ++ [picked]) { w with draws := w.draws + 1 }
      | _, _ => none

/-- Reservation loop of `reserveNodes` over `pickedNodeList`: stops at the first patch that
fails, after setting the failure status; the result is `isPatched`. -/
def reserveNodes_patch (env : Env) : List String → Slice → World → Bool × Slice × World
  | [], sliceCopy, w => (true, sliceCopy, w)
  | node :: rest, sliceCopy, w =>
    let r := patchNode env "reservation" sliceCopy.name node w
    if r.1 then reserveNodes_patch env rest sliceCopy r.2
    else
      (false,
        { sliceCopy with status :=
            { sliceCopy.status with state := failure, message := messagePatchFailed } },
        r.2.event "Warning" "Patch Failed" messagePatchFailed)

/-- Compensation loop of `reserveNodes`: a `return` patch for every picked node. -/
def reserveNodes_return (env : Env) : List String → World → World
  | [], w => w
  | node :: rest, w =>
    let r := patchNode env "return" "" node w
    if r.1 then reserveNodes_return env rest r.2
    else reserveNodes_return env rest (r.2.event "Warning" "Patch Failed" messagePatchFailed)

/-- First part of the body of the loop of `reserveNodes` over the selector terms: the two
selector strings, the node listing and the candidate list `nodeList`, which stays empty
when the listing fails. -/
def reserveNodes_list (env : Env) (sliceCopy : Slice) (term : NodeSelectorTerm) (w : World) :
    List String × World :=
  let labelSelector := reserveNodes_selector term.matchExpressions
  let fieldSelector := reserveNodes_selector term.matchFields
  let l := listNodes env labelSelector fieldSelector w
  match l.1 with
  | some items => (reserveNodes_nodeList sliceCopy items, l.2)
  | none => ([], l.2)

/-- Body of the loop of `reserveNodes` over the selector terms.  The first component of the
result is `false` when the body returns `false` from `reserveNodes`. -/
def reserveNodes_term (env : Env) (sliceCopy : Slice) (term : NodeSelectorTerm) (w : World) :
    Option (Bool × Slice × World) :=
  let l := reserveNodes_list env sliceCopy term w
  let nodeList := l.1
  if (nodeList.length : Int) < sliceCopy.nodeSelector.count then
    some (false,
      { sliceCopy with status :=
          { sliceCopy.status with state := failure, message := messageSliceFailed } },
      l.2.event "Warning" "Slice Failed" messageSliceFailed)
  else
    match reserveNodes_pick env sliceCopy.nodeSelector.count.toNat nodeList [] l.2 with
    | none => none
    | some (pickedNodeList, w1) =>
      let r := reserveNodes_patch env pickedNodeList sliceCopy w1
      if r.1 then some (true, r.2.1, r.2.2)
      else some (false, r.2.1, reserveNodes_return env pickedNodeList r.2.2)

/-- Loop of `reserveNodes` over `NodeSelectorTerms`. -/
def reserveNodes_terms (env : Env) :
    List NodeSelectorTerm → Slice → World → Option (Bool × Slice × World)
  | [], sliceCopy, w => some (true, sliceCopy, w)
  | term :: rest, sliceCopy, w =>
    match reserveNodes_term env sliceCopy term w with
    | none => none
    | some (false, s, w1) => some (false, s, w1)
    | some (true, s, w1) => reserveNodes_terms env rest s w1

/-- Method `reserveNodes`: the boolean result, the Slice copy and the cluster afterwards. -/
def reserveNodes (env : Env) (sliceCopy : Slice) (w : World) : Option (Bool × Slice × World) :=
  if sliceCopy.status.state ≠ reserved ∧ sliceCopy.status.state ≠ bound ∧
      sliceCopy.status.state ≠ provisioned then
    match reserveNodes_terms env sliceCopy.nodeSelector.selectorTerms sliceCopy w with
    | none => none
    | some (false, s, w1) => some (false, s, w1)
    | some (true, s, w1) =>
      some (true,
        { s with status := { s.status with state := reserved, message := messageReserved } },
        w1.event "Normal" "Reserved" messageReserved)
  else some (true, sliceCopy, w)

/-- Inner loop of `provisionSlice`: delete every listed pod with a zero grace period. -/
def provisionSlice_pods (env : Env) : List Pod → World → World
  | [], w => w
  | podRow :: rest, w => provisionSlice_pods env rest (deletePod env podRow.ns podRow.name 0 w)

/-- Outer loop of `provisionSlice`: patch the node, list its pods and delete them. -/
def provisionSlice_nodes (env : Env) (sliceName : String) : List Node → World → World
  | [], w => w
  | nodeRow :: rest, w =>
    let r := patchNode env "slice" sliceName nodeRow.name w
    let l := listPods env ("spec.nodeName=" ++ nodeRow.name) r.2
    match l.1 with
    | some pods => provisionSlice_nodes env sliceName rest (provisionSlice_pods env pods l.2)
    | none => provisionSlice_nodes env sliceName rest l.2

/-- Method `provisionSlice`. -/
def provisionSlice (env : Env) (sliceCopy : Slice) (w : World) : Slice × World :=
  let l := listNodes env ("edge-net.io/pre-reservation=" ++ sliceCopy.name) "" w
  match l.1 with
  | some items =>
    ({ sliceCopy with status := { sliceCopy.status with state := provisioned } },
      provisionSlice_nodes env sliceCopy.name items l.2)
  | none => (sliceCopy, l.2)

/-- Method `syncWithSliceClaim`. -/
def syncWithSliceClaim (env : Env) (sliceCopy : Slice) (sliceClaim : SliceClaim) (w : World) :
    Slice × World :=
  match getControllerOf sliceClaim.ownerReferences with
  | none =>
    (sliceCopy,
      (updateSliceClaim env
        { sliceClaim with ownerReferences := [sliceCopy.makeOwnerReference] } w).2)
  | some ownerRef =>
    if ownerRef.kind = "Slice" then
      if ownerRef.uid ≠ sliceCopy.uid then (sliceCopy, deleteSlice env sliceCopy.name w)
      else if sliceClaim.status.state = failure then
        (sliceCopy, deleteSlice env sliceCopy.name w)
      else if sliceClaim.status.state = applied then provisionSlice env sliceCopy w
      else
        let w1 := w.event "Normal" "Bound" messageBound
        let s1 : Slice :=
          { sliceCopy with status :=
              { sliceCopy.status with state := bound, message := messageBound } }
        if sliceClaim.status.state ≠ bound then
          (s1, (updateSliceClaimStatus env
            { sliceClaim with status := { state := bound, message := messageBound } } w1).2)
        else (s1, w1)
    else (sliceCopy, w)

/-- Part of `processSlice` guarded by `Spec.ClaimRef != nil`. -/
def processSlice_claim (env : Env) (isReserved : Bool) (sliceCopy : Slice) (w : World) :
    Slice × World :=
  match sliceCopy.claimRef with
  | none => (sliceCopy, w)
  | some ref =>
    let g := getSliceClaim env ref.ns ref.name w
    match g.1 with
    | GetResult.notFound => (sliceCopy, deleteSlice env sliceCopy.name g.2)
    | GetResult.found sliceClaim =>
      if isReserved then syncWithSliceClaim env sliceCopy sliceClaim g.2
      else
        (sliceCopy, (updateSliceClaimStatus env
          { sliceClaim with status := { state := failure, message := messageSliceFailed } }
          g.2).2)
    | GetResult.otherError =>
      if isReserved then syncWithSliceClaim env sliceCopy SliceClaim.zero g.2
      else
        (sliceCopy, (updateSliceClaimStatus env
          { SliceClaim.zero with
            status := { state := failure, message := messageSliceFailed } } g.2).2)

/-- Deferred closure `statusUpdate` of `processSlice`. -/
def processSlice_statusUpdate (env : Env) (oldStatus : SliceStatus) (sliceCopy : Slice)
    (w : World) : World :=
  if oldStatus ≠ sliceCopy.status then (updateSliceStatus env sliceCopy w).2 else w

/-- Method `processSlice`: the Slice copy and the cluster at the end of the pass. -/
def processSlice (env : Env) (sliceCopy : Slice) (w : World) : Option (Slice × World) :=
  if sliceCopy.status.expiry.isSome ∧ sliceCopy.status.expiry.getD 0 - env.now ≤ 0 then
    some (sliceCopy,
      deleteSlice env sliceCopy.name (w.event "Warning" "Expired" messageExpired))
  else
    match reserveNodes env sliceCopy w with
    | none => none
    | some (isReserved, s1, w1) =>
      let r := processSlice_claim env isReserved s1 w1
      some (r.1, processSlice_statusUpdate env sliceCopy.status r.1 r.2)

/-- Loop of the delete handler: a `return` patch for every listed node. -/
def deleteFunc_nodes (env : Env) : List Node → World → World
  | [], w => w
  | nodeRow :: rest, w => deleteFunc_nodes env rest (patchNode env "return" "" nodeRow.name w).2

/-- Delete handler registered by `NewController` for Slice objects. -/
def deleteFunc (env : Env) (sliceCopy : Slice) (w : World) : World :=
  let w1 :=
    if sliceCopy.status.state = reserved ∨ sliceCopy.status.state = bound then
      let l := listNodes env ("edge-net.io/pre-reservation=" ++ sliceCopy.name) "" w
      match l.1 with
      | some items => deleteFunc_nodes env items l.2
      | none => l.2
    else w
  if sliceCopy.status.state = provisioned then
    let l := listNodes env ("edge-net.io/slice=" ++ sliceCopy.name) "" w1
    match l.1 with
    | some items => deleteFunc_nodes env items l.2
    | none => l.2
  else w1

/-! ## SliceClaim controller -/

/-- Inner loop of `checkParentResourceQuota` for one limits entry, `n` rounds, carrying
`resourceDemand` and `resourceDemandList`. -/
def checkParentResourceQuota_rounds (key : String) (value : Int) :
    Nat → Int → List (String × Int) → Int × List (String × Int)
  | 0, resourceDemand, resourceDemandList => (resourceDemand, resourceDemandList)
  | n + 1, resourceDemand, resourceDemandList =>
    match mapGet resourceDemandList key with
    | some _ =>
      checkParentResourceQuota_rounds key value n (resourceDemand + value)
        (mapSet resourceDemandList key (resourceDemand + value))
    | none =>
      checkParentResourceQuota_rounds key value n resourceDemand
        (mapSet resourceDemandList key resourceDemand)

/-- First loop of `checkParentResourceQuota`: the demand list over the limits entries. -/
def checkParentResourceQuota_demand (count : Int) :
    List (String × Int) → List (String × Int) → List (String × Int)
  | [], resourceDemandList => resourceDemandList
  | (key, value) :: rest, resourceDemandList =>
    checkParentResourceQuota_demand count rest
      (checkParentResourceQuota_rounds key value count.toNat value resourceDemandList).2

/-- Second loop of `checkParentResourceQuota`, over the entries of `Spec.Hard`. -/
def checkParentResourceQuota_hard : List (String × Int) → List (String × Int) → Bool
  | [], _ => true
  | (key, value) :: rest, resourceDemandList =>
    match mapGet resourceDemandList key with
    | some demand =>
      if value < demand then false
      else checkParentResourceQuota_hard rest resourceDemandList
    | none => checkParentResourceQuota_hard rest resourceDemandList

/-- Method `checkParentResourceQuota`.  Both objects are only read: every quantity that is
changed is a `DeepCopy`. -/
def checkParentResourceQuota (sliceclaimCopy : SliceClaim) (parentResourceQuota : ResourceQuota) :
    Bool :=
  checkParentResourceQuota_hard parentResourceQuota.hard
    (checkParentResourceQuota_demand sliceclaimCopy.nodeSelector.count
      sliceclaimCopy.nodeSelector.resources.limits [])

/-- Function `reflect.DeepEqual` on two Go maps of quantities whose nil-ness and quantity
representations agree: the same number of keys, and every key of the first bound to the
same value in the second.  The order in which a list names the keys plays no part. -/
def deepEqualMap (a b : List (String × Int)) : Bool :=
  decide (a.length = b.length) && a.all (fun e => decide (mapGet b e.1 = some e.2))

/-- Function `reflect.DeepEqual` on two values of `spec.nodeSelector`: field by field, the
selector terms as slices (element by element, in order), the count as an integer, limits
and requests as maps, and the rest of the two representations. -/
def deepEqualNodeSelector (a b : NodeSelector) : Bool :=
  decide (a.selectorTerms = b.selectorTerms) && decide (a.count = b.count) &&
    deepEqualMap a.resources.limits b.resources.limits &&
    deepEqualMap a.resources.requests b.resources.requests &&
    decide (a.representation = b.representation)

/-- Closure `tieClaim2Slice` of `claimSlice`.  The first `reflect.DeepEqual` compares two
non-nil pointers to object references, the second two node selectors. -/
def tieClaim2Slice (env : Env) (sliceclaimCopy : SliceClaim) (slice : Slice) (w : World) :
    Bool × SliceClaim × World :=
  if slice.status.state = failure then
    (false,
      { sliceclaimCopy with status := { state := failure, message := messageBindingFailed } },
      w.event "Warning" "Binding Failed" messageBindingFailed)
  else
    match slice.claimRef with
    | some ref =>
      if ref = sliceclaimCopy.makeObjectReference then
        (true,
          { sliceclaimCopy with status := { state := bound, message := messageBound } },
          w.event "Normal" "Bound" messageBound)
      else
        (false,
          { sliceclaimCopy with status := { state := failure, message := messageBoundAlready } },
          w.event "Warning" "Already Bound" messageBoundAlready)
    | none =>
      if slice.status.state = reserved ∧ slice.sliceClassName = sliceclaimCopy.sliceClassName ∧
          deepEqualNodeSelector slice.nodeSelector sliceclaimCopy.nodeSelector = true then
        let u := updateSlice env
          { slice with claimRef := some sliceclaimCopy.makeObjectReference } w
        let w1 :=
          if u.1 then u.2 else u.2.event "Warning" "Binding Failed" messageBindingFailed
        (false,
          { sliceclaimCopy with status := { state := requested, message := messagePending } },
          w1.event "Normal" "Slice Claimed" messageClaimed)
      else
        (false,
          { sliceclaimCopy with status := { state := failure, message := messageBindingFailed } },
          w.event "Warning" "Binding Failed" messageBindingFailed)

/-- Function `strings.EqualFold` against a constant made of ASCII letters. -/
def stringsEqualFold (a b : String) : Bool :=
  stringsToLower a = stringsToLower b

/-- Method `claimSlice`.  In the branch taken after a successful `Create` the error is nil,
so the test `errors.IsAlreadyExists(err)` is false there. -/
def claimSlice (env : Env) (sliceclaimCopy : SliceClaim) (w : World) :
    Bool × SliceClaim × World :=
  let g := getSlice env sliceclaimCopy.sliceName w
  match g.1 with
  | GetResult.found slice => tieClaim2Slice env sliceclaimCopy slice g.2
  | _ =>
    if stringsEqualFold env.provisioning dynamic then
      let slice : Slice :=
        { name := sliceclaimCopy.sliceName, uid := "",
          sliceClassName := sliceclaimCopy.sliceClassName,
          claimRef := some sliceclaimCopy.makeObjectReference,
          nodeSelector := sliceclaimCopy.nodeSelector,
          status := { state := "", message := "", expiry := sliceclaimCopy.sliceExpiry } }
      let c := createSlice env slice g.2
      if c.1 then
        (false,
          { sliceclaimCopy with status := { state := requested, message := messagePending } },
          c.2.event "Normal" "Slice Claimed" messageClaimed)
      else
        (false,
          { sliceclaimCopy with status := { state := failure, message := messageCreationFailed } },
          c.2.event "Warning" "Creation Failed" messageCreationFailed)
    else
      (false,
        { sliceclaimCopy with status := { state := pending, message := messagePending } },
        g.2.event "Warning" "Not Bound" messagePending)

/-- Loop of `tieSubnamespace2Claim` over the capacity entries of one node. -/
def tieSubnamespace2Claim_capacity :
    List (String × Int) → List (String × Int) → List (String × Int)
  | [], resourceAllocation => resourceAllocation
  | (key, capacity) :: rest, resourceAllocation =>
    match mapGet resourceAllocation key with
    | some resourceQuantity =>
      tieSubnamespace2Claim_capacity rest
        (mapSet resourceAllocation key (resourceQuantity + capacity))
    | none => tieSubnamespace2Claim_capacity rest (mapSet resourceAllocation key capacity)

/-- Loop of `tieSubnamespace2Claim` over the listed nodes. -/
def tieSubnamespace2Claim_allocation :
    List Node → List (String × Int) → List (String × Int)
  | [], resourceAllocation => resourceAllocation
  | nodeRow :: rest, resourceAllocation =>
    tieSubnamespace2Claim_allocation rest
      (tieSubnamespace2Claim_capacity nodeRow.capacity resourceAllocation)

/-- Loop of `tieSubnamespace2Claim` over the listed SubNamespaces. -/
def tieSubnamespace2Claim_rows (env : Env) (sliceclaimCopy : SliceClaim) :
    List SubNamespace → World → Bool × SliceClaim × World
  | [], w => (false, sliceclaimCopy, w)
  | subnamespaceCopy :: rest, w =>
    if subnamespaceCopy.sliceClaim = some sliceclaimCopy.name then
      let controlled : Bool :=
        match getControllerOf subnamespaceCopy.ownerReferences with
        | some ownerRef =>
          ownerRef.kind = "SliceClaim" ∧ ownerRef.name = sliceclaimCopy.name ∧
            sliceclaimCopy.status.state ≠ applied
        | none => false
      if controlled then
        (true,
          { sliceclaimCopy with status := { state := applied, message := messageApplied } },
          w.event "Normal" "Applied" messageApplied)
      else if subnamespaceCopy.state = established then
        let l := listNodes env
          ("edge-net.io/access=public,edge-net.io/pre-reservation=" ++ sliceclaimCopy.sliceName)
          "" w
        let resourceAllocation :=
          match l.1 with
          | some items => tieSubnamespace2Claim_allocation items []
          | none => []
        let u := updateSubNamespace env
          { subnamespaceCopy with
            ownerReferences := [sliceclaimCopy.makeOwnerReference],
            resourceAllocation := resourceAllocation } l.2
        if u.1 then
          (true,
            { sliceclaimCopy with status := { state := applied, message := messageApplied } },
            u.2.event "Normal" "Applied" messageApplied)
        else tieSubnamespace2Claim_rows env sliceclaimCopy rest u.2
      else tieSubnamespace2Claim_rows env sliceclaimCopy rest w
    else tieSubnamespace2Claim_rows env sliceclaimCopy rest w

/-- Method `tieSubnamespace2Claim`. -/
def tieSubnamespace2Claim (env : Env) (sliceclaimCopy : SliceClaim) (w : World) :
    Bool × SliceClaim × World :=
  let l := listSubNamespaces env sliceclaimCopy.ns w
  match l.1 with
  | some rows => tieSubnamespace2Claim_rows env sliceclaimCopy rows l.2
  | none => (false, sliceclaimCopy, l.2)

/-- Deferred closure `updateStatus` of `processSliceClaim`. -/
def processSliceClaim_updateStatus (env : Env) (oldStatus : SliceClaimStatus)
    (sliceclaimCopy : SliceClaim) (w : World) : World :=
  if oldStatus ≠ sliceclaimCopy.status then (updateSliceClaimStatus env sliceclaimCopy w).2
  else w

/-- Body of `processSliceClaim` before the deferred status update. -/
def processSliceClaim_body (env : Env) (sliceclaimCopy : SliceClaim) (w : World) :
    SliceClaim × World :=
  let n := getNamespace env sliceclaimCopy.ns w
  match n.1 with
  | none => (sliceclaimCopy, n.2)
  | some namespaceObj =>
    if sliceclaimCopy.status.state ≠ bound ∧ sliceclaimCopy.status.state ≠ applied then
      let q := getResourceQuota env sliceclaimCopy.ns
        (labelOf namespaceObj.labels "edge-net.io/kind" ++ "-quota") n.2
      match q.1 with
      | some parentResourceQuota =>
        if checkParentResourceQuota sliceclaimCopy parentResourceQuota then
          let c := claimSlice env sliceclaimCopy
            (q.2.event "Normal" "Checked" messageQuotaCheck)
          (c.2.1, c.2.2)
        else
          ({ sliceclaimCopy with
              status := { state := failure, message := messageQuotaShortage } },
            q.2.event "Warning" "Shortage" messageQuotaShortage)
      | none =>
        let c := claimSlice env sliceclaimCopy q.2
        (c.2.1, c.2.2)
    else
      let t := tieSubnamespace2Claim env sliceclaimCopy n.2
      if ¬ t.1 ∧ t.2.1.status.state ≠ bound then
        ({ t.2.1 with status := { state := bound, message := messageBound } },
          t.2.2.event "Normal" "Bound" messageBound)
      else (t.2.1, t.2.2)

/-- Method `processSliceClaim`: the claim copy and the cluster at the end of the pass. -/
def processSliceClaim (env : Env) (sliceclaimCopy : SliceClaim) (w : World) :
    SliceClaim × World :=
  let r := processSliceClaim_body env sliceclaimCopy w
  (r.1, processSliceClaim_updateStatus env sliceclaimCopy.status r.1 r.2)

/-! ## Reading the log -/

/-- Requests that read, create or update a Slice object. -/
def Action.isSliceGetCreateUpdate : Action → Bool
  | Action.getSlice _ => true
  | Action.createSlice _ => true
  | Action.updateSlice _ => true
  | Action.updateSliceStatus _ => true
  | _ => false

/-- Names of the nodes that the entries report as patched with `patch` without error. -/
def patchedNodes (patch : List PatchStringValue) (entries : List Entry) : List String :=
  entries.filterMap (fun e =>
    match e.action with
    | Action.patchNode node p => if p = patch ∧ e.ok = true then some node else none
    | _ => none)

/-- Requests and records that `reserveNodes` produces: node listings, node patches and
events. -/
def Action.isNodeRequestOrEvent : Action → Bool
  | Action.listNodes _ _ => true
  | Action.patchNode _ _ => true
  | Action.event _ _ _ => true
  | _ => false

/-- Requests that change a stored object. -/
def Action.isWrite : Action → Bool
  | Action.patchNode _ _ => true
  | Action.deletePod _ _ _ => true
  | Action.createSlice _ => true
  | Action.updateSlice _ => true
  | Action.updateSliceStatus _ => true
  | Action.deleteSlice _ => true
  | Action.updateSliceClaim _ => true
  | Action.updateSliceClaimStatus _ => true
  | Action.updateSubNamespace _ => true
  | _ => false

/-- Relation between the cluster before and after a run of node operations: the log grows
by node listings, node patches and events only, the nodes keep their names, and every
other kind of object is unchanged. -/
def NodeRun (w w2 : World) : Prop :=
  (∃ added : List Entry, w2.log = w.log ++ added ∧
    ∀ e ∈ added, e.action.isNodeRequestOrEvent = true) ∧
  w2.nodes.map Node.name = w.nodes.map Node.name ∧
  w2.pods = w.pods ∧ w2.slices = w.slices ∧ w2.claims = w.claims ∧
  w2.subnamespaces = w.subnamespaces ∧ w2.namespaces = w.namespaces ∧ w2.quotas = w.quotas

/-- SubNamespace updates that the entries report directly after a node listing: whether
the listing succeeded, the object sent and whether the update succeeded. -/
def subNamespaceAdoptions : List Entry → List (Bool × SubNamespace × Bool)
  | [] => []
  | Entry.mk (Action.listNodes _ _) okn :: Entry.mk (Action.updateSubNamespace obj) oku :: rest =>
    (okn, obj, oku) :: subNamespaceAdoptions rest
  | _ :: rest => subNamespaceAdoptions rest

/-! ## Scenarios of the specification -/

/-- Whether a label map has the label `key` with a value `v` such that the selector is
the string `head ++ v ++ tail`. -/
def selectorNames (labels : List (String × String)) (key head tail selector : String) : Bool :=
  match mapGet labels key with
  | some v => selector = head ++ v ++ tail
  | none => false

/-- Evaluation of the selectors that the controllers write with literal label values: the
empty selector, the equality selectors on the pre-reservation and on the slice label, and
`edge-net.io/access=public` joined with an equality on the pre-reservation label. -/
def equalitySelects (labelSelector fieldSelector : String) (n : Node) : Bool :=
  fieldSelector = "" ∧
    (labelSelector = "" ∨
      selectorNames n.labels "edge-net.io/pre-reservation" "edge-net.io/pre-reservation=" ""
        labelSelector ∨
      selectorNames n.labels "edge-net.io/slice" "edge-net.io/slice=" "" labelSelector ∨
      (mapGet n.labels "edge-net.io/access" = some "public" ∧
        selectorNames n.labels "edge-net.io/pre-reservation"
          "edge-net.io/access=public,edge-net.io/pre-reservation=" "" labelSelector))

/-- Environment in which no request fails for external reasons, the random source is
constantly zero and the provisioning mode is `Dynamic`. -/
def quietEnv : Env :=
  { fails := fun _ => false, rnd := fun _ => 0, now := 0,
    selectsNode := equalitySelects,
    selectsPod := fun fieldSelector p => fieldSelector = "spec.nodeName=" ++ p.nodeName,
    provisioning := "Dynamic" }

/-- Environment like `quietEnv` in which the third request of a pass fails: in
`reserveNodes` on a one-term Slice that is the second reservation patch. -/
def thirdFailsEnv : Env :=
  { quietEnv with fails := fun t => t = 2 }

/-- Node selector of Scenario C: a cpu limit of 4 on each of 3 nodes. -/
def scenarioC_selector : NodeSelector :=
  { selectorTerms := [{ matchExpressions := [], matchFields := [] }],
    resources := { limits := [("cpu", 4)], requests := [] }, count := 3,
    representation := "limits cpu 4, requests nil" }

/-- Claim of Scenario C. -/
def scenarioC_claim : SliceClaim :=
  { ns := "tenant-a", name := "claim-1", uid := "uid-claim-1", ownerReferences := [],
    sliceName := "edge-slice-1", sliceClassName := "Node", nodeSelector := scenarioC_selector,
    sliceExpiry := none, status := { state := "", message := "" } }

/-- Parent quota of Scenario C: a hard cpu limit of 8. -/
def scenarioC_quota : ResourceQuota :=
  { ns := "tenant-a", name := "tenant-quota", hard := [("cpu", 8)] }

/-- Labels of a node that no Slice holds. -/
def unassignedLabels : List (String × String) :=
  [("edge-net.io/access", "public"), ("edge-net.io/slice", "none"),
    ("edge-net.io/pre-reservation", "none")]

/-- Node selector of Scenario A: one selector term without requirements, 2 nodes, a cpu
limit of 4. -/
def scenarioA_selector : NodeSelector :=
  { selectorTerms := [{ matchExpressions := [], matchFields := [] }],
    resources := { limits := [("cpu", 4)], requests := [] }, count := 2,
    representation := "limits cpu 4, requests nil" }

/-- Slice of Scenario A, not yet reserved. -/
def scenarioA_slice : Slice :=
  { name := "edge-slice-1", uid := "uid-slice-1", sliceClassName := "Node", claimRef := none,
    nodeSelector := scenarioA_selector,
    status := { state := "", message := "", expiry := none } }

/-- Cluster of Scenario A: 3 eligible unassigned nodes. -/
def scenarioA_world : World :=
  { nodes :=
      [{ name := "n1", labels := unassignedLabels, capacity := [("cpu", 4)] },
       { name := "n2", labels := unassignedLabels, capacity := [("cpu", 4)] },
       { name := "n3", labels := unassignedLabels, capacity := [("cpu", 4)] }],
    pods := [], slices := [scenarioA_slice], claims := [], subnamespaces := [],
    namespaces := [], quotas := [], tick := 0, draws := 0, log := [] }

/-- Slice like that of Scenario A, with an empty list of selector terms. -/
def noTerms_slice : Slice :=
  { scenarioA_slice with
    nodeSelector := { scenarioA_selector with selectorTerms := [] } }

/-- Cluster of Scenario C: the claim in namespace `tenant-a`, whose kind label names the
quota object `tenant-quota`. -/
def scenarioC_world : World :=
  { nodes := [], pods := [], slices := [], claims := [scenarioC_claim], subnamespaces := [],
    namespaces := [{ name := "tenant-a", labels := [("edge-net.io/kind", "tenant")] }],
    quotas := [scenarioC_quota], tick := 0, draws := 0, log := [] }

/-- Cluster of Scenario A with two eligible nodes only, `n1` and `n2`. -/
def rollback_world : World :=
  { scenarioA_world with
    nodes :=
      [{ name := "n1", labels := unassignedLabels, capacity := [("cpu", 4)] },
       { name := "n2", labels := unassignedLabels, capacity := [("cpu", 4)] }] }

/-- Slice with two selector terms, count 1 and a cpu limit of 4. -/
def twoTerms_slice : Slice :=
  { scenarioA_slice with
    nodeSelector :=
      { selectorTerms :=
          [{ matchExpressions := [], matchFields := [] },
           { matchExpressions := [], matchFields := [] }],
        resources := { limits := [("cpu", 4)], requests := [] }, count := 1,
        representation := "limits cpu 4, requests nil" } }

/-- Cluster whose only node `n1` is unassigned and eligible. -/
def oneNode_world : World :=
  { scenarioA_world with
    nodes := [{ name := "n1", labels := unassignedLabels, capacity := [("cpu", 4)] }],
    slices := [twoTerms_slice] }

/-- Reference to the claim `claim-1` of namespace `tenant-a`. -/
def claim1_ref : ObjectReference :=
  { apiVersion := "core.edgenet.io/v1alpha1", kind := "SliceClaim", ns := "tenant-a",
    name := "claim-1", uid := "uid-claim-1", resourceVersion := "", fieldPath := "" }

/-- Slice `edge-slice-1` in state Provisioned, claimed by `claim-1`. -/
def provisioned_slice : Slice :=
  { scenarioA_slice with
    claimRef := some claim1_ref,
    status := { state := "Provisioned", message := "Slice is bound successfully",
                expiry := none } }

/-- Claim `claim-1` in the given state, controlled by the Slice `edge-slice-1`. -/
def owned_claim (state : String) : SliceClaim :=
  { ns := "tenant-a", name := "claim-1", uid := "uid-claim-1",
    ownerReferences := [provisioned_slice.makeOwnerReference],
    sliceName := "edge-slice-1", sliceClassName := "Node", nodeSelector := scenarioA_selector,
    sliceExpiry := none, status := { state := state, message := "" } }

/-- Cluster after provisioning: node `n1` is private to `edge-slice-1` and runs the pod
`web-0` of the tenant; the claim is in the given state. -/
def provisioned_world (claimState : String) : World :=
  { nodes :=
      [{ name := "n1",
         labels := [("edge-net.io/access", "private"), ("edge-net.io/slice", "edge-slice-1"),
           ("edge-net.io/pre-reservation", "edge-slice-1")],
         capacity := [("cpu", 4)] }],
    pods := [{ ns := "tenant-a", name := "web-0", nodeName := "n1" }],
    slices := [provisioned_slice], claims := [owned_claim claimState], subnamespaces := [],
    namespaces := [], quotas := [], tick := 0, draws := 0, log := [] }

/-- Slice `edge-slice-1` in state Reserved, with a `claimRef` to `claim-1`. -/
def reserved_slice : Slice :=
  { provisioned_slice with
    status := { state := "Reserved", message := "Desired resources are reserved",
                expiry := none } }

/-- Cluster in which `claim-1`, controlled by `edge-slice-1` and in state Requested, names
another Slice in `spec.sliceName`. -/
def otherName_world : World :=
  { scenarioA_world with
    slices := [reserved_slice],
    claims := [{ owned_claim "Requested" with sliceName := "other-slice" }] }

/-- Slice `edge-slice-1` in state Bound without a `claimRef`. -/
def unclaimed_bound_slice : Slice :=
  { scenarioA_slice with
    status := { state := "Bound", message := "Slice is bound successfully", expiry := none } }

/-- Slice `edge-slice-1` in state Bound whose expiry is the current time of `quietEnv`. -/
def expired_slice : Slice :=
  { provisioned_slice with
    status := { state := "Bound", message := "Slice is bound successfully",
                expiry := some 0 } }

/-- Node whose cpu capacity 2 is below the cpu limit 4 of Scenario A. -/
def small_node : Node :=
  { name := "small", labels := unassignedLabels, capacity := [("cpu", 2)] }

/-- Node whose cpu capacity 8 is above the cpu limit 4 of Scenario A. -/
def large_node : Node :=
  { name := "large", labels := unassignedLabels, capacity := [("cpu", 8)] }

/-- Cluster of Scenario B: a single eligible unassigned node. -/
def scenarioB_world : World :=
  { scenarioA_world with
    nodes := [{ name := "n1", labels := unassignedLabels, capacity := [("cpu", 4)] }] }

/-- Another Slice, `edge-slice-2`, with the selector of Scenario A and count 1. -/
def other_slice : Slice :=
  { scenarioA_slice with
    name := "edge-slice-2", uid := "uid-slice-2",
    nodeSelector := { scenarioA_selector with count := 1 } }

/-- Node `n1` held by `edge-slice-1` as pre-reservation. -/
def held_node : Node :=
  { name := "n1",
    labels := [("edge-net.io/access", "public"), ("edge-net.io/slice", "none"),
      ("edge-net.io/pre-reservation", "edge-slice-1")],
    capacity := [("cpu", 4)] }

/-- Cluster with the held node `n1` and the unassigned node `n2`. -/
def held_world : World :=
  { scenarioA_world with
    nodes := [held_node,
      { name := "n2", labels := unassignedLabels, capacity := [("cpu", 4)] }] }

/-- Environment like `quietEnv` in which the first request fails. -/
def firstFailsEnv : Env :=
  { quietEnv with fails := fun t => t = 0 }

/-- Cluster whose node `n1` carries the name of `edge-slice-1` in its slice label only. -/
def sliceOnly_world : World :=
  { scenarioA_world with
    nodes :=
      [{ name := "n1",
         labels := [("edge-net.io/access", "private"), ("edge-net.io/slice", "edge-slice-1"),
           ("edge-net.io/pre-reservation", "none")],
         capacity := [("cpu", 4)] }] }

/-- Slice like that of Scenario A, with an empty limits map and a cpu request of 1. -/
def noLimits_slice : Slice :=
  { scenarioA_slice with
    nodeSelector :=
      { scenarioA_selector with resources := { limits := [], requests := [("cpu", 1)] } } }

/-- Slice with an empty limits map that is in state Reserved. -/
def noLimits_reserved_slice : Slice :=
  { noLimits_slice with
    status := { state := "Reserved", message := "Desired resources are reserved",
                expiry := none } }

/-- Claim of Scenario A: `claim-1` in namespace `tenant-a` asks for `edge-slice-1` with the
node selector of Scenario A. -/
def scenarioA_claim : SliceClaim :=
  { scenarioC_claim with nodeSelector := scenarioA_selector }

/-- Slice `edge-slice-1` in state Reserved without a `claimRef`. -/
def unclaimed_reserved_slice : Slice :=
  { scenarioA_slice with
    status := { state := "Reserved", message := "Desired resources are reserved",
                expiry := none } }

/-- Cluster of Scenario A after the reservation was recorded: the stored Slice is Reserved
and unclaimed. -/
def reservedSlice_world : World :=
  { scenarioA_world with slices := [unclaimed_reserved_slice] }

/-- Cluster of Scenario A before any Slice exists. -/
def noSlice_world : World :=
  { scenarioA_world with slices := [] }

/-- Environment like `quietEnv` in which the second request fails. -/
def secondFailsEnv : Env :=
  { quietEnv with fails := fun t => t = 1 }

/-- Environment like `quietEnv` with the provisioning mode written `dynamic`. -/
def lowerCaseEnv : Env :=
  { quietEnv with provisioning := "dynamic" }

/-- Environment like `quietEnv` with the provisioning mode `Manual`. -/
def manualEnv : Env :=
  { quietEnv with provisioning := "Manual" }

/-- A second claim, `claim-2`, that asks for the same Slice `edge-slice-1`. -/
def second_claim : SliceClaim :=
  { scenarioA_claim with name := "claim-2", uid := "uid-claim-2" }

/-- Cluster of Scenario C without the quota object of the parent. -/
def noQuota_world : World :=
  { scenarioC_world with quotas := [] }

/-- Cluster of Scenario C with a hard cpu limit of 100 in the quota object of the parent. -/
def largeQuota_world : World :=
  { scenarioC_world with
    quotas := [{ ns := "tenant-a", name := "tenant-quota", hard := [("cpu", 100)] }] }

/-- Namespace `tenant-a` of the tenant. -/
def tenant_namespace : Namespace :=
  { name := "tenant-a", labels := [("edge-net.io/kind", "tenant")] }

/-- Cluster after provisioning, with the namespace of the tenant stored and the claim in
the given state; no SubNamespace exists. -/
def tenant_world (claimState : String) : World :=
  { provisioned_world claimState with namespaces := [tenant_namespace] }

/-- SubNamespace `sub-1` of Scenario D: Established, and it references `claim-1`. -/
def scenarioD_subnamespace : SubNamespace :=
  { ns := "tenant-a", name := "sub-1", ownerReferences := [], sliceClaim := some "claim-1",
    state := "Established", resourceAllocation := [] }

/-- Labels of a node reserved for `edge-slice-1`. -/
def reservedLabels : List (String × String) :=
  [("edge-net.io/access", "public"), ("edge-net.io/slice", "none"),
    ("edge-net.io/pre-reservation", "edge-slice-1")]

/-- Cluster of Scenario D: nodes `n1` and `n2` are reserved for `edge-slice-1`, node `n3`
is unassigned, and the SubNamespace `sub-1` references `claim-1`. -/
def scenarioD_world : World :=
  { nodes :=
      [{ name := "n1", labels := reservedLabels, capacity := [("cpu", 4), ("memory", 16)] },
       { name := "n2", labels := reservedLabels, capacity := [("cpu", 4)] },
       { name := "n3", labels := unassignedLabels, capacity := [("cpu", 4)] }],
    pods := [], slices := [reserved_slice], claims := [owned_claim "Bound"],
    subnamespaces := [scenarioD_subnamespace], namespaces := [tenant_namespace],
    quotas := [], tick := 0, draws := 0, log := [] }

/-- Labels of a node provisioned for `edge-slice-1`. -/
def privateLabels : List (String × String) :=
  [("edge-net.io/access", "private"), ("edge-net.io/slice", "edge-slice-1"),
    ("edge-net.io/pre-reservation", "edge-slice-1")]

/-- SubNamespace `sub-1` after its adoption by `claim-1` in Scenario D. -/
def adopted_subnamespace : SubNamespace :=
  { scenarioD_subnamespace with
    ownerReferences := [(owned_claim "Applied").makeOwnerReference],
    resourceAllocation := [("cpu", 8), ("memory", 16)] }

/-- Cluster of Scenario D after provisioning: `n1` and `n2` are private to `edge-slice-1`,
the claim is Applied and `sub-1` carries the summary stored at its adoption. -/
def applied_world : World :=
  { scenarioD_world with
    nodes :=
      [{ name := "n1", labels := privateLabels, capacity := [("cpu", 4), ("memory", 16)] },
       { name := "n2", labels := privateLabels, capacity := [("cpu", 4)] },
       { name := "n3", labels := unassignedLabels, capacity := [("cpu", 4)] }],
    slices := [provisioned_slice], claims := [owned_claim "Applied"],
    subnamespaces := [adopted_subnamespace] }

/-- Requirement `a In (x, y)`. -/
def requirement_in : NodeSelectorRequirement :=
  { key := "a", operator := "In", values := ["x", "y"] }

/-- Requirement `b Gt 1`, which `reserveNodes` does not translate. -/
def requirement_gt : NodeSelectorRequirement :=
  { key := "b", operator := "Gt", values := ["1"] }

/-- Requirement `c Exists`. -/
def requirement_exists : NodeSelectorRequirement :=
  { key := "c", operator := "Exists", values := [] }

/-! ## Properties -/

theorem mapGet_mapSet {β : Type} (m : List (String × β)) (k k2 : String) (v : β) :
    mapGet (mapSet m k v) k2 = if k = k2 then some v else mapGet m k2 := by
  induction m with
  | nil => simp [mapSet, mapGet]
  | cons hd tl ih =>
    obtain ⟨a, b⟩ := hd
    by_cases h : a = k
    · subst h
      by_cases h2 : a = k2 <;> simp [mapSet, mapGet, h2]
    · by_cases h2 : k = k2
      · subst h2
        simp [mapSet, mapGet, h, ih]
      · by_cases h3 : a = k2
        · subst h3
          simp [mapSet, mapGet, h, h2]
        · simp [mapSet, mapGet, h, h2, h3, ih]

theorem patchArr_reservation (s : String) :
    patchNode_patchArr "reservation" s =
      [⟨"add", "/metadata/labels/edge-net.io~1access", "public"⟩,
       ⟨"add", "/metadata/labels/edge-net.io~1slice", "none"⟩,
       ⟨"add", "/metadata/labels/edge-net.io~1pre-reservation", s⟩] := by
  simp [patchNode_patchArr, patchNode_labels, mapSet]

theorem patchArr_return (s : String) :
    patchNode_patchArr "return" s =
      [⟨"add", "/metadata/labels/edge-net.io~1access", "public"⟩,
       ⟨"add", "/metadata/labels/edge-net.io~1slice", "none"⟩,
       ⟨"add", "/metadata/labels/edge-net.io~1pre-reservation", "none"⟩] := by
  simp [patchNode_patchArr, patchNode_labels, mapSet]

theorem labelOfPath_access :
    labelOfPath "/metadata/labels/edge-net.io~1access" = some "edge-net.io/access" := by decide
theorem labelOfPath_slice :
    labelOfPath "/metadata/labels/edge-net.io~1slice" = some "edge-net.io/slice" := by decide
theorem labelOfPath_preReservation :
    labelOfPath "/metadata/labels/edge-net.io~1pre-reservation" =
      some "edge-net.io/pre-reservation" := by decide

theorem perm_three {α : Type} {a b c : α} {p : List α} (h : p.Perm [a, b, c]) :
    p = [a, b, c] ∨ p = [b, a, c] ∨ p = [b, c, a] ∨ p = [a, c, b] ∨ p = [c, a, b] ∨
      p = [c, b, a] := by
  have := (List.mem_permutations' (s := p) (t := [a, b, c])).2 h
  simp [List.permutations', List.permutations'Aux] at this
  tauto
theorem applyPatch_three (va vs vp : String) (p : List PatchStringValue)
    (h : p.Perm
      [⟨"add", "/metadata/labels/edge-net.io~1access", va⟩,
       ⟨"add", "/metadata/labels/edge-net.io~1slice", vs⟩,
       ⟨"add", "/metadata/labels/edge-net.io~1pre-reservation", vp⟩])
    (L : List (String × String)) :
    ∃ L2, applyPatch p L = some L2 ∧
      ∀ k, mapGet L2 k =
        if k = "edge-net.io/access" then some va
        else if k = "edge-net.io/slice" then some vs
        else if k = "edge-net.io/pre-reservation" then some vp
        else mapGet L k := by
  rcases perm_three h with h | h | h | h | h | h <;> subst h <;>
    simp only [applyPatch, labelOfPath_access, labelOfPath_slice, labelOfPath_preReservation,
      if_true] <;>
    refine ⟨_, rfl, fun k => ?_⟩ <;>
    simp only [mapGet_mapSet] <;>
    by_cases ha : k = "edge-net.io/access" <;>
    by_cases hs : k = "edge-net.io/slice" <;>
    by_cases hp : k = "edge-net.io/pre-reservation" <;>
    first
      | (subst ha; simp)
      | (subst hs; simp)
      | (subst hp; simp)
      | simp [ha, hs, hp, Ne.symm ha, Ne.symm hs, Ne.symm hp]
/-- C10 (release round trip): on any label map `L` and for any slice name `s`, the patch
built by `patchNode` for kind `reservation` followed by the patch built for kind `return`,
each taken in whatever order Go ranges over the label map, is accepted and yields labels
with access `public`, slice `none` and pre-reservation `none`, every other label keeping
its value in `L`; in between the pre-reservation label is `s`.  Each of the two patches
has exactly three operations, all `add`, on the three label paths. -/
theorem C10_release_round_trip (L : List (String × String)) (s : String)
    (p1 p2 : List PatchStringValue)
    (h1 : p1.Perm (patchNode_patchArr "reservation" s))
    (h2 : p2.Perm (patchNode_patchArr "return" "")) :
    (∃ L1 L2, applyPatch p1 L = some L1 ∧ applyPatch p2 L1 = some L2 ∧
      mapGet L1 "edge-net.io/access" = some "public" ∧
      mapGet L1 "edge-net.io/slice" = some "none" ∧
      mapGet L1 "edge-net.io/pre-reservation" = some s ∧
      mapGet L2 "edge-net.io/access" = some "public" ∧
      mapGet L2 "edge-net.io/slice" = some "none" ∧
      mapGet L2 "edge-net.io/pre-reservation" = some "none" ∧
      ∀ k, k ≠ "edge-net.io/access" → k ≠ "edge-net.io/slice" →
        k ≠ "edge-net.io/pre-reservation" → mapGet L2 k = mapGet L k) ∧
    p1.length = 3 ∧ p2.length = 3 ∧
    (∀ o ∈ p1, o.op = "add") ∧ (∀ o ∈ p2, o.op = "add") ∧
    (p1.map PatchStringValue.path).Perm
      ["/metadata/labels/edge-net.io~1access", "/metadata/labels/edge-net.io~1slice",
       "/metadata/labels/edge-net.io~1pre-reservation"] ∧
    (p2.map PatchStringValue.path).Perm
      ["/metadata/labels/edge-net.io~1access", "/metadata/labels/edge-net.io~1slice",
       "/metadata/labels/edge-net.io~1pre-reservation"] := by
  rw [patchArr_reservation] at h1
  rw [patchArr_return] at h2
  refine ⟨?_, ?_, ?_, ?_, ?_, ?_, ?_⟩
  · obtain ⟨L1, e1, g1⟩ := applyPatch_three "public" "none" s p1 h1 L
    obtain ⟨L2, e2, g2⟩ := applyPatch_three "public" "none" "none" p2 h2 L1
    refine ⟨L1, L2, e1, e2, ?_, ?_, ?_, ?_, ?_, ?_, ?_⟩
    · rw [g1]; simp
    · rw [g1]; simp
    · rw [g1]; simp
    · rw [g2]; simp
    · rw [g2]; simp
    · rw [g2]; simp
    · intro k ha hs hp
      rw [g2, g1]; simp [ha, hs, hp]
  · simpa using h1.length_eq
  · simpa using h2.length_eq
  · intro o ho
    have := h1.mem_iff.1 ho
    simp at this
    rcases this with h | h | h <;> subst h <;> rfl
  · intro o ho
    have := h2.mem_iff.1 ho
    simp at this
    rcases this with h | h | h <;> subst h <;> rfl
  · simpa using h1.map PatchStringValue.path
  · simpa using h2.map PatchStringValue.path

/-- Witness for C10: a node carrying a hostname label and a private access label, Slice
`edge-slice-1`, the reservation patch in the order of construction and the return patch
in the reverse order. -/
theorem C10_release_round_trip_witness :
    (patchNode_patchArr "reservation" "edge-slice-1").Perm
      (patchNode_patchArr "reservation" "edge-slice-1") ∧
    (patchNode_patchArr "return" "").reverse.Perm (patchNode_patchArr "return" "") ∧
    (∃ L1 L2,
      applyPatch (patchNode_patchArr "reservation" "edge-slice-1")
        [("kubernetes.io/hostname", "n1"), ("edge-net.io/access", "private")] = some L1 ∧
      applyPatch (patchNode_patchArr "return" "").reverse L1 = some L2 ∧
      mapGet L1 "edge-net.io/access" = some "public" ∧
      mapGet L1 "edge-net.io/slice" = some "none" ∧
      mapGet L1 "edge-net.io/pre-reservation" = some "edge-slice-1" ∧
      mapGet L2 "edge-net.io/access" = some "public" ∧
      mapGet L2 "edge-net.io/slice" = some "none" ∧
      mapGet L2 "edge-net.io/pre-reservation" = some "none" ∧
      ∀ k, k ≠ "edge-net.io/access" → k ≠ "edge-net.io/slice" →
        k ≠ "edge-net.io/pre-reservation" →
        mapGet L2 k =
          mapGet [("kubernetes.io/hostname", "n1"), ("edge-net.io/access", "private")] k) :=
  ⟨List.Perm.refl _, List.reverse_perm _, (C10_release_round_trip
    [("kubernetes.io/hostname", "n1"), ("edge-net.io/access", "private")] "edge-slice-1"
    (patchNode_patchArr "reservation" "edge-slice-1") (patchNode_patchArr "return" "").reverse
    (List.Perm.refl _) (List.reverse_perm _)).1⟩

theorem rounds_present (key : String) (value : Int) (n : Nat) :
    ∀ (d : Int) (l : List (String × Int)), mapGet l key = some d →
      mapGet (checkParentResourceQuota_rounds key value n d l).2 key = some (d + n * value) ∧
      ∀ k, k ≠ key →
        mapGet (checkParentResourceQuota_rounds key value n d l).2 k = mapGet l k := by
  induction n with
  | zero =>
    intro d l h
    simp [checkParentResourceQuota_rounds, h]
  | succ n ih =>
    intro d l h
    have h2 : mapGet (mapSet l key (d + value)) key = some (d + value) := by
      simp [mapGet_mapSet]
    obtain ⟨e1, e2⟩ := ih (d + value) (mapSet l key (d + value)) h2
    simp only [checkParentResourceQuota_rounds, h]
    refine ⟨?_, ?_⟩
    · rw [e1]; congr 1; push_cast; ring
    · intro k hk
      rw [e2 k hk, mapGet_mapSet]
      simp [Ne.symm hk]

theorem rounds_absent (key : String) (value : Int) (n : Nat) (l : List (String × Int))
    (h : mapGet l key = none) :
    mapGet (checkParentResourceQuota_rounds key value (n + 1) value l).2 key =
        some (value * (n + 1)) ∧
      ∀ k, k ≠ key →
        mapGet (checkParentResourceQuota_rounds key value (n + 1) value l).2 k =
          mapGet l k := by
  have h2 : mapGet (mapSet l key value) key = some value := by simp [mapGet_mapSet]
  obtain ⟨e1, e2⟩ := rounds_present key value n value (mapSet l key value) h2
  simp only [checkParentResourceQuota_rounds, h]
  refine ⟨?_, ?_⟩
  · rw [e1]; congr 1; ring
  · intro k hk
    rw [e2 k hk, mapGet_mapSet]
    simp [Ne.symm hk]

theorem mapGet_eq_none_of_not_mem {β : Type} (m : List (String × β)) (k : String)
    (h : k ∉ m.map Prod.fst) : mapGet m k = none := by
  induction m with
  | nil => rfl
  | cons hd tl ih =>
    obtain ⟨a, b⟩ := hd
    simp at h
    have ha : ¬ a = k := fun e => h.1 e.symm
    simp only [mapGet, ha, if_false]
    apply ih
    simpa using h.2

theorem mapGet_mem {β : Type} (m : List (String × β)) (k : String) (v : β)
    (h : mapGet m k = some v) : k ∈ m.map Prod.fst := by
  by_contra hc
  rw [mapGet_eq_none_of_not_mem m k hc] at h
  exact Option.noConfusion h

theorem demand_spec (count : Int) (hc : 1 ≤ count) :
    ∀ (limits acc : List (String × Int)), (limits.map Prod.fst).Nodup →
      (∀ k, k ∈ limits.map Prod.fst → mapGet acc k = none) →
      ∀ r, mapGet (checkParentResourceQuota_demand count limits acc) r =
        match mapGet limits r with
        | some l => some (l * count)
        | none => mapGet acc r := by
  obtain ⟨n, hn⟩ : ∃ n : Nat, count.toNat = n + 1 := ⟨count.toNat - 1, by omega⟩
  have hcn : count = (n : Int) + 1 := by omega
  intro limits
  induction limits with
  | nil => intro acc _ _ r; simp [checkParentResourceQuota_demand, mapGet]
  | cons hd tl ih =>
    intro acc hnd hacc r
    obtain ⟨key, value⟩ := hd
    simp only [List.map_cons, List.nodup_cons] at hnd
    have hk : mapGet acc key = none := hacc key (by simp)
    obtain ⟨e1, e2⟩ := rounds_absent key value n acc hk
    simp only [checkParentResourceQuota_demand, hn]
    rw [ih _ hnd.2]
    · by_cases hr : key = r
      · subst hr
        rw [mapGet_eq_none_of_not_mem tl key hnd.1]
        simp only [mapGet, if_true]
        rw [e1, hcn]
      · have hr2 : r ≠ key := fun e => hr e.symm
        simp only [mapGet, hr, if_false]
        cases hg : mapGet tl r with
        | none => simp only; exact e2 r hr2
        | some l => rfl
    · intro k hkm
      have hne : k ≠ key := by
        rintro rfl
        exact hnd.1 hkm
      rw [e2 k hne]
      exact hacc k (by simp [hkm])

theorem hard_spec (demand : List (String × Int)) :
    ∀ hard : List (String × Int),
      checkParentResourceQuota_hard hard demand = true ↔
        ∀ r h, (r, h) ∈ hard → ∀ d, mapGet demand r = some d → d ≤ h := by
  intro hard
  induction hard with
  | nil => simp [checkParentResourceQuota_hard]
  | cons hd tl ih =>
    obtain ⟨key, value⟩ := hd
    cases hg : mapGet demand key with
    | none =>
      simp only [checkParentResourceQuota_hard, hg, ih, List.mem_cons, Prod.mk.injEq]
      constructor
      · intro h r x hm d hd
        rcases hm with ⟨rfl, rfl⟩ | hm
        · rw [hg] at hd; exact Option.noConfusion hd
        · exact h r x hm d hd
      · intro h r x hm d hd
        exact h r x (Or.inr hm) d hd
    | some dm =>
      simp only [checkParentResourceQuota_hard, hg]
      by_cases hlt : value < dm
      · simp only [hlt, if_true]
        constructor
        · intro h; exact Bool.noConfusion h
        · intro h
          have := h key value (by simp) dm hg
          omega
      · simp only [hlt, if_false, ih, List.mem_cons, Prod.mk.injEq]
        constructor
        · intro h r x hm d hd
          rcases hm with ⟨rfl, rfl⟩ | hm
          · rw [hg] at hd
            cases hd
            omega
          · exact h r x hm d hd
        · intro h r x hm d hd
          exact h r x (Or.inr hm) d hd
theorem mem_iff_mapGet {β : Type} (m : List (String × β)) (hnd : (m.map Prod.fst).Nodup)
    (k : String) (v : β) : (k, v) ∈ m ↔ mapGet m k = some v := by
  induction m with
  | nil => simp [mapGet]
  | cons hd tl ih =>
    obtain ⟨a, b⟩ := hd
    simp only [List.map_cons, List.nodup_cons] at hnd
    by_cases h : a = k
    · subst h
      simp only [mapGet, if_true, List.mem_cons, Prod.mk.injEq, true_and, Option.some.injEq]
      constructor
      · rintro (h | h)
        · exact h.symm
        · exact absurd (List.mem_map_of_mem Prod.fst h) hnd.1
      · intro h; exact Or.inl h.symm
    · simp only [mapGet, h, if_false, List.mem_cons, Prod.mk.injEq, ← ih hnd.2]
      constructor
      · rintro (⟨h1, _⟩ | h2)
        · exact absurd h1.symm h
        · exact h2
      · intro h2; exact Or.inr h2

/-- C4 (quota admission law): for a claim with count at least 1 (its limits being a map,
that is with distinct keys) and any parent quota object, the demand computed by
`checkParentResourceQuota` by repeated addition is, for each limits key, the limit times
the count, and no other key has a demand; the method returns true exactly when the
demand of every limits key that the hard map also has does not exceed the hard value.
The method is a function of the two objects that returns only the boolean. -/
theorem C4_quota_admission_law (sliceclaimCopy : SliceClaim)
    (parentResourceQuota : ResourceQuota)
    (hcount : 1 ≤ sliceclaimCopy.nodeSelector.count)
    (hkeys : (sliceclaimCopy.nodeSelector.resources.limits.map Prod.fst).Nodup) :
    (∀ r, mapGet (checkParentResourceQuota_demand sliceclaimCopy.nodeSelector.count
          sliceclaimCopy.nodeSelector.resources.limits []) r =
        (mapGet sliceclaimCopy.nodeSelector.resources.limits r).map
          (fun l => l * sliceclaimCopy.nodeSelector.count)) ∧
    (checkParentResourceQuota sliceclaimCopy parentResourceQuota = true ↔
      ∀ r l h, mapGet sliceclaimCopy.nodeSelector.resources.limits r = some l →
        (r, h) ∈ parentResourceQuota.hard → l * sliceclaimCopy.nodeSelector.count ≤ h) ∧
    ((parentResourceQuota.hard.map Prod.fst).Nodup →
      (checkParentResourceQuota sliceclaimCopy parentResourceQuota = true ↔
        ∀ r l h, mapGet sliceclaimCopy.nodeSelector.resources.limits r = some l →
          mapGet parentResourceQuota.hard r = some h →
          l * sliceclaimCopy.nodeSelector.count ≤ h)) := by
  have hd := demand_spec sliceclaimCopy.nodeSelector.count hcount
    sliceclaimCopy.nodeSelector.resources.limits [] hkeys (fun _ _ => rfl)
  have hdem : ∀ r, mapGet (checkParentResourceQuota_demand sliceclaimCopy.nodeSelector.count
        sliceclaimCopy.nodeSelector.resources.limits []) r =
      (mapGet sliceclaimCopy.nodeSelector.resources.limits r).map
        (fun l => l * sliceclaimCopy.nodeSelector.count) := by
    intro r
    rw [hd r]
    cases mapGet sliceclaimCopy.nodeSelector.resources.limits r <;> rfl
  have hiff : checkParentResourceQuota sliceclaimCopy parentResourceQuota = true ↔
      ∀ r l h, mapGet sliceclaimCopy.nodeSelector.resources.limits r = some l →
        (r, h) ∈ parentResourceQuota.hard → l * sliceclaimCopy.nodeSelector.count ≤ h := by
    unfold checkParentResourceQuota
    rw [hard_spec]
    constructor
    · intro h r l x hl hm
      exact h r x hm _ (by rw [hdem r, hl]; rfl)
    · intro h r x hm d hdm
      rw [hdem r] at hdm
      cases hl : mapGet sliceclaimCopy.nodeSelector.resources.limits r with
      | none => rw [hl] at hdm; exact Option.noConfusion hdm
      | some l =>
        rw [hl] at hdm
        cases hdm
        exact h r l x hl hm
  refine ⟨hdem, hiff, fun hnd => ?_⟩
  rw [hiff]
  constructor
  · intro h r l x hl hx
    exact h r l x hl ((mem_iff_mapGet _ hnd r x).2 hx)
  · intro h r l x hl hx
    exact h r l x hl ((mem_iff_mapGet _ hnd r x).1 hx)

/-- Witness for C4, Scenario C: cpu limit 4, count 3 and hard cpu 8 give the demand 12 and
the result false. -/
theorem C4_quota_admission_law_witness :
    1 ≤ scenarioC_claim.nodeSelector.count ∧
    (scenarioC_claim.nodeSelector.resources.limits.map Prod.fst).Nodup ∧
    mapGet (checkParentResourceQuota_demand scenarioC_claim.nodeSelector.count
      scenarioC_claim.nodeSelector.resources.limits []) "cpu" = some 12 ∧
    checkParentResourceQuota scenarioC_claim scenarioC_quota = false :=
  ⟨by decide, by decide,
    ((C4_quota_admission_law scenarioC_claim scenarioC_quota (by decide) (by decide)).1
      "cpu").trans (by decide),
    by decide⟩

theorem updateSliceClaimStatus_log (env : Env) (obj : SliceClaim) (w : World) :
    (updateSliceClaimStatus env obj w).2.log =
      w.log ++ [Entry.mk (Action.updateSliceClaimStatus obj)
        (updateSliceClaimStatus env obj w).1] := by
  unfold updateSliceClaimStatus
  split
  · rfl
  · split <;> rfl

theorem updateSliceClaimStatus_slices (env : Env) (obj : SliceClaim) (w : World) :
    (updateSliceClaimStatus env obj w).2.slices = w.slices := by
  unfold updateSliceClaimStatus
  split
  · rfl
  · split <;> rfl

theorem getNamespace_snd (env : Env) (name : String) (w : World) :
    (getNamespace env name w).2 =
      w.request (Action.getNamespace name) (getNamespace env name w).1.isSome := by
  unfold getNamespace
  split
  · rfl
  · split <;> rfl

theorem getResourceQuota_snd (env : Env) (ns name : String) (w : World) :
    (getResourceQuota env ns name w).2 =
      w.request (Action.getResourceQuota ns name) (getResourceQuota env ns name w).1.isSome := by
  unfold getResourceQuota
  split
  · rfl
  · split <;> rfl

theorem getSlice_found (env : Env) (name : String) (w : World) (slice : Slice)
    (h : (getSlice env name w).1 = GetResult.found slice) :
    slice ∈ w.slices ∧ slice.name = name := by
  unfold getSlice at h
  split at h
  · exact GetResult.noConfusion h
  · split at h
    · rename_i s hs
      have e : s = slice := by injection h
      subst e
      refine ⟨List.mem_of_find?_eq_some hs, ?_⟩
      simpa using List.find?_some hs
    · exact GetResult.noConfusion h

theorem tieClaim2Slice_bound (env : Env) (c : SliceClaim) (slice : Slice) (w : World) :
    ((tieClaim2Slice env c slice w).1 = true ↔
      (tieClaim2Slice env c slice w).2.1.status.state = "Bound") ∧
    ((tieClaim2Slice env c slice w).2.1.status.state = "Bound" ↔
      (slice.status.state ≠ "Failure" ∧ slice.claimRef = some c.makeObjectReference)) := by
  unfold tieClaim2Slice
  by_cases hf : slice.status.state = failure
  · simp only [hf, if_true]
    have hf2 : slice.status.state = "Failure" := hf
    simp [hf2, failure]
  · have hf2 : slice.status.state ≠ "Failure" := hf
    simp only [hf, if_false]
    cases hr : slice.claimRef with
    | none =>
      simp only
      split <;> simp [requested, failure]
    | some ref =>
      simp only
      by_cases he : ref = c.makeObjectReference
      · simp [he, bound, hf2]
      · simp [he, failure, hf2]

/-- C9 (mutual reference on the claim side): `claimSlice` returns true exactly when it
leaves the claim in state Bound, and it leaves the claim in state Bound exactly when the
Slice named `spec.sliceName` was fetched, is not in state Failure and has a `claimRef`
equal to the object reference of this claim; a fetched Slice is one of the stored Slices
and carries that name.  Equality is `reflect.DeepEqual` of the two references, that is
equality of all seven fields: the reference of the claim has API version, kind,
namespace, name and UID of the claim and an empty resource version and field path, so a
`claimRef` that names the claim and carries a resource version is not equal to it. -/
theorem C9_claimSlice_bound_iff (env : Env) (sliceclaimCopy : SliceClaim) (w : World) :
    ((claimSlice env sliceclaimCopy w).1 = true ↔
      (claimSlice env sliceclaimCopy w).2.1.status.state = "Bound") ∧
    ((claimSlice env sliceclaimCopy w).2.1.status.state = "Bound" ↔
      ∃ slice, (getSlice env sliceclaimCopy.sliceName w).1 = GetResult.found slice ∧
        slice.status.state ≠ "Failure" ∧
        slice.claimRef = some sliceclaimCopy.makeObjectReference) ∧
    (∀ slice, (getSlice env sliceclaimCopy.sliceName w).1 = GetResult.found slice →
      slice ∈ w.slices ∧ slice.name = sliceclaimCopy.sliceName) ∧
    sliceclaimCopy.makeObjectReference =
      { apiVersion := "core.edgenet.io/v1alpha1", kind := "SliceClaim",
        ns := sliceclaimCopy.ns, name := sliceclaimCopy.name, uid := sliceclaimCopy.uid,
        resourceVersion := "", fieldPath := "" } := by
  refine ⟨?_, ?_, fun slice h => getSlice_found env _ w slice h, rfl⟩
  · unfold claimSlice
    dsimp only
    cases hg : (getSlice env sliceclaimCopy.sliceName w).1 with
    | found slice => exact (tieClaim2Slice_bound env sliceclaimCopy slice _).1
    | notFound =>
      simp only
      split
      · split <;> simp [requested, failure]
      · simp [pending]
    | otherError =>
      simp only
      split
      · split <;> simp [requested, failure]
      · simp [pending]
  · unfold claimSlice
    dsimp only
    cases hg : (getSlice env sliceclaimCopy.sliceName w).1 with
    | found slice =>
      simp only
      rw [(tieClaim2Slice_bound env sliceclaimCopy slice _).2]
      constructor
      · intro h; exact ⟨slice, rfl, h⟩
      · rintro ⟨s, hs, h⟩
        have : slice = s := by injection hs
        subst this
        exact h
    | notFound =>
      simp only
      split
      · split <;> simp [requested, failure]
      · simp [pending]
    | otherError =>
      simp only
      split
      · split <;> simp [requested, failure]
      · simp [pending]

/-! ### Node patches -/

theorem patchArr_shape (kind slice : String) :
    ∃ a b c, patchNode_patchArr kind slice =
        [⟨"add", "/metadata/labels/edge-net.io~1access", a⟩,
         ⟨"add", "/metadata/labels/edge-net.io~1slice", b⟩,
         ⟨"add", "/metadata/labels/edge-net.io~1pre-reservation", c⟩] ∧
      (kind = "return" → a = "public" ∧ b = "none" ∧ c = "none") ∧
      (kind = "reservation" → a = "public" ∧ b = "none" ∧ c = slice) ∧
      (kind ≠ "return" → kind ≠ "reservation" → a = "private" ∧ b = slice ∧ c = slice) := by
  by_cases h1 : kind = "return"
  · subst h1
    exact ⟨"public", "none", "none", patchArr_return slice, by simp, by simp, by simp⟩
  · by_cases h2 : kind = "reservation"
    · subst h2
      exact ⟨"public", "none", slice, patchArr_reservation slice, by simp, by simp, by simp⟩
    · refine ⟨"private", slice, slice, ?_, by simp [h1], by simp [h2], by simp⟩
      simp [patchNode_patchArr, patchNode_labels, mapSet, h1, h2]

theorem applyPatch_patchArr (kind slice : String) (L : List (String × String)) :
    ∃ L2, applyPatch (patchNode_patchArr kind slice) L = some L2 := by
  obtain ⟨a, b, c, e, _⟩ := patchArr_shape kind slice
  obtain ⟨L2, h, _⟩ := applyPatch_three a b c _ (List.Perm.refl _) L
  exact ⟨L2, by rw [e]; exact h⟩

theorem patchNode_log (env : Env) (kind slice node : String) (w : World) :
    (patchNode env kind slice node w).2.log =
      w.log ++ [Entry.mk (Action.patchNode node (patchNode_patchArr kind slice))
        (patchNode env kind slice node w).1] := by
  unfold patchNode nodesPatch
  split
  · rfl
  · split
    · rfl
    · split <;> rfl

theorem patchNode_tick (env : Env) (kind slice node : String) (w : World) :
    (patchNode env kind slice node w).2.tick = w.tick + 1 := by
  unfold patchNode nodesPatch
  split
  · rfl
  · split
    · rfl
    · split <;> rfl

theorem patchNode_frame (env : Env) (kind slice node : String) (w : World) :
    (patchNode env kind slice node w).2.draws = w.draws ∧
    (patchNode env kind slice node w).2.pods = w.pods ∧
    (patchNode env kind slice node w).2.slices = w.slices ∧
    (patchNode env kind slice node w).2.claims = w.claims ∧
    (patchNode env kind slice node w).2.subnamespaces = w.subnamespaces ∧
    (patchNode env kind slice node w).2.namespaces = w.namespaces ∧
    (patchNode env kind slice node w).2.quotas = w.quotas := by
  unfold patchNode nodesPatch
  split
  · simp [World.request]
  · split
    · simp [World.request]
    · split <;> simp [World.request]

theorem setNodeLabels_names (nodes : List Node) (node : String) (L : List (String × String)) :
    (setNodeLabels nodes node L).map Node.name = nodes.map Node.name := by
  unfold setNodeLabels
  rw [List.map_map]
  apply List.map_congr_left
  intro n _
  simp only [Function.comp]
  split <;> rfl

theorem patchNode_names (env : Env) (kind slice node : String) (w : World) :
    (patchNode env kind slice node w).2.nodes.map Node.name = w.nodes.map Node.name := by
  unfold patchNode nodesPatch
  split
  · rfl
  · split
    · rfl
    · split
      · rfl
      · exact setNodeLabels_names _ _ _

theorem find_name_none_iff (nodes : List Node) (node : String) :
    nodes.find? (fun n => decide (n.name = node)) = none ↔ node ∉ nodes.map Node.name := by
  simp only [List.find?_eq_none, List.mem_map, decide_eq_true_eq]
  constructor
  · rintro h ⟨n, hn, e⟩
    exact h n hn e
  · intro h n hn e
    exact h ⟨n, hn, e⟩

theorem patchNode_ok_iff (env : Env) (kind slice node : String) (w : World) :
    (patchNode env kind slice node w).1 = true ↔
      env.fails w.tick = false ∧ node ∈ w.nodes.map Node.name := by
  unfold patchNode nodesPatch
  by_cases hf : env.fails w.tick = true
  · simp [hf]
  · have hf2 : env.fails w.tick = false := by simpa using hf
    simp only [hf2, Bool.false_eq_true, if_false, true_and]
    cases hfind : w.nodes.find? (fun n => decide (n.name = node)) with
    | none =>
      simp only
      have := (find_name_none_iff w.nodes node).1 hfind
      simp [this]
    | some n =>
      simp only
      obtain ⟨L2, hL⟩ := applyPatch_patchArr kind slice n.labels
      rw [hL]
      simp only [true_iff]
      by_contra hc
      rw [(find_name_none_iff w.nodes node).2 hc] at hfind
      exact Option.noConfusion hfind

theorem patchNode_nodes_of_false (env : Env) (kind slice node : String) (w : World)
    (h : (patchNode env kind slice node w).1 = false) :
    (patchNode env kind slice node w).2.nodes = w.nodes := by
  unfold patchNode nodesPatch at h ⊢
  split
  · rfl
  · rename_i hf
    simp only [hf, if_false] at h
    split
    · rfl
    · rename_i n hn
      simp only [hn] at h
      split
      · rfl
      · rename_i L hL
        simp only [hL] at h
        exact Bool.noConfusion h

theorem patchNode_other_mem (env : Env) (kind slice node : String) (w : World) (n : Node)
    (hne : n.name ≠ node) :
    n ∈ (patchNode env kind slice node w).2.nodes ↔ n ∈ w.nodes := by
  unfold patchNode nodesPatch
  split
  · rfl
  · split
    · rfl
    · split
      · rfl
      · simp only [World.request, setNodeLabels, List.mem_map]
        constructor
        · rintro ⟨m, hm, e⟩
          by_cases hmn : m.name = node
          · simp only [hmn, if_true] at e
            subst e
            exact absurd rfl hne
          · simp only [hmn, if_false] at e
            subst e
            exact hm
        · intro hn
          exact ⟨n, hn, by simp [hne]⟩

theorem patchNode_labels_of_true (env : Env) (kind slice node : String) (w : World)
    (a b c : String)
    (hshape : patchNode_patchArr kind slice =
        [⟨"add", "/metadata/labels/edge-net.io~1access", a⟩,
         ⟨"add", "/metadata/labels/edge-net.io~1slice", b⟩,
         ⟨"add", "/metadata/labels/edge-net.io~1pre-reservation", c⟩])
    (h : (patchNode env kind slice node w).1 = true) :
    ∀ n ∈ (patchNode env kind slice node w).2.nodes, n.name = node →
      mapGet n.labels "edge-net.io/access" = some a ∧
      mapGet n.labels "edge-net.io/slice" = some b ∧
      mapGet n.labels "edge-net.io/pre-reservation" = some c := by
  unfold patchNode nodesPatch at h ⊢
  split
  · rename_i hf
    simp [hf] at h
  · rename_i hf
    simp only [hf, if_false] at h
    split
    · rename_i hn
      simp [hn] at h
    · rename_i m hm
      split
      · rename_i hL
        simp [hm, hL] at h
      · rename_i L hL
        intro n hn hname
        simp only [World.request, setNodeLabels, List.mem_map] at hn
        obtain ⟨x, _, e⟩ := hn
        by_cases hx : x.name = node
        · simp only [hx, if_true] at e
          subst e
          rw [hshape] at hL
          obtain ⟨L2, h2, g⟩ := applyPatch_three a b c _ (List.Perm.refl _) m.labels
          rw [h2] at hL
          cases hL
          simp only
          refine ⟨?_, ?_, ?_⟩ <;> rw [g] <;> simp
        · simp only [hx, if_false] at e
          subst e
          exact absurd hname hx

/-! ### The random pick loop -/

theorem swapRemove_perm (l : List String) (r : Nat) (x last : String)
    (hx : l[r]? = some x) (hlast : l.getLast? = some last) :
    (x :: (l.set r last).dropLast).Perm l := by
  have hne : l ≠ [] := by
    intro h; subst h; simp at hx
  have hl : l = l.dropLast ++ [last] := by
    have := List.dropLast_append_getLast? last (by simpa using hlast)
    exact this.symm
  have hr : r < l.length := by
    rcases Nat.lt_or_ge r l.length with h | h
    · exact h
    · rw [List.getElem?_eq_none h] at hx; exact Option.noConfusion hx
  generalize hi : l.dropLast = init at hl
  subst hl
  simp only [List.length_append, List.length_singleton] at hr
  by_cases hcase : r < init.length
  · rw [List.getElem?_append_left hcase] at hx
    rw [List.set_append_left _ _ hcase, List.dropLast_concat]
    have hx2 : init[r] = x := by
      rw [List.getElem?_eq_getElem hcase] at hx
      exact Option.some.inj hx
    have hsplit : init = init.take r ++ x :: init.drop (r + 1) := by
      rw [← hx2]
      exact (List.take_append_drop r init).symm.trans (by rw [List.drop_eq_getElem_cons hcase])
    have hset : init.set r last = init.take r ++ last :: init.drop (r + 1) := by
      rw [List.set_eq_take_append_cons_drop]
      simp [hcase]
    rw [hset]
    conv_rhs => rw [hsplit]
    have p1 : (x :: (List.take r init ++ last :: List.drop (r + 1) init)).Perm
        (x :: last :: (List.take r init ++ List.drop (r + 1) init)) :=
      List.Perm.cons x List.perm_middle
    have p2 : ((List.take r init ++ x :: List.drop (r + 1) init) ++ [last]).Perm
        (last :: x :: (List.take r init ++ List.drop (r + 1) init)) := by
      refine (List.perm_append_singleton last _).trans ?_
      exact List.Perm.cons last List.perm_middle
    exact p1.trans ((List.Perm.swap last x _).trans p2.symm)
  · have hr2 : r = init.length := by omega
    subst hr2
    have hx3 : x = last := by
      simp at hx
      exact hx.symm
    subst hx3
    have hset : (init ++ [x]).set init.length x = init ++ [x] := by
      rw [List.set_append_right _ _ (le_refl _)]
      simp
    rw [hset, List.dropLast_concat]
    exact (List.perm_append_singleton x init).symm
theorem reserveNodes_pick_spec (env : Env) :
    ∀ (n : Nat) (nodeList pickedNodeList : List String) (w : World),
      n ≤ nodeList.length →
      ∃ new rest,
        reserveNodes_pick env n nodeList pickedNodeList w =
          some (pickedNodeList ++ new, { w with draws := w.draws + n }) ∧
        new.length = n ∧ (new ++ rest).Perm nodeList := by
  intro n
  induction n with
  | zero =>
    intro nodeList picked w _
    exact ⟨[], nodeList, by simp [reserveNodes_pick], rfl, List.Perm.refl _⟩
  | succ n ih =>
    intro nodeList picked w hlen
    have hpos : 0 < nodeList.length := by omega
    have hne : nodeList.length ≠ 0 := by omega
    have hr : env.rnd w.draws % nodeList.length < nodeList.length := Nat.mod_lt _ hpos
    obtain ⟨x, hx⟩ : ∃ x, nodeList[env.rnd w.draws % nodeList.length]? = some x :=
      ⟨_, List.getElem?_eq_getElem hr⟩
    obtain ⟨last, hlast⟩ : ∃ last, nodeList.getLast? = some last := by
      cases hl : nodeList.getLast? with
      | none =>
        rw [List.getLast?_eq_none_iff] at hl
        subst hl
        simp at hpos
      | some last => exact ⟨last, rfl⟩
    have hlen2 : n ≤ ((nodeList.set (env.rnd w.draws % nodeList.length) last).dropLast).length := by
      simp only [List.length_dropLast, List.length_set]
      omega
    obtain ⟨new, rest, e, hn, hp⟩ :=
      ih ((nodeList.set (env.rnd w.draws % nodeList.length) last).dropLast)
        (picked ++ [x]) { w with draws := w.draws + 1 } hlen2
    refine ⟨x :: new, rest, ?_, by simp [hn], ?_⟩
    · simp only [reserveNodes_pick, hne, if_false, hx, hlast, e]
      simp only [List.append_assoc, List.singleton_append, Option.some.injEq, Prod.mk.injEq,
        true_and]
      have : w.draws + 1 + n = w.draws + (n + 1) := by omega
      rw [this]
    · have h1 : (x :: (new ++ rest)).Perm
          (x :: (nodeList.set (env.rnd w.draws % nodeList.length) last).dropLast) :=
        List.Perm.cons x hp
      exact h1.trans (swapRemove_perm nodeList _ x last hx hlast)

/-! ### The reservation loop and the compensation loop -/

theorem labelOf_of_mapGet (labels : List (String × String)) (k v : String)
    (h : mapGet labels k = some v) : labelOf labels k = v := by
  simp [labelOf, h]

theorem patchNode_reservation_labels (env : Env) (slice node : String) (w : World)
    (h : (patchNode env "reservation" slice node w).1 = true) :
    ∀ n ∈ (patchNode env "reservation" slice node w).2.nodes, n.name = node →
      labelOf n.labels "edge-net.io/access" = "public" ∧
      labelOf n.labels "edge-net.io/slice" = "none" ∧
      labelOf n.labels "edge-net.io/pre-reservation" = slice := by
  intro n hn hname
  obtain ⟨h1, h2, h3⟩ := patchNode_labels_of_true env "reservation" slice node w
    "public" "none" slice (patchArr_reservation slice) h n hn hname
  exact ⟨labelOf_of_mapGet _ _ _ h1, labelOf_of_mapGet _ _ _ h2, labelOf_of_mapGet _ _ _ h3⟩

theorem patchNode_return_labels (env : Env) (slice node : String) (w : World)
    (h : (patchNode env "return" slice node w).1 = true) :
    ∀ n ∈ (patchNode env "return" slice node w).2.nodes, n.name = node →
      labelOf n.labels "edge-net.io/access" = "public" ∧
      labelOf n.labels "edge-net.io/slice" = "none" ∧
      labelOf n.labels "edge-net.io/pre-reservation" = "none" := by
  intro n hn hname
  obtain ⟨h1, h2, h3⟩ := patchNode_labels_of_true env "return" slice node w
    "public" "none" "none" (patchArr_return slice) h n hn hname
  exact ⟨labelOf_of_mapGet _ _ _ h1, labelOf_of_mapGet _ _ _ h2, labelOf_of_mapGet _ _ _ h3⟩

theorem reserveNodes_patch_true (env : Env) :
    ∀ (picked : List String) (s : Slice) (w : World),
      (reserveNodes_patch env picked s w).1 = true →
      (reserveNodes_patch env picked s w).2.1 = s ∧
      (reserveNodes_patch env picked s w).2.2.log =
        w.log ++ picked.map (fun p =>
          Entry.mk (Action.patchNode p (patchNode_patchArr "reservation" s.name)) true) ∧
      (reserveNodes_patch env picked s w).2.2.nodes.map Node.name = w.nodes.map Node.name ∧
      (∀ n ∈ (reserveNodes_patch env picked s w).2.2.nodes, n.name ∈ picked →
        labelOf n.labels "edge-net.io/access" = "public" ∧
        labelOf n.labels "edge-net.io/slice" = "none" ∧
        labelOf n.labels "edge-net.io/pre-reservation" = s.name) ∧
      (∀ n : Node, n.name ∉ picked →
        (n ∈ (reserveNodes_patch env picked s w).2.2.nodes ↔ n ∈ w.nodes)) ∧
      (reserveNodes_patch env picked s w).2.2.tick = w.tick + picked.length ∧
      (reserveNodes_patch env picked s w).2.2.draws = w.draws := by
  intro picked
  induction picked with
  | nil =>
    intro s w _
    simp [reserveNodes_patch]
  | cons p rest ih =>
    intro s w h
    by_cases hp : (patchNode env "reservation" s.name p w).1 = true
    · simp only [reserveNodes_patch, hp, if_true] at h ⊢
      obtain ⟨e1, e2, e3, e4, e5, e6, e7⟩ := ih s _ h
      refine ⟨e1, ?_, ?_, ?_, ?_, ?_, ?_⟩
      · rw [e2, patchNode_log, hp]
        simp
      · rw [e3, patchNode_names]
      · intro n hn hmem
        by_cases hr : n.name ∈ rest
        · exact e4 n hn hr
        · have hnp : n.name = p := by
            simp only [List.mem_cons] at hmem
            rcases hmem with h1 | h1
            · exact h1
            · exact absurd h1 hr
          have hn2 := (e5 n hr).1 hn
          exact patchNode_reservation_labels env s.name p w hp n hn2 hnp
      · intro n hn
        simp only [List.mem_cons, not_or] at hn
        rw [e5 n hn.2]
        exact patchNode_other_mem env "reservation" s.name p w n hn.1
      · rw [e6, patchNode_tick]
        simp only [List.length_cons]
        omega
      · rw [e7]
        exact (patchNode_frame env "reservation" s.name p w).1
    · simp only [reserveNodes_patch, hp] at h
      simp at h

theorem reserveNodes_patch_names (env : Env) :
    ∀ (picked : List String) (s : Slice) (w : World),
      (reserveNodes_patch env picked s w).2.2.nodes.map Node.name = w.nodes.map Node.name := by
  intro picked
  induction picked with
  | nil => intro s w; rfl
  | cons p rest ih =>
    intro s w
    by_cases hp : (patchNode env "reservation" s.name p w).1 = true
    · simp only [reserveNodes_patch, hp, if_true]
      rw [ih, patchNode_names]
    · simp only [reserveNodes_patch, hp]
      simp only [Bool.false_eq_true, if_false, World.event]
      exact patchNode_names env "reservation" s.name p w

theorem reserveNodes_patch_fails (env : Env) :
    ∀ (picked : List String) (s : Slice) (w : World) (k : Nat),
      k < picked.length →
      (∀ p ∈ picked, p ∈ w.nodes.map Node.name) →
      (∀ i, i < k → env.fails (w.tick + i) = false) →
      env.fails (w.tick + k) = true →
      (reserveNodes_patch env picked s w).1 = false ∧
      (reserveNodes_patch env picked s w).2.1 =
        { s with status :=
            { s.status with state := failure, message := messagePatchFailed } } ∧
      (reserveNodes_patch env picked s w).2.2.tick = w.tick + k + 1 := by
  intro picked
  induction picked with
  | nil => intro s w k hk; simp at hk
  | cons p rest ih =>
    intro s w k hk hex hok hfail
    cases k with
    | zero =>
      have hp : (patchNode env "reservation" s.name p w).1 = false := by
        cases hc : (patchNode env "reservation" s.name p w).1 with
        | false => rfl
        | true =>
          have := ((patchNode_ok_iff env "reservation" s.name p w).1 hc).1
          simp at hfail
          rw [hfail] at this
          exact Bool.noConfusion this
      simp only [reserveNodes_patch, hp]
      simp only [Bool.false_eq_true, if_false, World.event, true_and]
      rw [patchNode_tick]
    | succ k =>
      have hp : (patchNode env "reservation" s.name p w).1 = true := by
        rw [patchNode_ok_iff]
        exact ⟨by simpa using hok 0 (by omega), hex p (by simp)⟩
      simp only [reserveNodes_patch, hp, if_true]
      have hk2 : k < rest.length := by simpa using hk
      have := ih s (patchNode env "reservation" s.name p w).2 k hk2
        (by
          intro q hq
          rw [patchNode_names]
          exact hex q (by simp [hq]))
        (by
          intro i hi
          rw [patchNode_tick]
          have := hok (i + 1) (by omega)
          rw [← this]
          congr 1
          omega)
        (by
          rw [patchNode_tick]
          rw [← hfail]
          congr 1
          omega)
      obtain ⟨e1, e2, e3⟩ := this
      refine ⟨e1, e2, ?_⟩
      rw [e3, patchNode_tick]
      omega

theorem patchNode_return_keeps (env : Env) (node x : String) (w : World)
    (h : ∀ n ∈ w.nodes, n.name = x →
      labelOf n.labels "edge-net.io/access" = "public" ∧
      labelOf n.labels "edge-net.io/slice" = "none" ∧
      labelOf n.labels "edge-net.io/pre-reservation" = "none") :
    ∀ n ∈ (patchNode env "return" "" node w).2.nodes, n.name = x →
      labelOf n.labels "edge-net.io/access" = "public" ∧
      labelOf n.labels "edge-net.io/slice" = "none" ∧
      labelOf n.labels "edge-net.io/pre-reservation" = "none" := by
  intro n hn hname
  by_cases hok : (patchNode env "return" "" node w).1 = true
  · by_cases hnode : n.name = node
    · exact patchNode_return_labels env "" node w hok n hn hnode
    · exact h n ((patchNode_other_mem env "return" "" node w n hnode).1 hn) hname
  · have hf : (patchNode env "return" "" node w).1 = false := by simpa using hok
    rw [patchNode_nodes_of_false env "return" "" node w hf] at hn
    exact h n hn hname

theorem reserveNodes_return_names (env : Env) :
    ∀ (picked : List String) (w : World),
      (reserveNodes_return env picked w).nodes.map Node.name = w.nodes.map Node.name := by
  intro picked
  induction picked with
  | nil => intro w; rfl
  | cons p rest ih =>
    intro w
    simp only [reserveNodes_return]
    split
    · rw [ih, patchNode_names]
    · rw [ih]
      simp only [World.event]
      exact patchNode_names env "return" "" p w

theorem reserveNodes_return_keeps (env : Env) (x : String) :
    ∀ (picked : List String) (w : World),
      (∀ n ∈ w.nodes, n.name = x →
        labelOf n.labels "edge-net.io/access" = "public" ∧
        labelOf n.labels "edge-net.io/slice" = "none" ∧
        labelOf n.labels "edge-net.io/pre-reservation" = "none") →
      ∀ n ∈ (reserveNodes_return env picked w).nodes, n.name = x →
        labelOf n.labels "edge-net.io/access" = "public" ∧
        labelOf n.labels "edge-net.io/slice" = "none" ∧
        labelOf n.labels "edge-net.io/pre-reservation" = "none" := by
  intro picked
  induction picked with
  | nil => intro w h; exact h
  | cons p rest ih =>
    intro w h
    simp only [reserveNodes_return]
    split
    · exact ih _ (patchNode_return_keeps env p x w h)
    · exact ih _ (patchNode_return_keeps env p x w h)

theorem reserveNodes_return_spec (env : Env) :
    ∀ (picked : List String) (w : World),
      (∀ p ∈ picked, p ∈ w.nodes.map Node.name) →
      (∀ j, j < picked.length → env.fails (w.tick + j) = false) →
      ∀ n ∈ (reserveNodes_return env picked w).nodes, n.name ∈ picked →
        labelOf n.labels "edge-net.io/access" = "public" ∧
        labelOf n.labels "edge-net.io/slice" = "none" ∧
        labelOf n.labels "edge-net.io/pre-reservation" = "none" := by
  intro picked
  induction picked with
  | nil => intro w _ _ n _ hn; simp at hn
  | cons p rest ih =>
    intro w hex hok n hn hmem
    have hp : (patchNode env "return" "" p w).1 = true := by
      rw [patchNode_ok_iff]
      exact ⟨by simpa using hok 0 (by simp), hex p (by simp)⟩
    simp only [reserveNodes_return, hp, if_true] at hn
    by_cases hr : n.name ∈ rest
    · refine ih _ ?_ ?_ n hn hr
      · intro q hq
        rw [patchNode_names]
        exact hex q (by simp [hq])
      · intro j hj
        rw [patchNode_tick]
        have := hok (j + 1) (by simp; omega)
        rw [← this]
        congr 1
        omega
    · have hnp : n.name = p := by
        simp only [List.mem_cons] at hmem
        rcases hmem with h1 | h1
        · exact h1
        · exact absurd h1 hr
      exact reserveNodes_return_keeps env p rest _
        (patchNode_return_labels env "" p w hp) n hn hnp

/-! ### One selector term -/

theorem listNodes_snd (env : Env) (a b : String) (w : World) :
    (listNodes env a b w).2 =
      w.request (Action.listNodes a b) (listNodes env a b w).1.isSome := by
  unfold listNodes
  split <;> rfl

theorem listNodes_items (env : Env) (a b : String) (w : World) (items : List Node)
    (h : (listNodes env a b w).1 = some items) :
    items = w.nodes.filter (env.selectsNode a b) := by
  unfold listNodes at h
  split at h
  · exact Option.noConfusion h
  · exact (Option.some.inj h).symm

theorem nodeList_mem (s : Slice) (items : List Node) (c : String)
    (h : c ∈ reserveNodes_nodeList s items) :
    ∃ n ∈ items, n.name = c ∧ reserveNodes_accepts s n = true := by
  unfold reserveNodes_nodeList at h
  simp only [List.mem_map, List.mem_filter] at h
  obtain ⟨n, ⟨hn, ha⟩, e⟩ := h
  exact ⟨n, hn, e, ha⟩

theorem nodeList_nodup (s : Slice) (items : List Node) (h : (items.map Node.name).Nodup) :
    (reserveNodes_nodeList s items).Nodup := by
  unfold reserveNodes_nodeList
  exact h.sublist (List.Sublist.map _ (List.filter_sublist _))

theorem accepts_unheld (s : Slice) (n : Node) (h : reserveNodes_accepts s n = true) :
    labelOf n.labels "edge-net.io/access" ≠ "private" ∧
    labelOf n.labels "edge-net.io/slice" = "none" ∧
    labelOf n.labels "edge-net.io/pre-reservation" = "none" := by
  unfold reserveNodes_accepts at h
  by_cases hs : reserveNodes_skipped n.labels = true
  · simp [hs] at h
  · unfold reserveNodes_skipped at hs
    simp only [decide_eq_true_eq, not_or, not_not, ne_eq] at hs
    exact hs

theorem patchedNodes_append (patch : List PatchStringValue) (a b : List Entry) :
    patchedNodes patch (a ++ b) = patchedNodes patch a ++ patchedNodes patch b := by
  simp [patchedNodes, List.filterMap_append]

theorem patchedNodes_patches (patch : List PatchStringValue) (picked : List String) :
    patchedNodes patch (picked.map (fun p => Entry.mk (Action.patchNode p patch) true)) =
      picked := by
  induction picked with
  | nil => rfl
  | cons p rest ih =>
    simp only [List.map_cons]
    have : patchedNodes patch
        (Entry.mk (Action.patchNode p patch) true ::
          rest.map (fun p => Entry.mk (Action.patchNode p patch) true)) =
        p :: patchedNodes patch (rest.map (fun p => Entry.mk (Action.patchNode p patch) true)) := by
      simp [patchedNodes, List.filterMap_cons]
    rw [this, ih]

theorem reserveNodes_list_snd (env : Env) (s : Slice) (term : NodeSelectorTerm) (w : World) :
    ∃ ok : Bool, (reserveNodes_list env s term w).2 =
      w.request (Action.listNodes (reserveNodes_selector term.matchExpressions)
        (reserveNodes_selector term.matchFields)) ok := by
  unfold reserveNodes_list
  dsimp only
  refine ⟨(listNodes env (reserveNodes_selector term.matchExpressions)
    (reserveNodes_selector term.matchFields) w).1.isSome, ?_⟩
  split <;> exact listNodes_snd env _ _ w

theorem reserveNodes_list_mem (env : Env) (s : Slice) (term : NodeSelectorTerm) (w : World)
    (c : String) (hc : c ∈ (reserveNodes_list env s term w).1) :
    ∃ n ∈ w.nodes, n.name = c ∧ reserveNodes_accepts s n = true := by
  unfold reserveNodes_list at hc
  dsimp only at hc
  split at hc
  · rename_i items hl1
    obtain ⟨n, hn, e, ha⟩ := nodeList_mem s items c hc
    have hitems := listNodes_items env _ _ w items hl1
    rw [hitems] at hn
    exact ⟨n, (List.mem_filter.1 hn).1, e, ha⟩
  · simp at hc

theorem reserveNodes_list_nodup (env : Env) (s : Slice) (term : NodeSelectorTerm) (w : World)
    (hnd : (w.nodes.map Node.name).Nodup) : (reserveNodes_list env s term w).1.Nodup := by
  unfold reserveNodes_list
  dsimp only
  split
  · rename_i items hl1
    have hitems := listNodes_items env _ _ w items hl1
    apply nodeList_nodup
    rw [hitems]
    exact hnd.sublist (List.Sublist.map _ (List.filter_sublist _))
  · simp

theorem reserveNodes_term_true (env : Env) (s : Slice) (term : NodeSelectorTerm) (w : World)
    (s2 : Slice) (w2 : World)
    (h : reserveNodes_term env s term w = some (true, s2, w2)) :
    s2 = s ∧ ∃ picked : List String, ∃ ok : Bool,
      w2.log = w.log ++
        (Entry.mk (Action.listNodes (reserveNodes_selector term.matchExpressions)
            (reserveNodes_selector term.matchFields)) ok ::
          picked.map (fun p =>
            Entry.mk (Action.patchNode p (patchNode_patchArr "reservation" s.name)) true)) ∧
      picked.length = s.nodeSelector.count.toNat ∧
      (∀ p ∈ picked, ∃ n ∈ w.nodes, n.name = p ∧ reserveNodes_accepts s n = true) ∧
      ((w.nodes.map Node.name).Nodup → picked.Nodup) ∧
      w2.nodes.map Node.name = w.nodes.map Node.name ∧
      (∀ n ∈ w2.nodes, n.name ∈ picked →
        labelOf n.labels "edge-net.io/access" = "public" ∧
        labelOf n.labels "edge-net.io/slice" = "none" ∧
        labelOf n.labels "edge-net.io/pre-reservation" = s.name) ∧
      (∀ n : Node, n.name ∉ picked → (n ∈ w2.nodes ↔ n ∈ w.nodes)) := by
  unfold reserveNodes_term at h
  dsimp only at h
  obtain ⟨ok, hl2⟩ := reserveNodes_list_snd env s term w
  by_cases hlt : ((reserveNodes_list env s term w).1.length : Int) < s.nodeSelector.count
  · simp [hlt] at h
  · simp only [hlt, if_false] at h
    have hle : s.nodeSelector.count.toNat ≤ (reserveNodes_list env s term w).1.length := by
      omega
    obtain ⟨new, rest, hpick, hlen, hperm⟩ :=
      reserveNodes_pick_spec env s.nodeSelector.count.toNat (reserveNodes_list env s term w).1
        [] (reserveNodes_list env s term w).2 hle
    rw [hpick] at h
    simp only [List.nil_append] at h
    by_cases hp : (reserveNodes_patch env new s { (reserveNodes_list env s term w).2 with
        draws := (reserveNodes_list env s term w).2.draws + s.nodeSelector.count.toNat }).1 = true
    · simp only [hp, if_true, Option.some.injEq, Prod.mk.injEq, true_and] at h
      obtain ⟨e1, e2, e3, e4, e5, _, _⟩ := reserveNodes_patch_true env new s _ hp
      obtain ⟨hs, hw⟩ := h
      subst hw
      refine ⟨by rw [← hs, e1], new, ok, ?_, hlen, ?_, ?_, ?_, e4, ?_⟩
      · rw [e2]
        simp only [hl2, World.request, List.append_assoc, List.singleton_append]
      · intro p hp2
        exact reserveNodes_list_mem env s term w p
          (hperm.subset (List.mem_append_left _ hp2))
      · intro hnd
        have := (hperm.nodup_iff).2 (reserveNodes_list_nodup env s term w hnd)
        exact (List.nodup_append.1 this).1
      · rw [e3]
        simp only [hl2, World.request]
      · intro n hn
        rw [e5 n hn]
        simp only [hl2, World.request]
    · simp only [hp] at h
      simp at h

/-! ### All selector terms -/

theorem reserveNodes_terms_true (env : Env) :
    ∀ (terms : List NodeSelectorTerm) (s : Slice) (w : World) (s2 : Slice) (w2 : World),
      reserveNodes_terms env terms s w = some (true, s2, w2) →
      s2 = s ∧ ∃ added : List Entry,
        w2.log = w.log ++ added ∧
        (patchedNodes (patchNode_patchArr "reservation" s.name) added).length =
          s.nodeSelector.count.toNat * terms.length ∧
        w2.nodes.map Node.name = w.nodes.map Node.name ∧
        (∀ n ∈ w2.nodes,
          n.name ∈ patchedNodes (patchNode_patchArr "reservation" s.name) added →
          labelOf n.labels "edge-net.io/access" = "public" ∧
          labelOf n.labels "edge-net.io/slice" = "none" ∧
          labelOf n.labels "edge-net.io/pre-reservation" = s.name) ∧
        (∀ n : Node, n.name ∉ patchedNodes (patchNode_patchArr "reservation" s.name) added →
          (n ∈ w2.nodes ↔ n ∈ w.nodes)) ∧
        ((w.nodes.map Node.name).Nodup → s.name ≠ "none" →
          (patchedNodes (patchNode_patchArr "reservation" s.name) added).Nodup ∧
          ∀ p ∈ patchedNodes (patchNode_patchArr "reservation" s.name) added,
            ∃ n ∈ w.nodes, n.name = p ∧ reserveNodes_accepts s n = true) ∧
        (terms.length ≤ 1 → (w.nodes.map Node.name).Nodup →
          (patchedNodes (patchNode_patchArr "reservation" s.name) added).Nodup) := by
  intro terms
  induction terms with
  | nil =>
    intro s w s2 w2 h
    simp only [reserveNodes_terms, Option.some.injEq, Prod.mk.injEq, true_and] at h
    obtain ⟨hs, hw⟩ := h
    subst hs hw
    exact ⟨rfl, [], by simp, by simp [patchedNodes], rfl, by simp [patchedNodes],
      by simp, by simp [patchedNodes], by simp [patchedNodes]⟩
  | cons term rest ih =>
    intro s w s2 w2 h
    simp only [reserveNodes_terms] at h
    cases ht : reserveNodes_term env s term w with
    | none => rw [ht] at h; simp at h
    | some r =>
      obtain ⟨b, s1, w1⟩ := r
      rw [ht] at h
      cases b with
      | false => simp at h
      | true =>
        simp only at h
        obtain ⟨hs1, picked, ok, hlog1, hlen1, hacc1, hnd1, hnames1, hheld1, hother1⟩ :=
          reserveNodes_term_true env s term w s1 w1 ht
        subst hs1
        obtain ⟨hs2, added2, hlog2, hlen2, hnames2, hheld2, hother2, hcond2, _⟩ :=
          ih s1 w1 s2 w2 h
        have hpn : patchedNodes (patchNode_patchArr "reservation" s1.name)
            (Entry.mk (Action.listNodes (reserveNodes_selector term.matchExpressions)
                (reserveNodes_selector term.matchFields)) ok ::
              picked.map (fun p =>
                Entry.mk (Action.patchNode p (patchNode_patchArr "reservation" s1.name)) true)
              ++ added2) =
            picked ++ patchedNodes (patchNode_patchArr "reservation" s1.name) added2 := by
          rw [← List.singleton_append, List.append_assoc, patchedNodes_append,
            patchedNodes_append, patchedNodes_patches]
          simp [patchedNodes]
        refine ⟨hs2, Entry.mk (Action.listNodes (reserveNodes_selector term.matchExpressions)
                (reserveNodes_selector term.matchFields)) ok ::
              picked.map (fun p =>
                Entry.mk (Action.patchNode p (patchNode_patchArr "reservation" s1.name)) true)
              ++ added2, ?_, ?_, ?_, ?_, ?_, ?_, ?_⟩
        · rw [hlog2, hlog1, List.append_assoc]
        · rw [hpn, List.length_append, hlen1, hlen2, List.length_cons]
          ring
        · rw [hnames2, hnames1]
        · intro n hn hmem
          rw [hpn] at hmem
          by_cases h2 : n.name ∈ patchedNodes (patchNode_patchArr "reservation" s1.name) added2
          · exact hheld2 n hn h2
          · have h1 : n.name ∈ picked := by
              rcases List.mem_append.1 hmem with h1 | h1
              · exact h1
              · exact absurd h1 h2
            exact hheld1 n ((hother2 n h2).1 hn) h1
        · intro n hn
          rw [hpn] at hn
          simp only [List.mem_append, not_or] at hn
          rw [hother2 n hn.2, hother1 n hn.1]
        · intro hnd hname
          have hndw1 : (w1.nodes.map Node.name).Nodup := by rw [hnames1]; exact hnd
          obtain ⟨hnd2, hacc2⟩ := hcond2 hndw1 hname
          have hdisj : ∀ p ∈ patchedNodes (patchNode_patchArr "reservation" s1.name) added2,
              p ∉ picked := by
            intro p hp hpp
            obtain ⟨n, hn, hnp, ha⟩ := hacc2 p hp
            have hpre := (accepts_unheld s1 n ha).2.2
            have := (hheld1 n hn (by rw [hnp]; exact hpp)).2.2
            rw [this] at hpre
            exact hname hpre
          rw [hpn]
          refine ⟨?_, ?_⟩
          · rw [List.nodup_append]
            refine ⟨hnd1 hnd, hnd2, ?_⟩
            intro p hp1 hp2
            exact hdisj p hp2 hp1
          · intro p hp
            rcases List.mem_append.1 hp with h1 | h1
            · exact hacc1 p h1
            · obtain ⟨n, hn, hnp, ha⟩ := hacc2 p h1
              have hnot : n.name ∉ picked := by rw [hnp]; exact hdisj p h1
              exact ⟨n, (hother1 n hnot).1 hn, hnp, ha⟩
        · intro hlen hnd
          have hrest : rest = [] := by
            cases rest with
            | nil => rfl
            | cons a b => simp at hlen
          subst hrest
          simp only [reserveNodes_terms, Option.some.injEq, Prod.mk.injEq, true_and] at h
          have hw : w1 = w2 := h.2
          subst hw
          have hadd : added2 = [] := by
            have := hlog2
            simpa using this
          subst hadd
          rw [hpn]
          simpa [patchedNodes] using hnd1 hnd

/-- C1, as amended (reservation count): when `reserveNodes` runs on a Slice that is not
Reserved, Bound or Provisioned and returns true, the state is Reserved and the nodes it
patched to the reservation state number `count` (0 for a negative count) for each
selector term, `count` times the number of terms in all; each of them carries access
`public`, slice `none` and the Slice name as pre-reservation afterwards.  With unique node
names they are pairwise distinct when there is at most one term, and for any number of
terms when the Slice is not itself called `none`. -/
theorem C1_reservation_count (env : Env) (s : Slice) (w : World) (s2 : Slice) (w2 : World)
    (hstate : s.status.state ≠ "Reserved" ∧ s.status.state ≠ "Bound" ∧
      s.status.state ≠ "Provisioned")
    (hres : reserveNodes env s w = some (true, s2, w2)) :
    s2.status.state = "Reserved" ∧ s2.status.message = "Desired resources are reserved" ∧
    ∃ added : List Entry, w2.log = w.log ++ added ∧
      (patchedNodes (patchNode_patchArr "reservation" s.name) added).length =
        s.nodeSelector.count.toNat * s.nodeSelector.selectorTerms.length ∧
      (∀ n ∈ w2.nodes, n.name ∈ patchedNodes (patchNode_patchArr "reservation" s.name) added →
        labelOf n.labels "edge-net.io/access" = "public" ∧
        labelOf n.labels "edge-net.io/slice" = "none" ∧
        labelOf n.labels "edge-net.io/pre-reservation" = s.name) ∧
      (s.nodeSelector.selectorTerms.length ≤ 1 → (w.nodes.map Node.name).Nodup →
        (patchedNodes (patchNode_patchArr "reservation" s.name) added).Nodup) ∧
      ((w.nodes.map Node.name).Nodup → s.name ≠ "none" →
        (patchedNodes (patchNode_patchArr "reservation" s.name) added).Nodup) := by
  have hcond : s.status.state ≠ reserved ∧ s.status.state ≠ bound ∧
      s.status.state ≠ provisioned := hstate
  unfold reserveNodes at hres
  rw [if_pos hcond] at hres
  cases ht : reserveNodes_terms env s.nodeSelector.selectorTerms s w with
  | none => rw [ht] at hres; simp at hres
  | some r =>
    obtain ⟨b, s1, w1⟩ := r
    rw [ht] at hres
    cases b with
    | false => simp at hres
    | true =>
      simp only [Option.some.injEq, Prod.mk.injEq, true_and] at hres
      obtain ⟨hs, hw⟩ := hres
      obtain ⟨hs1, added, hlog, hlen, _, hheld, _, hcond2, hone⟩ :=
        reserveNodes_terms_true env _ s w s1 w1 ht
      subst hs hw
      have hpn : patchedNodes (patchNode_patchArr "reservation" s.name)
          (added ++ [Entry.mk (Action.event "Normal" "Reserved" messageReserved) true]) =
          patchedNodes (patchNode_patchArr "reservation" s.name) added := by
        rw [patchedNodes_append]
        simp [patchedNodes]
      refine ⟨rfl, rfl, added ++ [Entry.mk (Action.event "Normal" "Reserved" messageReserved)
        true], ?_, ?_, ?_, ?_, ?_⟩
      · simp only [World.event, hlog, List.append_assoc]
      · rw [hpn]; exact hlen
      · rw [hpn]; exact hheld
      · rw [hpn]; exact hone
      · rw [hpn]
        intro hnd hname
        exact (hcond2 hnd hname).1

/-- Witness for C1, Scenario A: one selector term, 3 eligible nodes and count 2; the call
returns true and exactly 2 distinct nodes are patched. -/
theorem C1_reservation_count_witness :
    (scenarioA_slice.status.state ≠ "Reserved" ∧ scenarioA_slice.status.state ≠ "Bound" ∧
      scenarioA_slice.status.state ≠ "Provisioned") ∧
    ∃ s2 w2, reserveNodes quietEnv scenarioA_slice scenarioA_world = some (true, s2, w2) ∧
      s2.status.state = "Reserved" ∧
      ∃ added : List Entry, w2.log = scenarioA_world.log ++ added ∧
        (patchedNodes (patchNode_patchArr "reservation" "edge-slice-1") added).length = 2 ∧
        (patchedNodes (patchNode_patchArr "reservation" "edge-slice-1") added).Nodup := by
  refine ⟨by decide, ?_⟩
  have h : (reserveNodes quietEnv scenarioA_slice scenarioA_world).map Prod.fst = some true := by
    decide
  cases hr : reserveNodes quietEnv scenarioA_slice scenarioA_world with
  | none => rw [hr] at h; simp at h
  | some r =>
    obtain ⟨b, s2, w2⟩ := r
    rw [hr] at h
    simp only [Option.map_some', Option.some.injEq] at h
    subst h
    obtain ⟨h1, _, added, h3, h4, _, h6, _⟩ :=
      C1_reservation_count quietEnv scenarioA_slice scenarioA_world s2 w2 (by decide) hr
    exact ⟨s2, w2, rfl, h1, added, h3, h4, h6 (by decide) (by decide)⟩

/-- Counterexample to C1 as stated: a Slice with count 2 and no selector term.
`reserveNodes` returns true and sets the state Reserved, and the pass logs nothing but
the event: no node is patched. -/
theorem C1_counterexample_no_terms :
    (noTerms_slice.status.state ≠ "Reserved" ∧ noTerms_slice.status.state ≠ "Bound" ∧
      noTerms_slice.status.state ≠ "Provisioned") ∧
    noTerms_slice.nodeSelector.count = 2 ∧
    reserveNodes quietEnv noTerms_slice scenarioA_world =
      some (true,
        { noTerms_slice with
          status := { state := "Reserved", message := "Desired resources are reserved",
                      expiry := none } },
        { scenarioA_world with
          log := [Entry.mk (Action.event "Normal" "Reserved" "Desired resources are reserved")
            true] }) ∧
    patchedNodes (patchNode_patchArr "reservation" "edge-slice-1")
      [Entry.mk (Action.event "Normal" "Reserved" "Desired resources are reserved") true] =
      [] := by
  decide

/-! ### Failure of a reservation patch -/

theorem reserveNodes_terms_append (env : Env) :
    ∀ (pre rest : List NodeSelectorTerm) (s : Slice) (w0 : World) (s1 : Slice) (w : World),
      reserveNodes_terms env pre s w0 = some (true, s1, w) →
      reserveNodes_terms env (pre ++ rest) s w0 = reserveNodes_terms env rest s1 w := by
  intro pre
  induction pre with
  | nil =>
    intro rest s w0 s1 w h
    simp only [reserveNodes_terms, Option.some.injEq, Prod.mk.injEq, true_and] at h
    obtain ⟨hs, hw⟩ := h
    subst hs hw
    rfl
  | cons t ts ih =>
    intro rest s w0 s1 w h
    simp only [reserveNodes_terms, List.cons_append] at h ⊢
    cases ht : reserveNodes_term env s t w0 with
    | none => rw [ht] at h; simp at h
    | some r =>
      obtain ⟨b, sa, wa⟩ := r
      rw [ht] at h
      cases b with
      | false => simp at h
      | true =>
        simp only at h ⊢
        exact ih rest sa wa s1 w h

/-- C2 (rollback completeness within a batch): in a run of `reserveNodes` on a Slice that
is not Reserved, Bound or Provisioned, take the selector term whose batch `picked` comes
out of the pick loop, the earlier terms having succeeded.  If the first `k` reservation
patches of the batch succeed, the next one fails and the compensating patches succeed,
then `reserveNodes` returns false with state Failure and message "Node patch operation
has failed", and every node of the batch, the first `k` among them, exists and carries
access `public`, slice `none` and pre-reservation `none`. -/
theorem C2_rollback_within_batch (env : Env) (s : Slice) (w0 w : World)
    (pre post : List NodeSelectorTerm) (term : NodeSelectorTerm) (s1 : Slice)
    (picked : List String) (w1 : World) (k : Nat)
    (hstate : s.status.state ≠ "Reserved" ∧ s.status.state ≠ "Bound" ∧
      s.status.state ≠ "Provisioned")
    (hterms : s.nodeSelector.selectorTerms = pre ++ term :: post)
    (hpre : reserveNodes_terms env pre s w0 = some (true, s1, w))
    (henough : ¬ ((reserveNodes_list env s term w).1.length : Int) < s.nodeSelector.count)
    (hpick : reserveNodes_pick env s.nodeSelector.count.toNat (reserveNodes_list env s term w).1
      [] (reserveNodes_list env s term w).2 = some (picked, w1))
    (hk : k < picked.length)
    (hok : ∀ i, i < k → env.fails (w1.tick + i) = false)
    (hfail : env.fails (w1.tick + k) = true)
    (hreturn : ∀ j, j < picked.length → env.fails (w1.tick + k + 1 + j) = false) :
    ∃ s2 w2, reserveNodes env s w0 = some (false, s2, w2) ∧
      s2.status.state = "Failure" ∧ s2.status.message = "Node patch operation has failed" ∧
      (∀ p ∈ picked, p ∈ w2.nodes.map Node.name) ∧
      ∀ n ∈ w2.nodes, n.name ∈ picked →
        labelOf n.labels "edge-net.io/access" = "public" ∧
        labelOf n.labels "edge-net.io/slice" = "none" ∧
        labelOf n.labels "edge-net.io/pre-reservation" = "none" := by
  have hcond : s.status.state ≠ reserved ∧ s.status.state ≠ bound ∧
      s.status.state ≠ provisioned := hstate
  have hs1 : s1 = s := (reserveNodes_terms_true env pre s w0 s1 w hpre).1
  subst hs1
  obtain ⟨ok, hl2⟩ := reserveNodes_list_snd env s1 term w
  have hle : s1.nodeSelector.count.toNat ≤ (reserveNodes_list env s1 term w).1.length := by
    omega
  obtain ⟨new, rest, hpick2, _, hperm⟩ :=
    reserveNodes_pick_spec env s1.nodeSelector.count.toNat (reserveNodes_list env s1 term w).1
      [] (reserveNodes_list env s1 term w).2 hle
  rw [hpick] at hpick2
  simp only [List.nil_append, Option.some.injEq, Prod.mk.injEq] at hpick2
  obtain ⟨hpk, hw1⟩ := hpick2
  subst hpk
  have hnodes1 : w1.nodes = w.nodes := by rw [hw1, hl2]; rfl
  have hex : ∀ p ∈ picked, p ∈ w1.nodes.map Node.name := by
    intro p hp
    obtain ⟨n, hn, e, _⟩ := reserveNodes_list_mem env s1 term w p
      (hperm.subset (List.mem_append_left _ hp))
    rw [hnodes1]
    exact List.mem_map.2 ⟨n, hn, e⟩
  obtain ⟨f1, f2, f3⟩ := reserveNodes_patch_fails env picked s1 w1 k hk hex hok hfail
  have hnames : (reserveNodes_patch env picked s1 w1).2.2.nodes.map Node.name =
      w1.nodes.map Node.name := reserveNodes_patch_names env picked s1 w1
  have hex2 : ∀ p ∈ picked, p ∈ (reserveNodes_patch env picked s1 w1).2.2.nodes.map Node.name := by
    intro p hp
    rw [hnames]
    exact hex p hp
  have hret2 : ∀ j, j < picked.length →
      env.fails ((reserveNodes_patch env picked s1 w1).2.2.tick + j) = false := by
    intro j hj
    rw [f3]
    exact hreturn j hj
  have hterm : reserveNodes_term env s1 term w =
      some (false, (reserveNodes_patch env picked s1 w1).2.1,
        reserveNodes_return env picked (reserveNodes_patch env picked s1 w1).2.2) := by
    unfold reserveNodes_term
    dsimp only
    rw [if_neg henough, hpick]
    simp only [f1]
    simp
  refine ⟨(reserveNodes_patch env picked s1 w1).2.1,
    reserveNodes_return env picked (reserveNodes_patch env picked s1 w1).2.2, ?_, ?_, ?_, ?_, ?_⟩
  · unfold reserveNodes
    rw [if_pos hcond, hterms, reserveNodes_terms_append env pre (term :: post) s1 w0 s1 w hpre]
    simp only [reserveNodes_terms, hterm]
  · rw [f2]; rfl
  · rw [f2]; rfl
  · intro p hp
    rw [reserveNodes_return_names]
    exact hex2 p hp
  · exact reserveNodes_return_spec env picked _ hex2 hret2

/-- Witness for C2: two eligible nodes and count 2; the pick loop yields the batch
`n1`, `n2`, the reservation patch of `n2` fails and both return patches succeed. -/
theorem C2_rollback_within_batch_witness :
    ∃ s2 w2, reserveNodes thirdFailsEnv scenarioA_slice rollback_world = some (false, s2, w2) ∧
      s2.status.state = "Failure" ∧ s2.status.message = "Node patch operation has failed" ∧
      (∀ p ∈ ["n1", "n2"], p ∈ w2.nodes.map Node.name) ∧
      ∀ n ∈ w2.nodes, n.name ∈ ["n1", "n2"] →
        labelOf n.labels "edge-net.io/access" = "public" ∧
        labelOf n.labels "edge-net.io/slice" = "none" ∧
        labelOf n.labels "edge-net.io/pre-reservation" = "none" :=
  C2_rollback_within_batch thirdFailsEnv scenarioA_slice rollback_world rollback_world
    [] [] { matchExpressions := [], matchFields := [] } scenarioA_slice ["n1", "n2"]
    { rollback_world with
      tick := 1, draws := 2,
      log := [Entry.mk (Action.listNodes "" "") true] } 1
    (by decide) (by decide) (by decide) (by decide) (by decide) (by decide)
    (by intro i hi; have : i = 0 := by omega
        subst this; decide)
    (by decide)
    (by intro j hj
        have hj2 : j < 2 := hj
        have : j = 0 ∨ j = 1 := by omega
        rcases this with h | h <;> subst h <;> decide)

/-- C3 (code at the failing input): a Slice with two selector terms and count 1 over a
cluster with one eligible node.  The node is patched for the first term, the second term
finds no candidate, and `reserveNodes` returns false in state Failure while the node
stays labelled with the Slice name as pre-reservation: no return patch is issued. -/
theorem C3_earlier_term_not_rolled_back :
    (reserveNodes quietEnv twoTerms_slice oneNode_world).map
        (fun r => (r.1, r.2.1.status, r.2.2.nodes, r.2.2.log)) =
      some (false,
        { state := "Failure", message := "There are no adequate resources to slice",
          expiry := none },
        [{ name := "n1",
           labels := [("edge-net.io/access", "public"), ("edge-net.io/slice", "none"),
             ("edge-net.io/pre-reservation", "edge-slice-1")],
           capacity := [("cpu", 4)] }],
        [Entry.mk (Action.listNodes "" "") true,
         Entry.mk (Action.patchNode "n1" (patchNode_patchArr "reservation" "edge-slice-1")) true,
         Entry.mk (Action.listNodes "" "") true,
         Entry.mk (Action.event "Warning" "Slice Failed"
           "There are no adequate resources to slice") true]) := by
  decide

/-- C6 (code at the failing input): a Provisioned Slice whose claim is Applied and
controlled by it.  Another pass of `processSlice` patches the node again and deletes the
pod running on it. -/
theorem C6_provisioned_pass_evicts_again :
    (processSlice quietEnv provisioned_slice (provisioned_world "Applied")).map
        (fun r => (r.1.status.state, r.2.pods, r.2.log)) =
      some ("Provisioned", [],
        [Entry.mk (Action.getSliceClaim "tenant-a" "claim-1") true,
         Entry.mk (Action.listNodes "edge-net.io/pre-reservation=edge-slice-1" "") true,
         Entry.mk (Action.patchNode "n1" (patchNode_patchArr "slice" "edge-slice-1")) true,
         Entry.mk (Action.listPods "spec.nodeName=n1") true,
         Entry.mk (Action.deletePod "tenant-a" "web-0" 0) true]) := by
  decide

/-- C8 (code at the failing input): a Provisioned Slice whose claim, controlled by it, is
in state Bound.  The pass of `processSlice` fetches the claim, sets the Slice to Bound and
writes that status to the stored Slice; node `n1` is still private to the Slice. -/
theorem C8_provisioned_pass_sets_bound :
    provisioned_slice.status.state = "Provisioned" ∧
    (processSlice quietEnv provisioned_slice (provisioned_world "Bound")).map
        (fun r => (r.1.status.state, r.2.slices.map (fun s => s.status.state),
          r.2.nodes.map (fun n => mapGet n.labels "edge-net.io/access"),
          r.2.log.map (fun e => e.ok))) =
      some ("Bound", ["Bound"], [some "private"], [true, true, true]) ∧
    (processSlice quietEnv provisioned_slice (provisioned_world "Bound")).map
        (fun r => r.2.log.take 2) =
      some [Entry.mk (Action.getSliceClaim "tenant-a" "claim-1") true,
        Entry.mk (Action.event "Normal" "Bound" "Slice is bound successfully") true] := by
  decide

/-! ### Frame of `reserveNodes` -/

theorem NodeRun.refl (w : World) : NodeRun w w :=
  ⟨⟨[], by simp, by simp⟩, rfl, rfl, rfl, rfl, rfl, rfl, rfl⟩

theorem NodeRun.trans {w1 w2 w3 : World} (h1 : NodeRun w1 w2) (h2 : NodeRun w2 w3) :
    NodeRun w1 w3 := by
  obtain ⟨⟨a1, l1, p1⟩, n1, b1, c1, d1, e1, f1, g1⟩ := h1
  obtain ⟨⟨a2, l2, p2⟩, n2, b2, c2, d2, e2, f2, g2⟩ := h2
  refine ⟨⟨a1 ++ a2, by rw [l2, l1, List.append_assoc], ?_⟩, by rw [n2, n1], by rw [b2, b1],
    by rw [c2, c1], by rw [d2, d1], by rw [e2, e1], by rw [f2, f1], by rw [g2, g1]⟩
  intro e he
  rcases List.mem_append.1 he with h | h
  · exact p1 e h
  · exact p2 e h

theorem NodeRun.of_event (w : World) (t r m : String) : NodeRun w (w.event t r m) :=
  ⟨⟨[Entry.mk (Action.event t r m) true], rfl, by simp [Action.isNodeRequestOrEvent]⟩,
    rfl, rfl, rfl, rfl, rfl, rfl, rfl⟩

theorem NodeRun.of_draws (w : World) (d : Nat) : NodeRun w { w with draws := d } :=
  ⟨⟨[], by simp, by simp⟩, rfl, rfl, rfl, rfl, rfl, rfl, rfl⟩

theorem NodeRun.of_patchNode (env : Env) (kind slice node : String) (w : World) :
    NodeRun w (patchNode env kind slice node w).2 := by
  obtain ⟨_, f2, f3, f4, f5, f6, f7⟩ := patchNode_frame env kind slice node w
  refine ⟨⟨_, patchNode_log env kind slice node w, ?_⟩, patchNode_names env kind slice node w,
    f2, f3, f4, f5, f6, f7⟩
  simp [Action.isNodeRequestOrEvent]

theorem NodeRun.of_list (env : Env) (s : Slice) (term : NodeSelectorTerm) (w : World) :
    NodeRun w (reserveNodes_list env s term w).2 := by
  obtain ⟨ok, h⟩ := reserveNodes_list_snd env s term w
  rw [h]
  exact ⟨⟨_, rfl, by simp [Action.isNodeRequestOrEvent]⟩, rfl, rfl, rfl, rfl, rfl, rfl, rfl⟩

theorem reserveNodes_pick_world (env : Env) :
    ∀ (n : Nat) (nodeList picked : List String) (w : World) (p2 : List String) (w1 : World),
      reserveNodes_pick env n nodeList picked w = some (p2, w1) →
      w1 = { w with draws := w.draws + n } := by
  intro n
  induction n with
  | zero =>
    intro nodeList picked w p2 w1 h
    simp only [reserveNodes_pick, Option.some.injEq, Prod.mk.injEq] at h
    rw [← h.2]
    rfl
  | succ n ih =>
    intro nodeList picked w p2 w1 h
    simp only [reserveNodes_pick] at h
    split at h
    · exact Option.noConfusion h
    · split at h
      · have := ih _ _ _ _ _ h
        rw [this]
        simp only [World.mk.injEq, true_and, and_true]
        omega
      · exact Option.noConfusion h

theorem NodeRun.of_patchLoop (env : Env) :
    ∀ (picked : List String) (s : Slice) (w : World),
      NodeRun w (reserveNodes_patch env picked s w).2.2 := by
  intro picked
  induction picked with
  | nil => intro s w; exact NodeRun.refl w
  | cons p rest ih =>
    intro s w
    simp only [reserveNodes_patch]
    split
    · exact (NodeRun.of_patchNode env _ _ p w).trans (ih s _)
    · exact (NodeRun.of_patchNode env _ _ p w).trans (NodeRun.of_event _ _ _ _)

theorem NodeRun.of_returnLoop (env : Env) :
    ∀ (picked : List String) (w : World), NodeRun w (reserveNodes_return env picked w) := by
  intro picked
  induction picked with
  | nil => intro w; exact NodeRun.refl w
  | cons p rest ih =>
    intro w
    simp only [reserveNodes_return]
    split
    · exact (NodeRun.of_patchNode env _ _ p w).trans (ih _)
    · exact ((NodeRun.of_patchNode env _ _ p w).trans (NodeRun.of_event _ _ _ _)).trans (ih _)

theorem NodeRun.of_term (env : Env) (s : Slice) (term : NodeSelectorTerm) (w : World)
    (b : Bool) (s2 : Slice) (w2 : World)
    (h : reserveNodes_term env s term w = some (b, s2, w2)) : NodeRun w w2 := by
  unfold reserveNodes_term at h
  dsimp only at h
  split at h
  · simp only [Option.some.injEq, Prod.mk.injEq] at h
    rw [← h.2.2]
    exact (NodeRun.of_list env s term w).trans (NodeRun.of_event _ _ _ _)
  · split at h
    · exact Option.noConfusion h
    · rename_i picked w1 hpick
      have hw1 := reserveNodes_pick_world env _ _ _ _ _ _ hpick
      have r1 : NodeRun w w1 := by
        rw [hw1]
        exact (NodeRun.of_list env s term w).trans (NodeRun.of_draws _ _)
      split at h
      · simp only [Option.some.injEq, Prod.mk.injEq] at h
        rw [← h.2.2]
        exact r1.trans (NodeRun.of_patchLoop env picked s w1)
      · simp only [Option.some.injEq, Prod.mk.injEq] at h
        rw [← h.2.2]
        exact (r1.trans (NodeRun.of_patchLoop env picked s w1)).trans (NodeRun.of_returnLoop env _ _)

theorem NodeRun.of_terms (env : Env) :
    ∀ (terms : List NodeSelectorTerm) (s : Slice) (w : World) (b : Bool) (s2 : Slice)
      (w2 : World), reserveNodes_terms env terms s w = some (b, s2, w2) → NodeRun w w2 := by
  intro terms
  induction terms with
  | nil =>
    intro s w b s2 w2 h
    simp only [reserveNodes_terms, Option.some.injEq, Prod.mk.injEq] at h
    rw [← h.2.2]
    exact NodeRun.refl w
  | cons t ts ih =>
    intro s w b s2 w2 h
    simp only [reserveNodes_terms] at h
    cases ht : reserveNodes_term env s t w with
    | none => rw [ht] at h; simp at h
    | some r =>
      obtain ⟨b1, s1, w1⟩ := r
      rw [ht] at h
      have r1 := NodeRun.of_term env s t w b1 s1 w1 ht
      cases b1 with
      | false =>
        simp only [Option.some.injEq, Prod.mk.injEq] at h
        rw [← h.2.2]
        exact r1
      | true =>
        simp only at h
        exact r1.trans (ih s1 w1 b s2 w2 h)

theorem NodeRun.of_reserveNodes (env : Env) (s : Slice) (w : World) (b : Bool) (s2 : Slice)
    (w2 : World) (h : reserveNodes env s w = some (b, s2, w2)) : NodeRun w w2 := by
  unfold reserveNodes at h
  split at h
  · cases ht : reserveNodes_terms env s.nodeSelector.selectorTerms s w with
    | none => rw [ht] at h; simp at h
    | some r =>
      obtain ⟨b1, s1, w1⟩ := r
      rw [ht] at h
      have r1 := NodeRun.of_terms env _ s w b1 s1 w1 ht
      cases b1 with
      | false =>
        simp only [Option.some.injEq, Prod.mk.injEq] at h
        rw [← h.2.2]
        exact r1
      | true =>
        simp only [Option.some.injEq, Prod.mk.injEq] at h
        rw [← h.2.2]
        exact r1.trans (NodeRun.of_event _ _ _ _)
  · simp only [Option.some.injEq, Prod.mk.injEq] at h
    rw [← h.2.2]
    exact NodeRun.refl w

theorem reserveNodes_term_total (env : Env) (s : Slice) (term : NodeSelectorTerm) (w : World) :
    ∃ r, reserveNodes_term env s term w = some r := by
  unfold reserveNodes_term
  dsimp only
  split
  · exact ⟨_, rfl⟩
  · rename_i hlt
    have hle : s.nodeSelector.count.toNat ≤ (reserveNodes_list env s term w).1.length := by
      omega
    obtain ⟨new, rest, hpick, _, _⟩ :=
      reserveNodes_pick_spec env s.nodeSelector.count.toNat (reserveNodes_list env s term w).1
        [] (reserveNodes_list env s term w).2 hle
    rw [hpick]
    dsimp only
    split <;> exact ⟨_, rfl⟩

theorem reserveNodes_terms_total (env : Env) :
    ∀ (terms : List NodeSelectorTerm) (s : Slice) (w : World),
      ∃ r, reserveNodes_terms env terms s w = some r := by
  intro terms
  induction terms with
  | nil => intro s w; exact ⟨_, rfl⟩
  | cons t ts ih =>
    intro s w
    obtain ⟨r, hr⟩ := reserveNodes_term_total env s t w
    obtain ⟨b, s1, w1⟩ := r
    simp only [reserveNodes_terms, hr]
    cases b with
    | false => exact ⟨_, rfl⟩
    | true => exact ih s1 w1

theorem reserveNodes_total (env : Env) (s : Slice) (w : World) :
    ∃ r, reserveNodes env s w = some r := by
  unfold reserveNodes
  split
  · obtain ⟨r, hr⟩ := reserveNodes_terms_total env s.nodeSelector.selectorTerms s w
    obtain ⟨b, s1, w1⟩ := r
    rw [hr]
    cases b <;> exact ⟨_, rfl⟩
  · exact ⟨_, rfl⟩

theorem reserveNodes_skip (env : Env) (s : Slice) (w : World)
    (h : s.status.state = "Reserved" ∨ s.status.state = "Bound" ∨
      s.status.state = "Provisioned") :
    reserveNodes env s w = some (true, s, w) := by
  unfold reserveNodes
  have : ¬ (s.status.state ≠ reserved ∧ s.status.state ≠ bound ∧
      s.status.state ≠ provisioned) := by
    simp only [reserved, bound, provisioned]
    rcases h with h | h | h <;> simp [h]
  rw [if_neg this]

/-! ### The claim step of `processSlice` -/

theorem provisionSlice_slice (env : Env) (s : Slice) (w : World) :
    (provisionSlice env s w).1 = s ∨
      (provisionSlice env s w).1 =
        { s with status := { s.status with state := provisioned } } := by
  unfold provisionSlice
  dsimp only
  split
  · exact Or.inr rfl
  · exact Or.inl rfl

theorem syncWithSliceClaim_cases (env : Env) (s : Slice) (c : SliceClaim) (w : World) :
    (syncWithSliceClaim env s c w).1 = s ∨
    ((∃ o, getControllerOf c.ownerReferences = some o ∧ o.kind = "Slice" ∧ o.uid = s.uid) ∧
      c.status.state = "Applied" ∧
      syncWithSliceClaim env s c w = provisionSlice env s w) ∨
    ((∃ o, getControllerOf c.ownerReferences = some o ∧ o.kind = "Slice" ∧ o.uid = s.uid) ∧
      c.status.state ≠ "Failure" ∧ c.status.state ≠ "Applied" ∧
      (syncWithSliceClaim env s c w).1 =
        { s with status := { s.status with state := bound, message := messageBound } } ∧
      (syncWithSliceClaim env s c w).2 =
        if c.status.state ≠ bound then
          (updateSliceClaimStatus env
            { c with status := { state := bound, message := messageBound } }
            (w.event "Normal" "Bound" messageBound)).2
        else w.event "Normal" "Bound" messageBound) := by
  unfold syncWithSliceClaim
  cases ho : getControllerOf c.ownerReferences with
  | none => exact Or.inl rfl
  | some o =>
    dsimp only
    by_cases hk : o.kind = "Slice"
    · rw [if_pos hk]
      by_cases hu : o.uid = s.uid
      · rw [if_neg (not_not.2 hu)]
        by_cases hf : c.status.state = failure
        · rw [if_pos hf]
          exact Or.inl rfl
        · rw [if_neg hf]
          by_cases ha : c.status.state = applied
          · rw [if_pos ha]
            exact Or.inr (Or.inl ⟨⟨o, rfl, hk, hu⟩, ha, rfl⟩)
          · rw [if_neg ha]
            refine Or.inr (Or.inr ⟨⟨o, rfl, hk, hu⟩, hf, ha, ?_, ?_⟩)
            · split <;> rfl
            · split <;> rfl
      · rw [if_pos hu]
        exact Or.inl rfl
    · rw [if_neg hk]
      exact Or.inl rfl

theorem syncWithSliceClaim_bind (env : Env) (s : Slice) (c : SliceClaim) (w : World)
    (o : OwnerReference) (ho : getControllerOf c.ownerReferences = some o)
    (hk : o.kind = "Slice") (hu : o.uid = s.uid)
    (hf : c.status.state ≠ "Failure") (ha : c.status.state ≠ "Applied") :
    (syncWithSliceClaim env s c w).1 =
      { s with status := { s.status with state := bound, message := messageBound } } := by
  have hf2 : ¬ c.status.state = failure := hf
  have ha2 : ¬ c.status.state = applied := ha
  unfold syncWithSliceClaim
  rw [ho]
  dsimp only
  rw [if_pos hk, if_neg (not_not.2 hu), if_neg hf2, if_neg ha2]
  split <;> rfl

theorem processSlice_claim_cases (env : Env) (s : Slice) (w : World) :
    (processSlice_claim env true s w).1 = s ∨
    ∃ ref c, s.claimRef = some ref ∧
      (getSliceClaim env ref.ns ref.name w).1 = GetResult.found c ∧
      processSlice_claim env true s w =
        syncWithSliceClaim env s c (getSliceClaim env ref.ns ref.name w).2 := by
  unfold processSlice_claim
  cases hr : s.claimRef with
  | none => exact Or.inl rfl
  | some ref =>
    dsimp only
    cases hg : (getSliceClaim env ref.ns ref.name w).1 with
    | notFound => exact Or.inl rfl
    | found c =>
      dsimp only
      rw [if_pos rfl]
      exact Or.inr ⟨ref, c, rfl, hg, rfl⟩
    | otherError =>
      dsimp only
      rw [if_pos rfl]
      exact Or.inl rfl

theorem processSlice_of_state (env : Env) (s : Slice) (w : World)
    (h : s.status.state = "Reserved" ∨ s.status.state = "Bound" ∨
      s.status.state = "Provisioned") :
    processSlice env s w =
      if s.status.expiry.isSome ∧ s.status.expiry.getD 0 - env.now ≤ 0 then
        some (s, deleteSlice env s.name (w.event "Warning" "Expired" messageExpired))
      else
        some ((processSlice_claim env true s w).1,
          processSlice_statusUpdate env s.status (processSlice_claim env true s w).1
            (processSlice_claim env true s w).2) := by
  unfold processSlice
  rw [reserveNodes_skip env s w h]

/-- State after a pass: on a Slice in state Reserved, Bound or
Provisioned a pass of `processSlice` returns, leaves the state as it was or sets it to
Bound or to Provisioned, and never sets Failure: from Reserved the result is Reserved,
Bound or Provisioned, from Bound it is Bound or Provisioned, and from Provisioned it is
Provisioned or Bound.  From Provisioned the result is Bound exactly when the Slice has not
expired, the claim named by `claimRef` is fetched, its controller owner is this Slice and
its state is neither Failure nor Applied. -/
theorem processSlice_state_after_pass (env : Env) (s : Slice) (w : World)
    (hstate : s.status.state = "Reserved" ∨ s.status.state = "Bound" ∨
      s.status.state = "Provisioned") :
    ∃ r, processSlice env s w = some r ∧
      (s.status.state = "Reserved" →
        r.1.status.state = "Reserved" ∨ r.1.status.state = "Bound" ∨
          r.1.status.state = "Provisioned") ∧
      (s.status.state = "Bound" →
        r.1.status.state = "Bound" ∨ r.1.status.state = "Provisioned") ∧
      (s.status.state = "Provisioned" →
        r.1.status.state = "Provisioned" ∨ r.1.status.state = "Bound") ∧
      r.1.status.state ≠ "Failure" ∧
      (s.status.state = "Provisioned" →
        (r.1.status.state = "Bound" ↔
          ¬ (s.status.expiry.isSome ∧ s.status.expiry.getD 0 - env.now ≤ 0) ∧
          ∃ ref c o, s.claimRef = some ref ∧
            (getSliceClaim env ref.ns ref.name w).1 = GetResult.found c ∧
            getControllerOf c.ownerReferences = some o ∧ o.kind = "Slice" ∧
            o.uid = s.uid ∧ c.status.state ≠ "Failure" ∧ c.status.state ≠ "Applied")) := by
  rw [processSlice_of_state env s w hstate]
  have key : (processSlice_claim env true s w).1.status.state = s.status.state ∨
      (processSlice_claim env true s w).1.status.state = "Provisioned" ∨
      ((processSlice_claim env true s w).1.status.state = "Bound" ∧
        ∃ ref c o, s.claimRef = some ref ∧
          (getSliceClaim env ref.ns ref.name w).1 = GetResult.found c ∧
          getControllerOf c.ownerReferences = some o ∧ o.kind = "Slice" ∧
          o.uid = s.uid ∧ c.status.state ≠ "Failure" ∧ c.status.state ≠ "Applied") := by
    rcases processSlice_claim_cases env s w with h | ⟨ref, c, hr, hg, he⟩
    · exact Or.inl (by rw [h])
    · rw [he]
      rcases syncWithSliceClaim_cases env s c (getSliceClaim env ref.ns ref.name w).2 with
        h | ⟨_, _, h⟩ | ⟨⟨o, ho, hk, hu⟩, hf, ha, h, _⟩
      · exact Or.inl (by rw [h])
      · rw [h]
        rcases provisionSlice_slice env s (getSliceClaim env ref.ns ref.name w).2 with h2 | h2
        · exact Or.inl (by rw [h2])
        · exact Or.inr (Or.inl (by rw [h2]; rfl))
      · exact Or.inr (Or.inr ⟨by rw [h]; rfl, ref, c, o, hr, hg, ho, hk, hu, hf, ha⟩)
  by_cases hexp : s.status.expiry.isSome ∧ s.status.expiry.getD 0 - env.now ≤ 0
  · rw [if_pos hexp]
    refine ⟨_, rfl, ?_, ?_, ?_, ?_, ?_⟩
    · intro h; exact Or.inl h
    · intro h; exact Or.inl h
    · intro h; exact Or.inl h
    · rcases hstate with h | h | h <;> simp [h]
    · intro h
      simp [h, hexp]
  · rw [if_neg hexp]
    refine ⟨_, rfl, ?_, ?_, ?_, ?_, ?_⟩
    · intro h
      rcases key with k | k | ⟨k, _⟩
      · exact Or.inl (by rw [k, h])
      · exact Or.inr (Or.inr k)
      · exact Or.inr (Or.inl k)
    · intro h
      rcases key with k | k | ⟨k, _⟩
      · exact Or.inl (by rw [k, h])
      · exact Or.inr k
      · exact Or.inl k
    · intro h
      rcases key with k | k | ⟨k, _⟩
      · exact Or.inl (by rw [k, h])
      · exact Or.inl k
      · exact Or.inr k
    · dsimp only
      rcases key with k | k | ⟨k, _⟩
      · rw [k]
        rcases hstate with h | h | h <;> simp [h]
      · simp [k]
      · simp [k]
    · intro h
      dsimp only
      constructor
      · intro hb
        refine ⟨hexp, ?_⟩
        rcases key with k | k | ⟨_, k⟩
        · rw [k, h] at hb
          simp at hb
        · rw [k] at hb
          simp at hb
        · exact k
      · rintro ⟨_, ref, c, o, hr, hg, ho, hk, hu, hf, ha⟩
        have e : processSlice_claim env true s w =
            syncWithSliceClaim env s c (getSliceClaim env ref.ns ref.name w).2 := by
          unfold processSlice_claim
          rw [hr]
          dsimp only
          rw [hg]
          dsimp only
          rw [if_pos rfl]
        rw [e, syncWithSliceClaim_bind env s c _ o ho hk hu hf ha]
        rfl

/-- Example: the Provisioned Slice whose claim, controlled by it, is in state
Bound; the pass returns and leaves the Slice in state Bound. -/
theorem processSlice_state_after_pass_example :
    (provisioned_slice.status.state = "Reserved" ∨ provisioned_slice.status.state = "Bound" ∨
      provisioned_slice.status.state = "Provisioned") ∧
    ∃ r, processSlice quietEnv provisioned_slice (provisioned_world "Bound") = some r ∧
      (r.1.status.state = "Provisioned" ∨ r.1.status.state = "Bound") ∧
      r.1.status.state ≠ "Failure" := by
  obtain ⟨r, h1, _, _, h4, h5, _⟩ :=
    processSlice_state_after_pass quietEnv provisioned_slice (provisioned_world "Bound")
      (Or.inr (Or.inr rfl))
  exact ⟨Or.inr (Or.inr rfl), r, h1, h4 rfl, h5⟩

/-! ### Frame of the requests of `processSlice` -/

theorem getSliceClaim_snd (env : Env) (ns name : String) (w : World) :
    ∃ ok : Bool, (getSliceClaim env ns name w).2 = w.request (Action.getSliceClaim ns name) ok := by
  unfold getSliceClaim
  split
  · exact ⟨_, rfl⟩
  · split <;> exact ⟨_, rfl⟩

theorem getSliceClaim_found (env : Env) (ns name : String) (w : World) (c : SliceClaim)
    (h : (getSliceClaim env ns name w).1 = GetResult.found c) :
    w.claims.find? (fun x => x.ns = ns ∧ x.name = name) = some c := by
  unfold getSliceClaim at h
  split at h
  · exact GetResult.noConfusion h
  · split at h
    · rename_i x hx
      have e : x = c := by injection h
      rw [← e]
      exact hx
    · exact GetResult.noConfusion h

theorem updateSliceClaimStatus_claims (env : Env) (obj : SliceClaim) (w : World)
    (h : (updateSliceClaimStatus env obj w).1 = true) :
    (updateSliceClaimStatus env obj w).2.claims =
      w.claims.map (fun (c : SliceClaim) =>
        if c.ns = obj.ns ∧ c.name = obj.name then { c with status := obj.status } else c) := by
  unfold updateSliceClaimStatus at h ⊢
  split
  · rename_i hf
    rw [if_pos hf] at h
    exact Bool.noConfusion h
  · split
    · rfl
    · rename_i hf hany
      rw [if_neg hf, if_neg hany] at h
      exact Bool.noConfusion h

theorem find_after_status_update (claims : List SliceClaim) (ns name : String)
    (st : SliceClaimStatus) (c : SliceClaim)
    (h : claims.find? (fun x => x.ns = ns ∧ x.name = name) = some c) :
    (claims.map (fun (x : SliceClaim) =>
        if x.ns = ns ∧ x.name = name then { x with status := st } else x)).find?
      (fun x => x.ns = ns ∧ x.name = name) = some { c with status := st } := by
  induction claims with
  | nil => simp at h
  | cons a rest ih =>
    by_cases ha : a.ns = ns ∧ a.name = name
    · have hc : a = c := by
        simp only [List.find?_cons, ha, and_self, decide_True] at h
        exact Option.some.inj h
      subst hc
      simp only [List.map_cons, ha, and_self, if_true, List.find?_cons, decide_True]
    · have hrest : rest.find? (fun x => x.ns = ns ∧ x.name = name) = some c := by
        simp only [List.find?_cons, ha, decide_False] at h
        exact h
      simp only [List.map_cons, ha, if_false, List.find?_cons, decide_False]
      exact ih hrest

theorem updateSliceStatus_frame (env : Env) (obj : Slice) (w : World) :
    (updateSliceStatus env obj w).2.claims = w.claims ∧
    (updateSliceStatus env obj w).2.nodes = w.nodes ∧
    (updateSliceStatus env obj w).2.pods = w.pods ∧
    ∃ ok : Bool, (updateSliceStatus env obj w).2.log =
      w.log ++ [Entry.mk (Action.updateSliceStatus obj) ok] := by
  unfold updateSliceStatus
  split
  · exact ⟨rfl, rfl, rfl, _, rfl⟩
  · split <;> exact ⟨rfl, rfl, rfl, _, rfl⟩

theorem deletePod_frame (env : Env) (ns name : String) (g : Int) (w : World) :
    (deletePod env ns name g w).claims = w.claims ∧
    ∃ ok : Bool, (deletePod env ns name g w).log =
      w.log ++ [Entry.mk (Action.deletePod ns name g) ok] := by
  unfold deletePod
  split
  · exact ⟨rfl, _, rfl⟩
  · split <;> exact ⟨rfl, _, rfl⟩

theorem listPods_snd (env : Env) (sel : String) (w : World) :
    (listPods env sel w).2 = w.request (Action.listPods sel) (listPods env sel w).1.isSome := by
  unfold listPods
  split <;> rfl

theorem provisionSlice_pods_claims (env : Env) :
    ∀ (pods : List Pod) (w : World), (provisionSlice_pods env pods w).claims = w.claims := by
  intro pods
  induction pods with
  | nil => intro w; rfl
  | cons p rest ih =>
    intro w
    simp only [provisionSlice_pods]
    rw [ih, (deletePod_frame env p.ns p.name 0 w).1]

theorem provisionSlice_nodes_claims (env : Env) (sliceName : String) :
    ∀ (items : List Node) (w : World),
      (provisionSlice_nodes env sliceName items w).claims = w.claims := by
  intro items
  induction items with
  | nil => intro w; rfl
  | cons n rest ih =>
    intro w
    simp only [provisionSlice_nodes]
    split
    · rw [ih, provisionSlice_pods_claims, listPods_snd]
      exact (patchNode_frame env "slice" sliceName n.name w).2.2.2.1
    · rw [ih, listPods_snd]
      exact (patchNode_frame env "slice" sliceName n.name w).2.2.2.1

theorem provisionSlice_claims (env : Env) (s : Slice) (w : World) :
    (provisionSlice env s w).2.claims = w.claims := by
  unfold provisionSlice
  dsimp only
  split
  · dsimp only
    rw [provisionSlice_nodes_claims, listNodes_snd]
    rfl
  · rw [listNodes_snd]
    rfl

theorem reserveNodes_slice (env : Env) (s : Slice) (w : World) (b : Bool) (s1 : Slice)
    (w1 : World) (h : reserveNodes env s w = some (b, s1, w1)) :
    s1.claimRef = s.claimRef ∧ s1.uid = s.uid ∧ s1.name = s.name ∧
      (s1.status.state = s.status.state ∨ s1.status.state = "Reserved" ∨
        s1.status.state = "Failure") := by
  rcases hb : b with _ | _
  · subst hb
    unfold reserveNodes at h
    split at h
    · cases ht : reserveNodes_terms env s.nodeSelector.selectorTerms s w with
      | none => rw [ht] at h; simp at h
      | some r =>
        obtain ⟨b1, s2, w2⟩ := r
        rw [ht] at h
        cases b1 with
        | true => simp at h
        | false =>
          simp only [Option.some.injEq, Prod.mk.injEq, true_and] at h
          obtain ⟨hs, _⟩ := h
          subst hs
          have key : ∀ (terms : List NodeSelectorTerm) (w : World) (s2 : Slice) (w2 : World),
              reserveNodes_terms env terms s w = some (false, s2, w2) →
              s2.claimRef = s.claimRef ∧ s2.uid = s.uid ∧ s2.name = s.name ∧
                s2.status.state = "Failure" := by
            intro terms
            induction terms with
            | nil => intro w s2 w2 h; simp [reserveNodes_terms] at h
            | cons t ts ih =>
              intro w s2 w2 h
              simp only [reserveNodes_terms] at h
              cases htt : reserveNodes_term env s t w with
              | none => rw [htt] at h; simp at h
              | some r =>
                obtain ⟨b2, s3, w3⟩ := r
                rw [htt] at h
                cases b2 with
                | true =>
                  simp only at h
                  have := (reserveNodes_term_true env s t w s3 w3 htt).1
                  subst this
                  exact ih w3 s2 w2 h
                | false =>
                  simp only [Option.some.injEq, Prod.mk.injEq, true_and] at h
                  obtain ⟨hs, _⟩ := h
                  subst hs
                  unfold reserveNodes_term at htt
                  dsimp only at htt
                  split at htt
                  · simp only [Option.some.injEq, Prod.mk.injEq, true_and] at htt
                    rw [← htt.1]
                    exact ⟨rfl, rfl, rfl, rfl⟩
                  · split at htt
                    · exact Option.noConfusion htt
                    · rename_i picked w4 _
                      split at htt
                      · simp at htt
                      · rename_i hp
                        simp only [Option.some.injEq, Prod.mk.injEq, true_and] at htt
                        rw [← htt.1]
                        have hpl : ∀ (picked : List String) (w : World),
                            (reserveNodes_patch env picked s w).1 = false →
                            (reserveNodes_patch env picked s w).2.1 =
                              { s with status := { s.status with
                                  state := failure, message := messagePatchFailed } } := by
                          intro picked
                          induction picked with
                          | nil => intro w h; simp [reserveNodes_patch] at h
                          | cons p rest ih2 =>
                            intro w h
                            simp only [reserveNodes_patch] at h ⊢
                            split
                            · rename_i hq
                              rw [if_pos hq] at h
                              exact ih2 _ h
                            · rfl
                        rw [hpl picked w4 (by simpa using hp)]
                        exact ⟨rfl, rfl, rfl, rfl⟩
          obtain ⟨k1, k2, k3, k4⟩ := key _ w s2 w2 ht
          exact ⟨k1, k2, k3, Or.inr (Or.inr k4)⟩
    · simp at h
  · subst hb
    unfold reserveNodes at h
    split at h
    · cases ht : reserveNodes_terms env s.nodeSelector.selectorTerms s w with
      | none => rw [ht] at h; simp at h
      | some r =>
        obtain ⟨b1, s2, w2⟩ := r
        rw [ht] at h
        cases b1 with
        | false => simp at h
        | true =>
          simp only [Option.some.injEq, Prod.mk.injEq, true_and] at h
          obtain ⟨hs, _⟩ := h
          have := (reserveNodes_terms_true env _ s w s2 w2 ht).1
          subst this
          rw [← hs]
          exact ⟨rfl, rfl, rfl, Or.inr (Or.inl rfl)⟩
    · simp only [Option.some.injEq, Prod.mk.injEq, true_and] at h
      rw [← h.1]
      exact ⟨rfl, rfl, rfl, Or.inl rfl⟩

theorem processSlice_claim_false (env : Env) (s : Slice) (w : World) :
    (processSlice_claim env false s w).1 = s := by
  unfold processSlice_claim
  cases s.claimRef with
  | none => rfl
  | some ref =>
    dsimp only
    cases (getSliceClaim env ref.ns ref.name w).1 <;> rfl

theorem processSlice_statusUpdate_frame (env : Env) (old : SliceStatus) (s : Slice)
    (w : World) :
    (processSlice_statusUpdate env old s w).claims = w.claims ∧
    ∃ added, (processSlice_statusUpdate env old s w).log = w.log ++ added := by
  unfold processSlice_statusUpdate
  split
  · obtain ⟨h1, _, _, ok, h2⟩ := updateSliceStatus_frame env s w
    exact ⟨h1, _, h2⟩
  · exact ⟨rfl, [], by simp⟩

/-- C7, as amended (binding invariant of a pass): after a pass of `processSlice` in which
every write request succeeded and which changed the state of the Slice to Bound or to
Provisioned, the Slice has a `claimRef`, the SliceClaim it names is stored with state
Bound or Applied, and the controller owner of that claim is this Slice.  Nothing is
established about `spec.sliceName` of the claim, which `processSlice` does not read. -/
theorem C7_binding_after_pass (env : Env) (s : Slice) (w : World) (r : Slice × World)
    (hrun : processSlice env s w = some r)
    (hwrites : ∀ e ∈ r.2.log.drop w.log.length, e.action.isWrite = true → e.ok = true)
    (hend : r.1.status.state = "Bound" ∨ r.1.status.state = "Provisioned")
    (hchange : r.1.status.state ≠ s.status.state) :
    ∃ ref c, r.1.claimRef = some ref ∧
      r.2.claims.find? (fun x => x.ns = ref.ns ∧ x.name = ref.name) = some c ∧
      (c.status.state = "Bound" ∨ c.status.state = "Applied") ∧
      ∃ o, getControllerOf c.ownerReferences = some o ∧ o.kind = "Slice" ∧
        o.uid = r.1.uid := by
  unfold processSlice at hrun
  by_cases hexp : s.status.expiry.isSome ∧ s.status.expiry.getD 0 - env.now ≤ 0
  · rw [if_pos hexp] at hrun
    have : r.1 = s := by
      have := Option.some.inj hrun
      rw [← this]
    rw [this] at hchange
    exact absurd rfl hchange
  · rw [if_neg hexp] at hrun
    obtain ⟨⟨b, s1, w1⟩, hrn⟩ := reserveNodes_total env s w
    rw [hrn] at hrun
    dsimp only at hrun
    have hr := Option.some.inj hrun
    obtain ⟨hcr, huid, _, hst⟩ := reserveNodes_slice env s w b s1 w1 hrn
    obtain ⟨⟨added1, hlog1, _⟩, _, _, _, hclaims1, _⟩ := NodeRun.of_reserveNodes env s w b s1 w1 hrn
    have hbad : ∀ x : Slice, r.1 = x → x.status.state = s1.status.state → False := by
      intro x hx hxs
      rw [hx, hxs] at hend hchange
      rcases hst with h | h | h
      · exact hchange h
      · rw [h] at hend
        rcases hend with h2 | h2 <;> simp at h2
      · rw [h] at hend
        rcases hend with h2 | h2 <;> simp at h2
    obtain ⟨hfc, addedU, hlogU⟩ := processSlice_statusUpdate_frame env s.status
      (processSlice_claim env b s1 w1).1 (processSlice_claim env b s1 w1).2
    have hr1 : r.1 = (processSlice_claim env b s1 w1).1 := by rw [← hr]
    have hr2 : r.2 = processSlice_statusUpdate env s.status (processSlice_claim env b s1 w1).1
        (processSlice_claim env b s1 w1).2 := by rw [← hr]
    cases b with
    | false =>
      exact (hbad s1 (by rw [hr1, processSlice_claim_false]) rfl).elim
    | true =>
      rcases processSlice_claim_cases env s1 w1 with h | ⟨ref, c, hcref, hg, he⟩
      · exact (hbad s1 (by rw [hr1, h]) rfl).elim
      · obtain ⟨okg, hg2⟩ := getSliceClaim_snd env ref.ns ref.name w1
        have hfind := getSliceClaim_found env ref.ns ref.name w1 c hg
        have hcname : c.ns = ref.ns ∧ c.name = ref.name := by
          simpa using List.find?_some hfind
        rcases syncWithSliceClaim_cases env s1 c (getSliceClaim env ref.ns ref.name w1).2 with
          h | ⟨⟨o, ho, hk, hu⟩, hap, h⟩ | ⟨⟨o, ho, hk, hu⟩, hf, ha, h1, h2⟩
        · exact (hbad s1 (by rw [hr1, he, h]) rfl).elim
        · have hstate1 : r.1 = (provisionSlice env s1 (getSliceClaim env ref.ns ref.name w1).2).1 := by
            rw [hr1, he, h]
          have hcl : r.2.claims = w1.claims := by
            rw [hr2, hfc, he, h, provisionSlice_claims, hg2]
            rfl
          have hfields : r.1.claimRef = s1.claimRef ∧ r.1.uid = s1.uid := by
            rw [hstate1]
            rcases provisionSlice_slice env s1 (getSliceClaim env ref.ns ref.name w1).2 with
              h3 | h3 <;> rw [h3] <;> exact ⟨rfl, rfl⟩
          refine ⟨ref, c, by rw [hfields.1, hcref], by rw [hcl]; exact hfind, Or.inr hap,
            o, ho, hk, by rw [hfields.2]; exact hu⟩
        · have hfields : r.1.claimRef = s1.claimRef ∧ r.1.uid = s1.uid := by
            rw [hr1, he, h1]
            exact ⟨rfl, rfl⟩
          by_cases hcb : c.status.state = bound
          · have hw : (syncWithSliceClaim env s1 c (getSliceClaim env ref.ns ref.name w1).2).2 =
                (getSliceClaim env ref.ns ref.name w1).2.event "Normal" "Bound" messageBound := by
              rw [h2, if_neg (not_not.2 hcb)]
            have hcl : r.2.claims = w1.claims := by
              rw [hr2, hfc, he, hw, hg2]
              rfl
            exact ⟨ref, c, by rw [hfields.1, hcref], by rw [hcl]; exact hfind, Or.inl hcb,
              o, ho, hk, by rw [hfields.2]; exact hu⟩
          · have hw : (syncWithSliceClaim env s1 c (getSliceClaim env ref.ns ref.name w1).2).2 =
                (updateSliceClaimStatus env
                  { c with status := { state := bound, message := messageBound } }
                  ((getSliceClaim env ref.ns ref.name w1).2.event "Normal" "Bound"
                    messageBound)).2 := by
              rw [h2, if_pos hcb]
            have hlogP : (processSlice_claim env true s1 w1).2.log =
                w.log ++ (added1 ++ [Entry.mk (Action.getSliceClaim ref.ns ref.name) okg,
                  Entry.mk (Action.event "Normal" "Bound" messageBound) true,
                  Entry.mk (Action.updateSliceClaimStatus
                    { c with status := { state := bound, message := messageBound } })
                    (updateSliceClaimStatus env
                      { c with status := { state := bound, message := messageBound } }
                      ((getSliceClaim env ref.ns ref.name w1).2.event "Normal" "Bound"
                        messageBound)).1]) := by
              rw [he, hw, updateSliceClaimStatus_log, hg2]
              simp only [World.event, World.request, hlog1, List.append_assoc,
                List.singleton_append]
              rfl
            have hok : (updateSliceClaimStatus env
                  { c with status := { state := bound, message := messageBound } }
                  ((getSliceClaim env ref.ns ref.name w1).2.event "Normal" "Bound"
                    messageBound)).1 = true := by
              have hmem : Entry.mk (Action.updateSliceClaimStatus
                    { c with status := { state := bound, message := messageBound } })
                    (updateSliceClaimStatus env
                      { c with status := { state := bound, message := messageBound } }
                      ((getSliceClaim env ref.ns ref.name w1).2.event "Normal" "Bound"
                        messageBound)).1 ∈ r.2.log.drop w.log.length := by
                rw [hr2, hlogU, hlogP, List.append_assoc, List.drop_left]
                simp
              exact hwrites _ hmem rfl
            have hcl : r.2.claims =
                w1.claims.map (fun (x : SliceClaim) =>
                  if x.ns = ref.ns ∧ x.name = ref.name then
                    { x with status := { state := bound, message := messageBound } }
                  else x) := by
              rw [hr2, hfc, he, hw, updateSliceClaimStatus_claims _ _ _ hok, hg2]
              simp only [World.event, World.request, hcname.1, hcname.2]
            refine ⟨ref, { c with status := { state := bound, message := messageBound } },
              by rw [hfields.1, hcref], ?_, Or.inl rfl, o, ho, hk, by rw [hfields.2]; exact hu⟩
            rw [hcl]
            exact find_after_status_update w1.claims ref.ns ref.name _ c hfind

/-- Witness for C7: the Reserved Slice whose claim, controlled by it, is in state
Requested; the pass sets the Slice to Bound and stores the claim as Bound. -/
theorem C7_binding_after_pass_witness :
    ∃ r, processSlice quietEnv reserved_slice (provisioned_world "Requested") = some r ∧
      (∀ e ∈ r.2.log.drop (provisioned_world "Requested").log.length,
        e.action.isWrite = true → e.ok = true) ∧
      r.1.status.state = "Bound" ∧ r.1.status.state ≠ reserved_slice.status.state ∧
      ∃ ref c, r.1.claimRef = some ref ∧
        r.2.claims.find? (fun x => x.ns = ref.ns ∧ x.name = ref.name) = some c ∧
        (c.status.state = "Bound" ∨ c.status.state = "Applied") := by
  have hall : (processSlice quietEnv reserved_slice (provisioned_world "Requested")).map
      (fun r => (r.1.status.state,
        (r.2.log.drop (provisioned_world "Requested").log.length).all
          (fun e => !e.action.isWrite || e.ok))) = some ("Bound", true) := by
    decide
  cases hr : processSlice quietEnv reserved_slice (provisioned_world "Requested") with
  | none => rw [hr] at hall; simp at hall
  | some r =>
    rw [hr] at hall
    simp only [Option.map_some', Option.some.injEq, Prod.mk.injEq] at hall
    obtain ⟨hst, hw⟩ := hall
    have hwrites : ∀ e ∈ r.2.log.drop (provisioned_world "Requested").log.length,
        e.action.isWrite = true → e.ok = true := by
      intro e he hwr
      have := List.all_eq_true.1 hw e he
      simpa [hwr] using this
    have hne : r.1.status.state ≠ reserved_slice.status.state := by
      rw [hst]
      decide
    obtain ⟨ref, c, h1, h2, h3, _⟩ :=
      C7_binding_after_pass quietEnv reserved_slice (provisioned_world "Requested") r hr
        hwrites (Or.inl hst) hne
    exact ⟨r, rfl, hwrites, hst, hne, ref, c, h1, h2, h3⟩

/-- Counterexample to C7 as stated, in two passes whose requests all succeed.  In the
first the Reserved Slice `edge-slice-1` is set to Bound while the claim it names, stored
as Bound, has `spec.sliceName` `other-slice`.  In the second a Slice already in state
Bound and without `claimRef` is left in state Bound. -/
theorem C7_counterexample_name_and_claimRef :
    (processSlice quietEnv reserved_slice otherName_world).map
        (fun r => (r.1.name, r.1.status.state, r.2.log.all (fun e => e.ok))) =
      some ("edge-slice-1", "Bound", true) ∧
    (processSlice quietEnv reserved_slice otherName_world).map
        (fun r => r.2.claims.map (fun c => (c.ns, c.name, c.sliceName, c.status.state))) =
      some [("tenant-a", "claim-1", "other-slice", "Bound")] ∧
    reserved_slice.claimRef = some claim1_ref ∧
    (processSlice quietEnv unclaimed_bound_slice scenarioA_world).map
        (fun r => (r.1.status.state, r.1.claimRef, r.2.log.all (fun e => e.ok))) =
      some ("Bound", none, true) := by
  refine ⟨?_, ?_, ?_, ?_⟩
  · decide
  · decide
  · decide
  · decide

/-! ### Expiry -/

theorem deleteSlice_spec (env : Env) (name : String) (w : World) :
    ∃ ok : Bool,
      (deleteSlice env name w).log = w.log ++ [Entry.mk (Action.deleteSlice name) ok] ∧
      (deleteSlice env name w).nodes = w.nodes ∧
      (deleteSlice env name w).pods = w.pods ∧
      (deleteSlice env name w).claims = w.claims ∧
      (deleteSlice env name w).subnamespaces = w.subnamespaces ∧
      (deleteSlice env name w).slices =
        (if ok then w.slices.filter (fun s => s.name ≠ name) else w.slices) := by
  unfold deleteSlice
  split
  · exact ⟨false, rfl, rfl, rfl, rfl, rfl, rfl⟩
  · split
    · exact ⟨true, rfl, rfl, rfl, rfl, rfl, rfl⟩
    · exact ⟨false, rfl, rfl, rfl, rfl, rfl, rfl⟩

/-- C11 (expiry): for a Slice whose `status.expiry` is set and not after the current
time, whatever its state and `claimRef`, the pass of `processSlice` returns with the
Slice copy untouched after recording the warning event and issuing one delete of that
Slice, and nothing else: the log grows by these two entries only, so there is no node
listing or patch, no SliceClaim read or write and no Slice status update; nodes, pods,
claims and SubNamespaces are unchanged and the stored Slices are those of before, minus
the deleted one when the delete succeeds. -/
theorem C11_expiry_deletes_only (env : Env) (s : Slice) (w : World) (t : Int)
    (hexp : s.status.expiry = some t) (hpast : t ≤ env.now) :
    ∃ (w2 : World) (ok : Bool), processSlice env s w = some (s, w2) ∧
      w2.log = w.log ++
        [Entry.mk (Action.event "Warning" "Expired" "Slice deleted successfully") true,
         Entry.mk (Action.deleteSlice s.name) ok] ∧
      w2.nodes = w.nodes ∧ w2.pods = w.pods ∧ w2.claims = w.claims ∧
      w2.subnamespaces = w.subnamespaces ∧
      w2.slices = (if ok then w.slices.filter (fun x => x.name ≠ s.name) else w.slices) := by
  have hcond : s.status.expiry.isSome ∧ s.status.expiry.getD 0 - env.now ≤ 0 := by
    rw [hexp]
    simp only [Option.isSome_some, Option.getD_some, true_and]
    omega
  obtain ⟨ok, h1, h2, h3, h4, h5, h6⟩ :=
    deleteSlice_spec env s.name (w.event "Warning" "Expired" messageExpired)
  refine ⟨deleteSlice env s.name (w.event "Warning" "Expired" messageExpired), ok, ?_, ?_,
    h2, h3, h4, h5, h6⟩
  · unfold processSlice
    rw [if_pos hcond]
  · rw [h1]
    simp only [World.event, List.append_assoc, List.singleton_append]
    rfl

/-- Witness for C11: a Bound Slice with a `claimRef` whose expiry is the current time. -/
theorem C11_expiry_deletes_only_witness :
    expired_slice.status.expiry = some 0 ∧ (0 : Int) ≤ quietEnv.now ∧
    ∃ (w2 : World) (ok : Bool),
      processSlice quietEnv expired_slice (provisioned_world "Bound") = some (expired_slice, w2) ∧
      w2.log = (provisioned_world "Bound").log ++
        [Entry.mk (Action.event "Warning" "Expired" "Slice deleted successfully") true,
         Entry.mk (Action.deleteSlice expired_slice.name) ok] ∧
      w2.nodes = (provisioned_world "Bound").nodes ∧
      w2.claims = (provisioned_world "Bound").claims := by
  obtain ⟨w2, ok, h1, h2, h3, _, h5, _⟩ :=
    C11_expiry_deletes_only quietEnv expired_slice (provisioned_world "Bound") 0
      (by decide) (by decide)
  exact ⟨by decide, by decide, w2, ok, h1, h2, h3, h5⟩

/-! ### The branches of `syncWithSliceClaim` -/

theorem updateSliceClaim_spec (env : Env) (obj : SliceClaim) (w : World) :
    (updateSliceClaim env obj w).2.log =
      w.log ++ [Entry.mk (Action.updateSliceClaim obj) (updateSliceClaim env obj w).1] ∧
    (updateSliceClaim env obj w).2.nodes = w.nodes ∧
    (updateSliceClaim env obj w).2.pods = w.pods ∧
    (updateSliceClaim env obj w).2.slices = w.slices ∧
    (updateSliceClaim env obj w).2.claims.map SliceClaim.status =
      w.claims.map SliceClaim.status := by
  unfold updateSliceClaim
  split
  · exact ⟨rfl, rfl, rfl, rfl, rfl⟩
  · split
    · refine ⟨rfl, rfl, rfl, rfl, ?_⟩
      simp only [World.request, List.map_map]
      apply List.map_congr_left
      intro c _
      simp only [Function.comp]
      split <;> rfl
    · exact ⟨rfl, rfl, rfl, rfl, rfl⟩

theorem updateSliceClaimStatus_frame (env : Env) (obj : SliceClaim) (w : World) :
    (updateSliceClaimStatus env obj w).2.nodes = w.nodes ∧
    (updateSliceClaimStatus env obj w).2.pods = w.pods ∧
    (updateSliceClaimStatus env obj w).2.slices = w.slices := by
  unfold updateSliceClaimStatus
  split
  · exact ⟨rfl, rfl, rfl⟩
  · split <;> exact ⟨rfl, rfl, rfl⟩

/-- C15 (first attach only adopts): when the claim has no controller owner reference,
`syncWithSliceClaim` issues one update of the claim whose owner references are the single
controller reference to this Slice, and nothing else: the Slice copy is returned as it
was, so neither Bound nor Provisioned is set, the log grows by that one request, no
Slice is deleted, and nodes, pods and the stored status of every claim are unchanged. -/
theorem C15_first_attach_adopts (env : Env) (s : Slice) (c : SliceClaim) (w : World)
    (howner : getControllerOf c.ownerReferences = none) :
    (syncWithSliceClaim env s c w).1 = s ∧
    (∃ ok : Bool, (syncWithSliceClaim env s c w).2.log =
      w.log ++ [Entry.mk (Action.updateSliceClaim
        { c with ownerReferences := [s.makeOwnerReference] }) ok]) ∧
    (s.makeOwnerReference.kind = "Slice" ∧ s.makeOwnerReference.uid = s.uid ∧
      s.makeOwnerReference.name = s.name ∧ s.makeOwnerReference.controller = true) ∧
    (syncWithSliceClaim env s c w).2.nodes = w.nodes ∧
    (syncWithSliceClaim env s c w).2.pods = w.pods ∧
    (syncWithSliceClaim env s c w).2.slices = w.slices ∧
    (syncWithSliceClaim env s c w).2.claims.map SliceClaim.status =
      w.claims.map SliceClaim.status := by
  obtain ⟨h1, h2, h3, h4, h5⟩ :=
    updateSliceClaim_spec env { c with ownerReferences := [s.makeOwnerReference] } w
  have e : syncWithSliceClaim env s c w =
      (s, (updateSliceClaim env { c with ownerReferences := [s.makeOwnerReference] } w).2) := by
    unfold syncWithSliceClaim
    rw [howner]
  rw [e]
  exact ⟨rfl, ⟨_, h1⟩, ⟨rfl, rfl, rfl, rfl⟩, h2, h3, h4, h5⟩

/-- Witness for C15: the claim of Scenario C, which has no owner reference, and the
Reserved Slice that names it. -/
theorem C15_first_attach_adopts_witness :
    getControllerOf scenarioC_claim.ownerReferences = none ∧
    (syncWithSliceClaim quietEnv reserved_slice scenarioC_claim scenarioC_world).1 =
      reserved_slice ∧
    (syncWithSliceClaim quietEnv reserved_slice scenarioC_claim scenarioC_world).2.nodes =
      scenarioC_world.nodes :=
  have h := C15_first_attach_adopts quietEnv reserved_slice scenarioC_claim scenarioC_world
    (by decide)
  ⟨by decide, h.1, h.2.2.2.1⟩

/-- C16 (losing Slice yields): when the controller owner of the claim is a Slice with
another UID, or is this Slice while the claim is in state Failure, `syncWithSliceClaim`
issues one delete of this Slice and nothing else: the Slice copy is returned as it was,
so neither Bound nor Provisioned is set, the log grows by that one request, and claims,
nodes and pods are unchanged. -/
theorem C16_losing_slice_yields (env : Env) (s : Slice) (c : SliceClaim) (w : World)
    (o : OwnerReference)
    (howner : getControllerOf c.ownerReferences = some o) (hkind : o.kind = "Slice")
    (hcase : o.uid ≠ s.uid ∨ (o.uid = s.uid ∧ c.status.state = "Failure")) :
    (syncWithSliceClaim env s c w).1 = s ∧
    (∃ ok : Bool, (syncWithSliceClaim env s c w).2.log =
      w.log ++ [Entry.mk (Action.deleteSlice s.name) ok]) ∧
    (syncWithSliceClaim env s c w).2.claims = w.claims ∧
    (syncWithSliceClaim env s c w).2.nodes = w.nodes ∧
    (syncWithSliceClaim env s c w).2.pods = w.pods := by
  obtain ⟨ok, h1, h2, h3, h4, _, _⟩ := deleteSlice_spec env s.name w
  have e : syncWithSliceClaim env s c w = (s, deleteSlice env s.name w) := by
    unfold syncWithSliceClaim
    rw [howner]
    dsimp only
    rw [if_pos hkind]
    rcases hcase with h | ⟨hu, hf⟩
    · rw [if_pos h]
    · have hf2 : c.status.state = failure := hf
      rw [if_neg (not_not.2 hu), if_pos hf2]
  rw [e]
  exact ⟨rfl, ⟨ok, h1⟩, h4, h2, h3⟩

/-- Witness for C16: the claim in state Failure controlled by the Slice itself. -/
theorem C16_losing_slice_yields_witness :
    getControllerOf (owned_claim "Failure").ownerReferences =
      some provisioned_slice.makeOwnerReference ∧
    (syncWithSliceClaim quietEnv provisioned_slice (owned_claim "Failure")
      (provisioned_world "Failure")).1 = provisioned_slice ∧
    (syncWithSliceClaim quietEnv provisioned_slice (owned_claim "Failure")
      (provisioned_world "Failure")).2.claims = (provisioned_world "Failure").claims :=
  have h := C16_losing_slice_yields quietEnv provisioned_slice (owned_claim "Failure")
    (provisioned_world "Failure") provisioned_slice.makeOwnerReference
    (by decide) (by decide) (Or.inr (by decide))
  ⟨by decide, h.1, h.2.2.1⟩

/-- C17 (binding step): when the controller owner of the claim is this Slice and the
claim is neither in state Failure nor Applied, `syncWithSliceClaim` sets the status of the
Slice to Bound with message "Slice is bound successfully" and leaves the rest of the
Slice as it was.  It records the event and then, exactly when the claim was not already
Bound, issues one status update of the claim with state Bound and that message; nothing
else is logged, so no node is patched, and nodes, pods and stored Slices are unchanged. -/
theorem C17_binding_step (env : Env) (s : Slice) (c : SliceClaim) (w : World)
    (o : OwnerReference)
    (howner : getControllerOf c.ownerReferences = some o) (hkind : o.kind = "Slice")
    (huid : o.uid = s.uid)
    (hstate : c.status.state ≠ "Failure" ∧ c.status.state ≠ "Applied") :
    (syncWithSliceClaim env s c w).1 =
      { s with status := { state := "Bound", message := "Slice is bound successfully",
                           expiry := s.status.expiry } } ∧
    (c.status.state ≠ "Bound" →
      ∃ ok : Bool, (syncWithSliceClaim env s c w).2.log =
        w.log ++ [Entry.mk (Action.event "Normal" "Bound" "Slice is bound successfully") true,
          Entry.mk (Action.updateSliceClaimStatus
            { c with status := { state := "Bound", message := "Slice is bound successfully" } })
            ok]) ∧
    (c.status.state = "Bound" →
      (syncWithSliceClaim env s c w).2.log =
        w.log ++ [Entry.mk (Action.event "Normal" "Bound" "Slice is bound successfully") true]) ∧
    (syncWithSliceClaim env s c w).2.nodes = w.nodes ∧
    (syncWithSliceClaim env s c w).2.pods = w.pods ∧
    (syncWithSliceClaim env s c w).2.slices = w.slices := by
  have hf2 : ¬ c.status.state = failure := hstate.1
  have ha2 : ¬ c.status.state = applied := hstate.2
  by_cases hb : c.status.state = bound
  · have e : syncWithSliceClaim env s c w =
        ({ s with status := { s.status with state := bound, message := messageBound } },
          w.event "Normal" "Bound" messageBound) := by
      unfold syncWithSliceClaim
      rw [howner]
      dsimp only
      rw [if_pos hkind, if_neg (not_not.2 huid), if_neg hf2, if_neg ha2,
        if_neg (not_not.2 hb)]
    rw [e]
    exact ⟨rfl, fun h => absurd hb h, fun _ => rfl, rfl, rfl, rfl⟩
  · have e : syncWithSliceClaim env s c w =
        ({ s with status := { s.status with state := bound, message := messageBound } },
          (updateSliceClaimStatus env
            { c with status := { state := bound, message := messageBound } }
            (w.event "Normal" "Bound" messageBound)).2) := by
      unfold syncWithSliceClaim
      rw [howner]
      dsimp only
      rw [if_pos hkind, if_neg (not_not.2 huid), if_neg hf2, if_neg ha2, if_pos hb]
    obtain ⟨f1, f2, f3⟩ := updateSliceClaimStatus_frame env
      { c with status := { state := bound, message := messageBound } }
      (w.event "Normal" "Bound" messageBound)
    rw [e]
    refine ⟨rfl, fun _ => ⟨(updateSliceClaimStatus env
        { c with status := { state := bound, message := messageBound } }
        (w.event "Normal" "Bound" messageBound)).1, ?_⟩, fun h => absurd h hb, ?_, ?_, ?_⟩
    · dsimp only
      rw [updateSliceClaimStatus_log]
      simp only [World.event, List.append_assoc, List.singleton_append]
      rfl
    · dsimp only; rw [f1]; rfl
    · dsimp only; rw [f2]; rfl
    · dsimp only; rw [f3]; rfl

/-- Witness for C17: the claim in state Requested controlled by the Reserved Slice. -/
theorem C17_binding_step_witness :
    getControllerOf (owned_claim "Requested").ownerReferences =
      some reserved_slice.makeOwnerReference ∧
    (syncWithSliceClaim quietEnv reserved_slice (owned_claim "Requested")
      (provisioned_world "Requested")).1.status.state = "Bound" ∧
    (syncWithSliceClaim quietEnv reserved_slice (owned_claim "Requested")
      (provisioned_world "Requested")).2.nodes = (provisioned_world "Requested").nodes :=
  have h := C17_binding_step quietEnv reserved_slice (owned_claim "Requested")
    (provisioned_world "Requested") reserved_slice.makeOwnerReference
    (by decide) (by decide) (by decide) (by decide)
  ⟨by decide, by rw [h.1], h.2.2.2.1⟩

/-! ### `reflect.DeepEqual` -/

theorem deepEqualMap_iff (a b : List (String × Int)) :
    deepEqualMap a b = true ↔
      a.length = b.length ∧ ∀ key value, (key, value) ∈ a → mapGet b key = some value := by
  simp [deepEqualMap]

theorem mapGet_eq_none {β : Type} (m : List (String × β)) (k : String) :
    mapGet m k = none ↔ k ∉ m.map Prod.fst := by
  induction m with
  | nil => simp [mapGet]
  | cons hd tl ih =>
    obtain ⟨a, b⟩ := hd
    by_cases h : a = k
    · simp [mapGet, h]
    · have h2 : ¬ k = a := fun e => h e.symm
      simp only [mapGet, if_neg h, ih, List.map_cons, List.mem_cons, h2, false_or]

/-- On maps, that is lists without a repeated key, `deepEqualMap` holds exactly when the
two lists bind every key alike: the order of the entries is not read. -/
theorem deepEqualMap_same_map (a b : List (String × Int)) (ha : (a.map Prod.fst).Nodup)
    (hb : (b.map Prod.fst).Nodup) :
    deepEqualMap a b = true ↔ ∀ key, mapGet a key = mapGet b key := by
  rw [deepEqualMap_iff]
  constructor
  · rintro ⟨hlen, hsub⟩ key
    have hkeys : a.map Prod.fst ⊆ b.map Prod.fst := by
      intro k hk
      obtain ⟨⟨k2, v⟩, hmem, rfl⟩ := List.mem_map.1 hk
      have h1 := hsub k2 v hmem
      by_contra hno
      rw [(mapGet_eq_none b k2).2 hno] at h1
      exact Option.noConfusion h1
    have hperm : (a.map Prod.fst).Perm (b.map Prod.fst) :=
      (List.Nodup.subperm ha hkeys).perm_of_length_le (by simp [hlen])
    cases hk : mapGet a key with
    | some v =>
      exact (hsub key v ((mem_iff_mapGet a ha key v).2 hk)).symm
    | none =>
      have h1 : key ∉ a.map Prod.fst := (mapGet_eq_none a key).1 hk
      have h2 : key ∉ b.map Prod.fst := fun h => h1 (hperm.mem_iff.2 h)
      exact ((mapGet_eq_none b key).2 h2).symm
  · intro h
    have hmem : ∀ k, k ∈ a.map Prod.fst ↔ k ∈ b.map Prod.fst := by
      intro k
      rw [← not_iff_not, ← mapGet_eq_none, ← mapGet_eq_none, h k]
    have hperm : (a.map Prod.fst).Perm (b.map Prod.fst) :=
      (List.perm_ext_iff_of_nodup ha hb).2 hmem
    refine ⟨by simpa using hperm.length_eq, ?_⟩
    intro key value hkv
    rw [← h key]
    exact (mem_iff_mapGet a ha key value).1 hkv

theorem deepEqualNodeSelector_iff (a b : NodeSelector) :
    deepEqualNodeSelector a b = true ↔
      a.selectorTerms = b.selectorTerms ∧ a.count = b.count ∧
      deepEqualMap a.resources.limits b.resources.limits = true ∧
      deepEqualMap a.resources.requests b.resources.requests = true ∧
      a.representation = b.representation := by
  simp [deepEqualNodeSelector, and_assoc]

/-- A node selector is deeply equal to itself and to its copies. -/
theorem deepEqualNodeSelector_self (a : NodeSelector)
    (hl : (a.resources.limits.map Prod.fst).Nodup)
    (hr : (a.resources.requests.map Prod.fst).Nodup) :
    deepEqualNodeSelector a a = true := by
  rw [deepEqualNodeSelector_iff]
  exact ⟨rfl, rfl, (deepEqualMap_same_map _ _ hl hl).2 (fun _ => rfl),
    (deepEqualMap_same_map _ _ hr hr).2 (fun _ => rfl), rfl⟩

/-- Examples: limits listed in another order are deeply equal; a selector that differs
in the representation only (the limit written `4000m` for `4`, or the requests an empty
map for nil) is not deeply equal; and a reference that carries a resource version is not
the reference made for the claim. -/
theorem deepEqual_examples :
    deepEqualMap [("cpu", 4), ("memory", 8)] [("memory", 8), ("cpu", 4)] = true ∧
    deepEqualNodeSelector scenarioA_selector
      { scenarioA_selector with representation := "limits cpu 4000m, requests nil" } =
      false ∧
    deepEqualNodeSelector scenarioA_selector
      { scenarioA_selector with representation := "limits cpu 4, requests empty" } =
      false ∧
    ({ claim1_ref with resourceVersion := "42" } : ObjectReference) ≠
      scenarioA_claim.makeObjectReference ∧
    claim1_ref = scenarioA_claim.makeObjectReference := by
  decide

/-! ### The decision table of `tieClaim2Slice` -/

/-- C20 (decision table of `tieClaim2Slice`): for every Slice and claim, whether or not the
Slice update succeeds, the status of the claim after `tieClaim2Slice` is Failure with
"Slice binding failed" when the Slice is in state Failure, whatever its `claimRef`;
otherwise Bound with "Slice is bound successfully" when `claimRef` is the reference of this
claim; Failure with "Slice is bound to another claim already" when `claimRef` is any
other reference; otherwise Requested with "Waiting for the slice" when the Slice is
Reserved, has the class name of the claim and a node selector equal to the claim's; and
Failure with "Slice binding failed" in the remaining case.  `claimSlice` returns this
result whenever it fetches the Slice named `spec.sliceName`.

Equality is the one the code tests, `reflect.DeepEqual`.  For `claimRef` it is equality
of all seven fields with the reference made for the claim, whose resource version and
field path are empty.  For the node selector it is equality of the terms, the count and
the representation, with limits and requests of the same length and every entry of the
Slice's bound alike in the claim's. -/
theorem C20_tieClaim2Slice_table (env : Env) (c : SliceClaim) (slice : Slice) (w : World) :
    (slice.status.state = "Failure" →
      (tieClaim2Slice env c slice w).2.1.status =
        { state := "Failure", message := "Slice binding failed" }) ∧
    (slice.status.state ≠ "Failure" → slice.claimRef = some c.makeObjectReference →
      (tieClaim2Slice env c slice w).2.1.status =
        { state := "Bound", message := "Slice is bound successfully" }) ∧
    (slice.status.state ≠ "Failure" →
      ∀ ref, slice.claimRef = some ref → ref ≠ c.makeObjectReference →
      (tieClaim2Slice env c slice w).2.1.status =
        { state := "Failure", message := "Slice is bound to another claim already" }) ∧
    (slice.status.state ≠ "Failure" → slice.claimRef = none →
      slice.status.state = "Reserved" ∧ slice.sliceClassName = c.sliceClassName ∧
        deepEqualNodeSelector slice.nodeSelector c.nodeSelector = true →
      (tieClaim2Slice env c slice w).2.1.status =
        { state := "Requested", message := "Waiting for the slice" }) ∧
    (slice.status.state ≠ "Failure" → slice.claimRef = none →
      ¬ (slice.status.state = "Reserved" ∧ slice.sliceClassName = c.sliceClassName ∧
        deepEqualNodeSelector slice.nodeSelector c.nodeSelector = true) →
      (tieClaim2Slice env c slice w).2.1.status =
        { state := "Failure", message := "Slice binding failed" }) ∧
    ((getSlice env c.sliceName w).1 = GetResult.found slice →
      claimSlice env c w = tieClaim2Slice env c slice (getSlice env c.sliceName w).2) ∧
    c.makeObjectReference =
      { apiVersion := "core.edgenet.io/v1alpha1", kind := "SliceClaim", ns := c.ns,
        name := c.name, uid := c.uid, resourceVersion := "", fieldPath := "" } ∧
    (deepEqualNodeSelector slice.nodeSelector c.nodeSelector = true ↔
      slice.nodeSelector.selectorTerms = c.nodeSelector.selectorTerms ∧
      slice.nodeSelector.count = c.nodeSelector.count ∧
      slice.nodeSelector.representation = c.nodeSelector.representation ∧
      (slice.nodeSelector.resources.limits.length = c.nodeSelector.resources.limits.length ∧
        ∀ key value, (key, value) ∈ slice.nodeSelector.resources.limits →
          mapGet c.nodeSelector.resources.limits key = some value) ∧
      (slice.nodeSelector.resources.requests.length =
          c.nodeSelector.resources.requests.length ∧
        ∀ key value, (key, value) ∈ slice.nodeSelector.resources.requests →
          mapGet c.nodeSelector.resources.requests key = some value)) := by
  refine ⟨?_, ?_, ?_, ?_, ?_, ?_, rfl, ?_⟩
  rotate_right
  · rw [deepEqualNodeSelector_iff, deepEqualMap_iff, deepEqualMap_iff]
    constructor
    · rintro ⟨h1, h2, h3, h4, h5⟩
      exact ⟨h1, h2, h5, h3, h4⟩
    · rintro ⟨h1, h2, h5, h3, h4⟩
      exact ⟨h1, h2, h3, h4, h5⟩
  · intro hf
    have hf2 : slice.status.state = failure := hf
    unfold tieClaim2Slice
    rw [if_pos hf2]
    rfl
  · intro hf hr
    have hf2 : ¬ slice.status.state = failure := hf
    unfold tieClaim2Slice
    rw [if_neg hf2, hr]
    dsimp only
    rw [if_pos rfl]
    rfl
  · intro hf ref hr hne
    have hf2 : ¬ slice.status.state = failure := hf
    unfold tieClaim2Slice
    rw [if_neg hf2, hr]
    dsimp only
    rw [if_neg hne]
    rfl
  · intro hf hr hm
    have hf2 : ¬ slice.status.state = failure := hf
    have hm2 : slice.status.state = reserved ∧ slice.sliceClassName = c.sliceClassName ∧
        deepEqualNodeSelector slice.nodeSelector c.nodeSelector = true := hm
    unfold tieClaim2Slice
    rw [if_neg hf2, hr]
    dsimp only
    rw [if_pos hm2]
    rfl
  · intro hf hr hm
    have hf2 : ¬ slice.status.state = failure := hf
    have hm2 : ¬ (slice.status.state = reserved ∧ slice.sliceClassName = c.sliceClassName ∧
        deepEqualNodeSelector slice.nodeSelector c.nodeSelector = true) := hm
    unfold tieClaim2Slice
    rw [if_neg hf2, hr]
    dsimp only
    rw [if_neg hm2]
    rfl
  · intro hg
    unfold claimSlice
    dsimp only
    rw [hg]

/-- Examples of the last two rows: the Reserved, unclaimed Slice `edge-slice-1` answers
Requested to `claim-1`, whose node selector is a copy of its own, and Failure when its
own selector writes the same limit in another representation; a `claimRef` that names
`claim-1` and carries a resource version answers Failure, bound to another claim. -/
theorem tieClaim2Slice_examples :
    (tieClaim2Slice quietEnv scenarioA_claim unclaimed_reserved_slice
      reservedSlice_world).2.1.status =
      { state := "Requested", message := "Waiting for the slice" } ∧
    (tieClaim2Slice quietEnv scenarioA_claim
      { unclaimed_reserved_slice with
        nodeSelector :=
          { scenarioA_selector with representation := "limits cpu 4000m, requests nil" } }
      reservedSlice_world).2.1.status =
      { state := "Failure", message := "Slice binding failed" } ∧
    (tieClaim2Slice quietEnv scenarioA_claim
      { unclaimed_reserved_slice with
        claimRef := some { claim1_ref with resourceVersion := "42" } }
      reservedSlice_world).2.1.status =
      { state := "Failure", message := "Slice is bound to another claim already" } := by
  decide

/-! ### Resource test of `reserveNodes` -/

theorem reserveNodes_limits_true (capacity : List (String × Int)) :
    ∀ (limits : List (String × Int)) (m : Bool),
      reserveNodes_limits limits capacity m = true ↔
        ((limits = [] ∧ m = true) ∨
          (limits ≠ [] ∧ ∀ e ∈ limits, quantityOf capacity e.1 ≤ e.2)) := by
  intro limits
  induction limits with
  | nil => intro m; simp [reserveNodes_limits]
  | cons hd tl ih =>
    intro m
    obtain ⟨key, value⟩ := hd
    simp only [reserveNodes_limits]
    by_cases hlt : value < quantityOf capacity key
    · rw [if_pos hlt]
      constructor
      · intro h; exact Bool.noConfusion h
      · rintro (⟨h, _⟩ | ⟨_, h⟩)
        · exact List.noConfusion h
        · have := h (key, value) (by simp)
          simp only at this
          omega
    · rw [if_neg hlt, ih true]
      constructor
      · rintro (⟨h, _⟩ | ⟨_, h⟩)
        · subst h
          refine Or.inr ⟨by simp, ?_⟩
          intro e he
          simp only [List.mem_singleton] at he
          subst he
          simp only
          omega
        · refine Or.inr ⟨by simp, ?_⟩
          intro e he
          rcases List.mem_cons.1 he with h2 | h2
          · subst h2
            simp only
            omega
          · exact h e h2
      · rintro (⟨h, _⟩ | ⟨_, h⟩)
        · exact List.noConfusion h
        · by_cases htl : tl = []
          · exact Or.inl ⟨htl, rfl⟩
          · exact Or.inr ⟨htl, fun e he => h e (List.mem_cons_of_mem _ he)⟩

theorem reserveNodes_requests_true (capacity : List (String × Int)) :
    ∀ (requests : List (String × Int)) (m : Bool),
      reserveNodes_requests requests capacity m = true ↔
        ((requests = [] ∧ m = true) ∨
          (requests ≠ [] ∧ ∀ e ∈ requests, e.2 ≤ quantityOf capacity e.1)) := by
  intro requests
  induction requests with
  | nil => intro m; simp [reserveNodes_requests]
  | cons hd tl ih =>
    intro m
    obtain ⟨key, value⟩ := hd
    simp only [reserveNodes_requests]
    by_cases hlt : value > quantityOf capacity key
    · rw [if_pos hlt]
      constructor
      · intro h; exact Bool.noConfusion h
      · rintro (⟨h, _⟩ | ⟨_, h⟩)
        · exact List.noConfusion h
        · have := h (key, value) (by simp)
          simp only at this
          omega
    · rw [if_neg hlt, ih true]
      constructor
      · rintro (⟨h, _⟩ | ⟨_, h⟩)
        · subst h
          refine Or.inr ⟨by simp, ?_⟩
          intro e he
          simp only [List.mem_singleton] at he
          subst he
          simp only
          omega
        · refine Or.inr ⟨by simp, ?_⟩
          intro e he
          rcases List.mem_cons.1 he with h2 | h2
          · subst h2
            simp only
            omega
          · exact h e h2
      · rintro (⟨h, _⟩ | ⟨_, h⟩)
        · exact List.noConfusion h
        · by_cases htl : tl = []
          · exact Or.inl ⟨htl, rfl⟩
          · exact Or.inr ⟨htl, fun e he => h e (List.mem_cons_of_mem _ he)⟩

/-- C13, as amended (resource test): `reserveNodes` accepts a listed node as a candidate
exactly when the node passes the label filter, the limits map is not empty, the capacity
of the node is not more than the limit for every key of the limits, and the capacity is
not less than the request for every key of the requests. -/
theorem C13_resource_test (s : Slice) (n : Node) :
    reserveNodes_accepts s n = true ↔
      reserveNodes_skipped n.labels = false ∧
      s.nodeSelector.resources.limits ≠ [] ∧
      (∀ e ∈ s.nodeSelector.resources.limits, quantityOf n.capacity e.1 ≤ e.2) ∧
      (∀ e ∈ s.nodeSelector.resources.requests, e.2 ≤ quantityOf n.capacity e.1) := by
  unfold reserveNodes_accepts
  by_cases hs : reserveNodes_skipped n.labels = true
  · rw [if_pos hs]
    simp [hs]
  · have hs2 : reserveNodes_skipped n.labels = false := by simpa using hs
    rw [if_neg hs]
    dsimp only
    by_cases hl : reserveNodes_limits s.nodeSelector.resources.limits n.capacity false = true
    · rw [if_pos hl, hl, reserveNodes_requests_true]
      have hl2 := (reserveNodes_limits_true n.capacity _ false).1 hl
      rcases hl2 with ⟨_, h⟩ | ⟨hne, hall⟩
      · exact Bool.noConfusion h
      · constructor
        · rintro (⟨h, _⟩ | ⟨_, h⟩)
          · refine ⟨hs2, hne, hall, ?_⟩
            rw [h]
            intro e he
            simp at he
          · exact ⟨hs2, hne, hall, h⟩
        · rintro ⟨_, _, _, h⟩
          by_cases hr : s.nodeSelector.resources.requests = []
          · exact Or.inl ⟨hr, rfl⟩
          · exact Or.inr ⟨hr, h⟩
    · rw [if_neg hl]
      constructor
      · intro h; exact Bool.noConfusion h
      · rintro ⟨_, hne, hall, _⟩
        exact absurd ((reserveNodes_limits_true n.capacity _ false).2 (Or.inr ⟨hne, hall⟩)) hl

/-- Counterexample to C13 as stated: with the cpu limit 4 of Scenario A, a node with cpu
capacity 2, less than the limit, passes the label filter and is accepted, and a node with
cpu capacity 8, not less than the limit, passes the label filter and is not accepted. -/
theorem C13_counterexample_limits_direction :
    mapGet scenarioA_slice.nodeSelector.resources.limits "cpu" = some 4 ∧
    reserveNodes_skipped small_node.labels = false ∧
    quantityOf small_node.capacity "cpu" = 2 ∧
    reserveNodes_accepts scenarioA_slice small_node = true ∧
    reserveNodes_skipped large_node.labels = false ∧
    quantityOf large_node.capacity "cpu" = 8 ∧
    reserveNodes_accepts scenarioA_slice large_node = false := by
  decide

/-! ### Too few candidates -/

theorem reserveNodes_list_of_failure (env : Env) (s : Slice) (term : NodeSelectorTerm)
    (w : World) (h : env.fails w.tick = true) : (reserveNodes_list env s term w).1 = [] := by
  unfold reserveNodes_list listNodes
  dsimp only
  rw [if_pos h]

/-- C14 (too few candidates): in a run of `reserveNodes` on a Slice that is not Reserved,
Bound or Provisioned, take a selector term that the loop reaches, the earlier terms having
succeeded.  If its candidate list is shorter than the count, `reserveNodes` returns false
with state Failure and message "There are no adequate resources to slice", and for that
term it has logged the node listing and the warning event only: no patch is issued.  A
node listing that fails leaves the candidate list empty. -/
theorem C14_too_few_candidates (env : Env) (s : Slice) (w0 w : World)
    (pre post : List NodeSelectorTerm) (term : NodeSelectorTerm) (s1 : Slice)
    (hstate : s.status.state ≠ "Reserved" ∧ s.status.state ≠ "Bound" ∧
      s.status.state ≠ "Provisioned")
    (hterms : s.nodeSelector.selectorTerms = pre ++ term :: post)
    (hpre : reserveNodes_terms env pre s w0 = some (true, s1, w))
    (hfew : ((reserveNodes_list env s term w).1.length : Int) < s.nodeSelector.count) :
    (∃ ok : Bool, reserveNodes env s w0 =
      some (false,
        { s with status :=
            { state := "Failure", message := "There are no adequate resources to slice",
              expiry := s.status.expiry } },
        (w.request (Action.listNodes (reserveNodes_selector term.matchExpressions)
            (reserveNodes_selector term.matchFields)) ok).event
          "Warning" "Slice Failed" "There are no adequate resources to slice")) ∧
    (env.fails w.tick = true → (reserveNodes_list env s term w).1 = []) := by
  have hcond : s.status.state ≠ reserved ∧ s.status.state ≠ bound ∧
      s.status.state ≠ provisioned := hstate
  have hs1 : s1 = s := (reserveNodes_terms_true env pre s w0 s1 w hpre).1
  subst hs1
  obtain ⟨ok, hl2⟩ := reserveNodes_list_snd env s1 term w
  refine ⟨⟨ok, ?_⟩, reserveNodes_list_of_failure env s1 term w⟩
  have hterm : reserveNodes_term env s1 term w =
      some (false,
        { s1 with status :=
            { s1.status with state := failure, message := messageSliceFailed } },
        (reserveNodes_list env s1 term w).2.event "Warning" "Slice Failed"
          messageSliceFailed) := by
    unfold reserveNodes_term
    dsimp only
    rw [if_pos hfew]
  unfold reserveNodes
  rw [if_pos hcond, hterms, reserveNodes_terms_append env pre (term :: post) s1 w0 s1 w hpre]
  simp only [reserveNodes_terms, hterm, hl2]
  rfl

/-- Witness for C14, Scenario B: one eligible node and count 2. -/
theorem C14_too_few_candidates_witness :
    ((reserveNodes_list quietEnv scenarioA_slice
        { matchExpressions := [], matchFields := [] } scenarioB_world).1.length : Int) <
      scenarioA_slice.nodeSelector.count ∧
    ∃ ok : Bool, reserveNodes quietEnv scenarioA_slice scenarioB_world =
      some (false,
        { scenarioA_slice with status :=
            { state := "Failure", message := "There are no adequate resources to slice",
              expiry := scenarioA_slice.status.expiry } },
        (scenarioB_world.request (Action.listNodes
            (reserveNodes_selector [])
            (reserveNodes_selector [])) ok).event
          "Warning" "Slice Failed" "There are no adequate resources to slice") :=
  ⟨by decide,
    (C14_too_few_candidates quietEnv scenarioA_slice scenarioB_world scenarioB_world [] []
      { matchExpressions := [], matchFields := [] } scenarioA_slice
      (by decide) (by decide) (by decide) (by decide)).1⟩

/-! ### Nodes that `reserveNodes` patches -/

theorem reserveNodes_patch_other (env : Env) :
    ∀ (picked : List String) (s : Slice) (w : World) (n : Node), n.name ∉ picked →
      (n ∈ (reserveNodes_patch env picked s w).2.2.nodes ↔ n ∈ w.nodes) := by
  intro picked
  induction picked with
  | nil => intro s w n _; rfl
  | cons p rest ih =>
    intro s w n hn
    simp only [List.mem_cons, not_or] at hn
    simp only [reserveNodes_patch]
    split
    · rw [ih s _ n hn.2]
      exact patchNode_other_mem env "reservation" s.name p w n hn.1
    · simp only [World.event]
      exact patchNode_other_mem env "reservation" s.name p w n hn.1

theorem reserveNodes_return_other (env : Env) :
    ∀ (picked : List String) (w : World) (n : Node), n.name ∉ picked →
      (n ∈ (reserveNodes_return env picked w).nodes ↔ n ∈ w.nodes) := by
  intro picked
  induction picked with
  | nil => intro w n _; rfl
  | cons p rest ih =>
    intro w n hn
    simp only [List.mem_cons, not_or] at hn
    simp only [reserveNodes_return]
    split
    · rw [ih _ n hn.2]
      exact patchNode_other_mem env "return" "" p w n hn.1
    · rw [ih _ n hn.2]
      simp only [World.event]
      exact patchNode_other_mem env "return" "" p w n hn.1

theorem reserveNodes_patch_log (env : Env) :
    ∀ (picked : List String) (s : Slice) (w : World),
      ∃ added : List Entry, (reserveNodes_patch env picked s w).2.2.log = w.log ++ added ∧
        ∀ e ∈ added, ∀ node patch, e.action = Action.patchNode node patch →
          node ∈ picked ∧ patch = patchNode_patchArr "reservation" s.name := by
  intro picked
  induction picked with
  | nil => intro s w; exact ⟨[], by simp [reserveNodes_patch], by simp⟩
  | cons p rest ih =>
    intro s w
    simp only [reserveNodes_patch]
    split
    · obtain ⟨added, h1, h2⟩ := ih s (patchNode env "reservation" s.name p w).2
      refine ⟨Entry.mk (Action.patchNode p (patchNode_patchArr "reservation" s.name))
        (patchNode env "reservation" s.name p w).1 :: added, ?_, ?_⟩
      · rw [h1, patchNode_log]
        simp
      · intro e he node patch hact
        rcases List.mem_cons.1 he with h | h
        · subst h
          simp only [Action.patchNode.injEq] at hact
          exact ⟨by rw [← hact.1]; simp, hact.2.symm⟩
        · obtain ⟨k1, k2⟩ := h2 e h node patch hact
          exact ⟨List.mem_cons_of_mem _ k1, k2⟩
    · refine ⟨[Entry.mk (Action.patchNode p (patchNode_patchArr "reservation" s.name))
        (patchNode env "reservation" s.name p w).1,
        Entry.mk (Action.event "Warning" "Patch Failed" messagePatchFailed) true], ?_, ?_⟩
      · simp only [World.event, patchNode_log]
        simp
      · intro e he node patch hact
        simp only [List.mem_cons, List.mem_singleton, List.not_mem_nil, or_false] at he
        rcases he with h | h
        · subst h
          simp only [Action.patchNode.injEq] at hact
          exact ⟨by rw [← hact.1]; simp, hact.2.symm⟩
        · subst h
          exact Action.noConfusion hact

theorem reserveNodes_return_log (env : Env) :
    ∀ (picked : List String) (w : World),
      ∃ added : List Entry, (reserveNodes_return env picked w).log = w.log ++ added ∧
        ∀ e ∈ added, ∀ node patch, e.action = Action.patchNode node patch →
          node ∈ picked ∧ patch = patchNode_patchArr "return" "" := by
  intro picked
  induction picked with
  | nil => intro w; exact ⟨[], by simp [reserveNodes_return], by simp⟩
  | cons p rest ih =>
    intro w
    simp only [reserveNodes_return]
    split
    · obtain ⟨added, h1, h2⟩ := ih (patchNode env "return" "" p w).2
      refine ⟨Entry.mk (Action.patchNode p (patchNode_patchArr "return" ""))
        (patchNode env "return" "" p w).1 :: added, ?_, ?_⟩
      · rw [h1, patchNode_log]
        simp
      · intro e he node patch hact
        rcases List.mem_cons.1 he with h | h
        · subst h
          simp only [Action.patchNode.injEq] at hact
          exact ⟨by rw [← hact.1]; simp, hact.2.symm⟩
        · obtain ⟨k1, k2⟩ := h2 e h node patch hact
          exact ⟨List.mem_cons_of_mem _ k1, k2⟩
    · obtain ⟨added, h1, h2⟩ := ih ((patchNode env "return" "" p w).2.event "Warning"
        "Patch Failed" messagePatchFailed)
      refine ⟨Entry.mk (Action.patchNode p (patchNode_patchArr "return" ""))
        (patchNode env "return" "" p w).1 ::
        Entry.mk (Action.event "Warning" "Patch Failed" messagePatchFailed) true :: added,
        ?_, ?_⟩
      · rw [h1]
        simp only [World.event, patchNode_log]
        simp
      · intro e he node patch hact
        rcases List.mem_cons.1 he with h | h
        · subst h
          simp only [Action.patchNode.injEq] at hact
          exact ⟨by rw [← hact.1]; simp, hact.2.symm⟩
        · rcases List.mem_cons.1 h with h3 | h3
          · subst h3
            exact Action.noConfusion hact
          · obtain ⟨k1, k2⟩ := h2 e h3 node patch hact
            exact ⟨List.mem_cons_of_mem _ k1, k2⟩

theorem reserveNodes_list_listed (env : Env) (s : Slice) (term : NodeSelectorTerm) (w : World)
    (c : String) (hc : c ∈ (reserveNodes_list env s term w).1) :
    ∃ n ∈ w.nodes, n.name = c ∧
      env.selectsNode (reserveNodes_selector term.matchExpressions)
        (reserveNodes_selector term.matchFields) n = true ∧
      reserveNodes_accepts s n = true := by
  unfold reserveNodes_list at hc
  dsimp only at hc
  split at hc
  · rename_i items hl1
    obtain ⟨n, hn, e, ha⟩ := nodeList_mem s items c hc
    have hitems := listNodes_items env _ _ w items hl1
    rw [hitems] at hn
    exact ⟨n, (List.mem_filter.1 hn).1, e, (List.mem_filter.1 hn).2, ha⟩
  · simp at hc

theorem reserveNodes_term_patches (env : Env) (s : Slice) (term : NodeSelectorTerm) (w : World)
    (b : Bool) (s2 : Slice) (w2 : World)
    (h : reserveNodes_term env s term w = some (b, s2, w2)) :
    ∃ picked : List String,
      (∀ p ∈ picked, ∃ n ∈ w.nodes, n.name = p ∧
        env.selectsNode (reserveNodes_selector term.matchExpressions)
          (reserveNodes_selector term.matchFields) n = true ∧
        reserveNodes_accepts s n = true) ∧
      (∀ n : Node, n.name ∉ picked → (n ∈ w2.nodes ↔ n ∈ w.nodes)) ∧
      ∃ added : List Entry, w2.log = w.log ++ added ∧
        ∀ e ∈ added, ∀ node patch, e.action = Action.patchNode node patch →
          node ∈ picked ∧ (patch = patchNode_patchArr "reservation" s.name ∨
            patch = patchNode_patchArr "return" "") := by
  obtain ⟨ok, hl2⟩ := reserveNodes_list_snd env s term w
  unfold reserveNodes_term at h
  dsimp only at h
  split at h
  · simp only [Option.some.injEq, Prod.mk.injEq] at h
    refine ⟨[], by simp, ?_, ?_⟩
    · intro n _
      rw [← h.2.2, hl2]
      rfl
    · refine ⟨[Entry.mk (Action.listNodes (reserveNodes_selector term.matchExpressions)
          (reserveNodes_selector term.matchFields)) ok,
        Entry.mk (Action.event "Warning" "Slice Failed" messageSliceFailed) true], ?_, ?_⟩
      · rw [← h.2.2, hl2]
        simp [World.event, World.request]
      · intro e he node patch hact
        simp only [List.mem_cons, List.mem_singleton, List.not_mem_nil, or_false] at he
        rcases he with h3 | h3 <;> subst h3 <;> exact Action.noConfusion hact
  · rename_i hlt
    have hle : s.nodeSelector.count.toNat ≤ (reserveNodes_list env s term w).1.length := by
      omega
    obtain ⟨new, rest, hpick, _, hperm⟩ :=
      reserveNodes_pick_spec env s.nodeSelector.count.toNat (reserveNodes_list env s term w).1
        [] (reserveNodes_list env s term w).2 hle
    rw [hpick] at h
    simp only [List.nil_append] at h
    have hacc : ∀ p ∈ new, ∃ n ∈ w.nodes, n.name = p ∧
        env.selectsNode (reserveNodes_selector term.matchExpressions)
          (reserveNodes_selector term.matchFields) n = true ∧
        reserveNodes_accepts s n = true := by
      intro p hp
      exact reserveNodes_list_listed env s term w p
        (hperm.subset (List.mem_append_left _ hp))
    obtain ⟨addedP, hP1, hP2⟩ := reserveNodes_patch_log env new s
      { (reserveNodes_list env s term w).2 with
        draws := (reserveNodes_list env s term w).2.draws + s.nodeSelector.count.toNat }
    have hstart : ({ (reserveNodes_list env s term w).2 with
        draws := (reserveNodes_list env s term w).2.draws + s.nodeSelector.count.toNat } :
        World).log = w.log ++ [Entry.mk (Action.listNodes
          (reserveNodes_selector term.matchExpressions)
          (reserveNodes_selector term.matchFields)) ok] := by
      rw [hl2]; rfl
    have hnodes : ({ (reserveNodes_list env s term w).2 with
        draws := (reserveNodes_list env s term w).2.draws + s.nodeSelector.count.toNat } :
        World).nodes = w.nodes := by
      rw [hl2]; rfl
    split at h
    · simp only [Option.some.injEq, Prod.mk.injEq] at h
      refine ⟨new, hacc, ?_, ?_⟩
      · intro n hn
        rw [← h.2.2, reserveNodes_patch_other env new s _ n hn, hnodes]
      · refine ⟨Entry.mk (Action.listNodes (reserveNodes_selector term.matchExpressions)
          (reserveNodes_selector term.matchFields)) ok :: addedP, ?_, ?_⟩
        · rw [← h.2.2, hP1, hstart]
          simp
        · intro e he node patch hact
          rcases List.mem_cons.1 he with h3 | h3
          · subst h3
            exact Action.noConfusion hact
          · obtain ⟨k1, k2⟩ := hP2 e h3 node patch hact
            exact ⟨k1, Or.inl k2⟩
    · simp only [Option.some.injEq, Prod.mk.injEq] at h
      obtain ⟨addedR, hR1, hR2⟩ := reserveNodes_return_log env new
        (reserveNodes_patch env new s { (reserveNodes_list env s term w).2 with
          draws := (reserveNodes_list env s term w).2.draws +
            s.nodeSelector.count.toNat }).2.2
      refine ⟨new, hacc, ?_, ?_⟩
      · intro n hn
        rw [← h.2.2, reserveNodes_return_other env new _ n hn,
          reserveNodes_patch_other env new s _ n hn, hnodes]
      · refine ⟨Entry.mk (Action.listNodes (reserveNodes_selector term.matchExpressions)
          (reserveNodes_selector term.matchFields)) ok :: (addedP ++ addedR), ?_, ?_⟩
        · rw [← h.2.2, hR1, hP1, hstart]
          simp
        · intro e he node patch hact
          rcases List.mem_cons.1 he with h3 | h3
          · subst h3
            exact Action.noConfusion hact
          · rcases List.mem_append.1 h3 with h4 | h4
            · obtain ⟨k1, k2⟩ := hP2 e h4 node patch hact
              exact ⟨k1, Or.inl k2⟩
            · obtain ⟨k1, k2⟩ := hR2 e h4 node patch hact
              exact ⟨k1, Or.inr k2⟩

theorem reserveNodes_term_keeps (env : Env) (s : Slice) (term : NodeSelectorTerm) (w : World)
    (b : Bool) (s2 : Slice) (w2 : World) (n : Node)
    (h : reserveNodes_term env s term w = some (b, s2, w2))
    (hnd : (w.nodes.map Node.name).Nodup) (hn : n ∈ w.nodes)
    (hheld : labelOf n.labels "edge-net.io/slice" ≠ "none" ∨
      labelOf n.labels "edge-net.io/pre-reservation" ≠ "none") : n ∈ w2.nodes := by
  obtain ⟨picked, hacc, hother, _⟩ := reserveNodes_term_patches env s term w b s2 w2 h
  refine (hother n ?_).2 hn
  intro hp
  obtain ⟨m, hm, hname, _, ha⟩ := hacc n.name hp
  have hmn : m = n := List.inj_on_of_nodup_map hnd hm hn hname
  subst hmn
  obtain ⟨_, h2, h3⟩ := accepts_unheld s m ha
  rcases hheld with k | k
  · exact k h2
  · exact k h3

theorem reserveNodes_terms_keeps (env : Env) (n : Node)
    (hheld : labelOf n.labels "edge-net.io/slice" ≠ "none" ∨
      labelOf n.labels "edge-net.io/pre-reservation" ≠ "none") :
    ∀ (terms : List NodeSelectorTerm) (s : Slice) (w : World) (b : Bool) (s2 : Slice)
      (w2 : World), reserveNodes_terms env terms s w = some (b, s2, w2) →
      (w.nodes.map Node.name).Nodup → n ∈ w.nodes → n ∈ w2.nodes := by
  intro terms
  induction terms with
  | nil =>
    intro s w b s2 w2 h _ hn
    simp only [reserveNodes_terms, Option.some.injEq, Prod.mk.injEq] at h
    rw [← h.2.2]
    exact hn
  | cons t ts ih =>
    intro s w b s2 w2 h hnd hn
    simp only [reserveNodes_terms] at h
    cases ht : reserveNodes_term env s t w with
    | none => rw [ht] at h; simp at h
    | some r =>
      obtain ⟨b1, s1, w1⟩ := r
      rw [ht] at h
      have k1 := reserveNodes_term_keeps env s t w b1 s1 w1 n ht hnd hn hheld
      have r1 := NodeRun.of_term env s t w b1 s1 w1 ht
      cases b1 with
      | false =>
        simp only [Option.some.injEq, Prod.mk.injEq] at h
        rw [← h.2.2]
        exact k1
      | true =>
        simp only at h
        exact ih s1 w1 b s2 w2 h (by rw [r1.2.1]; exact hnd) k1

theorem reserveNodes_terms_patches (env : Env) :
    ∀ (terms : List NodeSelectorTerm) (s : Slice) (w : World) (b : Bool) (s2 : Slice)
      (w2 : World), reserveNodes_terms env terms s w = some (b, s2, w2) →
      ∃ added : List Entry, w2.log = w.log ++ added ∧
        ∀ e ∈ added, ∀ node patch, e.action = Action.patchNode node patch →
          ∃ w1 : World, NodeRun w w1 ∧ ∃ term ∈ terms, ∃ n ∈ w1.nodes, n.name = node ∧
            env.selectsNode (reserveNodes_selector term.matchExpressions)
              (reserveNodes_selector term.matchFields) n = true ∧
            labelOf n.labels "edge-net.io/access" ≠ "private" ∧
            labelOf n.labels "edge-net.io/slice" = "none" ∧
            labelOf n.labels "edge-net.io/pre-reservation" = "none" := by
  intro terms
  induction terms with
  | nil =>
    intro s w b s2 w2 h
    simp only [reserveNodes_terms, Option.some.injEq, Prod.mk.injEq] at h
    exact ⟨[], by rw [← h.2.2]; simp, by simp⟩
  | cons t ts ih =>
    intro s w b s2 w2 h
    simp only [reserveNodes_terms] at h
    cases ht : reserveNodes_term env s t w with
    | none => rw [ht] at h; simp at h
    | some r =>
      obtain ⟨b1, s1, w1⟩ := r
      rw [ht] at h
      obtain ⟨picked, hacc, _, added1, hlog1, hp1⟩ :=
        reserveNodes_term_patches env s t w b1 s1 w1 ht
      have r1 := NodeRun.of_term env s t w b1 s1 w1 ht
      have first : ∀ e ∈ added1, ∀ node patch, e.action = Action.patchNode node patch →
          ∃ w3 : World, NodeRun w w3 ∧ ∃ term ∈ t :: ts, ∃ n ∈ w3.nodes, n.name = node ∧
            env.selectsNode (reserveNodes_selector term.matchExpressions)
              (reserveNodes_selector term.matchFields) n = true ∧
            labelOf n.labels "edge-net.io/access" ≠ "private" ∧
            labelOf n.labels "edge-net.io/slice" = "none" ∧
            labelOf n.labels "edge-net.io/pre-reservation" = "none" := by
        intro e he node patch hact
        obtain ⟨n, hn, hname, hsel, ha⟩ := hacc node (hp1 e he node patch hact).1
        exact ⟨w, NodeRun.refl w, t, List.mem_cons_self _ _, n, hn, hname, hsel,
          accepts_unheld s n ha⟩
      cases b1 with
      | false =>
        simp only [Option.some.injEq, Prod.mk.injEq] at h
        refine ⟨added1, by rw [← h.2.2]; exact hlog1, first⟩
      | true =>
        simp only at h
        obtain ⟨added2, hlog2, hp2⟩ := ih s1 w1 b s2 w2 h
        refine ⟨added1 ++ added2, by rw [hlog2, hlog1, List.append_assoc], ?_⟩
        intro e he node patch hact
        rcases List.mem_append.1 he with k | k
        · exact first e k node patch hact
        · obtain ⟨w3, hrun, term, hterm, rest⟩ := hp2 e k node patch hact
          exact ⟨w3, r1.trans hrun, term, List.mem_cons_of_mem _ hterm, rest⟩

/-- C12 (held nodes are never taken): for a call of `reserveNodes` that returns, every
node patch request it makes (reservation or return patch) names a node that, in the
cluster as it was when the listing of some selector term read it, was selected by that
term and had access other than `private`, slice `none` and pre-reservation `none`; and
when node names are unique, a node whose slice or pre-reservation label is not `none` is
still in the inventory afterwards with its name, labels and capacity unchanged. -/
theorem C12_held_nodes_not_taken (env : Env) (s : Slice) (w : World) (b : Bool) (s2 : Slice)
    (w2 : World) (h : reserveNodes env s w = some (b, s2, w2)) :
    (∃ added : List Entry, w2.log = w.log ++ added ∧
      ∀ e ∈ added, ∀ node patch, e.action = Action.patchNode node patch →
        ∃ w1 : World, NodeRun w w1 ∧ ∃ term ∈ s.nodeSelector.selectorTerms,
          ∃ n ∈ w1.nodes, n.name = node ∧
            env.selectsNode (reserveNodes_selector term.matchExpressions)
              (reserveNodes_selector term.matchFields) n = true ∧
            labelOf n.labels "edge-net.io/access" ≠ "private" ∧
            labelOf n.labels "edge-net.io/slice" = "none" ∧
            labelOf n.labels "edge-net.io/pre-reservation" = "none") ∧
    ((w.nodes.map Node.name).Nodup → ∀ n ∈ w.nodes,
      (labelOf n.labels "edge-net.io/slice" ≠ "none" ∨
        labelOf n.labels "edge-net.io/pre-reservation" ≠ "none") →
      n ∈ w2.nodes ∧ (w2.nodes.map Node.name).Nodup) := by
  have hrun := NodeRun.of_reserveNodes env s w b s2 w2 h
  unfold reserveNodes at h
  split at h
  · cases ht : reserveNodes_terms env s.nodeSelector.selectorTerms s w with
    | none => rw [ht] at h; simp at h
    | some r =>
      obtain ⟨b1, s1, w1⟩ := r
      rw [ht] at h
      obtain ⟨added, hlog, hp⟩ := reserveNodes_terms_patches env _ s w b1 s1 w1 ht
      cases b1 with
      | false =>
        simp only [Option.some.injEq, Prod.mk.injEq] at h
        refine ⟨⟨added, by rw [← h.2.2]; exact hlog, hp⟩, ?_⟩
        intro hnd n hn hheld
        refine ⟨?_, by rw [hrun.2.1]; exact hnd⟩
        rw [← h.2.2]
        exact reserveNodes_terms_keeps env n hheld _ s w false s1 w1 ht hnd hn
      | true =>
        simp only [Option.some.injEq, Prod.mk.injEq] at h
        refine ⟨⟨added ++ [Entry.mk (Action.event "Normal" "Reserved" messageReserved) true],
          by rw [← h.2.2]; simp [World.event, hlog], ?_⟩, ?_⟩
        · intro e he node patch hact
          rcases List.mem_append.1 he with k | k
          · exact hp e k node patch hact
          · simp only [List.mem_singleton] at k
            subst k
            exact Action.noConfusion hact
        · intro hnd n hn hheld
          refine ⟨?_, by rw [hrun.2.1]; exact hnd⟩
          rw [← h.2.2]
          exact reserveNodes_terms_keeps env n hheld _ s w true s1 w1 ht hnd hn
  · simp only [Option.some.injEq, Prod.mk.injEq] at h
    refine ⟨⟨[], by rw [← h.2.2]; simp, by simp⟩, ?_⟩
    intro hnd n hn _
    rw [← h.2.2]
    exact ⟨hn, hnd⟩

/-- Witness for C12: node `n1` is pre-reserved for `edge-slice-1` and `n2` is unassigned;
`reserveNodes` of `edge-slice-2` (count 1) returns true, patches exactly `n2`, and `n1`
is in the inventory afterwards as it was. -/
theorem C12_held_nodes_not_taken_witness :
    ∃ s2 w2, reserveNodes quietEnv other_slice held_world = some (true, s2, w2) ∧
      (held_world.nodes.map Node.name).Nodup ∧
      labelOf held_node.labels "edge-net.io/pre-reservation" = "edge-slice-1" ∧
      held_node ∈ held_world.nodes ∧ held_node ∈ w2.nodes ∧
      ∃ added : List Entry, w2.log = held_world.log ++ added ∧
        patchedNodes (patchNode_patchArr "reservation" "edge-slice-2") added = ["n2"] := by
  have h : (reserveNodes quietEnv other_slice held_world).map Prod.fst = some true := by
    decide
  have hp : (reserveNodes quietEnv other_slice held_world).map
      (fun r => patchedNodes (patchNode_patchArr "reservation" "edge-slice-2")
        (r.2.2.log.drop held_world.log.length)) = some ["n2"] := by
    decide
  cases hr : reserveNodes quietEnv other_slice held_world with
  | none => rw [hr] at h; simp at h
  | some r =>
    obtain ⟨b, s2, w2⟩ := r
    rw [hr] at h hp
    simp only [Option.map_some', Option.some.injEq] at h hp
    subst h
    obtain ⟨⟨added, hlog, _⟩, hkeep⟩ :=
      C12_held_nodes_not_taken quietEnv other_slice held_world true s2 w2 hr
    refine ⟨s2, w2, rfl, by decide, by decide, by decide,
      (hkeep (by decide) held_node (by decide) (by decide)).1, added, hlog, ?_⟩
    rw [hlog] at hp
    simpa using hp

/-! ### Provisioning and release loops -/

theorem deleteFunc_nodes_spec (env : Env) :
    ∀ (items : List Node) (w : World),
      (deleteFunc_nodes env items w).nodes.map Node.name = w.nodes.map Node.name ∧
      (deleteFunc_nodes env items w).pods = w.pods ∧
      (∀ n : Node, n.name ∉ items.map Node.name →
        (n ∈ (deleteFunc_nodes env items w).nodes ↔ n ∈ w.nodes)) ∧
      ∃ added : List Entry, (deleteFunc_nodes env items w).log = w.log ++ added ∧
        added.map Entry.action =
          items.map (fun x => Action.patchNode x.name (patchNode_patchArr "return" "")) ∧
        ((∀ e ∈ added, e.ok = true) →
          ∀ n ∈ (deleteFunc_nodes env items w).nodes, n.name ∈ items.map Node.name →
            mapGet n.labels "edge-net.io/access" = some "public" ∧
            mapGet n.labels "edge-net.io/slice" = some "none" ∧
            mapGet n.labels "edge-net.io/pre-reservation" = some "none") := by
  intro items
  induction items with
  | nil =>
    intro w
    exact ⟨rfl, rfl, fun n _ => Iff.rfl, [], by simp [deleteFunc_nodes], rfl, by simp⟩
  | cons x rest ih =>
    intro w
    obtain ⟨inames, ipods, iother, added, ilog, iact, ilab⟩ :=
      ih (patchNode env "return" "" x.name w).2
    obtain ⟨_, fpods, _⟩ := patchNode_frame env "return" "" x.name w
    simp only [deleteFunc_nodes]
    refine ⟨?_, ?_, ?_, Entry.mk (Action.patchNode x.name (patchNode_patchArr "return" ""))
      (patchNode env "return" "" x.name w).1 :: added, ?_, ?_, ?_⟩
    · rw [inames, patchNode_names]
    · rw [ipods, fpods]
    · intro n hn
      simp only [List.map_cons, List.mem_cons, not_or] at hn
      rw [iother n hn.2]
      exact patchNode_other_mem env "return" "" x.name w n hn.1
    · rw [ilog, patchNode_log]
      simp
    · simp [iact]
    · intro hall n hn hmem
      by_cases hr : n.name ∈ rest.map Node.name
      · exact ilab (fun e he => hall e (List.mem_cons_of_mem _ he)) n hn hr
      · have hx : n.name = x.name := by
          simp only [List.map_cons, List.mem_cons] at hmem
          rcases hmem with h | h
          · exact h
          · exact absurd h hr
        have hn1 : n ∈ (patchNode env "return" "" x.name w).2.nodes := (iother n hr).1 hn
        have hok : (patchNode env "return" "" x.name w).1 = true :=
          hall _ (List.mem_cons_self _ _)
        obtain ⟨a, b, c, hshape, h1, _, _⟩ := patchArr_shape "return" ""
        obtain ⟨ha, hb, hc⟩ := h1 rfl
        rw [ha, hb, hc] at hshape
        exact patchNode_labels_of_true env "return" "" x.name w _ _ _ hshape hok n hn1 hx

theorem deleteFunc_of_listing (env : Env) (s : Slice) (w : World) :
    ((s.status.state = "Reserved" ∨ s.status.state = "Bound") →
      deleteFunc env s w =
        match (listNodes env ("edge-net.io/pre-reservation=" ++ s.name) "" w).1 with
        | some items => deleteFunc_nodes env items
            (listNodes env ("edge-net.io/pre-reservation=" ++ s.name) "" w).2
        | none => (listNodes env ("edge-net.io/pre-reservation=" ++ s.name) "" w).2) ∧
    (s.status.state = "Provisioned" →
      deleteFunc env s w =
        match (listNodes env ("edge-net.io/slice=" ++ s.name) "" w).1 with
        | some items => deleteFunc_nodes env items
            (listNodes env ("edge-net.io/slice=" ++ s.name) "" w).2
        | none => (listNodes env ("edge-net.io/slice=" ++ s.name) "" w).2) ∧
    (s.status.state ≠ "Reserved" → s.status.state ≠ "Bound" →
      s.status.state ≠ "Provisioned" → deleteFunc env s w = w) := by
  refine ⟨?_, ?_, ?_⟩
  · intro h
    have h1 : s.status.state = reserved ∨ s.status.state = bound := h
    have h2 : ¬ s.status.state = provisioned := by
      rcases h with k | k <;> rw [k] <;> decide
    unfold deleteFunc
    dsimp only
    rw [if_pos h1, if_neg h2]
  · intro h
    have h1 : ¬ (s.status.state = reserved ∨ s.status.state = bound) := by
      rw [h]; decide
    have h2 : s.status.state = provisioned := h
    unfold deleteFunc
    dsimp only
    rw [if_neg h1, if_pos h2]
  · intro h1 h2 h3
    have k1 : ¬ (s.status.state = reserved ∨ s.status.state = bound) := by
      intro k
      rcases k with k | k
      · exact h1 k
      · exact h2 k
    have k2 : ¬ s.status.state = provisioned := h3
    unfold deleteFunc
    dsimp only
    rw [if_neg k1, if_neg k2]

theorem deleteFunc_nodes_release (env : Env) (sel key name : String) (w : World) :
    ∃ added : List Entry,
      (deleteFunc_nodes env (w.nodes.filter (env.selectsNode sel ""))
        (w.request (Action.listNodes sel "") true)).log =
        w.log ++ Entry.mk (Action.listNodes sel "") true :: added ∧
      added.map Entry.action = (w.nodes.filter (env.selectsNode sel "")).map
        (fun x => Action.patchNode x.name
          [⟨"add", "/metadata/labels/edge-net.io~1access", "public"⟩,
           ⟨"add", "/metadata/labels/edge-net.io~1slice", "none"⟩,
           ⟨"add", "/metadata/labels/edge-net.io~1pre-reservation", "none"⟩]) ∧
      (∀ n : Node, n.name ∉ (w.nodes.filter (env.selectsNode sel "")).map Node.name →
        (n ∈ (deleteFunc_nodes env (w.nodes.filter (env.selectsNode sel ""))
          (w.request (Action.listNodes sel "") true)).nodes ↔ n ∈ w.nodes)) ∧
      ((∀ e ∈ added, e.ok = true) →
        (∀ n ∈ (deleteFunc_nodes env (w.nodes.filter (env.selectsNode sel ""))
            (w.request (Action.listNodes sel "") true)).nodes,
          n.name ∈ (w.nodes.filter (env.selectsNode sel "")).map Node.name →
          mapGet n.labels "edge-net.io/access" = some "public" ∧
          mapGet n.labels "edge-net.io/slice" = some "none" ∧
          mapGet n.labels "edge-net.io/pre-reservation" = some "none") ∧
        (name ≠ "none" →
          (∀ n ∈ w.nodes, env.selectsNode sel "" n = decide (mapGet n.labels key = some name)) →
          (∀ n ∈ w.nodes, (mapGet n.labels "edge-net.io/slice" = some name ∨
              mapGet n.labels "edge-net.io/pre-reservation" = some name) →
            mapGet n.labels key = some name) →
          ∀ n ∈ (deleteFunc_nodes env (w.nodes.filter (env.selectsNode sel ""))
              (w.request (Action.listNodes sel "") true)).nodes,
            mapGet n.labels "edge-net.io/slice" ≠ some name ∧
            mapGet n.labels "edge-net.io/pre-reservation" ≠ some name)) := by
  obtain ⟨_, _, iother, added, ilog, iact, ilab⟩ :=
    deleteFunc_nodes_spec env (w.nodes.filter (env.selectsNode sel ""))
      (w.request (Action.listNodes sel "") true)
  obtain ⟨a, b, c, hshape, h1, _, _⟩ := patchArr_shape "return" ""
  obtain ⟨ha, hb, hc⟩ := h1 rfl
  rw [ha, hb, hc] at hshape
  refine ⟨added, by rw [ilog]; simp [World.request], by rw [iact, hshape], iother, ?_⟩
  intro hall
  refine ⟨ilab hall, ?_⟩
  intro hname hsel hprov n hn
  by_cases hin : n.name ∈ (w.nodes.filter (env.selectsNode sel "")).map Node.name
  · obtain ⟨_, l2, l3⟩ := ilab hall n hn hin
    rw [l2, l3]
    simp only [ne_eq, Option.some.injEq]
    exact ⟨fun k => hname k.symm, fun k => hname k.symm⟩
  · have hnw : n ∈ w.nodes := (iother n hin).1 hn
    have hnot : env.selectsNode sel "" n = false := by
      cases hs : env.selectsNode sel "" n with
      | false => rfl
      | true =>
        exfalso
        exact hin (List.mem_map.2 ⟨n, List.mem_filter.2 ⟨hnw, hs⟩, rfl⟩)
    rw [hsel n hnw] at hnot
    have hk : ¬ mapGet n.labels key = some name := by simpa using hnot
    exact ⟨fun k => hk (hprov n hnw (Or.inl k)), fun k => hk (hprov n hnw (Or.inr k))⟩

theorem deleteFunc_release_listed (env : Env) (s : Slice) (w : World)
    (hlist : env.fails w.tick = false) :
    ((s.status.state = "Reserved" ∨ s.status.state = "Bound") →
      ∃ added : List Entry,
        (deleteFunc env s w).log = w.log ++
          Entry.mk (Action.listNodes ("edge-net.io/pre-reservation=" ++ s.name) "") true ::
            added ∧
        added.map Entry.action =
          (w.nodes.filter
            (env.selectsNode ("edge-net.io/pre-reservation=" ++ s.name) "")).map
            (fun x => Action.patchNode x.name
              [⟨"add", "/metadata/labels/edge-net.io~1access", "public"⟩,
               ⟨"add", "/metadata/labels/edge-net.io~1slice", "none"⟩,
               ⟨"add", "/metadata/labels/edge-net.io~1pre-reservation", "none"⟩]) ∧
        (∀ n : Node,
          n.name ∉ (w.nodes.filter
            (env.selectsNode ("edge-net.io/pre-reservation=" ++ s.name) "")).map Node.name →
          (n ∈ (deleteFunc env s w).nodes ↔ n ∈ w.nodes)) ∧
        ((∀ e ∈ added, e.ok = true) →
          (∀ n ∈ (deleteFunc env s w).nodes,
            n.name ∈ (w.nodes.filter
              (env.selectsNode ("edge-net.io/pre-reservation=" ++ s.name) "")).map Node.name →
            mapGet n.labels "edge-net.io/access" = some "public" ∧
            mapGet n.labels "edge-net.io/slice" = some "none" ∧
            mapGet n.labels "edge-net.io/pre-reservation" = some "none") ∧
          (s.name ≠ "none" →
            (∀ n ∈ w.nodes,
              env.selectsNode ("edge-net.io/pre-reservation=" ++ s.name) "" n =
                decide (mapGet n.labels "edge-net.io/pre-reservation" = some s.name)) →
            (∀ n ∈ w.nodes, (mapGet n.labels "edge-net.io/slice" = some s.name ∨
                mapGet n.labels "edge-net.io/pre-reservation" = some s.name) →
              mapGet n.labels "edge-net.io/pre-reservation" = some s.name) →
            ∀ n ∈ (deleteFunc env s w).nodes,
              mapGet n.labels "edge-net.io/slice" ≠ some s.name ∧
              mapGet n.labels "edge-net.io/pre-reservation" ≠ some s.name))) ∧
    (s.status.state = "Provisioned" →
      ∃ added : List Entry,
        (deleteFunc env s w).log = w.log ++
          Entry.mk (Action.listNodes ("edge-net.io/slice=" ++ s.name) "") true :: added ∧
        added.map Entry.action =
          (w.nodes.filter (env.selectsNode ("edge-net.io/slice=" ++ s.name) "")).map
            (fun x => Action.patchNode x.name
              [⟨"add", "/metadata/labels/edge-net.io~1access", "public"⟩,
               ⟨"add", "/metadata/labels/edge-net.io~1slice", "none"⟩,
               ⟨"add", "/metadata/labels/edge-net.io~1pre-reservation", "none"⟩]) ∧
        (∀ n : Node,
          n.name ∉ (w.nodes.filter
            (env.selectsNode ("edge-net.io/slice=" ++ s.name) "")).map Node.name →
          (n ∈ (deleteFunc env s w).nodes ↔ n ∈ w.nodes)) ∧
        ((∀ e ∈ added, e.ok = true) →
          (∀ n ∈ (deleteFunc env s w).nodes,
            n.name ∈ (w.nodes.filter
              (env.selectsNode ("edge-net.io/slice=" ++ s.name) "")).map Node.name →
            mapGet n.labels "edge-net.io/access" = some "public" ∧
            mapGet n.labels "edge-net.io/slice" = some "none" ∧
            mapGet n.labels "edge-net.io/pre-reservation" = some "none") ∧
          (s.name ≠ "none" →
            (∀ n ∈ w.nodes,
              env.selectsNode ("edge-net.io/slice=" ++ s.name) "" n =
                decide (mapGet n.labels "edge-net.io/slice" = some s.name)) →
            (∀ n ∈ w.nodes, (mapGet n.labels "edge-net.io/slice" = some s.name ∨
                mapGet n.labels "edge-net.io/pre-reservation" = some s.name) →
              mapGet n.labels "edge-net.io/slice" = some s.name) →
            ∀ n ∈ (deleteFunc env s w).nodes,
              mapGet n.labels "edge-net.io/slice" ≠ some s.name ∧
              mapGet n.labels "edge-net.io/pre-reservation" ≠ some s.name))) ∧
    (s.status.state ≠ "Reserved" → s.status.state ≠ "Bound" →
      s.status.state ≠ "Provisioned" → deleteFunc env s w = w) := by
  have hrun : ∀ sel : String,
      (match (listNodes env sel "" w).1 with
        | some items => deleteFunc_nodes env items (listNodes env sel "" w).2
        | none => (listNodes env sel "" w).2) =
      deleteFunc_nodes env (w.nodes.filter (env.selectsNode sel ""))
        (w.request (Action.listNodes sel "") true) := by
    intro sel
    have h1 : (listNodes env sel "" w).1 =
        some (w.nodes.filter (env.selectsNode sel "")) := by
      unfold listNodes
      rw [if_neg (by rw [hlist]; simp)]
    simp only [h1]
    rw [listNodes_snd, h1]
    rfl
  obtain ⟨d1, d2, d3⟩ := deleteFunc_of_listing env s w
  refine ⟨?_, ?_, d3⟩
  · intro h
    rw [d1 h, hrun]
    exact deleteFunc_nodes_release env _ "edge-net.io/pre-reservation" s.name w
  · intro h
    rw [d2 h, hrun]
    exact deleteFunc_nodes_release env _ "edge-net.io/slice" s.name w

/-- C19, as amended (release on delete).  When the node listing of the handler succeeds:
for a deleted Slice in state Reserved or Bound the handler lists the nodes by
`edge-net.io/pre-reservation=<name>`, for one in state Provisioned by
`edge-net.io/slice=<name>`; its patch requests are exactly one per listed node, in order,
each to access `public`, slice `none`, pre-reservation `none`, and nodes that are not
listed are unchanged; when every patch succeeds, every listed node ends with these three
labels; and then, if the Slice is not named `none`, the selector selects the nodes of the
inventory that carry the name in the listed label, and every node carrying the name in
its slice or pre-reservation label carries it in the listed label, no node carries the
name in its slice or pre-reservation label afterwards.  When the node listing fails, in
these three states the failed listing is the only request of the handler: no patch is
sent, and every node, held or not, is left as it was.  In any other state the handler
does nothing. -/
theorem C19_release_on_delete (env : Env) (s : Slice) (w : World) :
    (env.fails w.tick = false →
      ((s.status.state = "Reserved" ∨ s.status.state = "Bound") →
        ∃ added : List Entry,
          (deleteFunc env s w).log = w.log ++
            Entry.mk (Action.listNodes ("edge-net.io/pre-reservation=" ++ s.name) "") true ::
              added ∧
          added.map Entry.action =
            (w.nodes.filter
              (env.selectsNode ("edge-net.io/pre-reservation=" ++ s.name) "")).map
              (fun x => Action.patchNode x.name
                [⟨"add", "/metadata/labels/edge-net.io~1access", "public"⟩,
                 ⟨"add", "/metadata/labels/edge-net.io~1slice", "none"⟩,
                 ⟨"add", "/metadata/labels/edge-net.io~1pre-reservation", "none"⟩]) ∧
          (∀ n : Node,
            n.name ∉ (w.nodes.filter
              (env.selectsNode ("edge-net.io/pre-reservation=" ++ s.name) "")).map Node.name →
            (n ∈ (deleteFunc env s w).nodes ↔ n ∈ w.nodes)) ∧
          ((∀ e ∈ added, e.ok = true) →
            (∀ n ∈ (deleteFunc env s w).nodes,
              n.name ∈ (w.nodes.filter
                (env.selectsNode ("edge-net.io/pre-reservation=" ++ s.name) "")).map Node.name →
              mapGet n.labels "edge-net.io/access" = some "public" ∧
              mapGet n.labels "edge-net.io/slice" = some "none" ∧
              mapGet n.labels "edge-net.io/pre-reservation" = some "none") ∧
            (s.name ≠ "none" →
              (∀ n ∈ w.nodes,
                env.selectsNode ("edge-net.io/pre-reservation=" ++ s.name) "" n =
                  decide (mapGet n.labels "edge-net.io/pre-reservation" = some s.name)) →
              (∀ n ∈ w.nodes, (mapGet n.labels "edge-net.io/slice" = some s.name ∨
                  mapGet n.labels "edge-net.io/pre-reservation" = some s.name) →
                mapGet n.labels "edge-net.io/pre-reservation" = some s.name) →
              ∀ n ∈ (deleteFunc env s w).nodes,
                mapGet n.labels "edge-net.io/slice" ≠ some s.name ∧
                mapGet n.labels "edge-net.io/pre-reservation" ≠ some s.name))) ∧
      (s.status.state = "Provisioned" →
        ∃ added : List Entry,
          (deleteFunc env s w).log = w.log ++
            Entry.mk (Action.listNodes ("edge-net.io/slice=" ++ s.name) "") true :: added ∧
          added.map Entry.action =
            (w.nodes.filter (env.selectsNode ("edge-net.io/slice=" ++ s.name) "")).map
              (fun x => Action.patchNode x.name
                [⟨"add", "/metadata/labels/edge-net.io~1access", "public"⟩,
                 ⟨"add", "/metadata/labels/edge-net.io~1slice", "none"⟩,
                 ⟨"add", "/metadata/labels/edge-net.io~1pre-reservation", "none"⟩]) ∧
          (∀ n : Node,
            n.name ∉ (w.nodes.filter
              (env.selectsNode ("edge-net.io/slice=" ++ s.name) "")).map Node.name →
            (n ∈ (deleteFunc env s w).nodes ↔ n ∈ w.nodes)) ∧
          ((∀ e ∈ added, e.ok = true) →
            (∀ n ∈ (deleteFunc env s w).nodes,
              n.name ∈ (w.nodes.filter
                (env.selectsNode ("edge-net.io/slice=" ++ s.name) "")).map Node.name →
              mapGet n.labels "edge-net.io/access" = some "public" ∧
              mapGet n.labels "edge-net.io/slice" = some "none" ∧
              mapGet n.labels "edge-net.io/pre-reservation" = some "none") ∧
            (s.name ≠ "none" →
              (∀ n ∈ w.nodes,
                env.selectsNode ("edge-net.io/slice=" ++ s.name) "" n =
                  decide (mapGet n.labels "edge-net.io/slice" = some s.name)) →
              (∀ n ∈ w.nodes, (mapGet n.labels "edge-net.io/slice" = some s.name ∨
                  mapGet n.labels "edge-net.io/pre-reservation" = some s.name) →
                mapGet n.labels "edge-net.io/slice" = some s.name) →
              ∀ n ∈ (deleteFunc env s w).nodes,
                mapGet n.labels "edge-net.io/slice" ≠ some s.name ∧
                mapGet n.labels "edge-net.io/pre-reservation" ≠ some s.name)))) ∧
    (env.fails w.tick = true →
      ((s.status.state = "Reserved" ∨ s.status.state = "Bound") →
        deleteFunc env s w =
          w.request (Action.listNodes ("edge-net.io/pre-reservation=" ++ s.name) "") false ∧
        (deleteFunc env s w).nodes = w.nodes) ∧
      (s.status.state = "Provisioned" →
        deleteFunc env s w =
          w.request (Action.listNodes ("edge-net.io/slice=" ++ s.name) "") false ∧
        (deleteFunc env s w).nodes = w.nodes)) ∧
    (s.status.state ≠ "Reserved" → s.status.state ≠ "Bound" →
      s.status.state ≠ "Provisioned" → deleteFunc env s w = w) := by
  have hfail : ∀ sel : String, env.fails w.tick = true →
      (match (listNodes env sel "" w).1 with
        | some items => deleteFunc_nodes env items (listNodes env sel "" w).2
        | none => (listNodes env sel "" w).2) =
      w.request (Action.listNodes sel "") false := by
    intro sel hf
    have h1 : listNodes env sel "" w = (none, w.request (Action.listNodes sel "") false) := by
      unfold listNodes
      rw [if_pos hf]
    rw [h1]
  obtain ⟨d1, d2, d3⟩ := deleteFunc_of_listing env s w
  refine ⟨fun hlist => ⟨(deleteFunc_release_listed env s w hlist).1,
    (deleteFunc_release_listed env s w hlist).2.1⟩, fun hf => ⟨?_, ?_⟩, d3⟩
  · intro h
    rw [d1 h, hfail _ hf]
    exact ⟨rfl, rfl⟩
  · intro h
    rw [d2 h, hfail _ hf]
    exact ⟨rfl, rfl⟩

/-- Witness for C19: deleting the Bound Slice `edge-slice-1` releases the pre-reserved
node `n1`, and deleting it in state Provisioned releases the private node `n1`; no node
carries the name afterwards.  When the listing fails, the nodes are as before. -/
theorem C19_release_on_delete_witness :
    (quietEnv.fails held_world.tick = false ∧
      unclaimed_bound_slice.status.state = "Bound" ∧
      mapGet held_node.labels "edge-net.io/pre-reservation" = some "edge-slice-1" ∧
      held_node ∈ held_world.nodes ∧
      ∀ n ∈ (deleteFunc quietEnv unclaimed_bound_slice held_world).nodes,
        mapGet n.labels "edge-net.io/slice" ≠ some "edge-slice-1" ∧
        mapGet n.labels "edge-net.io/pre-reservation" ≠ some "edge-slice-1") ∧
    (provisioned_slice.status.state = "Provisioned" ∧
      (provisioned_world "Bound").nodes.map
        (fun n => mapGet n.labels "edge-net.io/slice") = [some "edge-slice-1"] ∧
      ∀ n ∈ (deleteFunc quietEnv provisioned_slice (provisioned_world "Bound")).nodes,
        mapGet n.labels "edge-net.io/slice" ≠ some "edge-slice-1" ∧
        mapGet n.labels "edge-net.io/pre-reservation" ≠ some "edge-slice-1") ∧
    (firstFailsEnv.fails held_world.tick = true ∧
      (deleteFunc firstFailsEnv unclaimed_bound_slice held_world).nodes = held_world.nodes) := by
  refine ⟨⟨by decide, by decide, by decide, by decide, ?_⟩, ⟨by decide, by decide, ?_⟩,
    by decide,
    (((C19_release_on_delete firstFailsEnv unclaimed_bound_slice held_world).2.1
      (by decide)).1 (Or.inr (by decide))).2⟩
  · obtain ⟨added, hlog, _, _, heff⟩ :=
      ((C19_release_on_delete quietEnv unclaimed_bound_slice held_world).1 (by decide)).1
        (Or.inr (by decide))
    have hall0 : ∀ e ∈ (deleteFunc quietEnv unclaimed_bound_slice held_world).log,
        e.ok = true := by decide
    have hall : ∀ e ∈ added, e.ok = true := by
      intro e he
      apply hall0
      rw [hlog]
      simp [he]
    exact (heff hall).2 (by decide) (by decide) (by decide)
  · obtain ⟨added, hlog, _, _, heff⟩ :=
      ((C19_release_on_delete quietEnv provisioned_slice (provisioned_world "Bound")).1
        (by decide)).2 (by decide)
    have hall0 : ∀ e ∈ (deleteFunc quietEnv provisioned_slice (provisioned_world "Bound")).log,
        e.ok = true := by decide
    have hall : ∀ e ∈ added, e.ok = true := by
      intro e he
      apply hall0
      rw [hlog]
      simp [he]
    exact (heff hall).2 (by decide) (by decide) (by decide)

/-- Counterexample to C19 as stated.  First run: the Slice `edge-slice-1` is Bound and
node `n1` is labelled `pre-reservation=edge-slice-1`; the node listing of the delete
handler fails, so the handler sends no patch at all and `n1` keeps the label.  Second
run: the Slice is Reserved and node `n1` carries its name in the slice label only; every
request succeeds, the listing by pre-reservation is empty, and `n1` still carries the
name in its slice label. -/
theorem C19_counterexample_nodes_stay_held :
    (unclaimed_bound_slice.status.state = "Bound" ∧
      mapGet held_node.labels "edge-net.io/pre-reservation" =
        some unclaimed_bound_slice.name ∧
      held_node ∈ held_world.nodes ∧
      deleteFunc firstFailsEnv unclaimed_bound_slice held_world =
        held_world.request
          (Action.listNodes "edge-net.io/pre-reservation=edge-slice-1" "") false ∧
      held_node ∈ (deleteFunc firstFailsEnv unclaimed_bound_slice held_world).nodes) ∧
    (reserved_slice.status.state = "Reserved" ∧
      (deleteFunc quietEnv reserved_slice sliceOnly_world).log =
        [Entry.mk (Action.listNodes "edge-net.io/pre-reservation=edge-slice-1" "") true] ∧
      (deleteFunc quietEnv reserved_slice sliceOnly_world).nodes.map
        (fun n => mapGet n.labels "edge-net.io/slice") = [some reserved_slice.name]) := by
  refine ⟨⟨by decide, by decide, by decide, by decide, by decide⟩,
    by decide, by decide, by decide⟩

/-! ### The pick loop -/

/-- C26 (the random pick loop is safe): for a candidate list of length `m`, a count with
`0 ≤ count ≤ m` and any random source, the pick loop of `reserveNodes` returns (no call of
`rand.Intn` has a non-positive argument and no index is out of range), it draws exactly
`count` times, and the `count` picked names are candidates which, together with the
names left over, are a rearrangement of the candidate list: they are pairwise distinct
when the candidate names are.  Each round that is still due finds a list of length at
least 1, uses an index below that length, and leaves a list one shorter, long enough for
the rounds to come. -/
theorem C26_pick_loop_safe (env : Env) (count : Int) (nodeList pickedNodeList : List String)
    (w : World) (hlow : 0 ≤ count) (hhigh : count ≤ nodeList.length) :
    (∃ new rest : List String,
      reserveNodes_pick env count.toNat nodeList pickedNodeList w =
        some (pickedNodeList ++ new, { w with draws := w.draws + count.toNat }) ∧
      (new.length : Int) = count ∧ (new ++ rest).Perm nodeList ∧
      (∀ x ∈ new, x ∈ nodeList) ∧ (nodeList.Nodup → new.Nodup)) ∧
    (∀ n : Nat, count.toNat = n + 1 →
      1 ≤ nodeList.length ∧ env.rnd w.draws % nodeList.length < nodeList.length ∧
      ∃ picked last : String,
        nodeList[env.rnd w.draws % nodeList.length]? = some picked ∧
        nodeList.getLast? = some last ∧
        reserveNodes_pick env (n + 1) nodeList pickedNodeList w =
          reserveNodes_pick env n
            ((nodeList.set (env.rnd w.draws % nodeList.length) last).dropLast)
            (pickedNodeList ++ [picked]) { w with draws := w.draws + 1 } ∧
        ((nodeList.set (env.rnd w.draws % nodeList.length) last).dropLast).length + 1 =
          nodeList.length ∧
        n ≤ ((nodeList.set (env.rnd w.draws % nodeList.length) last).dropLast).length) := by
  have hle : count.toNat ≤ nodeList.length := by omega
  refine ⟨?_, ?_⟩
  · obtain ⟨new, rest, hpick, hlen, hperm⟩ :=
      reserveNodes_pick_spec env count.toNat nodeList pickedNodeList w hle
    refine ⟨new, rest, hpick, by rw [hlen]; omega, hperm, ?_, ?_⟩
    · intro x hx
      exact hperm.subset (List.mem_append_left _ hx)
    · intro hnd
      exact (List.nodup_append.1 ((hperm.nodup_iff).2 hnd)).1
  · intro n hn
    have hpos : 0 < nodeList.length := by omega
    have hidx : env.rnd w.draws % nodeList.length < nodeList.length := Nat.mod_lt _ hpos
    have hne : nodeList ≠ [] := by
      intro h
      rw [h] at hpos
      exact absurd hpos (by simp)
    refine ⟨hpos, hidx, nodeList[env.rnd w.draws % nodeList.length],
      nodeList.getLast hne, ?_, ?_, ?_, ?_, ?_⟩
    · exact List.getElem?_eq_getElem hidx
    · exact List.getLast?_eq_getLast _ hne
    · simp only [reserveNodes_pick]
      rw [if_neg (by omega), List.getElem?_eq_getElem hidx, List.getLast?_eq_getLast _ hne]
    · simp only [List.length_dropLast, List.length_set]
      omega
    · simp only [List.length_dropLast, List.length_set]
      omega

/-- Witness for C26: two picks from three candidates with the random source of
`quietEnv`. -/
theorem C26_pick_loop_safe_witness :
    ∃ new rest : List String,
      reserveNodes_pick quietEnv 2 ["n1", "n2", "n3"] [] scenarioA_world =
        some ([] ++ new, { scenarioA_world with draws := scenarioA_world.draws + 2 }) ∧
      (new.length : Int) = 2 ∧ (new ++ rest).Perm ["n1", "n2", "n3"] ∧
      (∀ x ∈ new, x ∈ ["n1", "n2", "n3"]) ∧ (["n1", "n2", "n3"].Nodup → new.Nodup) :=
  (C26_pick_loop_safe quietEnv 2 ["n1", "n2", "n3"] [] scenarioA_world (by decide)
    (by decide)).1

/-! ### Empty limits -/

theorem reserveNodes_first_term_few (env : Env) (s : Slice) (w : World)
    (term : NodeSelectorTerm) (post : List NodeSelectorTerm)
    (hstate : s.status.state ≠ "Reserved" ∧ s.status.state ≠ "Bound" ∧
      s.status.state ≠ "Provisioned")
    (hterms : s.nodeSelector.selectorTerms = term :: post)
    (hfew : ((reserveNodes_list env s term w).1.length : Int) < s.nodeSelector.count) :
    ∃ ok : Bool, reserveNodes env s w =
      some (false,
        { s with status :=
            { state := "Failure", message := "There are no adequate resources to slice",
              expiry := s.status.expiry } },
        (w.request (Action.listNodes (reserveNodes_selector term.matchExpressions)
            (reserveNodes_selector term.matchFields)) ok).event
          "Warning" "Slice Failed" "There are no adequate resources to slice") := by
  have hcond : s.status.state ≠ reserved ∧ s.status.state ≠ bound ∧
      s.status.state ≠ provisioned := hstate
  obtain ⟨ok, hl2⟩ := reserveNodes_list_snd env s term w
  refine ⟨ok, ?_⟩
  have hterm : reserveNodes_term env s term w =
      some (false,
        { s with status :=
            { s.status with state := failure, message := messageSliceFailed } },
        (reserveNodes_list env s term w).2.event "Warning" "Slice Failed"
          messageSliceFailed) := by
    unfold reserveNodes_term
    dsimp only
    rw [if_pos hfew]
  unfold reserveNodes
  rw [if_pos hcond, hterms]
  simp only [reserveNodes_terms, hterm, hl2]
  rfl

theorem reserveNodes_accepts_of_no_limits (s : Slice) (n : Node)
    (hlim : s.nodeSelector.resources.limits = []) : reserveNodes_accepts s n = false := by
  unfold reserveNodes_accepts
  split
  · rfl
  · simp [hlim, reserveNodes_limits]

theorem reserveNodes_list_of_no_limits (env : Env) (s : Slice) (term : NodeSelectorTerm)
    (w : World) (hlim : s.nodeSelector.resources.limits = []) :
    (reserveNodes_list env s term w).1 = [] := by
  unfold reserveNodes_list
  dsimp only
  split
  · unfold reserveNodes_nodeList
    rw [List.map_eq_nil_iff, List.filter_eq_nil_iff]
    intro n _
    rw [reserveNodes_accepts_of_no_limits s n hlim]
    simp
  · rfl

/-- C27, as amended (an empty limits map makes every node ineligible): for a Slice whose
limits map is empty, `reserveNodes` accepts no node whatever the requests map, so every
candidate list is empty; and when the Slice is not Reserved, Bound or Provisioned, the
count is at least 1 and there is a first selector term, `reserveNodes` returns false with
state Failure and message "There are no adequate resources to slice", having logged the
node listing of that term and the warning event only: no node is patched. -/
theorem C27_empty_limits (env : Env) (s : Slice) (w : World)
    (hlim : s.nodeSelector.resources.limits = []) :
    (∀ n : Node, reserveNodes_accepts s n = false) ∧
    (∀ (term : NodeSelectorTerm) (w1 : World), (reserveNodes_list env s term w1).1 = []) ∧
    ((s.status.state ≠ "Reserved" ∧ s.status.state ≠ "Bound" ∧
        s.status.state ≠ "Provisioned") →
      1 ≤ s.nodeSelector.count →
      ∀ (term : NodeSelectorTerm) (post : List NodeSelectorTerm),
        s.nodeSelector.selectorTerms = term :: post →
        ∃ ok : Bool, reserveNodes env s w =
          some (false,
            { s with status :=
                { state := "Failure", message := "There are no adequate resources to slice",
                  expiry := s.status.expiry } },
            (w.request (Action.listNodes (reserveNodes_selector term.matchExpressions)
                (reserveNodes_selector term.matchFields)) ok).event
              "Warning" "Slice Failed" "There are no adequate resources to slice")) := by
  refine ⟨fun n => reserveNodes_accepts_of_no_limits s n hlim,
    fun term w1 => reserveNodes_list_of_no_limits env s term w1 hlim, ?_⟩
  intro hstate hcount term post hterms
  refine reserveNodes_first_term_few env s w term post hstate hterms ?_
  rw [reserveNodes_list_of_no_limits env s term w hlim]
  simp only [List.length_nil, Nat.cast_zero]
  omega

/-- Witness for C27: the Slice of Scenario A with an empty limits map and a cpu request
of 1, on the three unassigned nodes of Scenario A. -/
theorem C27_empty_limits_witness :
    noLimits_slice.nodeSelector.resources.limits = [] ∧
    noLimits_slice.nodeSelector.count = 2 ∧
    ∃ ok : Bool, reserveNodes quietEnv noLimits_slice scenarioA_world =
      some (false,
        { noLimits_slice with status :=
            { state := "Failure", message := "There are no adequate resources to slice",
              expiry := noLimits_slice.status.expiry } },
        (scenarioA_world.request (Action.listNodes (reserveNodes_selector [])
            (reserveNodes_selector [])) ok).event
          "Warning" "Slice Failed" "There are no adequate resources to slice") :=
  ⟨by decide, by decide,
    (C27_empty_limits quietEnv noLimits_slice scenarioA_world (by decide)).2.2
      (by decide) (by decide) { matchExpressions := [], matchFields := [] } [] (by decide)⟩

/-- Counterexample to C27 as stated: a Slice with an empty limits map, count 1 and one
selector term that is in state Reserved.  `reserveNodes` returns true at once and the
Slice is still Reserved, not Failure. -/
theorem C27_counterexample_reserved_slice :
    noLimits_reserved_slice.nodeSelector.resources.limits = [] ∧
    1 ≤ noLimits_reserved_slice.nodeSelector.count ∧
    noLimits_reserved_slice.nodeSelector.selectorTerms.length = 1 ∧
    reserveNodes quietEnv noLimits_reserved_slice scenarioA_world =
      some (true, noLimits_reserved_slice, scenarioA_world) ∧
    noLimits_reserved_slice.status.state = "Reserved" := by
  refine ⟨by decide, by decide, by decide, by decide, by decide⟩

/-! ### `claimSlice` -/

theorem getSlice_cases (env : Env) (name : String) (w : World) :
    (∃ s, getSlice env name w = (GetResult.found s, w.request (Action.getSlice name) true) ∧
      env.fails w.tick = false ∧ w.slices.find? (fun x => x.name = name) = some s) ∨
    ((getSlice env name w).2 = w.request (Action.getSlice name) false ∧
      (∀ s, (getSlice env name w).1 ≠ GetResult.found s) ∧
      (env.fails w.tick = true ∨ w.slices.find? (fun x => x.name = name) = none)) := by
  unfold getSlice
  split
  · rename_i hf
    exact Or.inr ⟨rfl, fun s h => GetResult.noConfusion h, Or.inl hf⟩
  · rename_i hf
    split
    · rename_i s hs
      exact Or.inl ⟨s, rfl, by simpa using hf, hs⟩
    · rename_i hs
      exact Or.inr ⟨rfl, fun s h => GetResult.noConfusion h, Or.inr hs⟩

theorem updateSlice_cases (env : Env) (obj : Slice) (w : World) :
    (updateSlice env obj w = (false, w.request (Action.updateSlice obj) false)) ∨
    (updateSlice env obj w =
      (true, ({ w with slices := w.slices.map (fun (s : Slice) =>
          if s.name = obj.name then { obj with status := s.status } else s) }).request
        (Action.updateSlice obj) true)) := by
  unfold updateSlice
  split
  · exact Or.inl rfl
  · split
    · exact Or.inr rfl
    · exact Or.inl rfl

theorem createSlice_cases (env : Env) (obj : Slice) (w : World) :
    (createSlice env obj w = (false, w.request (Action.createSlice obj) false) ∧
      (env.fails w.tick = true ∨ w.slices.any (fun s => s.name = obj.name) = true)) ∨
    (createSlice env obj w =
      (true, ({ w with slices := w.slices ++ [obj] }).request (Action.createSlice obj) true) ∧
      env.fails w.tick = false ∧ w.slices.any (fun s => s.name = obj.name) = false) := by
  unfold createSlice
  split
  · rename_i hf
    exact Or.inl ⟨rfl, Or.inl hf⟩
  · rename_i hf
    split
    · rename_i ha
      exact Or.inl ⟨rfl, Or.inr ha⟩
    · rename_i ha
      exact Or.inr ⟨rfl, by simpa using hf, by simpa using ha⟩

theorem claimSlice_found (env : Env) (c : SliceClaim) (w : World) (slice : Slice)
    (h : (getSlice env c.sliceName w).1 = GetResult.found slice) :
    claimSlice env c w =
      tieClaim2Slice env c slice (w.request (Action.getSlice c.sliceName) true) := by
  rcases getSlice_cases env c.sliceName w with ⟨s, hs, _, _⟩ | ⟨_, hno, _⟩
  · rw [hs] at h
    simp only [GetResult.found.injEq] at h
    subst h
    unfold claimSlice
    dsimp only
    rw [hs]
  · exact absurd h (hno slice)

theorem claimSlice_missing (env : Env) (c : SliceClaim) (w : World)
    (h : ∀ s, (getSlice env c.sliceName w).1 ≠ GetResult.found s) :
    claimSlice env c w =
      if stringsEqualFold env.provisioning dynamic then
        if (createSlice env
            { name := c.sliceName, uid := "", sliceClassName := c.sliceClassName,
              claimRef := some c.makeObjectReference, nodeSelector := c.nodeSelector,
              status := { state := "", message := "", expiry := c.sliceExpiry } }
            (w.request (Action.getSlice c.sliceName) false)).1 then
          (false, { c with status := { state := requested, message := messagePending } },
            (createSlice env
              { name := c.sliceName, uid := "", sliceClassName := c.sliceClassName,
                claimRef := some c.makeObjectReference, nodeSelector := c.nodeSelector,
                status := { state := "", message := "", expiry := c.sliceExpiry } }
              (w.request (Action.getSlice c.sliceName) false)).2.event
              "Normal" "Slice Claimed" messageClaimed)
        else
          (false, { c with status := { state := failure, message := messageCreationFailed } },
            (createSlice env
              { name := c.sliceName, uid := "", sliceClassName := c.sliceClassName,
                claimRef := some c.makeObjectReference, nodeSelector := c.nodeSelector,
                status := { state := "", message := "", expiry := c.sliceExpiry } }
              (w.request (Action.getSlice c.sliceName) false)).2.event
              "Warning" "Creation Failed" messageCreationFailed)
      else
        (false, { c with status := { state := pending, message := messagePending } },
          (w.request (Action.getSlice c.sliceName) false).event
            "Warning" "Not Bound" messagePending) := by
  rcases getSlice_cases env c.sliceName w with ⟨s, hs, _, _⟩ | ⟨hsnd, _, _⟩
  · exact absurd (by rw [hs]) (h s)
  · unfold claimSlice
    dsimp only
    rw [hsnd]
    cases hg : (getSlice env c.sliceName w).1 with
    | found s => exact absurd hg (h s)
    | notFound => rfl
    | otherError => rfl

/-- C29 (a failed `claimRef` update is masked): when the Slice named `spec.sliceName` is
fetched, has no `claimRef`, is Reserved, has the class name of the claim and a node
selector that `reflect.DeepEqual` finds equal to the claim's, `claimSlice` returns false
with the claim in state Requested and message "Waiting for the slice", whether the Slice
update succeeds or fails.  When the update fails, the warning event "Slice binding
failed" is recorded, followed by the event "Slice claimed successfully", and the stored
Slices are unchanged. -/
theorem C29_failed_update_masked (env : Env) (c : SliceClaim) (w : World) (slice : Slice)
    (hget : (getSlice env c.sliceName w).1 = GetResult.found slice)
    (hunclaimed : slice.claimRef = none) (hreserved : slice.status.state = "Reserved")
    (hclass : slice.sliceClassName = c.sliceClassName)
    (hselector : deepEqualNodeSelector slice.nodeSelector c.nodeSelector = true) :
    (claimSlice env c w).1 = false ∧
    (claimSlice env c w).2.1 =
      { c with status := { state := "Requested", message := "Waiting for the slice" } } ∧
    ((updateSlice env { slice with claimRef := some c.makeObjectReference }
        (w.request (Action.getSlice c.sliceName) true)).1 = false →
      (claimSlice env c w).2.2.log = w.log ++
        [Entry.mk (Action.getSlice c.sliceName) true,
         Entry.mk (Action.updateSlice { slice with claimRef := some c.makeObjectReference })
           false,
         Entry.mk (Action.event "Warning" "Binding Failed" "Slice binding failed") true,
         Entry.mk (Action.event "Normal" "Slice Claimed" "Slice claimed successfully") true] ∧
      (claimSlice env c w).2.2.slices = w.slices) ∧
    ((updateSlice env { slice with claimRef := some c.makeObjectReference }
        (w.request (Action.getSlice c.sliceName) true)).1 = true →
      (claimSlice env c w).2.2.log = w.log ++
        [Entry.mk (Action.getSlice c.sliceName) true,
         Entry.mk (Action.updateSlice { slice with claimRef := some c.makeObjectReference })
           true,
         Entry.mk (Action.event "Normal" "Slice Claimed" "Slice claimed successfully")
           true]) := by
  have hnf : ¬ slice.status.state = failure := by
    rw [hreserved]; decide
  have hcond : slice.status.state = reserved ∧ slice.sliceClassName = c.sliceClassName ∧
      deepEqualNodeSelector slice.nodeSelector c.nodeSelector = true :=
    ⟨hreserved, hclass, hselector⟩
  rw [claimSlice_found env c w slice hget]
  unfold tieClaim2Slice
  rw [if_neg hnf]
  simp only [hunclaimed]
  rw [if_pos hcond]
  refine ⟨rfl, rfl, ?_, ?_⟩
  · intro hu
    rcases updateSlice_cases env { slice with claimRef := some c.makeObjectReference }
      (w.request (Action.getSlice c.sliceName) true) with h | h
    · rw [h]
      simp [World.event, World.request, messageBindingFailed, messageClaimed]
    · rw [h] at hu
      exact absurd hu (by simp)
  · intro hu
    rcases updateSlice_cases env { slice with claimRef := some c.makeObjectReference }
      (w.request (Action.getSlice c.sliceName) true) with h | h
    · rw [h] at hu
      exact absurd hu (by simp)
    · rw [h]
      simp [World.event, World.request, messageClaimed]

/-- Witness for C29: the stored Slice `edge-slice-1` is Reserved, unclaimed and matches
`claim-1`; the second request of the pass, the Slice update, fails. -/
theorem C29_failed_update_masked_witness :
    (updateSlice secondFailsEnv
        { unclaimed_reserved_slice with claimRef := some scenarioA_claim.makeObjectReference }
        (reservedSlice_world.request (Action.getSlice scenarioA_claim.sliceName) true)).1 =
      false ∧
    (claimSlice secondFailsEnv scenarioA_claim reservedSlice_world).1 = false ∧
    (claimSlice secondFailsEnv scenarioA_claim reservedSlice_world).2.1 =
      { scenarioA_claim with
        status := { state := "Requested", message := "Waiting for the slice" } } ∧
    (claimSlice secondFailsEnv scenarioA_claim reservedSlice_world).2.2.slices =
      reservedSlice_world.slices :=
  ⟨by decide,
    (C29_failed_update_masked secondFailsEnv scenarioA_claim reservedSlice_world
      unclaimed_reserved_slice rfl (by decide) (by decide) (by decide)
      (by decide)).1,
    (C29_failed_update_masked secondFailsEnv scenarioA_claim reservedSlice_world
      unclaimed_reserved_slice rfl (by decide) (by decide) (by decide)
      (by decide)).2.1,
    ((C29_failed_update_masked secondFailsEnv scenarioA_claim reservedSlice_world
      unclaimed_reserved_slice rfl (by decide) (by decide) (by decide)
      (by decide)).2.2.1 (by decide)).2⟩

theorem tieClaim2Slice_world (env : Env) (c : SliceClaim) (slice : Slice) (w : World) :
    ((slice.claimRef ≠ none ∨ slice.status.state = "Failure" ∨
        ¬ (slice.status.state = "Reserved" ∧ slice.sliceClassName = c.sliceClassName ∧
          deepEqualNodeSelector slice.nodeSelector c.nodeSelector = true)) ∧
      ∃ t r m, (tieClaim2Slice env c slice w).2.2 = w.event t r m) ∨
    (slice.claimRef = none ∧ slice.status.state = "Reserved" ∧
      slice.sliceClassName = c.sliceClassName ∧
      deepEqualNodeSelector slice.nodeSelector c.nodeSelector = true ∧
      (tieClaim2Slice env c slice w).2.2 =
        (if (updateSlice env { slice with claimRef := some c.makeObjectReference } w).1 then
          (updateSlice env { slice with claimRef := some c.makeObjectReference } w).2
        else
          (updateSlice env { slice with claimRef := some c.makeObjectReference } w).2.event
            "Warning" "Binding Failed" messageBindingFailed).event
          "Normal" "Slice Claimed" messageClaimed) := by
  unfold tieClaim2Slice
  split
  · rename_i hf
    exact Or.inl ⟨Or.inr (Or.inl hf), _, _, _, rfl⟩
  · split
    · rename_i ref href
      have hne : slice.claimRef ≠ none := by rw [href]; simp
      split
      · exact Or.inl ⟨Or.inl hne, _, _, _, rfl⟩
      · exact Or.inl ⟨Or.inl hne, _, _, _, rfl⟩
    · rename_i href
      split
      · rename_i hcond
        exact Or.inr ⟨href, hcond.1, hcond.2.1, hcond.2.2, rfl⟩
      · rename_i hcond
        exact Or.inl ⟨Or.inr (Or.inr hcond), _, _, _, rfl⟩

/-- C21 (a claimed Slice is never re-assigned): every Slice update request that
`claimSlice` issues is for a fetched Slice that has no `claimRef`, is Reserved, has the
class name of the claim and a node selector that `reflect.DeepEqual` finds equal to the
claim's, and the object sent is that Slice with only `claimRef` replaced by the
reference of this claim.  With unique Slice names, when
the Slice is fetched the stored Slices afterwards are those of before, or those of
before with only `claimRef` of the Slice named `spec.sliceName` replaced; and when the
stored Slice of that name has a `claimRef` or is in state Failure, no Slice update is
requested and the stored Slices are unchanged, whatever requests fail. -/
theorem C21_claimed_slice_not_reassigned (env : Env) (c : SliceClaim) (w : World) :
    ∃ added : List Entry, (claimSlice env c w).2.2.log = w.log ++ added ∧
      (∀ obj ok, Entry.mk (Action.updateSlice obj) ok ∈ added →
        ∃ slice, (getSlice env c.sliceName w).1 = GetResult.found slice ∧
          slice.claimRef = none ∧ slice.status.state = "Reserved" ∧
          slice.sliceClassName = c.sliceClassName ∧
          deepEqualNodeSelector slice.nodeSelector c.nodeSelector = true ∧
          obj = { slice with claimRef := some c.makeObjectReference }) ∧
      (∀ slice, (getSlice env c.sliceName w).1 = GetResult.found slice →
        (w.slices.map Slice.name).Nodup →
        (claimSlice env c w).2.2.slices = w.slices ∨
        (claimSlice env c w).2.2.slices = w.slices.map (fun (s : Slice) =>
          if s.name = c.sliceName then { s with claimRef := some c.makeObjectReference }
          else s)) ∧
      (∀ slice ∈ w.slices, slice.name = c.sliceName →
        (slice.claimRef ≠ none ∨ slice.status.state = "Failure") →
        (w.slices.map Slice.name).Nodup →
        (claimSlice env c w).2.2.slices = w.slices ∧
        ∀ obj ok, Entry.mk (Action.updateSlice obj) ok ∉ added) := by
  rcases getSlice_cases env c.sliceName w with ⟨s, hs, _, hfind⟩ | ⟨_, hno, hwhy⟩
  · have hget : (getSlice env c.sliceName w).1 = GetResult.found s := by rw [hs]
    have hmem : s ∈ w.slices := List.mem_of_find?_eq_some hfind
    have hname : s.name = c.sliceName := by
      have := List.find?_some hfind
      simpa using this
    rw [claimSlice_found env c w s hget]
    rcases tieClaim2Slice_world env c s (w.request (Action.getSlice c.sliceName) true) with
      ⟨hnot, t, r, m, hw⟩ | ⟨h1, h2, h3, h4, hw⟩
    · rw [hw]
      refine ⟨[Entry.mk (Action.getSlice c.sliceName) true,
        Entry.mk (Action.event t r m) true], by simp [World.event, World.request], ?_, ?_, ?_⟩
      · intro obj ok hmem2
        simp at hmem2
      · intro _ _ _
        exact Or.inl rfl
      · intro slice _ _ _ _
        refine ⟨rfl, ?_⟩
        intro obj ok hmem2
        simp at hmem2
    · rw [hw]
      rcases updateSlice_cases env { s with claimRef := some c.makeObjectReference }
        (w.request (Action.getSlice c.sliceName) true) with hu | hu
      · rw [hu]
        refine ⟨[Entry.mk (Action.getSlice c.sliceName) true,
          Entry.mk (Action.updateSlice { s with claimRef := some c.makeObjectReference }) false,
          Entry.mk (Action.event "Warning" "Binding Failed" messageBindingFailed) true,
          Entry.mk (Action.event "Normal" "Slice Claimed" messageClaimed) true],
          by simp [World.event, World.request], ?_, ?_, ?_⟩
        · intro obj ok hmem2
          simp at hmem2
          exact ⟨s, hget, h1, h2, h3, h4, hmem2.1⟩
        · intro _ _ _
          exact Or.inl rfl
        · intro slice hslice hn hclaimed hnd
          have hEq : s = slice :=
            List.inj_on_of_nodup_map hnd hmem hslice (hname.trans hn.symm)
          subst hEq
          rcases hclaimed with k | k
          · exact absurd h1 k
          · rw [h2] at k
            exact absurd k (by decide)
      · rw [hu]
        refine ⟨[Entry.mk (Action.getSlice c.sliceName) true,
          Entry.mk (Action.updateSlice { s with claimRef := some c.makeObjectReference }) true,
          Entry.mk (Action.event "Normal" "Slice Claimed" messageClaimed) true],
          by simp [World.event, World.request], ?_, ?_, ?_⟩
        · intro obj ok hmem2
          simp at hmem2
          exact ⟨s, hget, h1, h2, h3, h4, hmem2.1⟩
        · intro slice hslice hnd
          right
          simp only [World.event, World.request, if_true]
          apply List.map_congr_left
          intro x hx
          by_cases hxn : x.name = c.sliceName
          · have hEq : s = x := List.inj_on_of_nodup_map hnd hmem hx (hname.trans hxn.symm)
            subst hEq
            simp [hname]
          · have hxs : ¬ x.name = s.name := by rw [hname]; exact hxn
            simp [hxn, hxs]
        · intro slice hslice hn hclaimed hnd
          have hEq : s = slice :=
            List.inj_on_of_nodup_map hnd hmem hslice (hname.trans hn.symm)
          subst hEq
          rcases hclaimed with k | k
          · exact absurd h1 k
          · rw [h2] at k
            exact absurd k (by decide)
  · rw [claimSlice_missing env c w hno]
    split
    · rcases createSlice_cases env
        { name := c.sliceName, uid := "", sliceClassName := c.sliceClassName,
          claimRef := some c.makeObjectReference, nodeSelector := c.nodeSelector,
          status := { state := "", message := "", expiry := c.sliceExpiry } }
        (w.request (Action.getSlice c.sliceName) false) with ⟨hc, _⟩ | ⟨hc, _, hany⟩
      · rw [hc]
        simp only [Bool.false_eq_true, if_false]
        refine ⟨[Entry.mk (Action.getSlice c.sliceName) false,
          Entry.mk (Action.createSlice
            { name := c.sliceName, uid := "", sliceClassName := c.sliceClassName,
              claimRef := some c.makeObjectReference, nodeSelector := c.nodeSelector,
              status := { state := "", message := "", expiry := c.sliceExpiry } }) false,
          Entry.mk (Action.event "Warning" "Creation Failed" messageCreationFailed) true],
          by simp [World.event, World.request], ?_, ?_, ?_⟩
        · intro obj ok hmem2
          simp at hmem2
        · intro slice hslice
          exact absurd hslice (hno slice)
        · intro slice _ _ _ _
          refine ⟨rfl, ?_⟩
          intro obj ok hmem2
          simp at hmem2
      · rw [hc]
        simp only [if_true]
        refine ⟨[Entry.mk (Action.getSlice c.sliceName) false,
          Entry.mk (Action.createSlice
            { name := c.sliceName, uid := "", sliceClassName := c.sliceClassName,
              claimRef := some c.makeObjectReference, nodeSelector := c.nodeSelector,
              status := { state := "", message := "", expiry := c.sliceExpiry } }) true,
          Entry.mk (Action.event "Normal" "Slice Claimed" messageClaimed) true],
          by simp [World.event, World.request], ?_, ?_, ?_⟩
        · intro obj ok hmem2
          simp at hmem2
        · intro slice hslice
          exact absurd hslice (hno slice)
        · intro slice hslice hn _ _
          exfalso
          have : (w.request (Action.getSlice c.sliceName) false).slices.any
              (fun x => x.name = c.sliceName) = true :=
            List.any_eq_true.2 ⟨slice, hslice, by simpa using hn⟩
          rw [this] at hany
          exact absurd hany (by simp)
    · refine ⟨[Entry.mk (Action.getSlice c.sliceName) false,
        Entry.mk (Action.event "Warning" "Not Bound" messagePending) true],
        by simp [World.event, World.request], ?_, ?_, ?_⟩
      · intro obj ok hmem2
        simp at hmem2
      · intro slice hslice
        exact absurd hslice (hno slice)
      · intro slice _ _ _ _
        refine ⟨rfl, ?_⟩
        intro obj ok hmem2
        simp at hmem2

/-- Witness for C21: `edge-slice-1` is stored with a `claimRef` to `claim-1`; when
`claim-2` asks for it, the stored Slices are unchanged and the claim fails with "Slice is
bound to another claim already". -/
theorem C21_claimed_slice_not_reassigned_witness :
    provisioned_slice ∈ (provisioned_world "Bound").slices ∧
    provisioned_slice.claimRef = some claim1_ref ∧
    (claimSlice quietEnv second_claim (provisioned_world "Bound")).2.2.slices =
      (provisioned_world "Bound").slices ∧
    (claimSlice quietEnv second_claim (provisioned_world "Bound")).2.1.status =
      { state := "Failure", message := "Slice is bound to another claim already" } := by
  obtain ⟨added, _, _, _, hB⟩ :=
    C21_claimed_slice_not_reassigned quietEnv second_claim (provisioned_world "Bound")
  exact ⟨by decide, by decide,
    (hB provisioned_slice (by decide) (by decide) (Or.inl (by decide)) (by decide)).1,
    by decide⟩

/-- C22, as amended (missing Slice): when the Slice named `spec.sliceName` cannot be
fetched and the provisioning mode equals "Dynamic" up to letter case, which the mode
"Dynamic" does, `claimSlice` issues exactly one create request, for a Slice with the name
`spec.sliceName`, the reference of this claim as `claimRef`, `spec.sliceExpiry` as
`status.expiry` and the class name and node selector of the claim; when the creation
succeeds the claim is Requested with "Waiting for the slice" and the Slice is stored, and
when it fails the claim is in Failure with "Slice creation failed".  In every other mode
no create request is issued and the claim is Pending with "Waiting for the slice". -/
theorem C22_missing_slice (env : Env) (c : SliceClaim) (w : World)
    (hmiss : ∀ s, (getSlice env c.sliceName w).1 ≠ GetResult.found s) :
    (env.provisioning = "Dynamic" → stringsEqualFold env.provisioning "Dynamic" = true) ∧
    (stringsEqualFold env.provisioning "Dynamic" = true →
      (claimSlice env c w).1 = false ∧
      ((claimSlice env c w).2.1 =
          { c with status := { state := "Requested", message := "Waiting for the slice" } } ∧
        (claimSlice env c w).2.2.log = w.log ++
          [Entry.mk (Action.getSlice c.sliceName) false,
           Entry.mk (Action.createSlice
             { name := c.sliceName, uid := "", sliceClassName := c.sliceClassName,
               claimRef := some c.makeObjectReference, nodeSelector := c.nodeSelector,
               status := { state := "", message := "", expiry := c.sliceExpiry } }) true,
           Entry.mk (Action.event "Normal" "Slice Claimed" "Slice claimed successfully")
             true] ∧
        (claimSlice env c w).2.2.slices = w.slices ++
          [{ name := c.sliceName, uid := "", sliceClassName := c.sliceClassName,
             claimRef := some c.makeObjectReference, nodeSelector := c.nodeSelector,
             status := { state := "", message := "", expiry := c.sliceExpiry } }] ∨
       (claimSlice env c w).2.1 =
          { c with status := { state := "Failure", message := "Slice creation failed" } } ∧
        (claimSlice env c w).2.2.log = w.log ++
          [Entry.mk (Action.getSlice c.sliceName) false,
           Entry.mk (Action.createSlice
             { name := c.sliceName, uid := "", sliceClassName := c.sliceClassName,
               claimRef := some c.makeObjectReference, nodeSelector := c.nodeSelector,
               status := { state := "", message := "", expiry := c.sliceExpiry } }) false,
           Entry.mk (Action.event "Warning" "Creation Failed" "Slice creation failed")
             true] ∧
        (claimSlice env c w).2.2.slices = w.slices)) ∧
    (stringsEqualFold env.provisioning "Dynamic" = false →
      claimSlice env c w =
        (false,
          { c with status := { state := "Pending", message := "Waiting for the slice" } },
          (w.request (Action.getSlice c.sliceName) false).event
            "Warning" "Not Bound" "Waiting for the slice")) := by
  refine ⟨?_, ?_, ?_⟩
  · intro h
    rw [h]
    decide
  · intro hmode
    have hmode2 : stringsEqualFold env.provisioning dynamic = true := hmode
    rw [claimSlice_missing env c w hmiss, if_pos hmode2]
    rcases createSlice_cases env
      { name := c.sliceName, uid := "", sliceClassName := c.sliceClassName,
        claimRef := some c.makeObjectReference, nodeSelector := c.nodeSelector,
        status := { state := "", message := "", expiry := c.sliceExpiry } }
      (w.request (Action.getSlice c.sliceName) false) with ⟨hc, _⟩ | ⟨hc, _, _⟩
    · rw [if_neg (by rw [hc]; simp), hc]
      refine ⟨rfl, Or.inr ⟨rfl, ?_, rfl⟩⟩
      simp [World.event, World.request, messageCreationFailed]
    · rw [if_pos (by rw [hc]), hc]
      refine ⟨rfl, Or.inl ⟨rfl, ?_, rfl⟩⟩
      simp [World.event, World.request, messageClaimed]
  · intro hmode
    have hmode2 : ¬ stringsEqualFold env.provisioning dynamic = true := by
      intro h
      have h2 : stringsEqualFold env.provisioning "Dynamic" = true := h
      rw [hmode] at h2
      exact absurd h2 (by simp)
    rw [claimSlice_missing env c w hmiss, if_neg hmode2]
    rfl

/-- Witness for C22, Scenario A: no Slice is stored, the mode is `Dynamic`, and `claim-1`
asks for `edge-slice-1`; the Slice is created and the claim is Requested.  In mode
`Manual` the claim is Pending and nothing is created. -/
theorem C22_missing_slice_witness :
    (scenarioA_claim.sliceName = "edge-slice-1" ∧ quietEnv.provisioning = "Dynamic" ∧
      (claimSlice quietEnv scenarioA_claim noSlice_world).2.1.status =
        { state := "Requested", message := "Waiting for the slice" } ∧
      (claimSlice quietEnv scenarioA_claim noSlice_world).2.2.slices =
        [{ name := "edge-slice-1", uid := "", sliceClassName := "Node",
           claimRef := some scenarioA_claim.makeObjectReference,
           nodeSelector := scenarioA_selector,
           status := { state := "", message := "", expiry := none } }]) ∧
    claimSlice manualEnv scenarioA_claim noSlice_world =
      (false,
        { scenarioA_claim with
          status := { state := "Pending", message := "Waiting for the slice" } },
        (noSlice_world.request (Action.getSlice scenarioA_claim.sliceName) false).event
          "Warning" "Not Bound" "Waiting for the slice") :=
  ⟨⟨by decide, by decide, by decide, by decide⟩,
    (C22_missing_slice manualEnv scenarioA_claim noSlice_world
      (fun s h => GetResult.noConfusion h)).2.2 (by decide)⟩

/-- Counterexample to C22 as stated: the provisioning mode is `dynamic`, which is another
string than `Dynamic`, and no Slice is stored.  `claimSlice` creates the Slice
`edge-slice-1` and sets the claim to Requested, not Pending. -/
theorem C22_counterexample_mode_letter_case :
    lowerCaseEnv.provisioning ≠ "Dynamic" ∧
    noSlice_world.slices = [] ∧
    (claimSlice lowerCaseEnv scenarioA_claim noSlice_world).2.2.slices.map Slice.name =
      ["edge-slice-1"] ∧
    (claimSlice lowerCaseEnv scenarioA_claim noSlice_world).2.1.status =
      { state := "Requested", message := "Waiting for the slice" } := by
  refine ⟨by decide, by decide, by decide, by decide⟩

/-! ### `claimSlice` reads the tick and the stored Slices only -/

theorem updateSlice_reads (env : Env) (obj : Slice) (w V : World)
    (ht : V.tick = w.tick) (hs : V.slices = w.slices) :
    updateSlice env obj V =
      ((updateSlice env obj w).1,
        { V with
          slices := (updateSlice env obj w).2.slices, tick := w.tick + 1,
          log := V.log ++
            [Entry.mk (Action.updateSlice obj) (updateSlice env obj w).1] }) := by
  unfold updateSlice
  rw [ht, hs]
  split
  · simp [World.request, ht, hs]
  · split <;> simp [World.request, ht, hs]

theorem createSlice_reads (env : Env) (obj : Slice) (w V : World)
    (ht : V.tick = w.tick) (hs : V.slices = w.slices) :
    createSlice env obj V =
      ((createSlice env obj w).1,
        { V with
          slices := (createSlice env obj w).2.slices, tick := w.tick + 1,
          log := V.log ++
            [Entry.mk (Action.createSlice obj) (createSlice env obj w).1] }) := by
  unfold createSlice
  rw [ht, hs]
  split
  · simp [World.request, ht, hs]
  · split <;> simp [World.request, ht, hs]

theorem getSlice_reads (env : Env) (name : String) (w V : World)
    (ht : V.tick = w.tick) (hs : V.slices = w.slices) :
    ∃ ok : Bool, (getSlice env name w).2 = w.request (Action.getSlice name) ok ∧
      getSlice env name V = ((getSlice env name w).1, V.request (Action.getSlice name) ok) := by
  unfold getSlice
  rw [ht, hs]
  split
  · exact ⟨false, rfl, rfl⟩
  · split
    · exact ⟨true, rfl, rfl⟩
    · exact ⟨false, rfl, rfl⟩

theorem tieClaim2Slice_reads (env : Env) (c : SliceClaim) (slice : Slice) (w : World) :
    ∃ added : List Entry, (tieClaim2Slice env c slice w).2.2.log = w.log ++ added ∧
      ∀ V : World, V.tick = w.tick → V.slices = w.slices →
        tieClaim2Slice env c slice V =
          ((tieClaim2Slice env c slice w).1, (tieClaim2Slice env c slice w).2.1,
            { V with
              slices := (tieClaim2Slice env c slice w).2.2.slices,
              tick := (tieClaim2Slice env c slice w).2.2.tick,
              log := V.log ++ added }) := by
  unfold tieClaim2Slice
  split
  · refine ⟨[Entry.mk (Action.event "Warning" "Binding Failed" messageBindingFailed) true],
      rfl, ?_⟩
    intro V ht hs
    simp [World.event, ht, hs]
  · split
    · split
      · refine ⟨[Entry.mk (Action.event "Normal" "Bound" messageBound) true], rfl, ?_⟩
        intro V ht hs
        simp [World.event, ht, hs]
      · refine ⟨[Entry.mk (Action.event "Warning" "Already Bound" messageBoundAlready) true],
          rfl, ?_⟩
        intro V ht hs
        simp [World.event, ht, hs]
    · split
      · dsimp only
        rcases updateSlice_cases env { slice with claimRef := some c.makeObjectReference } w
          with hu | hu
        · refine ⟨[Entry.mk (Action.updateSlice
              { slice with claimRef := some c.makeObjectReference }) false,
            Entry.mk (Action.event "Warning" "Binding Failed" messageBindingFailed) true,
            Entry.mk (Action.event "Normal" "Slice Claimed" messageClaimed) true], ?_, ?_⟩
          · rw [hu]
            simp [World.event, World.request]
          · intro V ht hs
            rw [updateSlice_reads env _ w V ht hs, hu]
            simp [World.event, World.request]
        · refine ⟨[Entry.mk (Action.updateSlice
              { slice with claimRef := some c.makeObjectReference }) true,
            Entry.mk (Action.event "Normal" "Slice Claimed" messageClaimed) true], ?_, ?_⟩
          · rw [hu]
            simp [World.event, World.request]
          · intro V ht hs
            rw [updateSlice_reads env _ w V ht hs, hu]
            simp [World.event, World.request]
      · refine ⟨[Entry.mk (Action.event "Warning" "Binding Failed" messageBindingFailed) true],
          rfl, ?_⟩
        intro V ht hs
        simp [World.event, ht, hs]

theorem claimSlice_reads (env : Env) (c : SliceClaim) (w : World) :
    ∃ added : List Entry, (claimSlice env c w).2.2.log = w.log ++ added ∧
      ∀ V : World, V.tick = w.tick → V.slices = w.slices →
        claimSlice env c V =
          ((claimSlice env c w).1, (claimSlice env c w).2.1,
            { V with
              slices := (claimSlice env c w).2.2.slices,
              tick := (claimSlice env c w).2.2.tick,
              log := V.log ++ added }) := by
  by_cases hfound : ∃ s, (getSlice env c.sliceName w).1 = GetResult.found s
  · obtain ⟨s, hg⟩ := hfound
    obtain ⟨added, hlog, hadd⟩ :=
      tieClaim2Slice_reads env c s (w.request (Action.getSlice c.sliceName) true)
    refine ⟨Entry.mk (Action.getSlice c.sliceName) true :: added, ?_, ?_⟩
    · rw [claimSlice_found env c w s hg, hlog]
      simp [World.request]
    · intro V ht hs
      have hg2 : (getSlice env c.sliceName V).1 = GetResult.found s := by
        obtain ⟨ok, _, h2⟩ := getSlice_reads env c.sliceName w V ht hs
        rw [h2, hg]
      rw [claimSlice_found env c V s hg2, claimSlice_found env c w s hg,
        hadd (V.request (Action.getSlice c.sliceName) true)
          (by simp [World.request, ht]) (by simp [World.request, hs])]
      simp [World.request]
  · have hno : ∀ s, (getSlice env c.sliceName w).1 ≠ GetResult.found s :=
      fun s h => hfound ⟨s, h⟩
    have hno2 : ∀ V : World, V.tick = w.tick → V.slices = w.slices → ∀ s : Slice,
        (getSlice env c.sliceName V).1 ≠ GetResult.found s := by
      intro V ht hs s h
      obtain ⟨ok, _, h2⟩ := getSlice_reads env c.sliceName w V ht hs
      rw [h2] at h
      exact hno s h
    by_cases hmode : stringsEqualFold env.provisioning dynamic = true
    · rcases createSlice_cases env
        { name := c.sliceName, uid := "", sliceClassName := c.sliceClassName,
          claimRef := some c.makeObjectReference, nodeSelector := c.nodeSelector,
          status := { state := "", message := "", expiry := c.sliceExpiry } }
        (w.request (Action.getSlice c.sliceName) false) with ⟨hc, _⟩ | ⟨hc, _, _⟩
      · refine ⟨[Entry.mk (Action.getSlice c.sliceName) false,
          Entry.mk (Action.createSlice
            { name := c.sliceName, uid := "", sliceClassName := c.sliceClassName,
              claimRef := some c.makeObjectReference, nodeSelector := c.nodeSelector,
              status := { state := "", message := "", expiry := c.sliceExpiry } }) false,
          Entry.mk (Action.event "Warning" "Creation Failed" messageCreationFailed) true],
          ?_, ?_⟩
        · rw [claimSlice_missing env c w hno, if_pos hmode, hc]
          simp [World.event, World.request]
        · intro V ht hs
          rw [claimSlice_missing env c V (hno2 V ht hs), claimSlice_missing env c w hno,
            if_pos hmode, if_pos hmode,
            createSlice_reads env _ (w.request (Action.getSlice c.sliceName) false)
              (V.request (Action.getSlice c.sliceName) false)
              (by simp [World.request, ht]) (by simp [World.request, hs]), hc]
          simp [World.event, World.request]
      · refine ⟨[Entry.mk (Action.getSlice c.sliceName) false,
          Entry.mk (Action.createSlice
            { name := c.sliceName, uid := "", sliceClassName := c.sliceClassName,
              claimRef := some c.makeObjectReference, nodeSelector := c.nodeSelector,
              status := { state := "", message := "", expiry := c.sliceExpiry } }) true,
          Entry.mk (Action.event "Normal" "Slice Claimed" messageClaimed) true],
          ?_, ?_⟩
        · rw [claimSlice_missing env c w hno, if_pos hmode, hc]
          simp [World.event, World.request]
        · intro V ht hs
          rw [claimSlice_missing env c V (hno2 V ht hs), claimSlice_missing env c w hno,
            if_pos hmode, if_pos hmode,
            createSlice_reads env _ (w.request (Action.getSlice c.sliceName) false)
              (V.request (Action.getSlice c.sliceName) false)
              (by simp [World.request, ht]) (by simp [World.request, hs]), hc]
          simp [World.event, World.request]
    · refine ⟨[Entry.mk (Action.getSlice c.sliceName) false,
        Entry.mk (Action.event "Warning" "Not Bound" messagePending) true], ?_, ?_⟩
      · rw [claimSlice_missing env c w hno, if_neg hmode]
        simp [World.event, World.request]
      · intro V ht hs
        rw [claimSlice_missing env c V (hno2 V ht hs), claimSlice_missing env c w hno,
          if_neg hmode, if_neg hmode]
        simp [World.event, World.request, ht, hs]

theorem getSlice_env (env env2 : Env) (name : String) (w : World)
    (h0 : env2.fails w.tick = env.fails w.tick) :
    getSlice env2 name w = getSlice env name w := by
  unfold getSlice
  rw [h0]

theorem updateSlice_env (env env2 : Env) (obj : Slice) (w : World)
    (h0 : env2.fails w.tick = env.fails w.tick) :
    updateSlice env2 obj w = updateSlice env obj w := by
  unfold updateSlice
  rw [h0]

theorem createSlice_env (env env2 : Env) (obj : Slice) (w : World)
    (h0 : env2.fails w.tick = env.fails w.tick) :
    createSlice env2 obj w = createSlice env obj w := by
  unfold createSlice
  rw [h0]

theorem tieClaim2Slice_env (env env2 : Env) (c : SliceClaim) (slice : Slice) (w : World)
    (h0 : env2.fails w.tick = env.fails w.tick) :
    tieClaim2Slice env2 c slice w = tieClaim2Slice env c slice w := by
  unfold tieClaim2Slice
  rw [updateSlice_env env env2 _ w h0]

theorem claimSlice_env (env env2 : Env) (c : SliceClaim) (w : World)
    (h0 : env2.fails w.tick = env.fails w.tick)
    (h1 : env2.fails (w.tick + 1) = env.fails (w.tick + 1))
    (hp : env2.provisioning = env.provisioning) :
    claimSlice env2 c w = claimSlice env c w := by
  have hg := getSlice_env env env2 c.sliceName w h0
  by_cases hfound : ∃ s, (getSlice env c.sliceName w).1 = GetResult.found s
  · obtain ⟨s, hs⟩ := hfound
    rw [claimSlice_found env c w s hs, claimSlice_found env2 c w s (by rw [hg]; exact hs)]
    exact tieClaim2Slice_env env env2 c s _ h1
  · have hno : ∀ s, (getSlice env c.sliceName w).1 ≠ GetResult.found s :=
      fun s h => hfound ⟨s, h⟩
    rw [claimSlice_missing env c w hno,
      claimSlice_missing env2 c w (by rw [hg]; exact hno), hp,
      createSlice_env env env2 _ (w.request (Action.getSlice c.sliceName) false) h1]

/-! ### Admission when the quota object is not read -/

theorem processSliceClaim_body_unread (env : Env) (c : SliceClaim) (w : World)
    (nsObj : Namespace)
    (hstate : c.status.state ≠ "Bound" ∧ c.status.state ≠ "Applied")
    (hns : (getNamespace env c.ns w).1 = some nsObj)
    (hquota : (getResourceQuota env c.ns (labelOf nsObj.labels "edge-net.io/kind" ++ "-quota")
        (getNamespace env c.ns w).2).1 = none) :
    processSliceClaim_body env c w =
      ((claimSlice env c
          ((w.request (Action.getNamespace c.ns) true).request
            (Action.getResourceQuota c.ns
              (labelOf nsObj.labels "edge-net.io/kind" ++ "-quota")) false)).2.1,
        (claimSlice env c
          ((w.request (Action.getNamespace c.ns) true).request
            (Action.getResourceQuota c.ns
              (labelOf nsObj.labels "edge-net.io/kind" ++ "-quota")) false)).2.2) := by
  have e1 := getNamespace_snd env c.ns w
  rw [hns] at e1
  have e2 := getResourceQuota_snd env c.ns
    (labelOf nsObj.labels "edge-net.io/kind" ++ "-quota") (getNamespace env c.ns w).2
  rw [hquota, e1] at e2
  rw [e1] at hquota
  have hcond : c.status.state ≠ bound ∧ c.status.state ≠ applied := hstate
  simp only [processSliceClaim_body, hns, e1, hquota, e2, if_pos hcond]
  simp

theorem processSliceClaim_body_sufficient (env : Env) (c : SliceClaim) (w : World)
    (nsObj : Namespace) (pq : ResourceQuota)
    (hstate : c.status.state ≠ "Bound" ∧ c.status.state ≠ "Applied")
    (hns : (getNamespace env c.ns w).1 = some nsObj)
    (hquota : (getResourceQuota env c.ns (labelOf nsObj.labels "edge-net.io/kind" ++ "-quota")
        (getNamespace env c.ns w).2).1 = some pq)
    (hcheck : checkParentResourceQuota c pq = true) :
    processSliceClaim_body env c w =
      ((claimSlice env c
          (((w.request (Action.getNamespace c.ns) true).request
            (Action.getResourceQuota c.ns
              (labelOf nsObj.labels "edge-net.io/kind" ++ "-quota")) true).event
            "Normal" "Checked" messageQuotaCheck)).2.1,
        (claimSlice env c
          (((w.request (Action.getNamespace c.ns) true).request
            (Action.getResourceQuota c.ns
              (labelOf nsObj.labels "edge-net.io/kind" ++ "-quota")) true).event
            "Normal" "Checked" messageQuotaCheck)).2.2) := by
  have e1 := getNamespace_snd env c.ns w
  rw [hns] at e1
  have e2 := getResourceQuota_snd env c.ns
    (labelOf nsObj.labels "edge-net.io/kind" ++ "-quota") (getNamespace env c.ns w).2
  rw [hquota, e1] at e2
  rw [e1] at hquota
  have hcond : c.status.state ≠ bound ∧ c.status.state ≠ applied := hstate
  simp only [processSliceClaim_body, hns, e1, hquota, e2, hcheck, if_pos hcond]
  simp

theorem claimSlice_message (env : Env) (c : SliceClaim) (w : World) :
    (claimSlice env c w).2.1.status.message ∈
      [messageBindingFailed, messageBound, messageBoundAlready, messagePending,
        messageCreationFailed] := by
  by_cases hfound : ∃ s, (getSlice env c.sliceName w).1 = GetResult.found s
  · obtain ⟨s, hs⟩ := hfound
    rw [claimSlice_found env c w s hs]
    unfold tieClaim2Slice
    split
    · simp
    · split
      · split <;> simp
      · split <;> simp
  · rw [claimSlice_missing env c w (fun s h => hfound ⟨s, h⟩)]
    split
    · split <;> simp
    · simp

/-- C28 (admission is skipped when the quota object cannot be read): for a claim that is
neither Bound nor Applied, when the namespace is fetched and the fetch of the quota object
named after its `edge-net.io/kind` label fails, `processSliceClaim` records no quota
event, does not set the message "Insufficient quota at the parent", and hands the claim
unchanged to `claimSlice`, whatever its limits and count.  The outcome is that of a pass
in which the quota object is read and found sufficient: for any such pass that starts at
the same tick with the same stored Slices, the same provisioning mode and the same
failures of the later requests, the resulting claim, the stored Slices and the entries
that `claimSlice` logs are the same. -/
theorem C28_unread_quota_skips_admission (env : Env) (c : SliceClaim) (w : World)
    (nsObj : Namespace)
    (hstate : c.status.state ≠ "Bound" ∧ c.status.state ≠ "Applied")
    (hns : (getNamespace env c.ns w).1 = some nsObj)
    (hquota : (getResourceQuota env c.ns (labelOf nsObj.labels "edge-net.io/kind" ++ "-quota")
        (getNamespace env c.ns w).2).1 = none) :
    (processSliceClaim env c w).1 =
      (claimSlice env c
        ((w.request (Action.getNamespace c.ns) true).request
          (Action.getResourceQuota c.ns
            (labelOf nsObj.labels "edge-net.io/kind" ++ "-quota")) false)).2.1 ∧
    (processSliceClaim_body env c w).2 =
      (claimSlice env c
        ((w.request (Action.getNamespace c.ns) true).request
          (Action.getResourceQuota c.ns
            (labelOf nsObj.labels "edge-net.io/kind" ++ "-quota")) false)).2.2 ∧
    (processSliceClaim env c w).1.status.message ≠ "Insufficient quota at the parent" ∧
    (∀ (env2 : Env) (w2 : World) (nsObj2 : Namespace) (pq : ResourceQuota),
      w2.tick = w.tick → w2.slices = w.slices → env2.provisioning = env.provisioning →
      (∀ t, w.tick + 2 ≤ t → env2.fails t = env.fails t) →
      (getNamespace env2 c.ns w2).1 = some nsObj2 →
      (getResourceQuota env2 c.ns (labelOf nsObj2.labels "edge-net.io/kind" ++ "-quota")
        (getNamespace env2 c.ns w2).2).1 = some pq →
      checkParentResourceQuota c pq = true →
      (processSliceClaim_body env2 c w2).1 = (processSliceClaim_body env c w).1 ∧
      (processSliceClaim_body env2 c w2).2.slices = (processSliceClaim_body env c w).2.slices ∧
      ∃ added : List Entry,
        (processSliceClaim_body env c w).2.log = w.log ++
          [Entry.mk (Action.getNamespace c.ns) true,
           Entry.mk (Action.getResourceQuota c.ns
             (labelOf nsObj.labels "edge-net.io/kind" ++ "-quota")) false] ++ added ∧
        (processSliceClaim_body env2 c w2).2.log = w2.log ++
          [Entry.mk (Action.getNamespace c.ns) true,
           Entry.mk (Action.getResourceQuota c.ns
             (labelOf nsObj2.labels "edge-net.io/kind" ++ "-quota")) true,
           Entry.mk (Action.event "Normal" "Checked" "The parent has sufficient quota")
             true] ++ added) := by
  have hbody := processSliceClaim_body_unread env c w nsObj hstate hns hquota
  refine ⟨?_, ?_, ?_, ?_⟩
  · unfold processSliceClaim
    dsimp only
    rw [hbody]
  · rw [hbody]
  · unfold processSliceClaim
    dsimp only
    rw [hbody]
    have hm := claimSlice_message env c
      ((w.request (Action.getNamespace c.ns) true).request
        (Action.getResourceQuota c.ns
          (labelOf nsObj.labels "edge-net.io/kind" ++ "-quota")) false)
    intro h
    rw [h] at hm
    revert hm
    decide
  · intro env2 w2 nsObj2 pq ht hs hp hlater hns2 hq2 hcheck
    have hbody2 := processSliceClaim_body_sufficient env2 c w2 nsObj2 pq hstate hns2 hq2 hcheck
    obtain ⟨added, hlog, hread⟩ := claimSlice_reads env c
      ((w.request (Action.getNamespace c.ns) true).request
        (Action.getResourceQuota c.ns
          (labelOf nsObj.labels "edge-net.io/kind" ++ "-quota")) false)
    have henv := claimSlice_env env env2 c
      (((w2.request (Action.getNamespace c.ns) true).request
        (Action.getResourceQuota c.ns
          (labelOf nsObj2.labels "edge-net.io/kind" ++ "-quota")) true).event
        "Normal" "Checked" messageQuotaCheck)
      (hlater _ (by simp only [World.event, World.request]; omega))
      (hlater _ (by simp only [World.event, World.request]; omega)) hp
    have hV := hread
      (((w2.request (Action.getNamespace c.ns) true).request
        (Action.getResourceQuota c.ns
          (labelOf nsObj2.labels "edge-net.io/kind" ++ "-quota")) true).event
        "Normal" "Checked" messageQuotaCheck)
      (by simp only [World.event, World.request]; omega)
      (by simp only [World.event, World.request]; exact hs)
    rw [hbody2, hbody, henv, hV]
    refine ⟨rfl, rfl, added, ?_, ?_⟩
    · rw [hlog]
      simp [World.request]
    · simp [World.event, World.request, messageQuotaCheck]

/-- Witness for C28: the claim of Scenario C asks for cpu 4 on each of 3 nodes, which the
quota of Scenario C would refuse; the quota object is missing, and the pass goes on to
`claimSlice`, which creates the Slice and sets the claim to Requested, as does the pass
on the cluster whose quota object has a hard cpu limit of 100. -/
theorem C28_unread_quota_skips_admission_witness :
    noQuota_world.quotas = [] ∧
    checkParentResourceQuota scenarioC_claim scenarioC_quota = false ∧
    (processSliceClaim quietEnv scenarioC_claim noQuota_world).1.status =
      { state := "Requested", message := "Waiting for the slice" } ∧
    (processSliceClaim quietEnv scenarioC_claim noQuota_world).1 =
      (claimSlice quietEnv scenarioC_claim
        ((noQuota_world.request (Action.getNamespace scenarioC_claim.ns) true).request
          (Action.getResourceQuota scenarioC_claim.ns
            (labelOf [("edge-net.io/kind", "tenant")] "edge-net.io/kind" ++ "-quota"))
          false)).2.1 ∧
    (processSliceClaim_body quietEnv scenarioC_claim largeQuota_world).1 =
      (processSliceClaim_body quietEnv scenarioC_claim noQuota_world).1 ∧
    (processSliceClaim_body quietEnv scenarioC_claim largeQuota_world).2.slices =
      (processSliceClaim_body quietEnv scenarioC_claim noQuota_world).2.slices :=
  ⟨by decide, by decide, by decide,
    (C28_unread_quota_skips_admission quietEnv scenarioC_claim noQuota_world
      { name := "tenant-a", labels := [("edge-net.io/kind", "tenant")] }
      (by decide) (by decide) (by decide)).1,
    ((C28_unread_quota_skips_admission quietEnv scenarioC_claim noQuota_world
      { name := "tenant-a", labels := [("edge-net.io/kind", "tenant")] }
      (by decide) (by decide) (by decide)).2.2.2 quietEnv largeQuota_world
      { name := "tenant-a", labels := [("edge-net.io/kind", "tenant")] }
      { ns := "tenant-a", name := "tenant-quota", hard := [("cpu", 100)] }
      (by decide) (by decide) rfl (fun _ _ => rfl) (by decide) (by decide) (by decide)).1,
    ((C28_unread_quota_skips_admission quietEnv scenarioC_claim noQuota_world
      { name := "tenant-a", labels := [("edge-net.io/kind", "tenant")] }
      (by decide) (by decide) (by decide)).2.2.2 quietEnv largeQuota_world
      { name := "tenant-a", labels := [("edge-net.io/kind", "tenant")] }
      { ns := "tenant-a", name := "tenant-quota", hard := [("cpu", 100)] }
      (by decide) (by decide) rfl (fun _ _ => rfl) (by decide) (by decide) (by decide)).2.1⟩

/-! ### The capacity summary -/

theorem tieSubnamespace2Claim_capacity_get (key : String) :
    ∀ (entries acc : List (String × Int)),
      mapGet (tieSubnamespace2Claim_capacity entries acc) key =
        match mapGet acc key with
        | some a => some (a + ((entries.filter (fun e => decide (e.1 = key))).map Prod.snd).sum)
        | none =>
          if key ∈ entries.map Prod.fst then
            some (((entries.filter (fun e => decide (e.1 = key))).map Prod.snd).sum)
          else none := by
  intro entries
  induction entries with
  | nil =>
    intro acc
    cases h : mapGet acc key <;> simp [tieSubnamespace2Claim_capacity, h]
  | cons e rest ih =>
    intro acc
    obtain ⟨k, v⟩ := e
    simp only [tieSubnamespace2Claim_capacity]
    cases hk : mapGet acc k with
    | some q =>
      simp only
      rw [ih, mapGet_mapSet]
      by_cases hkey : k = key
      · subst hkey
        simp [hk]
        ring
      · cases hacc : mapGet acc key with
        | some a => simp [hkey, hacc]
        | none =>
          have hkey2 : ¬ key = k := fun h => hkey h.symm
          simp only [hkey, hacc, if_false, List.map_cons, List.filter_cons, decide_False,
            Bool.false_eq_true]
          by_cases hm : key ∈ rest.map Prod.fst
          · rw [if_pos hm, if_pos (List.mem_cons_of_mem _ hm)]
          · rw [if_neg hm, if_neg (by
              intro h
              rcases List.mem_cons.1 h with h | h
              · exact hkey2 h
              · exact hm h)]
    | none =>
      simp only
      rw [ih, mapGet_mapSet]
      by_cases hkey : k = key
      · subst hkey
        simp [hk]
      · cases hacc : mapGet acc key with
        | some a => simp [hkey, hacc]
        | none =>
          have hkey2 : ¬ key = k := fun h => hkey h.symm
          simp only [hkey, hacc, if_false, List.map_cons, List.filter_cons, decide_False,
            Bool.false_eq_true]
          by_cases hm : key ∈ rest.map Prod.fst
          · rw [if_pos hm, if_pos (List.mem_cons_of_mem _ hm)]
          · rw [if_neg hm, if_neg (by
              intro h
              rcases List.mem_cons.1 h with h | h
              · exact hkey2 h
              · exact hm h)]

theorem tieSubnamespace2Claim_allocation_flat :
    ∀ (items : List Node) (acc : List (String × Int)),
      tieSubnamespace2Claim_allocation items acc =
        tieSubnamespace2Claim_capacity (items.flatMap Node.capacity) acc := by
  have happ : ∀ (a b acc : List (String × Int)),
      tieSubnamespace2Claim_capacity (a ++ b) acc =
        tieSubnamespace2Claim_capacity b (tieSubnamespace2Claim_capacity a acc) := by
    intro a
    induction a with
    | nil => intro b acc; rfl
    | cons e rest ih =>
      intro b acc
      obtain ⟨k, v⟩ := e
      simp only [List.cons_append, tieSubnamespace2Claim_capacity]
      split <;> exact ih _ _
  intro items
  induction items with
  | nil => intro acc; rfl
  | cons n rest ih =>
    intro acc
    simp only [tieSubnamespace2Claim_allocation, List.flatMap_cons]
    rw [ih, happ]

theorem sum_of_key (key : String) :
    ∀ (m : List (String × Int)), (m.map Prod.fst).Nodup →
      ((m.filter (fun e => decide (e.1 = key))).map Prod.snd).sum = quantityOf m key := by
  intro m
  induction m with
  | nil => intro _; rfl
  | cons e rest ih =>
    intro hnd
    obtain ⟨k, v⟩ := e
    simp only [List.map_cons, List.nodup_cons] at hnd
    by_cases hk : k = key
    · subst hk
      have hnone : rest.filter (fun e => decide (e.1 = k)) = [] := by
        rw [List.filter_eq_nil_iff]
        intro x hx
        simp only [decide_eq_true_eq]
        intro hxk
        exact hnd.1 (List.mem_map.2 ⟨x, hx, hxk⟩)
      simp [quantityOf, mapGet, hnone]
    · have := ih hnd.2
      simp only [quantityOf] at this
      simp [quantityOf, mapGet, hk, this]

theorem sum_of_key_items (key : String) :
    ∀ (items : List Node), (∀ n ∈ items, (n.capacity.map Prod.fst).Nodup) →
      (((items.flatMap Node.capacity).filter (fun e => decide (e.1 = key))).map Prod.snd).sum =
        ((items.filter (fun n => (mapGet n.capacity key).isSome)).map
          (fun n => quantityOf n.capacity key)).sum := by
  intro items
  induction items with
  | nil => intro _; rfl
  | cons n rest ih =>
    intro hnd
    have h1 := sum_of_key key n.capacity (hnd n (List.mem_cons_self _ _))
    have h2 := ih (fun x hx => hnd x (List.mem_cons_of_mem _ hx))
    simp only [List.flatMap_cons, List.filter_append, List.map_append, List.sum_append, h1, h2]
    cases hget : mapGet n.capacity key with
    | some q => simp [List.filter_cons, hget]
    | none => simp [List.filter_cons, hget, quantityOf]

theorem tieSubnamespace2Claim_allocation_sum (items : List Node) (key : String)
    (hnd : ∀ n ∈ items, (n.capacity.map Prod.fst).Nodup) :
    ((∃ n ∈ items, (mapGet n.capacity key).isSome = true) →
      mapGet (tieSubnamespace2Claim_allocation items []) key =
        some (((items.filter (fun n => (mapGet n.capacity key).isSome)).map
          (fun n => quantityOf n.capacity key)).sum)) ∧
    ((∀ n ∈ items, mapGet n.capacity key = none) →
      mapGet (tieSubnamespace2Claim_allocation items []) key = none) := by
  rw [tieSubnamespace2Claim_allocation_flat, tieSubnamespace2Claim_capacity_get]
  simp only [mapGet]
  refine ⟨?_, ?_⟩
  · rintro ⟨n, hn, hsome⟩
    have hmem : key ∈ (items.flatMap Node.capacity).map Prod.fst := by
      obtain ⟨q, hq⟩ := Option.isSome_iff_exists.1 hsome
      have := mapGet_mem n.capacity key q hq
      obtain ⟨e, he, hek⟩ := List.mem_map.1 this
      exact List.mem_map.2 ⟨e, List.mem_flatMap.2 ⟨n, hn, he⟩, hek⟩
    rw [if_pos hmem, sum_of_key_items key items hnd]
  · intro hnone
    have hmem : ¬ key ∈ (items.flatMap Node.capacity).map Prod.fst := by
      intro h
      obtain ⟨e, he, hek⟩ := List.mem_map.1 h
      obtain ⟨n, hn, hen⟩ := List.mem_flatMap.1 he
      have hk : key ∈ n.capacity.map Prod.fst := List.mem_map.2 ⟨e, hen, hek⟩
      have hget := hnone n hn
      have hnd2 := hnd n hn
      have := (mem_iff_mapGet n.capacity hnd2 key e.2).1 (by rw [← hek]; exact hen)
      rw [hget] at this
      exact absurd this (by simp)
    rw [if_neg hmem]

/-! ### `tieSubnamespace2Claim` -/

theorem updateSubNamespace_cases (env : Env) (obj : SubNamespace) (w : World) :
    (updateSubNamespace env obj w = (false, w.request (Action.updateSubNamespace obj) false)) ∨
    (updateSubNamespace env obj w =
      (true, ({ w with subnamespaces := w.subnamespaces.map (fun (s : SubNamespace) =>
          if s.ns = obj.ns ∧ s.name = obj.name then { obj with state := s.state } else s)
        }).request (Action.updateSubNamespace obj) true) ∧
      env.fails w.tick = false) := by
  unfold updateSubNamespace
  split
  · exact Or.inl rfl
  · rename_i hf
    split
    · exact Or.inr ⟨rfl, by simpa using hf⟩
    · exact Or.inl rfl

theorem updateSubNamespace_ok (env : Env) (obj : SubNamespace) (w : World)
    (hf : env.fails w.tick = false)
    (hex : ∃ s ∈ w.subnamespaces, s.ns = obj.ns ∧ s.name = obj.name) :
    (updateSubNamespace env obj w).1 = true := by
  unfold updateSubNamespace
  rw [if_neg (by rw [hf]; simp)]
  have hany : w.subnamespaces.any (fun s => s.ns = obj.ns ∧ s.name = obj.name) = true := by
    obtain ⟨s, hs, h⟩ := hex
    exact List.any_eq_true.2 ⟨s, hs, by simpa using h⟩
  rw [if_pos hany]

theorem listNodes_cases (env : Env) (a b : String) (w : World) :
    listNodes env a b w =
      (if env.fails w.tick then none else some (w.nodes.filter (env.selectsNode a b)),
        w.request (Action.listNodes a b) (!env.fails w.tick)) := by
  unfold listNodes
  split
  · rename_i hf
    simp [hf]
  · rename_i hf
    simp [hf]

theorem tieSubnamespace2Claim_rows_skip (env : Env) (c : SliceClaim) (row : SubNamespace)
    (rest : List SubNamespace) (w : World)
    (h : row.sliceClaim ≠ some c.name ∨
      ((∀ o, getControllerOf row.ownerReferences = some o →
          ¬ (o.kind = "SliceClaim" ∧ o.name = c.name ∧ c.status.state ≠ "Applied")) ∧
        row.state ≠ "Established")) :
    tieSubnamespace2Claim_rows env c (row :: rest) w =
      tieSubnamespace2Claim_rows env c rest w := by
  simp only [tieSubnamespace2Claim_rows]
  rcases h with h | ⟨hctl, hest⟩
  · rw [if_neg h]
  · split
    · have hest2 : ¬ row.state = established := hest
      cases hg : getControllerOf row.ownerReferences with
      | none => simp [hest2]
      | some o =>
        have := hctl o hg
        have h2 : ¬ (o.kind = "SliceClaim" ∧ o.name = c.name ∧ c.status.state ≠ applied) := this
        simp only [h2, decide_False, Bool.false_eq_true, if_false, hest2]
    · rfl

theorem tieSubnamespace2Claim_rows_controlled (env : Env) (c : SliceClaim) (row : SubNamespace)
    (rest : List SubNamespace) (w : World) (o : OwnerReference)
    (href : row.sliceClaim = some c.name)
    (hg : getControllerOf row.ownerReferences = some o)
    (hctl : o.kind = "SliceClaim" ∧ o.name = c.name ∧ c.status.state ≠ "Applied") :
    tieSubnamespace2Claim_rows env c (row :: rest) w =
      (true, { c with status := { state := applied, message := messageApplied } },
        w.event "Normal" "Applied" messageApplied) := by
  have h2 : o.kind = "SliceClaim" ∧ o.name = c.name ∧ c.status.state ≠ applied := hctl
  simp only [tieSubnamespace2Claim_rows, if_pos href, hg]
  rw [if_pos (decide_eq_true h2)]

theorem tieSubnamespace2Claim_rows_adopt (env : Env) (c : SliceClaim) (row : SubNamespace)
    (rest : List SubNamespace) (w : World)
    (href : row.sliceClaim = some c.name)
    (hctl : ∀ o, getControllerOf row.ownerReferences = some o →
      ¬ (o.kind = "SliceClaim" ∧ o.name = c.name ∧ c.status.state ≠ "Applied"))
    (hest : row.state = "Established") :
    tieSubnamespace2Claim_rows env c (row :: rest) w =
      if (updateSubNamespace env
          { row with
            ownerReferences := [c.makeOwnerReference],
            resourceAllocation :=
              if env.fails w.tick then []
              else tieSubnamespace2Claim_allocation (w.nodes.filter (env.selectsNode
                ("edge-net.io/access=public,edge-net.io/pre-reservation=" ++ c.sliceName) ""))
                [] }
          (w.request (Action.listNodes
            ("edge-net.io/access=public,edge-net.io/pre-reservation=" ++ c.sliceName) "")
            (!env.fails w.tick))).1 then
        (true, { c with status := { state := applied, message := messageApplied } },
          (updateSubNamespace env
            { row with
              ownerReferences := [c.makeOwnerReference],
              resourceAllocation :=
                if env.fails w.tick then []
                else tieSubnamespace2Claim_allocation (w.nodes.filter (env.selectsNode
                  ("edge-net.io/access=public,edge-net.io/pre-reservation=" ++ c.sliceName) ""))
                  [] }
            (w.request (Action.listNodes
              ("edge-net.io/access=public,edge-net.io/pre-reservation=" ++ c.sliceName) "")
              (!env.fails w.tick))).2.event "Normal" "Applied" messageApplied)
      else
        tieSubnamespace2Claim_rows env c rest
          (updateSubNamespace env
            { row with
              ownerReferences := [c.makeOwnerReference],
              resourceAllocation :=
                if env.fails w.tick then []
                else tieSubnamespace2Claim_allocation (w.nodes.filter (env.selectsNode
                  ("edge-net.io/access=public,edge-net.io/pre-reservation=" ++ c.sliceName) ""))
                  [] }
            (w.request (Action.listNodes
              ("edge-net.io/access=public,edge-net.io/pre-reservation=" ++ c.sliceName) "")
              (!env.fails w.tick))).2 := by
  have hest2 : row.state = established := hest
  have hnot : (match getControllerOf row.ownerReferences with
      | some ownerRef =>
        decide (ownerRef.kind = "SliceClaim" ∧ ownerRef.name = c.name ∧
          c.status.state ≠ applied)
      | none => false) = false := by
    cases hg : getControllerOf row.ownerReferences with
    | none => rfl
    | some o =>
      have h2 : ¬ (o.kind = "SliceClaim" ∧ o.name = c.name ∧ c.status.state ≠ applied) :=
        hctl o hg
      simp [h2]
  simp only [tieSubnamespace2Claim_rows, if_pos href, hnot, Bool.false_eq_true, if_false,
    if_pos hest2, listNodes_cases]
  by_cases hf : env.fails w.tick = true
  · simp [hf]
  · have hf2 : env.fails w.tick = false := by simpa using hf
    simp [hf2]

theorem tieSubnamespace2Claim_rows_skip_all (env : Env) (c : SliceClaim) :
    ∀ (rows : List SubNamespace) (w : World),
      (∀ r ∈ rows, r.sliceClaim ≠ some c.name ∨
        ((∀ o, getControllerOf r.ownerReferences = some o →
            ¬ (o.kind = "SliceClaim" ∧ o.name = c.name ∧ c.status.state ≠ "Applied")) ∧
          r.state ≠ "Established")) →
      tieSubnamespace2Claim_rows env c rows w = (false, c, w) := by
  intro rows
  induction rows with
  | nil => intro w _; rfl
  | cons row rest ih =>
    intro w h
    rw [tieSubnamespace2Claim_rows_skip env c row rest w (h row (List.mem_cons_self _ _))]
    exact ih w (fun r hr => h r (List.mem_cons_of_mem _ hr))

theorem listSubNamespaces_cases (env : Env) (ns : String) (w : World) :
    listSubNamespaces env ns w =
      (if env.fails w.tick then none else some (w.subnamespaces.filter (fun s => s.ns = ns)),
        w.request (Action.listSubNamespaces ns) (!env.fails w.tick)) := by
  unfold listSubNamespaces
  split
  · rename_i hf
    simp [hf]
  · rename_i hf
    simp [hf]

theorem updateSliceClaimStatus_subnamespaces (env : Env) (obj : SliceClaim) (w : World) :
    (updateSliceClaimStatus env obj w).2.subnamespaces = w.subnamespaces := by
  unfold updateSliceClaimStatus
  split
  · rfl
  · split <;> rfl

theorem processSliceClaim_no_subnamespace (env : Env) (c : SliceClaim) (w : World)
    (nsObj : Namespace)
    (hstate : c.status.state = "Bound" ∨ c.status.state = "Applied")
    (hns : (getNamespace env c.ns w).1 = some nsObj)
    (hnone : ∀ r ∈ w.subnamespaces, r.ns = c.ns → r.sliceClaim = some c.name →
      (∀ o, getControllerOf r.ownerReferences = some o →
        ¬ (o.kind = "SliceClaim" ∧ o.name = c.name)) ∧
      r.state ≠ "Established") :
    (processSliceClaim env c w).2.subnamespaces = w.subnamespaces ∧
    (processSliceClaim env c w).1.status.state = "Bound" ∧
    ∃ okl : Bool,
      (c.status.state = "Bound" →
        processSliceClaim env c w =
          (c, (w.request (Action.getNamespace c.ns) true).request
            (Action.listSubNamespaces c.ns) okl)) ∧
      (c.status.state = "Applied" →
        (processSliceClaim env c w).1 =
          { c with
            status := { state := "Bound", message := "Slice is bound successfully" } } ∧
        ∃ oku : Bool, (processSliceClaim env c w).2.log = w.log ++
          [Entry.mk (Action.getNamespace c.ns) true,
           Entry.mk (Action.listSubNamespaces c.ns) okl,
           Entry.mk (Action.event "Normal" "Bound" "Slice is bound successfully") true,
           Entry.mk (Action.updateSliceClaimStatus
             { c with
               status := { state := "Bound", message := "Slice is bound successfully" } })
             oku]) := by
  have e1 : (getNamespace env c.ns w).2 = w.request (Action.getNamespace c.ns) true := by
    rw [getNamespace_snd, hns]
    rfl
  have hcond : ¬ (c.status.state ≠ bound ∧ c.status.state ≠ applied) := by
    rintro ⟨h1, h2⟩
    rcases hstate with h | h
    · exact h1 h
    · exact h2 h
  have htie : tieSubnamespace2Claim env c (w.request (Action.getNamespace c.ns) true) =
      (false, c, (w.request (Action.getNamespace c.ns) true).request
        (Action.listSubNamespaces c.ns)
        (!env.fails (w.request (Action.getNamespace c.ns) true).tick)) := by
    unfold tieSubnamespace2Claim
    rw [listSubNamespaces_cases]
    dsimp only
    by_cases hf : env.fails (w.request (Action.getNamespace c.ns) true).tick = true
    · simp [hf]
    · have hf2 : env.fails (w.request (Action.getNamespace c.ns) true).tick = false := by
        simpa using hf
      simp only [hf2, Bool.false_eq_true, if_false]
      rw [tieSubnamespace2Claim_rows_skip_all]
      intro r hr
      have hr2 := List.mem_filter.1 hr
      by_cases href : r.sliceClaim = some c.name
      · right
        have := hnone r hr2.1 (by simpa using hr2.2) href
        exact ⟨fun o ho hctl => this.1 o ho ⟨hctl.1, hctl.2.1⟩, this.2⟩
      · exact Or.inl href
  have hbody : processSliceClaim_body env c w =
      if ¬ false = true ∧ c.status.state ≠ bound then
        ({ c with status := { state := bound, message := messageBound } },
          ((w.request (Action.getNamespace c.ns) true).request
            (Action.listSubNamespaces c.ns)
            (!env.fails (w.request (Action.getNamespace c.ns) true).tick)).event
            "Normal" "Bound" messageBound)
      else
        (c, (w.request (Action.getNamespace c.ns) true).request
          (Action.listSubNamespaces c.ns)
          (!env.fails (w.request (Action.getNamespace c.ns) true).tick)) := by
    simp only [processSliceClaim_body, hns, e1, if_neg hcond, htie]
  rcases hstate with hb | ha
  · have hb2 : c.status.state = bound := hb
    have hres : processSliceClaim env c w =
        (c, (w.request (Action.getNamespace c.ns) true).request
          (Action.listSubNamespaces c.ns)
          (!env.fails (w.request (Action.getNamespace c.ns) true).tick)) := by
      unfold processSliceClaim
      dsimp only
      rw [hbody, if_neg (by simp [hb2])]
      unfold processSliceClaim_updateStatus
      simp
    rw [hres]
    refine ⟨rfl, hb, _, fun _ => rfl, ?_⟩
    intro h
    rw [hb] at h
    exact absurd h (by decide)
  · have ha2 : ¬ c.status.state = bound := by
      rw [ha]; decide
    have hne : c.status ≠ { state := bound, message := messageBound } := by
      intro h
      apply ha2
      rw [h]
    have hres : processSliceClaim env c w =
        ({ c with status := { state := bound, message := messageBound } },
          (updateSliceClaimStatus env
            { c with status := { state := bound, message := messageBound } }
            (((w.request (Action.getNamespace c.ns) true).request
              (Action.listSubNamespaces c.ns)
              (!env.fails (w.request (Action.getNamespace c.ns) true).tick)).event
              "Normal" "Bound" messageBound)).2) := by
      unfold processSliceClaim
      dsimp only
      rw [hbody, if_pos (by simp [ha2])]
      unfold processSliceClaim_updateStatus
      dsimp only
      rw [if_pos hne]
    rw [hres]
    refine ⟨?_, rfl, !env.fails (w.request (Action.getNamespace c.ns) true).tick, ?_, ?_⟩
    · rw [updateSliceClaimStatus_subnamespaces]
      rfl
    · intro h
      exact absurd h ha2
    · intro _
      refine ⟨rfl, (updateSliceClaimStatus env
          { c with status := { state := bound, message := messageBound } }
          (((w.request (Action.getNamespace c.ns) true).request
            (Action.listSubNamespaces c.ns)
            (!env.fails (w.request (Action.getNamespace c.ns) true).tick)).event
            "Normal" "Bound" messageBound)).1, ?_⟩
      rw [updateSliceClaimStatus_log]
      simp [World.event, World.request, bound, messageBound]

/-- C24, as amended (no qualifying SubNamespace leaves the claim Bound): for a claim in
state Bound or Applied, when no SubNamespace of its namespace references the claim and is
either controlled by it or Established, a pass of `processSliceClaim` that fetches the
namespace updates no SubNamespace and ends with the claim in state Bound.  For a Bound
claim the copy is returned as it was and the pass logs the namespace fetch and the
SubNamespace listing only, so the status is not written again; for an Applied claim the
status becomes Bound with "Slice is bound successfully", the event is recorded and one
status update of the claim is issued.  A pass that cannot fetch the namespace returns at
once: the failed fetch is its only request, no status update is issued, and the claim
copy and every stored object are as before, so an Applied claim stays Applied. -/
theorem C24_no_subnamespace_leaves_bound (env : Env) (c : SliceClaim) (w : World)
    (hstate : c.status.state = "Bound" ∨ c.status.state = "Applied")
    (hnone : ∀ r ∈ w.subnamespaces, r.ns = c.ns → r.sliceClaim = some c.name →
      (∀ o, getControllerOf r.ownerReferences = some o →
        ¬ (o.kind = "SliceClaim" ∧ o.name = c.name)) ∧
      r.state ≠ "Established") :
    (∀ nsObj : Namespace, (getNamespace env c.ns w).1 = some nsObj →
        (processSliceClaim env c w).2.subnamespaces = w.subnamespaces ∧
        (processSliceClaim env c w).1.status.state = "Bound" ∧
        ∃ okl : Bool,
          (c.status.state = "Bound" →
            processSliceClaim env c w =
              (c, (w.request (Action.getNamespace c.ns) true).request
                (Action.listSubNamespaces c.ns) okl)) ∧
          (c.status.state = "Applied" →
            (processSliceClaim env c w).1 =
              { c with
                status := { state := "Bound", message := "Slice is bound successfully" } } ∧
            ∃ oku : Bool, (processSliceClaim env c w).2.log = w.log ++
              [Entry.mk (Action.getNamespace c.ns) true,
               Entry.mk (Action.listSubNamespaces c.ns) okl,
               Entry.mk (Action.event "Normal" "Bound" "Slice is bound successfully") true,
               Entry.mk (Action.updateSliceClaimStatus
                 { c with
                   status := { state := "Bound", message := "Slice is bound successfully" } })
                 oku])) ∧
    ((getNamespace env c.ns w).1 = none →
      processSliceClaim env c w = (c, w.request (Action.getNamespace c.ns) false) ∧
      (processSliceClaim env c w).1.status.state = c.status.state ∧
      (processSliceClaim env c w).2.claims = w.claims ∧
      (processSliceClaim env c w).2.subnamespaces = w.subnamespaces) := by
  refine ⟨fun nsObj hns => processSliceClaim_no_subnamespace env c w nsObj hstate hns hnone,
    fun hfail => ?_⟩
  have e1 : (getNamespace env c.ns w).2 = w.request (Action.getNamespace c.ns) false := by
    rw [getNamespace_snd, hfail]
    rfl
  have hbody : processSliceClaim_body env c w =
      (c, w.request (Action.getNamespace c.ns) false) := by
    simp only [processSliceClaim_body, hfail, e1]
  have hres : processSliceClaim env c w =
      (c, w.request (Action.getNamespace c.ns) false) := by
    unfold processSliceClaim
    dsimp only
    rw [hbody]
    unfold processSliceClaim_updateStatus
    simp
  rw [hres]
  exact ⟨rfl, rfl, rfl, rfl⟩

/-- Witness for C24: the claim `claim-1` is Applied, its namespace is stored and no
SubNamespace exists; the pass sets the claim back to Bound.  When the fetch of the
namespace fails, the pass returns the claim as it was. -/
theorem C24_no_subnamespace_leaves_bound_witness :
    (owned_claim "Applied").status.state = "Applied" ∧
    (tenant_world "Applied").subnamespaces = [] ∧
    (processSliceClaim quietEnv (owned_claim "Applied") (tenant_world "Applied")).1.status.state =
      "Bound" ∧
    (processSliceClaim quietEnv (owned_claim "Applied")
      (tenant_world "Applied")).2.subnamespaces = [] ∧
    processSliceClaim firstFailsEnv (owned_claim "Applied") (tenant_world "Applied") =
      (owned_claim "Applied",
        (tenant_world "Applied").request (Action.getNamespace "tenant-a") false) :=
  have h := (C24_no_subnamespace_leaves_bound quietEnv (owned_claim "Applied")
    (tenant_world "Applied") (Or.inr (by decide)) (by decide)).1 tenant_namespace
    (by decide)
  have hfail := (C24_no_subnamespace_leaves_bound firstFailsEnv (owned_claim "Applied")
    (tenant_world "Applied") (Or.inr (by decide)) (by decide)).2 (by decide)
  ⟨by decide, by decide, h.2.1, h.1, hfail.1⟩

/-- Counterexample to C24 as stated: the claim `claim-1` is Applied and no SubNamespace
exists, so none references the claim; the fetch of the namespace, the first request of the
pass, fails.  `processSliceClaim` returns at once and the claim is still Applied, not
Bound. -/
theorem C24_counterexample_namespace_unread :
    (owned_claim "Applied").status.state = "Applied" ∧
    (tenant_world "Applied").subnamespaces = [] ∧
    firstFailsEnv.fails (tenant_world "Applied").tick = true ∧
    processSliceClaim firstFailsEnv (owned_claim "Applied") (tenant_world "Applied") =
      (owned_claim "Applied",
        (tenant_world "Applied").request (Action.getNamespace "tenant-a") false) := by
  refine ⟨by decide, by decide, by decide, by decide⟩

theorem tieSubnamespace2Claim_rows_spec (env : Env) (c : SliceClaim) :
    ∀ (rows : List SubNamespace) (w : World),
      (tieSubnamespace2Claim_rows env c rows w).2.2.nodes = w.nodes ∧
      ∃ added : List Entry,
        (tieSubnamespace2Claim_rows env c rows w).2.2.log = w.log ++ added ∧
        (∀ okn obj oku, (okn, obj, oku) ∈ subNamespaceAdoptions added →
          ∃ row ∈ rows, row.sliceClaim = some c.name ∧ row.state = "Established" ∧
            obj = { row with
              ownerReferences := [c.makeOwnerReference],
              resourceAllocation :=
                if okn then
                  tieSubnamespace2Claim_allocation (w.nodes.filter (env.selectsNode
                    ("edge-net.io/access=public,edge-net.io/pre-reservation=" ++ c.sliceName)
                    "")) []
                else [] }) ∧
        (∀ obj oku, Entry.mk (Action.updateSubNamespace obj) oku ∈ added →
          ∃ okn, (okn, obj, oku) ∈ subNamespaceAdoptions added) ∧
        (∀ okn obj, (okn, obj, true) ∈ subNamespaceAdoptions added →
          (tieSubnamespace2Claim_rows env c rows w).1 = true ∧
          (tieSubnamespace2Claim_rows env c rows w).2.1 =
            { c with status :=
                { state := "Applied", message := "Slice claim has applied successfully" } } ∧
          (tieSubnamespace2Claim_rows env c rows w).2.2.subnamespaces =
            w.subnamespaces.map (fun (s : SubNamespace) =>
              if s.ns = obj.ns ∧ s.name = obj.name then { obj with state := s.state }
              else s)) ∧
        ((∀ okn obj oku, (okn, obj, oku) ∈ subNamespaceAdoptions added → oku = false) →
          (tieSubnamespace2Claim_rows env c rows w).2.2.subnamespaces = w.subnamespaces) := by
  intro rows
  induction rows with
  | nil =>
    intro w
    refine ⟨rfl, [], by simp [tieSubnamespace2Claim_rows], ?_, ?_, ?_, ?_⟩
    · intro okn obj oku h
      simp [subNamespaceAdoptions] at h
    · intro obj oku h
      simp at h
    · intro okn obj h
      simp [subNamespaceAdoptions] at h
    · intro _
      rfl
  | cons row rest ih =>
    intro w
    by_cases hskip : row.sliceClaim ≠ some c.name ∨
        ((∀ o, getControllerOf row.ownerReferences = some o →
            ¬ (o.kind = "SliceClaim" ∧ o.name = c.name ∧ c.status.state ≠ "Applied")) ∧
          row.state ≠ "Established")
    · rw [tieSubnamespace2Claim_rows_skip env c row rest w hskip]
      obtain ⟨hn, added, hlog, p1, p2, p3, p4⟩ := ih w
      refine ⟨hn, added, hlog, ?_, p2, p3, p4⟩
      intro okn obj oku h
      obtain ⟨r, hr, rest2⟩ := p1 okn obj oku h
      exact ⟨r, List.mem_cons_of_mem _ hr, rest2⟩
    · have href : row.sliceClaim = some c.name := by
        by_contra h
        exact hskip (Or.inl h)
      by_cases hctl : ∃ o, getControllerOf row.ownerReferences = some o ∧
          (o.kind = "SliceClaim" ∧ o.name = c.name ∧ c.status.state ≠ "Applied")
      · obtain ⟨o, hg, ho⟩ := hctl
        rw [tieSubnamespace2Claim_rows_controlled env c row rest w o href hg ho]
        refine ⟨rfl, [Entry.mk (Action.event "Normal" "Applied" messageApplied) true],
          rfl, ?_, ?_, ?_, ?_⟩
        · intro okn obj oku h
          simp [subNamespaceAdoptions] at h
        · intro obj oku h
          simp at h
        · intro okn obj h
          simp [subNamespaceAdoptions] at h
        · intro _
          rfl
      · have hctl2 : ∀ o, getControllerOf row.ownerReferences = some o →
            ¬ (o.kind = "SliceClaim" ∧ o.name = c.name ∧ c.status.state ≠ "Applied") :=
          fun o hg ho => hctl ⟨o, hg, ho⟩
        have hest : row.state = "Established" := by
          by_contra h
          exact hskip (Or.inr ⟨hctl2, h⟩)
        rw [tieSubnamespace2Claim_rows_adopt env c row rest w href hctl2 hest]
        have hobj : ({ row with
            ownerReferences := [c.makeOwnerReference],
            resourceAllocation :=
              if env.fails w.tick then []
              else tieSubnamespace2Claim_allocation (w.nodes.filter (env.selectsNode
                ("edge-net.io/access=public,edge-net.io/pre-reservation=" ++ c.sliceName) ""))
                [] } : SubNamespace) =
            { row with
              ownerReferences := [c.makeOwnerReference],
              resourceAllocation :=
                if (!env.fails w.tick) = true then
                  tieSubnamespace2Claim_allocation (w.nodes.filter (env.selectsNode
                    ("edge-net.io/access=public,edge-net.io/pre-reservation=" ++ c.sliceName)
                    "")) []
                else [] } := by
          cases env.fails w.tick <;> rfl
        rw [hobj]
        rcases updateSubNamespace_cases env
          { row with
            ownerReferences := [c.makeOwnerReference],
            resourceAllocation :=
              if (!env.fails w.tick) = true then
                tieSubnamespace2Claim_allocation (w.nodes.filter (env.selectsNode
                  ("edge-net.io/access=public,edge-net.io/pre-reservation=" ++ c.sliceName)
                  "")) []
              else [] }
          (w.request (Action.listNodes
            ("edge-net.io/access=public,edge-net.io/pre-reservation=" ++ c.sliceName) "")
            (!env.fails w.tick)) with hu | ⟨hu, _⟩
        · rw [hu]
          simp only [Bool.false_eq_true, if_false]
          obtain ⟨hn, added, hlog, p1, p2, p3, p4⟩ := ih
            ((w.request (Action.listNodes
              ("edge-net.io/access=public,edge-net.io/pre-reservation=" ++ c.sliceName) "")
              (!env.fails w.tick)).request (Action.updateSubNamespace
                { row with
                  ownerReferences := [c.makeOwnerReference],
                  resourceAllocation :=
                    if (!env.fails w.tick) = true then
                      tieSubnamespace2Claim_allocation (w.nodes.filter (env.selectsNode
                        ("edge-net.io/access=public,edge-net.io/pre-reservation=" ++
                          c.sliceName) "")) []
                    else [] }) false)
          refine ⟨hn, Entry.mk (Action.listNodes
              ("edge-net.io/access=public,edge-net.io/pre-reservation=" ++ c.sliceName) "")
              (!env.fails w.tick) ::
            Entry.mk (Action.updateSubNamespace
              { row with
                ownerReferences := [c.makeOwnerReference],
                resourceAllocation :=
                  if (!env.fails w.tick) = true then
                    tieSubnamespace2Claim_allocation (w.nodes.filter (env.selectsNode
                      ("edge-net.io/access=public,edge-net.io/pre-reservation=" ++
                        c.sliceName) "")) []
                  else [] }) false :: added, ?_, ?_, ?_, ?_, ?_⟩
          · rw [hlog]
            simp [World.request]
          · intro okn obj oku h
            simp only [subNamespaceAdoptions, List.mem_cons, Prod.mk.injEq] at h
            rcases h with ⟨h1, h2, h3⟩ | h
            · refine ⟨row, List.mem_cons_self _ _, href, hest, ?_⟩
              rw [h2, h1]
            · obtain ⟨r, hr, rest2⟩ := p1 okn obj oku h
              exact ⟨r, List.mem_cons_of_mem _ hr, rest2⟩
          · intro obj oku h
            simp only [List.mem_cons, Entry.mk.injEq, Action.updateSubNamespace.injEq] at h
            rcases h with h | h | h
            · exact absurd h.1 (by simp)
            · exact ⟨!env.fails w.tick, by
                rw [h.1, h.2]
                simp [subNamespaceAdoptions]⟩
            · obtain ⟨okn, hk⟩ := p2 obj oku h
              exact ⟨okn, by
                simp only [subNamespaceAdoptions, List.mem_cons]
                exact Or.inr hk⟩
          · intro okn obj h
            simp only [subNamespaceAdoptions, List.mem_cons, Prod.mk.injEq] at h
            rcases h with ⟨_, _, h3⟩ | h
            · exact absurd h3 (by simp)
            · exact p3 okn obj h
          · intro hall
            exact p4 (fun okn obj oku h => hall okn obj oku (by
              simp only [subNamespaceAdoptions, List.mem_cons]
              exact Or.inr h))
        · rw [hu, if_pos rfl]
          refine ⟨rfl, [Entry.mk (Action.listNodes
              ("edge-net.io/access=public,edge-net.io/pre-reservation=" ++ c.sliceName) "")
              (!env.fails w.tick),
            Entry.mk (Action.updateSubNamespace
              { row with
                ownerReferences := [c.makeOwnerReference],
                resourceAllocation :=
                  if (!env.fails w.tick) = true then
                    tieSubnamespace2Claim_allocation (w.nodes.filter (env.selectsNode
                      ("edge-net.io/access=public,edge-net.io/pre-reservation=" ++
                        c.sliceName) "")) []
                  else [] }) true,
            Entry.mk (Action.event "Normal" "Applied" messageApplied) true], ?_, ?_, ?_, ?_, ?_⟩
          · simp [World.request, World.event]
          · intro okn obj oku h
            simp only [subNamespaceAdoptions, List.mem_cons, Prod.mk.injEq,
              List.not_mem_nil, or_false] at h
            obtain ⟨h1, h2, h3⟩ := h
            refine ⟨row, List.mem_cons_self _ _, href, hest, ?_⟩
            rw [h2, h1]
          · intro obj oku h
            simp only [List.mem_cons, Entry.mk.injEq, Action.updateSubNamespace.injEq,
              List.not_mem_nil, or_false] at h
            rcases h with h | h | h
            · exact absurd h.1 (by simp)
            · exact ⟨!env.fails w.tick, by
                rw [h.1, h.2]
                simp [subNamespaceAdoptions]⟩
            · exact absurd h.1 (by simp)
          · intro okn obj h
            simp only [subNamespaceAdoptions, List.mem_cons, Prod.mk.injEq,
              List.not_mem_nil, or_false] at h
            obtain ⟨h1, h2, _⟩ := h
            refine ⟨rfl, rfl, ?_⟩
            rw [h2]
            rfl
          · intro hall
            have := hall (!env.fails w.tick) _ true (by
              simp only [subNamespaceAdoptions]
              exact List.mem_cons_self _ _)
            exact absurd this (by simp)

theorem tieSubnamespace2Claim_spec (env : Env) (c : SliceClaim) (w : World) :
    (tieSubnamespace2Claim env c w).2.2.nodes = w.nodes ∧
    ∃ added : List Entry,
      (tieSubnamespace2Claim env c w).2.2.log =
        w.log ++ Entry.mk (Action.listSubNamespaces c.ns) (!env.fails w.tick) :: added ∧
      (env.fails w.tick = true → added = []) ∧
      (∀ okn obj oku, (okn, obj, oku) ∈ subNamespaceAdoptions added →
        ∃ row ∈ w.subnamespaces, row.ns = c.ns ∧ row.sliceClaim = some c.name ∧
          row.state = "Established" ∧
          obj = { row with
            ownerReferences := [c.makeOwnerReference],
            resourceAllocation :=
              if okn then
                tieSubnamespace2Claim_allocation (w.nodes.filter (env.selectsNode
                  ("edge-net.io/access=public,edge-net.io/pre-reservation=" ++ c.sliceName)
                  "")) []
              else [] }) ∧
      (∀ obj oku, Entry.mk (Action.updateSubNamespace obj) oku ∈ added →
        ∃ okn, (okn, obj, oku) ∈ subNamespaceAdoptions added) ∧
      (∀ okn obj, (okn, obj, true) ∈ subNamespaceAdoptions added →
        (tieSubnamespace2Claim env c w).1 = true ∧
        (tieSubnamespace2Claim env c w).2.1 =
          { c with status :=
              { state := "Applied", message := "Slice claim has applied successfully" } } ∧
        (tieSubnamespace2Claim env c w).2.2.subnamespaces =
          w.subnamespaces.map (fun (s : SubNamespace) =>
            if s.ns = obj.ns ∧ s.name = obj.name then { obj with state := s.state }
            else s)) ∧
      ((∀ okn obj oku, (okn, obj, oku) ∈ subNamespaceAdoptions added → oku = false) →
        (tieSubnamespace2Claim env c w).2.2.subnamespaces = w.subnamespaces) := by
  unfold tieSubnamespace2Claim
  rw [listSubNamespaces_cases]
  dsimp only
  by_cases hf : env.fails w.tick = true
  · simp only [hf, if_true]
    refine ⟨rfl, [], by simp [World.request], fun _ => rfl, ?_, ?_, ?_, ?_⟩
    · intro okn obj oku h
      simp [subNamespaceAdoptions] at h
    · intro obj oku h
      simp at h
    · intro okn obj h
      simp [subNamespaceAdoptions] at h
    · intro _
      rfl
  · have hf2 : env.fails w.tick = false := by simpa using hf
    simp only [hf2, Bool.false_eq_true, if_false]
    obtain ⟨hn, added, hlog, p1, p2, p3, p4⟩ := tieSubnamespace2Claim_rows_spec env c
      (w.subnamespaces.filter (fun s => s.ns = c.ns))
      (w.request (Action.listSubNamespaces c.ns) (!false))
    refine ⟨hn, added, ?_, ?_, ?_, p2, p3, p4⟩
    · rw [hlog]
      simp [World.request]
    · intro h
      exact absurd h (by simp)
    · intro okn obj oku h
      obtain ⟨row, hrow, h1, h2, h3⟩ := p1 okn obj oku h
      have hr := List.mem_filter.1 hrow
      exact ⟨row, hr.1, by simpa using hr.2, h1, h2, h3⟩

/-- C23, as amended (capacity summary): every SubNamespace update that
`tieSubnamespace2Claim` requests follows a node listing by
`edge-net.io/access=public,edge-net.io/pre-reservation=<spec.sliceName>` and is for an
Established SubNamespace of the claim's namespace that references the claim; the object
sent is that SubNamespace with the claim as its only owner reference and a new resource
allocation.  When the node listing succeeded, the allocation has for every resource key
the sum of the capacities for that key over the listed nodes that carry the key, and no
key that no listed node carries; when the listing failed, the allocation is empty.  When
the update succeeds the claim becomes Applied with "Slice claim has applied successfully",
the result is true and the stored SubNamespace has these owner references and this
allocation. -/
theorem C23_capacity_summary (env : Env) (c : SliceClaim) (w : World)
    (hcap : ∀ n ∈ w.nodes, (n.capacity.map Prod.fst).Nodup) :
    ∃ added : List Entry,
      (tieSubnamespace2Claim env c w).2.2.log =
        w.log ++ Entry.mk (Action.listSubNamespaces c.ns) (!env.fails w.tick) :: added ∧
      (∀ obj oku, Entry.mk (Action.updateSubNamespace obj) oku ∈ added →
        ∃ okn, (okn, obj, oku) ∈ subNamespaceAdoptions added) ∧
      (∀ okn obj oku, (okn, obj, oku) ∈ subNamespaceAdoptions added →
        (∃ row ∈ w.subnamespaces, row.ns = c.ns ∧ row.sliceClaim = some c.name ∧
          row.state = "Established" ∧
          obj = { row with
            ownerReferences := [c.makeOwnerReference],
            resourceAllocation := obj.resourceAllocation }) ∧
        (okn = false → obj.resourceAllocation = []) ∧
        (okn = true → ∀ key : String,
          ((∃ n ∈ w.nodes.filter (env.selectsNode
              ("edge-net.io/access=public,edge-net.io/pre-reservation=" ++ c.sliceName) ""),
              (mapGet n.capacity key).isSome = true) →
            mapGet obj.resourceAllocation key =
              some (((w.nodes.filter (env.selectsNode
                ("edge-net.io/access=public,edge-net.io/pre-reservation=" ++ c.sliceName)
                "")).filter (fun n => (mapGet n.capacity key).isSome)).map
                (fun n => quantityOf n.capacity key)).sum) ∧
          ((∀ n ∈ w.nodes.filter (env.selectsNode
              ("edge-net.io/access=public,edge-net.io/pre-reservation=" ++ c.sliceName) ""),
              mapGet n.capacity key = none) →
            mapGet obj.resourceAllocation key = none))) ∧
      (∀ okn obj, (okn, obj, true) ∈ subNamespaceAdoptions added →
        (tieSubnamespace2Claim env c w).1 = true ∧
        (tieSubnamespace2Claim env c w).2.1 =
          { c with status :=
              { state := "Applied", message := "Slice claim has applied successfully" } } ∧
        ∀ s ∈ (tieSubnamespace2Claim env c w).2.2.subnamespaces,
          s.ns = obj.ns → s.name = obj.name →
          s.ownerReferences = [c.makeOwnerReference] ∧
          s.resourceAllocation = obj.resourceAllocation) := by
  obtain ⟨_, added, hlog, _, p1, p2, p3, _⟩ := tieSubnamespace2Claim_spec env c w
  refine ⟨added, hlog, p2, ?_, ?_⟩
  · intro okn obj oku h
    obtain ⟨row, hrow, h1, h2, h3, h4⟩ := p1 okn obj oku h
    refine ⟨⟨row, hrow, h1, h2, h3, ?_⟩, ?_, ?_⟩
    · rw [h4]
    · intro hk
      rw [h4, hk]
      rfl
    · intro hk key
      have hsum := tieSubnamespace2Claim_allocation_sum
        (w.nodes.filter (env.selectsNode
          ("edge-net.io/access=public,edge-net.io/pre-reservation=" ++ c.sliceName) ""))
        key (fun n hn => hcap n (List.mem_filter.1 hn).1)
      rw [h4, hk]
      exact hsum
  · intro okn obj h
    obtain ⟨r1, r2, r3⟩ := p3 okn obj h
    obtain ⟨row, _, _, _, _, h4⟩ := p1 okn obj true h
    refine ⟨r1, r2, ?_⟩
    intro s hs hsns hsname
    rw [r3] at hs
    obtain ⟨s0, _, hs0⟩ := List.mem_map.1 hs
    by_cases hkey : s0.ns = obj.ns ∧ s0.name = obj.name
    · rw [if_pos hkey] at hs0
      rw [← hs0]
      refine ⟨?_, rfl⟩
      rw [h4]
    · rw [if_neg hkey] at hs0
      rw [hs0] at hkey
      exact absurd ⟨hsns, hsname⟩ hkey

/-- Witness for C23, Scenario D: nodes `n1` (cpu 4, memory 16) and `n2` (cpu 4) are
reserved for `edge-slice-1` and `n3` is not; the Established SubNamespace `sub-1`
references `claim-1`.  The stored allocation is cpu 8 and memory 16, the owner reference
is the claim and the claim becomes Applied. -/
theorem C23_capacity_summary_witness :
    (∀ n ∈ scenarioD_world.nodes, (n.capacity.map Prod.fst).Nodup) ∧
    (tieSubnamespace2Claim quietEnv (owned_claim "Bound") scenarioD_world).2.2.subnamespaces =
      [{ scenarioD_subnamespace with
          ownerReferences := [(owned_claim "Bound").makeOwnerReference],
          resourceAllocation := [("cpu", 8), ("memory", 16)] }] ∧
    (tieSubnamespace2Claim quietEnv (owned_claim "Bound") scenarioD_world).2.1.status =
      { state := "Applied", message := "Slice claim has applied successfully" } ∧
    ∃ added : List Entry,
      (tieSubnamespace2Claim quietEnv (owned_claim "Bound") scenarioD_world).2.2.log =
        scenarioD_world.log ++ Entry.mk (Action.listSubNamespaces "tenant-a") true :: added ∧
      ∀ obj oku, Entry.mk (Action.updateSubNamespace obj) oku ∈ added →
        ∃ okn, (okn, obj, oku) ∈ subNamespaceAdoptions added := by
  obtain ⟨added, h1, h2, _⟩ :=
    C23_capacity_summary quietEnv (owned_claim "Bound") scenarioD_world (by decide)
  exact ⟨by decide, by decide, by decide, added, h1, h2⟩

/-- Counterexample to C23 as stated: in the cluster of Scenario D the node listing, the
second request of the pass, fails.  `tieSubnamespace2Claim` adopts the SubNamespace with
an empty resource allocation, although two nodes labelled `access=public` and
`pre-reservation=edge-slice-1` carry cpu 4 each, and the claim becomes Applied. -/
theorem C23_counterexample_listing_fails :
    (scenarioD_world.nodes.filter (fun n =>
        decide (mapGet n.labels "edge-net.io/access" = some "public" ∧
          mapGet n.labels "edge-net.io/pre-reservation" = some "edge-slice-1"))).map
      (fun n => mapGet n.capacity "cpu") = [some 4, some 4] ∧
    (tieSubnamespace2Claim secondFailsEnv (owned_claim "Bound")
      scenarioD_world).2.2.subnamespaces =
      [{ scenarioD_subnamespace with
          ownerReferences := [(owned_claim "Bound").makeOwnerReference],
          resourceAllocation := [] }] ∧
    (tieSubnamespace2Claim secondFailsEnv (owned_claim "Bound") scenarioD_world).2.1.status =
      { state := "Applied", message := "Slice claim has applied successfully" } ∧
    (tieSubnamespace2Claim secondFailsEnv (owned_claim "Bound") scenarioD_world).1 = true := by
  refine ⟨by decide, by decide, by decide, by decide⟩

theorem tieSubnamespace2Claim_rows_applied (env : Env) (c : SliceClaim)
    (hstate : c.status.state = "Applied") :
    ∀ (rows : List SubNamespace) (w : World),
      env.fails w.tick = false → env.fails (w.tick + 1) = false →
      (∀ r ∈ rows, r ∈ w.subnamespaces) →
      (∃ r ∈ rows, r.sliceClaim = some c.name ∧ r.state = "Established") →
      ∃ row ∈ rows, row.sliceClaim = some c.name ∧ row.state = "Established" ∧
        tieSubnamespace2Claim_rows env c rows w =
          (true,
            { c with status :=
                { state := "Applied", message := "Slice claim has applied successfully" } },
            (({ w with subnamespaces := w.subnamespaces.map (fun (s : SubNamespace) =>
                if s.ns = row.ns ∧ s.name = row.name then
                  { row with
                    ownerReferences := [c.makeOwnerReference],
                    resourceAllocation :=
                      tieSubnamespace2Claim_allocation (w.nodes.filter (env.selectsNode
                        ("edge-net.io/access=public,edge-net.io/pre-reservation=" ++
                          c.sliceName) "")) [],
                    state := s.state }
                else s) } : World).request (Action.listNodes
                  ("edge-net.io/access=public,edge-net.io/pre-reservation=" ++ c.sliceName)
                  "") true).request
              (Action.updateSubNamespace
                { row with
                  ownerReferences := [c.makeOwnerReference],
                  resourceAllocation :=
                    tieSubnamespace2Claim_allocation (w.nodes.filter (env.selectsNode
                      ("edge-net.io/access=public,edge-net.io/pre-reservation=" ++
                        c.sliceName) "")) [] }) true |>.event
              "Normal" "Applied" "Slice claim has applied successfully") := by
  intro rows
  induction rows with
  | nil =>
    intro w _ _ _ hex
    obtain ⟨r, hr, _⟩ := hex
    simp at hr
  | cons r rest ih =>
    intro w hf0 hf1 hstore hex
    have hctl : ∀ o, getControllerOf r.ownerReferences = some o →
        ¬ (o.kind = "SliceClaim" ∧ o.name = c.name ∧ c.status.state ≠ "Applied") :=
      fun o _ h => h.2.2 hstate
    by_cases hq : r.sliceClaim = some c.name ∧ r.state = "Established"
    · refine ⟨r, List.mem_cons_self _ _, hq.1, hq.2, ?_⟩
      rw [tieSubnamespace2Claim_rows_adopt env c r rest w hq.1 hctl hq.2]
      have hok := updateSubNamespace_ok env
        { r with
          ownerReferences := [c.makeOwnerReference],
          resourceAllocation :=
            if env.fails w.tick then []
            else tieSubnamespace2Claim_allocation (w.nodes.filter (env.selectsNode
              ("edge-net.io/access=public,edge-net.io/pre-reservation=" ++ c.sliceName) ""))
              [] }
        (w.request (Action.listNodes
          ("edge-net.io/access=public,edge-net.io/pre-reservation=" ++ c.sliceName) "")
          (!env.fails w.tick))
        hf1 ⟨r, hstore r (List.mem_cons_self _ _), rfl, rfl⟩
      rw [if_pos hok]
      rcases updateSubNamespace_cases env
        { r with
          ownerReferences := [c.makeOwnerReference],
          resourceAllocation :=
            if env.fails w.tick then []
            else tieSubnamespace2Claim_allocation (w.nodes.filter (env.selectsNode
              ("edge-net.io/access=public,edge-net.io/pre-reservation=" ++ c.sliceName) ""))
              [] }
        (w.request (Action.listNodes
          ("edge-net.io/access=public,edge-net.io/pre-reservation=" ++ c.sliceName) "")
          (!env.fails w.tick)) with hu | ⟨hu, _⟩
      · rw [hu] at hok
        exact absurd hok (by simp)
      · rw [hu]
        simp [World.request, World.event, hf0, applied, messageApplied]
    · have hskip : r.sliceClaim ≠ some c.name ∨
          ((∀ o, getControllerOf r.ownerReferences = some o →
              ¬ (o.kind = "SliceClaim" ∧ o.name = c.name ∧ c.status.state ≠ "Applied")) ∧
            r.state ≠ "Established") := by
        by_cases href : r.sliceClaim = some c.name
        · exact Or.inr ⟨hctl, fun h => hq ⟨href, h⟩⟩
        · exact Or.inl href
      rw [tieSubnamespace2Claim_rows_skip env c r rest w hskip]
      obtain ⟨row, hrow, h1, h2, h3⟩ := ih w hf0 hf1
        (fun x hx => hstore x (List.mem_cons_of_mem _ hx))
        (by
          obtain ⟨x, hx, hx2⟩ := hex
          rcases List.mem_cons.1 hx with h | h
          · rw [h] at hx2
            exact absurd hx2 hq
          · exact ⟨x, h, hx2⟩)
      exact ⟨row, List.mem_cons_of_mem _ hrow, h1, h2, h3⟩

theorem tieSubnamespace2Claim_rows_applied_unlisted (env : Env) (c : SliceClaim)
    (hstate : c.status.state = "Applied") :
    ∀ (rows : List SubNamespace) (w : World),
      env.fails w.tick = true → env.fails (w.tick + 1) = false →
      (∀ r ∈ rows, r ∈ w.subnamespaces) →
      (∃ r ∈ rows, r.sliceClaim = some c.name ∧ r.state = "Established") →
      ∃ row ∈ rows, row.sliceClaim = some c.name ∧ row.state = "Established" ∧
        tieSubnamespace2Claim_rows env c rows w =
          (true,
            { c with status :=
                { state := "Applied", message := "Slice claim has applied successfully" } },
            (({ w with subnamespaces := w.subnamespaces.map (fun (s : SubNamespace) =>
                if s.ns = row.ns ∧ s.name = row.name then
                  { row with
                    ownerReferences := [c.makeOwnerReference],
                    resourceAllocation := [],
                    state := s.state }
                else s) } : World).request (Action.listNodes
                  ("edge-net.io/access=public,edge-net.io/pre-reservation=" ++ c.sliceName)
                  "") false).request
              (Action.updateSubNamespace
                { row with
                  ownerReferences := [c.makeOwnerReference],
                  resourceAllocation := [] }) true |>.event
              "Normal" "Applied" "Slice claim has applied successfully") := by
  intro rows
  induction rows with
  | nil =>
    intro w _ _ _ hex
    obtain ⟨r, hr, _⟩ := hex
    simp at hr
  | cons r rest ih =>
    intro w hf0 hf1 hstore hex
    have hctl : ∀ o, getControllerOf r.ownerReferences = some o →
        ¬ (o.kind = "SliceClaim" ∧ o.name = c.name ∧ c.status.state ≠ "Applied") :=
      fun o _ h => h.2.2 hstate
    by_cases hq : r.sliceClaim = some c.name ∧ r.state = "Established"
    · refine ⟨r, List.mem_cons_self _ _, hq.1, hq.2, ?_⟩
      rw [tieSubnamespace2Claim_rows_adopt env c r rest w hq.1 hctl hq.2]
      have hok := updateSubNamespace_ok env
        { r with
          ownerReferences := [c.makeOwnerReference],
          resourceAllocation :=
            if env.fails w.tick then []
            else tieSubnamespace2Claim_allocation (w.nodes.filter (env.selectsNode
              ("edge-net.io/access=public,edge-net.io/pre-reservation=" ++ c.sliceName) ""))
              [] }
        (w.request (Action.listNodes
          ("edge-net.io/access=public,edge-net.io/pre-reservation=" ++ c.sliceName) "")
          (!env.fails w.tick))
        hf1 ⟨r, hstore r (List.mem_cons_self _ _), rfl, rfl⟩
      rw [if_pos hok]
      rcases updateSubNamespace_cases env
        { r with
          ownerReferences := [c.makeOwnerReference],
          resourceAllocation :=
            if env.fails w.tick then []
            else tieSubnamespace2Claim_allocation (w.nodes.filter (env.selectsNode
              ("edge-net.io/access=public,edge-net.io/pre-reservation=" ++ c.sliceName) ""))
              [] }
        (w.request (Action.listNodes
          ("edge-net.io/access=public,edge-net.io/pre-reservation=" ++ c.sliceName) "")
          (!env.fails w.tick)) with hu | ⟨hu, _⟩
      · rw [hu] at hok
        exact absurd hok (by simp)
      · rw [hu]
        simp [World.request, World.event, hf0, applied, messageApplied]
    · have hskip : r.sliceClaim ≠ some c.name ∨
          ((∀ o, getControllerOf r.ownerReferences = some o →
              ¬ (o.kind = "SliceClaim" ∧ o.name = c.name ∧ c.status.state ≠ "Applied")) ∧
            r.state ≠ "Established") := by
        by_cases href : r.sliceClaim = some c.name
        · exact Or.inr ⟨hctl, fun h => hq ⟨href, h⟩⟩
        · exact Or.inl href
      rw [tieSubnamespace2Claim_rows_skip env c r rest w hskip]
      obtain ⟨row, hrow, h1, h2, h3⟩ := ih w hf0 hf1
        (fun x hx => hstore x (List.mem_cons_of_mem _ hx))
        (by
          obtain ⟨x, hx, hx2⟩ := hex
          rcases List.mem_cons.1 hx with h | h
          · rw [h] at hx2
            exact absurd hx2 hq
          · exact ⟨x, h, hx2⟩)
      exact ⟨row, List.mem_cons_of_mem _ hrow, h1, h2, h3⟩

theorem tieSubnamespace2Claim_applied_listed (env : Env) (c : SliceClaim) (w : World)
    (hstate : c.status.state = "Applied")
    (hsub : env.fails w.tick = false) (hnodes : env.fails (w.tick + 1) = false)
    (hupdate : env.fails (w.tick + 2) = false)
    (hex : ∃ r ∈ w.subnamespaces, r.ns = c.ns ∧ r.sliceClaim = some c.name ∧
      r.state = "Established") :
    ∃ row ∈ w.subnamespaces, row.ns = c.ns ∧ row.sliceClaim = some c.name ∧
      row.state = "Established" ∧
      (tieSubnamespace2Claim env c w).1 = true ∧
      (tieSubnamespace2Claim env c w).2.2.log = w.log ++
        [Entry.mk (Action.listSubNamespaces c.ns) true,
         Entry.mk (Action.listNodes
           ("edge-net.io/access=public,edge-net.io/pre-reservation=" ++ c.sliceName) "") true,
         Entry.mk (Action.updateSubNamespace
           { row with
             ownerReferences := [c.makeOwnerReference],
             resourceAllocation :=
               tieSubnamespace2Claim_allocation (w.nodes.filter (env.selectsNode
                 ("edge-net.io/access=public,edge-net.io/pre-reservation=" ++ c.sliceName)
                 "")) [] }) true,
         Entry.mk (Action.event "Normal" "Applied" "Slice claim has applied successfully")
           true] ∧
      (tieSubnamespace2Claim env c w).2.2.subnamespaces =
        w.subnamespaces.map (fun (s : SubNamespace) =>
          if s.ns = row.ns ∧ s.name = row.name then
            { row with
              ownerReferences := [c.makeOwnerReference],
              resourceAllocation :=
                tieSubnamespace2Claim_allocation (w.nodes.filter (env.selectsNode
                  ("edge-net.io/access=public,edge-net.io/pre-reservation=" ++ c.sliceName)
                  "")) [],
              state := s.state }
          else s) ∧
      ((∀ n ∈ w.nodes, env.selectsNode
          ("edge-net.io/access=public,edge-net.io/pre-reservation=" ++ c.sliceName) "" n =
            decide (mapGet n.labels "edge-net.io/access" = some "public" ∧
              mapGet n.labels "edge-net.io/pre-reservation" = some c.sliceName)) →
        (∀ n ∈ w.nodes, mapGet n.labels "edge-net.io/pre-reservation" = some c.sliceName →
          mapGet n.labels "edge-net.io/access" = some "private") →
        tieSubnamespace2Claim_allocation (w.nodes.filter (env.selectsNode
          ("edge-net.io/access=public,edge-net.io/pre-reservation=" ++ c.sliceName) ""))
          [] = []) := by
  have hrun : tieSubnamespace2Claim env c w =
      tieSubnamespace2Claim_rows env c (w.subnamespaces.filter (fun s => s.ns = c.ns))
        (w.request (Action.listSubNamespaces c.ns) true) := by
    unfold tieSubnamespace2Claim
    rw [listSubNamespaces_cases]
    simp [hsub]
  obtain ⟨row, hrow, h1, h2, h3⟩ := tieSubnamespace2Claim_rows_applied env c hstate
    (w.subnamespaces.filter (fun s => s.ns = c.ns))
    (w.request (Action.listSubNamespaces c.ns) true) hnodes hupdate
    (fun r hr => (List.mem_filter.1 hr).1)
    (by
      obtain ⟨r, hr, hns, hrest⟩ := hex
      exact ⟨r, List.mem_filter.2 ⟨hr, by simpa using hns⟩, hrest⟩)
  have hr := List.mem_filter.1 hrow
  refine ⟨row, hr.1, by simpa using hr.2, h1, h2, ?_, ?_, ?_, ?_⟩
  · rw [hrun, h3]
  · rw [hrun, h3]
    simp [World.request, World.event]
  · rw [hrun, h3]
    rfl
  · intro hsel hprivate
    have hnil : w.nodes.filter (env.selectsNode
        ("edge-net.io/access=public,edge-net.io/pre-reservation=" ++ c.sliceName) "") = [] := by
      rw [List.filter_eq_nil_iff]
      intro n hn
      rw [hsel n hn]
      simp only [decide_eq_true_eq, not_and]
      intro hpub hpre
      have := hprivate n hn hpre
      rw [hpub] at this
      exact absurd this (by decide)
    rw [hnil]
    rfl

/-- C30, as amended (reconciling an Applied claim rewrites the summary): for a claim in
state Applied with an Established SubNamespace of its namespace that references it, a pass
of `tieSubnamespace2Claim` in which the SubNamespace listing, the node listing and the
update succeed computes the resource allocation anew from the nodes listed for
`edge-net.io/access=public,edge-net.io/pre-reservation=<spec.sliceName>` and overwrites
the first such SubNamespace with it: these three requests and the event are all it logs,
the result is true and the stored SubNamespace carries the new allocation.  When the
listing selects no node, in particular when the selector selects the nodes with these two
labels and every node pre-reserved for the Slice is private, the stored allocation is the
empty map.  A pass whose SubNamespace listing fails returns false after that one request
and updates nothing.  A pass whose SubNamespace listing succeeds, whose node listing
fails and whose update succeeds overwrites the first such SubNamespace with the empty
allocation, whatever the labels of the nodes. -/
theorem C30_applied_claim_rewrites_summary (env : Env) (c : SliceClaim) (w : World)
    (hstate : c.status.state = "Applied")
    (hex : ∃ r ∈ w.subnamespaces, r.ns = c.ns ∧ r.sliceClaim = some c.name ∧
      r.state = "Established") :
    (env.fails w.tick = false → env.fails (w.tick + 1) = false →
      env.fails (w.tick + 2) = false →
        ∃ row ∈ w.subnamespaces, row.ns = c.ns ∧ row.sliceClaim = some c.name ∧
          row.state = "Established" ∧
          (tieSubnamespace2Claim env c w).1 = true ∧
          (tieSubnamespace2Claim env c w).2.2.log = w.log ++
            [Entry.mk (Action.listSubNamespaces c.ns) true,
             Entry.mk (Action.listNodes
               ("edge-net.io/access=public,edge-net.io/pre-reservation=" ++ c.sliceName) "") true,
             Entry.mk (Action.updateSubNamespace
               { row with
                 ownerReferences := [c.makeOwnerReference],
                 resourceAllocation :=
                   tieSubnamespace2Claim_allocation (w.nodes.filter (env.selectsNode
                     ("edge-net.io/access=public,edge-net.io/pre-reservation=" ++ c.sliceName)
                     "")) [] }) true,
             Entry.mk (Action.event "Normal" "Applied" "Slice claim has applied successfully")
               true] ∧
          (tieSubnamespace2Claim env c w).2.2.subnamespaces =
            w.subnamespaces.map (fun (s : SubNamespace) =>
              if s.ns = row.ns ∧ s.name = row.name then
                { row with
                  ownerReferences := [c.makeOwnerReference],
                  resourceAllocation :=
                    tieSubnamespace2Claim_allocation (w.nodes.filter (env.selectsNode
                      ("edge-net.io/access=public,edge-net.io/pre-reservation=" ++ c.sliceName)
                      "")) [],
                  state := s.state }
              else s) ∧
          ((∀ n ∈ w.nodes, env.selectsNode
              ("edge-net.io/access=public,edge-net.io/pre-reservation=" ++ c.sliceName) "" n =
                decide (mapGet n.labels "edge-net.io/access" = some "public" ∧
                  mapGet n.labels "edge-net.io/pre-reservation" = some c.sliceName)) →
            (∀ n ∈ w.nodes, mapGet n.labels "edge-net.io/pre-reservation" = some c.sliceName →
              mapGet n.labels "edge-net.io/access" = some "private") →
            tieSubnamespace2Claim_allocation (w.nodes.filter (env.selectsNode
              ("edge-net.io/access=public,edge-net.io/pre-reservation=" ++ c.sliceName) ""))
              [] = [])) ∧
    (env.fails w.tick = true →
      tieSubnamespace2Claim env c w =
        (false, c, w.request (Action.listSubNamespaces c.ns) false) ∧
      (tieSubnamespace2Claim env c w).2.2.subnamespaces = w.subnamespaces) ∧
    (env.fails w.tick = false → env.fails (w.tick + 1) = true →
      env.fails (w.tick + 2) = false →
      ∃ row ∈ w.subnamespaces, row.ns = c.ns ∧ row.sliceClaim = some c.name ∧
        row.state = "Established" ∧
        (tieSubnamespace2Claim env c w).1 = true ∧
        (tieSubnamespace2Claim env c w).2.2.log = w.log ++
          [Entry.mk (Action.listSubNamespaces c.ns) true,
           Entry.mk (Action.listNodes
             ("edge-net.io/access=public,edge-net.io/pre-reservation=" ++ c.sliceName) "")
             false,
           Entry.mk (Action.updateSubNamespace
             { row with
               ownerReferences := [c.makeOwnerReference],
               resourceAllocation := [] }) true,
           Entry.mk (Action.event "Normal" "Applied" "Slice claim has applied successfully")
             true] ∧
        (tieSubnamespace2Claim env c w).2.2.subnamespaces =
          w.subnamespaces.map (fun (s : SubNamespace) =>
            if s.ns = row.ns ∧ s.name = row.name then
              { row with
                ownerReferences := [c.makeOwnerReference],
                resourceAllocation := [],
                state := s.state }
            else s)) := by
  refine ⟨fun hsub hnodes hupdate =>
    tieSubnamespace2Claim_applied_listed env c w hstate hsub hnodes hupdate hex, ?_, ?_⟩
  · intro hsub
    have hrun : tieSubnamespace2Claim env c w =
        (false, c, w.request (Action.listSubNamespaces c.ns) false) := by
      unfold tieSubnamespace2Claim
      rw [listSubNamespaces_cases]
      simp [hsub]
    rw [hrun]
    exact ⟨rfl, rfl⟩
  · intro hsub hnodes hupdate
    have hrun : tieSubnamespace2Claim env c w =
        tieSubnamespace2Claim_rows env c (w.subnamespaces.filter (fun s => s.ns = c.ns))
          (w.request (Action.listSubNamespaces c.ns) true) := by
      unfold tieSubnamespace2Claim
      rw [listSubNamespaces_cases]
      simp [hsub]
    obtain ⟨row, hrow, h1, h2, h3⟩ := tieSubnamespace2Claim_rows_applied_unlisted env c hstate
      (w.subnamespaces.filter (fun s => s.ns = c.ns))
      (w.request (Action.listSubNamespaces c.ns) true) hnodes hupdate
      (fun r hr => (List.mem_filter.1 hr).1)
      (by
        obtain ⟨r, hr, hns, hrest⟩ := hex
        exact ⟨r, List.mem_filter.2 ⟨hr, by simpa using hns⟩, hrest⟩)
    have hr := List.mem_filter.1 hrow
    refine ⟨row, hr.1, by simpa using hr.2, h1, h2, ?_, ?_, ?_⟩
    · rw [hrun, h3]
    · rw [hrun, h3]
      simp [World.request, World.event]
    · rw [hrun, h3]
      rfl

/-- Witness for C30: after provisioning, `n1` and `n2` are private to `edge-slice-1`, the
claim is Applied and `sub-1` still carries cpu 8 and memory 16; a pass overwrites it with
the empty allocation.  A pass whose SubNamespace listing fails leaves `sub-1` as it was,
and in the cluster of Scenario D a pass whose node listing fails returns true. -/
theorem C30_applied_claim_rewrites_summary_witness :
    applied_world.subnamespaces.map SubNamespace.resourceAllocation =
      [[("cpu", 8), ("memory", 16)]] ∧
    (tieSubnamespace2Claim quietEnv (owned_claim "Applied")
      applied_world).2.2.subnamespaces.map SubNamespace.resourceAllocation = [[]] ∧
    ∃ row ∈ applied_world.subnamespaces,
      (tieSubnamespace2Claim quietEnv (owned_claim "Applied") applied_world).1 = true ∧
      tieSubnamespace2Claim_allocation (applied_world.nodes.filter (quietEnv.selectsNode
        ("edge-net.io/access=public,edge-net.io/pre-reservation=" ++
          (owned_claim "Applied").sliceName) "")) [] = [] ∧
      row.state = "Established" ∧
      (tieSubnamespace2Claim firstFailsEnv (owned_claim "Applied")
        applied_world).2.2.subnamespaces = applied_world.subnamespaces ∧
      (tieSubnamespace2Claim secondFailsEnv (owned_claim "Applied") scenarioD_world).1 =
        true := by
  obtain ⟨row, hrow, _, _, hest, htrue, _, _, hempty⟩ :=
    (C30_applied_claim_rewrites_summary quietEnv (owned_claim "Applied") applied_world
      (by decide) (by decide)).1 (by decide) (by decide) (by decide)
  obtain ⟨_, _, _, _, _, htrue2, _, _⟩ :=
    (C30_applied_claim_rewrites_summary secondFailsEnv (owned_claim "Applied")
      scenarioD_world (by decide) (by decide)).2.2 (by decide) (by decide) (by decide)
  exact ⟨by decide, by decide, row, hrow, htrue, hempty (by decide) (by decide), hest,
    ((C30_applied_claim_rewrites_summary firstFailsEnv (owned_claim "Applied") applied_world
      (by decide) (by decide)).2.1 (by decide)).2, htrue2⟩

/-- Counterexample to C30 as stated.  First run: after provisioning, with the claim Applied
and `sub-1` Established, the SubNamespace listing of the pass fails; nothing is updated
and `sub-1` keeps its allocation of cpu 8 and memory 16 although every node of the Slice
is private.  Second run: in the cluster of Scenario D with the claim Applied the node
listing fails; `sub-1` is overwritten with the empty allocation although `n1` and `n2`
are labelled `access=public` and `pre-reservation=edge-slice-1`. -/
theorem C30_counterexample_listing_fails :
    ((owned_claim "Applied").status.state = "Applied" ∧
      adopted_subnamespace.state = "Established" ∧
      (tieSubnamespace2Claim firstFailsEnv (owned_claim "Applied") applied_world).2.2.log =
        [Entry.mk (Action.listSubNamespaces "tenant-a") false] ∧
      (tieSubnamespace2Claim firstFailsEnv (owned_claim "Applied")
        applied_world).2.2.subnamespaces.map SubNamespace.resourceAllocation =
        [[("cpu", 8), ("memory", 16)]]) ∧
    ((scenarioD_world.nodes.filter (fun n =>
        decide (mapGet n.labels "edge-net.io/access" = some "public" ∧
          mapGet n.labels "edge-net.io/pre-reservation" = some "edge-slice-1"))).map
        Node.name = ["n1", "n2"] ∧
      (tieSubnamespace2Claim secondFailsEnv (owned_claim "Applied")
        scenarioD_world).2.2.subnamespaces.map SubNamespace.resourceAllocation = [[]]) := by
  refine ⟨⟨by decide, by decide, by decide, by decide⟩, by decide, by decide⟩

/-! ### Selector translation -/

theorem string_append_ne_empty (s t : String) (h : s ≠ "") : s ++ t ≠ "" := by
  intro he
  apply h
  have h2 := congrArg String.data he
  simp only [String.data_append] at h2
  have h3 : s.data = [] := (List.append_eq_nil.1 h2).1
  exact String.ext h3

theorem intercalate_go_foldl (sep : String) :
    ∀ (l : List String) (acc : String),
      String.intercalate.go acc sep l = l.foldl (fun a x => a ++ sep ++ x) acc := by
  intro l
  induction l with
  | nil => intro acc; rfl
  | cons x xs ih => intro acc; simp [String.intercalate.go, ih]

theorem reserveNodes_selectorStep_translated (selector : String) (r : NodeSelectorRequirement)
    (hsel : selector ≠ "")
    (hop : r.operator = "In" ∨ r.operator = "NotIn" ∨ r.operator = "Exists" ∨
      r.operator = "DoesNotExist") :
    reserveNodes_selectorStep selector r =
      selector ++ "," ++ reserveNodes_selectorStep "" r := by
  unfold reserveNodes_selectorStep
  simp only [hsel, ne_eq, not_false_eq_true, if_true, not_true_eq_false, if_false]
  split
  · simp only [String.append_assoc, String.empty_append]
  · split
    · simp only [String.append_assoc, String.empty_append]
    · split
      · simp only [String.append_assoc, String.empty_append]
      · rename_i h1 h2 h3
        rcases hop with h | h | h | h
        · exact absurd (Or.inl h) h1
        · exact absurd (Or.inr h) h1
        · exact absurd h h2
        · exact absurd h h3

theorem reserveNodes_selectorStep_skipped (selector : String) (r : NodeSelectorRequirement)
    (hop : ¬ (r.operator = "In" ∨ r.operator = "NotIn" ∨ r.operator = "Exists" ∨
      r.operator = "DoesNotExist")) :
    reserveNodes_selectorStep selector r =
      if selector ≠ "" then selector ++ "," else selector := by
  unfold reserveNodes_selectorStep
  dsimp only
  have h1 : ¬ (r.operator = "In" ∨ r.operator = "NotIn") :=
    fun h => hop (h.elim Or.inl (fun k => Or.inr (Or.inl k)))
  have h2 : ¬ r.operator = "Exists" := fun h => hop (Or.inr (Or.inr (Or.inl h)))
  have h3 : ¬ r.operator = "DoesNotExist" := fun h => hop (Or.inr (Or.inr (Or.inr h)))
  rw [if_neg h1, if_neg h2, if_neg h3]

theorem reserveNodes_selector_foldl :
    ∀ (reqs : List NodeSelectorRequirement) (acc : String), acc ≠ "" →
      (∀ r ∈ reqs, r.operator = "In" ∨ r.operator = "NotIn" ∨ r.operator = "Exists" ∨
        r.operator = "DoesNotExist") →
      reqs.foldl reserveNodes_selectorStep acc =
        (reqs.map (reserveNodes_selectorStep "")).foldl (fun a x => a ++ "," ++ x) acc := by
  intro reqs
  induction reqs with
  | nil => intro acc _ _; rfl
  | cons r rest ih =>
    intro acc hacc hops
    simp only [List.foldl_cons, List.map_cons]
    rw [reserveNodes_selectorStep_translated acc r hacc (hops r (List.mem_cons_self _ _))]
    exact ih _ (by
        rw [String.append_assoc]
        exact string_append_ne_empty _ _ hacc)
      (fun x hx => hops x (List.mem_cons_of_mem _ hx))

theorem reserveNodes_selectorStep_ne_empty (r : NodeSelectorRequirement)
    (hop : r.operator = "In" ∨ r.operator = "NotIn" ∨ r.operator = "Exists" ∨
      r.operator = "DoesNotExist")
    (hkey : r.operator = "Exists" → r.key ≠ "") :
    reserveNodes_selectorStep "" r ≠ "" := by
  unfold reserveNodes_selectorStep
  simp only [ne_eq, not_true_eq_false, if_false]
  split
  · intro h
    have h2 := congrArg String.data h
    simp [String.data_append] at h2
  · split
    · rename_i hex
      rw [String.empty_append]
      exact hkey hex
    · split
      · intro h
        have h2 := congrArg String.data h
        simp [String.data_append] at h2
      · rename_i h1 h2 h3
        rcases hop with h | h | h | h
        · exact absurd (Or.inl h) h1
        · exact absurd (Or.inr h) h1
        · exact absurd h h2
        · exact absurd h h3

/-- C25 (selector translation), what `reserveNodes` builds.  When every expression has one
of the operators In, NotIn, Exists and DoesNotExist (and no Exists expression has an
empty key), the selector string is the comma-join, in order, of the translations of the
expressions.  An expression with any other operator, such as Gt or Lt, is not translated,
but the separator is appended before the operator is looked at: after a non-empty
selector such an expression leaves a comma behind, so the string is not the one of the
list without it.  With `a In (x,y)`, `b Gt 1` and `c Exists` the string is
`a in (x,y),,c`, and without the Gt expression it is `a in (x,y),c`. -/
theorem C25_selector_translation :
    (∀ reqs : List NodeSelectorRequirement,
      (∀ r ∈ reqs, r.operator = "In" ∨ r.operator = "NotIn" ∨ r.operator = "Exists" ∨
        r.operator = "DoesNotExist") →
      (∀ r ∈ reqs, r.operator = "Exists" → r.key ≠ "") →
      reserveNodes_selector reqs =
        ",".intercalate (reqs.map (reserveNodes_selectorStep ""))) ∧
    (∀ (reqs : List NodeSelectorRequirement) (r : NodeSelectorRequirement),
      ¬ (r.operator = "In" ∨ r.operator = "NotIn" ∨ r.operator = "Exists" ∨
        r.operator = "DoesNotExist") →
      reserveNodes_selector reqs ≠ "" →
      reserveNodes_selector (reqs ++ [r]) = reserveNodes_selector reqs ++ "," ∧
      reserveNodes_selector (reqs ++ [r]) ≠ reserveNodes_selector reqs) ∧
    (reserveNodes_selectorStep "" requirement_in = "a in (x,y)" ∧
      reserveNodes_selectorStep "" requirement_exists = "c" ∧
      reserveNodes_selector [requirement_in, requirement_exists] = "a in (x,y),c" ∧
      reserveNodes_selector [requirement_in, requirement_gt, requirement_exists] =
        "a in (x,y),,c" ∧
      reserveNodes_selector [requirement_in, requirement_gt] = "a in (x,y)," ∧
      reserveNodes_selector [requirement_gt, requirement_exists] = "c") := by
  refine ⟨?_, ?_, by decide, by decide, by decide, by decide, by decide, by decide⟩
  · intro reqs hops hkeys
    cases reqs with
    | nil => rfl
    | cons r rest =>
      have hne := reserveNodes_selectorStep_ne_empty r (hops r (List.mem_cons_self _ _))
        (hkeys r (List.mem_cons_self _ _))
      have h := reserveNodes_selector_foldl rest (reserveNodes_selectorStep "" r) hne
        (fun x hx => hops x (List.mem_cons_of_mem _ hx))
      unfold reserveNodes_selector
      simp only [List.foldl_cons, List.map_cons, String.intercalate]
      rw [h, intercalate_go_foldl]
  · intro reqs r hop hne
    have hstep : reserveNodes_selector (reqs ++ [r]) = reserveNodes_selector reqs ++ "," := by
      unfold reserveNodes_selector
      rw [List.foldl_append]
      simp only [List.foldl_cons, List.foldl_nil]
      rw [reserveNodes_selectorStep_skipped _ r hop]
      have hne2 : List.foldl reserveNodes_selectorStep "" reqs ≠ "" := hne
      rw [if_pos hne2]
    refine ⟨hstep, ?_⟩
    rw [hstep]
    intro h
    have h2 := congrArg String.data h
    simp [String.data_append] at h2

/-- Witness for C25: the translated list `a In (x,y)`, `c Exists`, and the Gt expression
appended to `a In (x,y)`. -/
theorem C25_selector_translation_witness :
    reserveNodes_selector [requirement_in, requirement_exists] =
      ",".intercalate ([requirement_in, requirement_exists].map
        (reserveNodes_selectorStep "")) ∧
    reserveNodes_selector ([requirement_in] ++ [requirement_gt]) =
      reserveNodes_selector [requirement_in] ++ "," :=
  ⟨C25_selector_translation.1 [requirement_in, requirement_exists] (by decide) (by decide),
    (C25_selector_translation.2.1 [requirement_in] requirement_gt (by decide)
      (by decide)).1⟩

/-! ### Quota rejection -/

theorem updateSliceClaimStatus_cases (env : Env) (obj : SliceClaim) (w : World) :
    (env.fails w.tick = false ∧ (∃ x ∈ w.claims, x.ns = obj.ns ∧ x.name = obj.name) ∧
      updateSliceClaimStatus env obj w =
        (true, ({ w with claims := w.claims.map (fun (c : SliceClaim) =>
            if c.ns = obj.ns ∧ c.name = obj.name then { c with status := obj.status } else c)
          } : World).request (Action.updateSliceClaimStatus obj) true)) ∨
    (¬ (env.fails w.tick = false ∧ ∃ x ∈ w.claims, x.ns = obj.ns ∧ x.name = obj.name) ∧
      updateSliceClaimStatus env obj w =
        (false, w.request (Action.updateSliceClaimStatus obj) false)) := by
  unfold updateSliceClaimStatus
  by_cases hf : env.fails w.tick = true
  · right
    rw [if_pos hf]
    exact ⟨fun h => by rw [h.1] at hf; exact Bool.noConfusion hf, rfl⟩
  · rw [if_neg hf]
    have hf2 : env.fails w.tick = false := by simpa using hf
    by_cases hany : w.claims.any (fun c => c.ns = obj.ns ∧ c.name = obj.name) = true
    · left
      rw [if_pos hany]
      refine ⟨hf2, ?_, rfl⟩
      obtain ⟨x, hx, hx2⟩ := List.any_eq_true.1 hany
      exact ⟨x, hx, by simpa using hx2⟩
    · right
      rw [if_neg hany]
      refine ⟨?_, rfl⟩
      rintro ⟨_, x, hx, hx2⟩
      exact hany (List.any_eq_true.2 ⟨x, hx, by simpa using hx2⟩)

/-- C5 (quota rejection stops the pass): for a claim whose state is neither Bound nor
Applied, when the namespace and the parent quota object are fetched and
`checkParentResourceQuota` returns false, `processSliceClaim` ends with state Failure and
message "Insufficient quota at the parent"; the requests of the pass are the two reads,
the event and at most the status update of the claim, none of them a Slice get, create
or update, and the stored Slices are unchanged.  The deferred status update writes the
result: unless the claim already had this very status, the pass ends with one
`UpdateStatus` request for the claim with the Failure status, and when that request
succeeds (it does not fail for outside reasons and the claim is stored) the stored claim
of that namespace and name has state Failure and the message, every other stored claim
being unchanged; a claim that already had this status is not written again. -/
theorem C5_quota_rejection_stops (env : Env) (sliceclaimCopy : SliceClaim) (w : World)
    (namespaceObj : Namespace) (parentResourceQuota : ResourceQuota)
    (hstate : sliceclaimCopy.status.state ≠ bound ∧ sliceclaimCopy.status.state ≠ applied)
    (hns : (getNamespace env sliceclaimCopy.ns w).1 = some namespaceObj)
    (hquota : (getResourceQuota env sliceclaimCopy.ns
        (labelOf namespaceObj.labels "edge-net.io/kind" ++ "-quota")
        (getNamespace env sliceclaimCopy.ns w).2).1 = some parentResourceQuota)
    (hcheck : checkParentResourceQuota sliceclaimCopy parentResourceQuota = false) :
    (processSliceClaim env sliceclaimCopy w).1.status =
        { state := "Failure", message := "Insufficient quota at the parent" } ∧
    (∃ added, (processSliceClaim env sliceclaimCopy w).2.log = w.log ++ added ∧
      ∀ e ∈ added, e.action.isSliceGetCreateUpdate = false) ∧
    (processSliceClaim env sliceclaimCopy w).2.slices = w.slices ∧
    (sliceclaimCopy.status ≠
        { state := "Failure", message := "Insufficient quota at the parent" } →
      (env.fails (w.tick + 2) = false →
        (∃ x ∈ w.claims, x.ns = sliceclaimCopy.ns ∧ x.name = sliceclaimCopy.name) →
        (processSliceClaim env sliceclaimCopy w).2.log = w.log ++
          [Entry.mk (Action.getNamespace sliceclaimCopy.ns) true,
           Entry.mk (Action.getResourceQuota sliceclaimCopy.ns
             (labelOf namespaceObj.labels "edge-net.io/kind" ++ "-quota")) true,
           Entry.mk (Action.event "Warning" "Shortage" "Insufficient quota at the parent")
             true,
           Entry.mk (Action.updateSliceClaimStatus
             { sliceclaimCopy with
               status :=
                 { state := "Failure", message := "Insufficient quota at the parent" } })
             true] ∧
        (processSliceClaim env sliceclaimCopy w).2.claims =
          w.claims.map (fun (x : SliceClaim) =>
            if x.ns = sliceclaimCopy.ns ∧ x.name = sliceclaimCopy.name then
              { x with
                status :=
                  { state := "Failure", message := "Insufficient quota at the parent" } }
            else x)) ∧
      (¬ (env.fails (w.tick + 2) = false ∧
          ∃ x ∈ w.claims, x.ns = sliceclaimCopy.ns ∧ x.name = sliceclaimCopy.name) →
        (processSliceClaim env sliceclaimCopy w).2.log = w.log ++
          [Entry.mk (Action.getNamespace sliceclaimCopy.ns) true,
           Entry.mk (Action.getResourceQuota sliceclaimCopy.ns
             (labelOf namespaceObj.labels "edge-net.io/kind" ++ "-quota")) true,
           Entry.mk (Action.event "Warning" "Shortage" "Insufficient quota at the parent")
             true,
           Entry.mk (Action.updateSliceClaimStatus
             { sliceclaimCopy with
               status :=
                 { state := "Failure", message := "Insufficient quota at the parent" } })
             false] ∧
        (processSliceClaim env sliceclaimCopy w).2.claims = w.claims)) ∧
    (sliceclaimCopy.status =
        { state := "Failure", message := "Insufficient quota at the parent" } →
      (processSliceClaim env sliceclaimCopy w).2.log = w.log ++
        [Entry.mk (Action.getNamespace sliceclaimCopy.ns) true,
         Entry.mk (Action.getResourceQuota sliceclaimCopy.ns
           (labelOf namespaceObj.labels "edge-net.io/kind" ++ "-quota")) true,
         Entry.mk (Action.event "Warning" "Shortage" "Insufficient quota at the parent")
           true] ∧
      (processSliceClaim env sliceclaimCopy w).2.claims = w.claims) := by
  have hbody : processSliceClaim_body env sliceclaimCopy w =
      ({ sliceclaimCopy with
          status := { state := failure, message := messageQuotaShortage } },
        ((w.request (Action.getNamespace sliceclaimCopy.ns) true).request
          (Action.getResourceQuota sliceclaimCopy.ns
            (labelOf namespaceObj.labels "edge-net.io/kind" ++ "-quota")) true).event
          "Warning" "Shortage" messageQuotaShortage) := by
    have e1 := getNamespace_snd env sliceclaimCopy.ns w
    rw [hns] at e1
    have e2 := getResourceQuota_snd env sliceclaimCopy.ns
      (labelOf namespaceObj.labels "edge-net.io/kind" ++ "-quota")
      (getNamespace env sliceclaimCopy.ns w).2
    rw [hquota, e1] at e2
    rw [e1] at hquota
    have hcond : sliceclaimCopy.status.state ≠ bound ∧
        sliceclaimCopy.status.state ≠ applied := hstate
    simp only [processSliceClaim_body, hns, e1, hquota, e2, hcheck, if_pos hcond]
    simp
  unfold processSliceClaim
  rw [hbody]
  refine ⟨rfl, ?_, ?_, ?_, ?_⟩
  · unfold processSliceClaim_updateStatus
    dsimp only
    split
    · exact ⟨_, by
          rw [updateSliceClaimStatus_log]
          simp only [World.event, World.request, List.append_assoc]
          rfl, by
          intro e he
          simp at he
          rcases he with h | h | h | h <;> subst h <;> rfl⟩
    · exact ⟨_, by
          simp only [World.event, World.request, List.append_assoc]
          rfl, by
          intro e he
          simp at he
          rcases he with h | h | h <;> subst h <;> rfl⟩
  · unfold processSliceClaim_updateStatus
    dsimp only
    split
    · rw [updateSliceClaimStatus_slices]; rfl
    · rfl
  · intro hne
    have hne2 : sliceclaimCopy.status ≠
        { state := failure, message := messageQuotaShortage } := hne
    unfold processSliceClaim_updateStatus
    dsimp only
    rw [if_pos hne2]
    rcases updateSliceClaimStatus_cases env
      { sliceclaimCopy with
        status := { state := failure, message := messageQuotaShortage } }
      (((w.request (Action.getNamespace sliceclaimCopy.ns) true).request
        (Action.getResourceQuota sliceclaimCopy.ns
          (labelOf namespaceObj.labels "edge-net.io/kind" ++ "-quota")) true).event
        "Warning" "Shortage" messageQuotaShortage) with ⟨h1, h2, h3⟩ | ⟨h1, h3⟩
    · rw [h3]
      refine ⟨fun _ _ => ⟨?_, ?_⟩, fun hno => absurd ⟨h1, h2⟩ hno⟩
      · simp [World.event, World.request, failure, messageQuotaShortage]
      · rfl
    · rw [h3]
      refine ⟨fun hf hex => absurd ⟨hf, hex⟩ h1, fun _ => ⟨?_, rfl⟩⟩
      simp [World.event, World.request, failure, messageQuotaShortage]
  · intro heq
    have heq2 : ¬ sliceclaimCopy.status ≠
        { state := failure, message := messageQuotaShortage } := fun h => h heq
    unfold processSliceClaim_updateStatus
    dsimp only
    rw [if_neg heq2]
    refine ⟨?_, rfl⟩
    simp [World.event, World.request, messageQuotaShortage]

/-- Witness for C5, Scenario C: demand 12 against a hard cpu limit of 8; the stored claim
ends in state Failure. -/
theorem C5_quota_rejection_stops_witness :
    (scenarioC_claim.status.state ≠ bound ∧ scenarioC_claim.status.state ≠ applied) ∧
    (getNamespace quietEnv scenarioC_claim.ns scenarioC_world).1 =
      some { name := "tenant-a", labels := [("edge-net.io/kind", "tenant")] } ∧
    (getResourceQuota quietEnv scenarioC_claim.ns "tenant-quota"
      (getNamespace quietEnv scenarioC_claim.ns scenarioC_world).2).1 = some scenarioC_quota ∧
    checkParentResourceQuota scenarioC_claim scenarioC_quota = false ∧
    (processSliceClaim quietEnv scenarioC_claim scenarioC_world).1.status =
      { state := "Failure", message := "Insufficient quota at the parent" } ∧
    (processSliceClaim quietEnv scenarioC_claim scenarioC_world).2.slices = [] ∧
    (processSliceClaim quietEnv scenarioC_claim scenarioC_world).2.claims =
      [{ scenarioC_claim with
         status := { state := "Failure", message := "Insufficient quota at the parent" } }] :=
  have h := C5_quota_rejection_stops quietEnv scenarioC_claim scenarioC_world
    { name := "tenant-a", labels := [("edge-net.io/kind", "tenant")] } scenarioC_quota
    (by decide) (by decide) (by decide) (by decide)
  ⟨by decide, by decide, by decide, by decide, h.1, h.2.2.1,
    ((h.2.2.2.1 (by decide)).1 (by decide) (by decide)).2.trans (by decide)⟩

end EdgeNet
